import Mathlib

/-!
# qrpc: framing, channel multiplexer and server

A shallow embedding of the transport framing (`src/rpc/connection.cc`,
`src/rpc/compressor.cc`, `src/rpc/message.{h,cc}`), of the client channel
(`src/rpc/channel.{h,cc}`, `src/rpc/channel_impl.{h,cc}`,
`src/rpc/controller_client.{h,cc}`), of the server (`src/rpc/server.{h,cc}`,
`src/rpc/server_impl.{h,cc}`), of the server connection and its worker
(`src/rpc/connection.cc`, `src/rpc/controller_server.{h,cc}`,
`src/rpc/worker.cc`) and of the connecting of a client connection
(`src/rpc/connection.cc`).

Conventions of the embedding

* a byte is a `Nat` (below 256 on the wire);
* a C `int` is a number that must stay within `[-2^31, 2^31)`: arithmetic that
  would leave the range is undefined behaviour and is reported as
  `Fault.undefined`; conversions between integer widths wrap, as in C;
* `LOG(FATAL)` and a failed `assert` stop the process: `Fault.fatal`,
  `Fault.assertion`;
* a loop that would never end is reported as `Fault.diverge`;
* heap objects (client messages, controllers) live in maps from addresses,
  and using an address after `delete` is `Fault.undefined`.
-/

namespace qrpc

/-! ## Outcomes that are not a return value -/

/-- Ways in which a call does not return to its caller. -/
inductive Fault where
  | fatal
  | assertion
  | undefined
  | diverge
  deriving DecidableEq, Repr

/-! ## Constants: `message.h`, `controller.h`, `compressor.h` -/

def kMsgPayloadSize : Nat := 4
def kMsgDataSize : Nat := 4
def kMsgMetaSize : Nat := 2
def kMsgCompSize : Nat := 1
def kMsgHdrSize : Nat := 4 + 4 + 2 + 1

def kMaxMetaSize : Nat := 65535
def kMaxDataSize : Nat := 2147483647 - 65535
def kMaxPayloadSize : Nat := 2147483647

/-- Largest value of a C `int`. -/
def INT_MAX : Nat := 2147483647

/-- The number of values of a `size_t`. -/
def SIZE_MOD : Nat := 2 ^ 64

def kNoCompression : Nat := 0
def kZlibCompression : Nat := 1
def kLz4Compression : Nat := 2
def kSnappyCompression : Nat := 3

def kCompressionThreshold : Nat := 256

/-- The enum `CompressionStatus` of `compressor.h`. -/
inductive CompressionStatus where
  | kCompOk
  | kCompInvalidInput
  | kCompBufferTooSmall
  deriving DecidableEq, Repr

/-- The enum `Connection::Status` of `connection.h`. -/
inductive Status where
  | kReserved
  | kRecvError
  | kRecvOk
  | kRecvAgain
  | kSendError
  | kSendOk
  | kSendAgain
  | kSendNothing
  | kEncodeOk
  | kEncodeError
  | kDecodeError
  | kDecodeOk
  | kDecodeFragment
  deriving DecidableEq, Repr

/-- The enum `Connection::State` of `connection.h`. -/
inductive State where
  | kListen
  | kWait
  | kRead
  | kParse
  | kWrite
  | kClose
  deriving DecidableEq, Repr

/-! ## Integer conversions and byte order -/

/-- Conversion of an unsigned 32-bit value to `int` (values from `2^31` on
become negative). -/
def toInt32 (v : Nat) : Int :=
  if v % 4294967296 < 2147483648 then ((v % 4294967296 : Nat) : Int)
  else ((v % 4294967296 : Nat) : Int) - 4294967296

/-- Conversion of an `int` to `size_t`. -/
def toSizeT (v : Int) : Nat := (v % (SIZE_MOD : Int)).toNat

/-- The two bytes that `htons` leaves in memory: most significant first. -/
def be16 (v : Nat) : List Nat := [v / 256 % 256, v % 256]

/-- The four bytes that `htonl` leaves in memory: most significant first. -/
def be32 (v : Nat) : List Nat :=
  [v / 16777216 % 256, v / 65536 % 256, v / 256 % 256, v % 256]

/-- Result of `ntohs` on two bytes of memory. -/
def rd16 (bs : List Nat) : Nat :=
  match bs with
  | [a, b] => a * 256 + b
  | _ => 0

/-- Result of `ntohl` on four bytes of memory. -/
def rd32 (bs : List Nat) : Nat :=
  match bs with
  | [a, b, c, d] => a * 16777216 + b * 65536 + c * 256 + d
  | _ => 0

/-! ## Memory -/

/-- Write `bs` at address `ptr` into the allocation that starts at `base` and
holds `mem`; `none` when the write leaves the allocation. -/
def poke (base : Nat) (mem : List Nat) (ptr : Nat) (bs : List Nat) : Option (List Nat) :=
  if base ≤ ptr ∧ ptr + bs.length ≤ base + mem.length then
    some (mem.take (ptr - base) ++ bs ++ mem.drop (ptr - base + bs.length))
  else none

/-- Read `n` bytes at offset `off` of a buffer; `none` when the read leaves
the buffer. -/
def peek (mem : List Nat) (off : Int) (n : Nat) : Option (List Nat) :=
  if 0 ≤ off ∧ off.toNat + n ≤ mem.length then
    some ((mem.drop off.toNat).take n)
  else none

/-- The allocator as seen by the framer: `realloc ptr size` gives the new
address, or `none` for a null result. -/
structure Heap where
  realloc : Nat → Nat → Option Nat

/-- Contents of an allocation after a successful `realloc` to `size` bytes: the
old bytes are kept, the added bytes are unspecified (here zero). -/
def resized (mem : List Nat) (size : Nat) : List Nat :=
  mem.take size ++ List.replicate (size - mem.length) 0

/-! ## The external compression libraries -/

/-- One compression library as the codec uses it: the worst-case output size
(`compressBound`, `LZ4_compressBound`, `snappy::MaxCompressedLength`), the
compressor, and the decompressor (`none` on corrupt input). -/
structure Library where
  bound : Nat → Nat
  deflate : List Nat → List Nat
  inflate : List Nat → Option (List Nat)

/-- The three libraries linked into the codec. -/
structure Codecs where
  zlib : Library
  lz4 : Library
  snappy : Library

/-- The constant `LZ4_MAX_INPUT_SIZE` of `lz4.h`. -/
def LZ4_MAX_INPUT_SIZE : Nat := 0x7E000000

/-! ## `Compressor` (`compressor.{h,cc}`) -/

/-- The class `Compressor`: scratch buffer, its capacity and the selected kind. -/
structure Compressor where
  buffer_ : List Nat
  len_ : Nat
  type_ : Nat
  deriving DecidableEq, Repr

/-- The loop `for (; len_ < len; ) len_ *= 2` on a `size_t`. -/
def growLen : Nat → Nat → Nat → Except Fault Nat
  | 0, _, _ => .error .diverge
  | fuel + 1, len_, len =>
    if len_ < len then growLen fuel (len_ * 2 % SIZE_MOD) len else .ok len_

/-- The method `Compressor::ExpandBufferCache`; the allocation is the one of the
codec scratch buffer, whose failure is fatal. -/
def Compressor.ExpandBufferCache (h : Heap) (z : Compressor) (len : Nat) :
    Except Fault Compressor :=
  if len ≤ z.len_ then .ok z
  else
    let len0 := if z.len_ = 0 then 4096 else z.len_
    match growLen 65 len0 len with
    | .error f => .error f
    | .ok n =>
      match h.realloc 0 n with
      | none => .error .fatal
      | some _ => .ok { z with len_ := n, buffer_ := resized z.buffer_ n }

/-- The method `Compressor::UseCompression`. -/
def Compressor.UseCompression (z : Compressor) (type : Nat) : Compressor :=
  { z with type_ := type }

/-- The method `Compressor::ZlibCompress`: status and bytes left in `out`. -/
def ZlibCompress (cod : Codecs) (inp : List Nat) (olen : Nat) :
    Except Fault (CompressionStatus × List Nat) :=
  if cod.zlib.bound inp.length > olen then .ok (.kCompBufferTooSmall, [])
  else if (cod.zlib.deflate inp).length ≤ olen then .ok (.kCompOk, cod.zlib.deflate inp)
  else .ok (.kCompBufferTooSmall, [])

/-- The method `Compressor::Lz4Compress`. -/
def Lz4Compress (cod : Codecs) (inp : List Nat) (olen : Nat) :
    Except Fault (CompressionStatus × List Nat) :=
  if inp.length > LZ4_MAX_INPUT_SIZE then .ok (.kCompInvalidInput, [])
  else if cod.lz4.bound inp.length > olen then .ok (.kCompBufferTooSmall, [])
  else
    let out := if (cod.lz4.deflate inp).length ≤ olen then cod.lz4.deflate inp else []
    if out.length > 0 then .ok (.kCompOk, out) else .ok (.kCompBufferTooSmall, [])

/-- The method `Compressor::SnappyCompress`. -/
def SnappyCompress (cod : Codecs) (inp : List Nat) (olen : Nat) :
    Except Fault (CompressionStatus × List Nat) :=
  if cod.snappy.bound inp.length > olen then .ok (.kCompBufferTooSmall, [])
  else .ok (.kCompOk, cod.snappy.deflate inp)

/-- The method `Compressor::Compress`: dispatch on the selected kind. -/
def Compressor.Compress (cod : Codecs) (z : Compressor) (inp : List Nat) (olen : Nat) :
    Except Fault (CompressionStatus × List Nat) :=
  if z.type_ = kSnappyCompression then SnappyCompress cod inp olen
  else if z.type_ = kLz4Compression then Lz4Compress cod inp olen
  else if z.type_ = kZlibCompression then ZlibCompress cod inp olen
  else .error .fatal

/-- The method `Compressor::ZlibUncompress`. -/
def ZlibUncompress (cod : Codecs) (inp : List Nat) (olen : Nat) :
    Except Fault (CompressionStatus × List Nat) :=
  match cod.zlib.inflate inp with
  | none => .ok (.kCompInvalidInput, [])
  | some out => if out.length ≤ olen then .ok (.kCompOk, out) else .ok (.kCompBufferTooSmall, [])

/-- The method `Compressor::Lz4Uncompress`: every failure of the library is
reported as a short buffer. -/
def Lz4Uncompress (cod : Codecs) (inp : List Nat) (olen : Nat) :
    Except Fault (CompressionStatus × List Nat) :=
  match cod.lz4.inflate inp with
  | none => .ok (.kCompBufferTooSmall, [])
  | some out => if out.length ≤ olen then .ok (.kCompOk, out) else .ok (.kCompBufferTooSmall, [])

/-- The method `Compressor::SnappyUncompress`. -/
def SnappyUncompress (cod : Codecs) (inp : List Nat) (olen : Nat) :
    Except Fault (CompressionStatus × List Nat) :=
  match cod.snappy.inflate inp with
  | none => .ok (.kCompInvalidInput, [])
  | some out => if out.length > olen then .ok (.kCompBufferTooSmall, []) else .ok (.kCompOk, out)

/-- The method `Compressor::Uncompress`: dispatch on the selected kind. -/
def Compressor.Uncompress (cod : Codecs) (z : Compressor) (inp : List Nat) (olen : Nat) :
    Except Fault (CompressionStatus × List Nat) :=
  if z.type_ = kSnappyCompression then SnappyUncompress cod inp olen
  else if z.type_ = kLz4Compression then Lz4Uncompress cod inp olen
  else if z.type_ = kZlibCompression then ZlibUncompress cod inp olen
  else .error .fatal

/-! ## `Message` (`message.{h,cc}`) -/

/-- What the framer sees of a `Message`: the value of `CompressionType()` and
the serialized meta and data (for a server message with an error code the data
is empty). -/
structure Message where
  compression_type : Nat
  smeta : List Nat
  sdata : List Nat
  deriving DecidableEq, Repr

/-- The methods `ClientMessage::ByteSize` and `ServerMessage::ByteSize`. -/
def Message.ByteSize (m : Message) : Except Fault (Nat × Nat) :=
  if m.smeta.length > kMaxMetaSize then .error .fatal
  else if m.sdata.length > kMaxDataSize then .error .fatal
  else .ok (m.smeta.length, m.sdata.length)

/-- The methods `ClientMessage::SerializeToArray` and
`ServerMessage::SerializeToArray`: the bytes written at `data`, or `none` when
`len` is too small. -/
def Message.SerializeToArray (m : Message) (len : Nat) : Option (List Nat) :=
  if m.smeta.length + m.sdata.length > len then none
  else some (m.smeta ++ m.sdata)

/-! ## `Connection` (`connection.{h,cc}`) -/

/-- The struct `MsgHdr` of `message.h`: four `int` fields. -/
structure MsgHdr where
  payload_ : Int
  data_ : Int
  meta_ : Int
  compression_ : Int
  deriving DecidableEq, Repr

/-- Where `rmsg_` points: nowhere, into the receive buffer (offset from
`rbuf_`), or at the codec scratch buffer. -/
inductive Ptr where
  | null
  | rbuf (off : Int)
  | temp
  deriving DecidableEq, Repr

/-- The fields of the class `Connection` that framing uses. The send buffer is
an allocation at address `wbuf_` holding `wmem`; the header pointers are
addresses. On the receive side `rcur_` is kept as an offset from `rbuf_`, whose
contents are the list `rbuf_`. -/
structure Connection where
  rstate_ : State
  wstate_ : State
  rsize_ : Int
  rbytes_ : Int
  rcur_ : Int
  rbuf_ : List Nat
  rmsg_ : Ptr
  rmsg_hdr_ : MsgHdr
  wsize_ : Nat
  wbytes_ : Nat
  wcur_ : Nat
  wbuf_ : Nat
  wmem : List Nat
  msg_body_ : Nat
  hdr_comp_ : Nat
  hdr_meta_ : Nat
  hdr_data_ : Nat
  hdr_payload_ : Nat
  compressor_ : Compressor
  deriving DecidableEq, Repr

/-- The buffers set up by the constructors `ClientConnection::ClientConnection`
and `ServerConnection::ServerConnection` from `min_rbuf_size`, `min_sbuf_size`,
the addresses returned by `malloc` and the codec of the thread. -/
def Connection.create (min_rbuf_size min_sbuf_size wbuf : Nat) (z : Compressor) : Connection :=
  let rsize := if min_rbuf_size < kMsgHdrSize then kMsgHdrSize else min_rbuf_size
  let wsize := if min_sbuf_size < kMsgHdrSize then kMsgHdrSize else min_sbuf_size
  { rstate_ := .kRead
    wstate_ := .kWrite
    rsize_ := rsize
    rbytes_ := 0
    rcur_ := 0
    rbuf_ := List.replicate rsize 0
    rmsg_ := .null
    rmsg_hdr_ := { payload_ := 0, data_ := 0, meta_ := 0, compression_ := 0 }
    wsize_ := wsize
    wbytes_ := 0
    wcur_ := 0
    wbuf_ := wbuf
    wmem := List.replicate wsize 0
    msg_body_ := wbuf + kMsgHdrSize
    hdr_comp_ := wbuf + kMsgPayloadSize + kMsgDataSize + kMsgMetaSize
    hdr_meta_ := wbuf + kMsgPayloadSize + kMsgDataSize
    hdr_data_ := wbuf + kMsgPayloadSize
    hdr_payload_ := wbuf
    compressor_ := z }

/-- The loop `do { wsize_ *= 2; } while ((size_t)wsize_ < required)` on the
`int` field `wsize_`. -/
def doubleWsize : Nat → Nat → Nat → Except Fault Nat
  | 0, _, _ => .error .diverge
  | fuel + 1, wsize, required =>
    if wsize * 2 > INT_MAX then .error .undefined
    else if wsize * 2 < required then doubleWsize fuel (wsize * 2) required
    else .ok (wsize * 2)

/-- The method `Connection::ExpandWbuf`. -/
def Connection.ExpandWbuf (h : Heap) (c : Connection) (required : Nat) :
    Except Fault (Bool × Connection) :=
  match doubleWsize 32 c.wsize_ required with
  | .error f => .error f
  | .ok wsize =>
    match h.realloc c.wbuf_ wsize with
    | none => .ok (false, { c with wsize_ := wsize })
    | some nbuf =>
      .ok (true,
        { c with
          wsize_ := wsize
          wbuf_ := nbuf
          wmem := resized c.wmem wsize
          hdr_payload_ := nbuf
          hdr_data_ := nbuf + kMsgPayloadSize
          hdr_meta_ := nbuf + kMsgPayloadSize + kMsgDataSize
          hdr_comp_ := nbuf + kMsgPayloadSize + kMsgDataSize + kMsgMetaSize
          msg_body_ := nbuf + kMsgHdrSize })

/-- The tail of `Connection::Encode`: the four `memcpy` of the header fields
(converted to their wire width and byte order), then `wcur_` and `wbytes_`. -/
def Connection.writeHeader (c : Connection) (comp smeta sdata payload required : Nat) :
    Except Fault (Status × Connection) :=
  let m4 :=
    (poke c.wbuf_ c.wmem c.hdr_comp_ [comp % 256]).bind fun m1 =>
    (poke c.wbuf_ m1 c.hdr_meta_ (be16 (smeta % 65536))).bind fun m2 =>
    (poke c.wbuf_ m2 c.hdr_data_ (be32 (sdata % 4294967296))).bind fun m3 =>
    poke c.wbuf_ m3 c.hdr_payload_ (be32 (payload % 4294967296))
  match m4 with
  | none => .error .undefined
  | some m => .ok (.kEncodeOk, { c with wmem := m, wcur_ := c.wbuf_, wbytes_ := required })

/-- The label `compress:` of `Connection::Encode` with its `goto`: compress the
`payload` bytes staged in the codec scratch buffer into the body; `none` stands
for the return of `kEncodeError`, otherwise the compressed length. -/
def Connection.compressLoop (h : Heap) (cod : Codecs) :
    Nat → Connection → Nat → Except Fault (Option (Nat × Connection))
  | 0, _, _ => .error .diverge
  | fuel + 1, c, payload =>
    let rlen := toSizeT ((c.wsize_ : Int) - (kMsgHdrSize : Int))
    match c.compressor_.Compress cod (c.compressor_.buffer_.take payload) rlen with
    | .error f => .error f
    | .ok (.kCompOk, out) =>
      match poke c.wbuf_ c.wmem c.msg_body_ out with
      | none => .error .undefined
      | some m =>
        if out.length > INT_MAX then .error .undefined
        else .ok (some (out.length, { c with wmem := m }))
    | .ok (.kCompBufferTooSmall, _) =>
      if c.wsize_ * 2 > INT_MAX then .error .undefined
      else
        match c.ExpandWbuf h (c.wsize_ * 2) with
        | .error f => .error f
        | .ok (true, c1) => Connection.compressLoop h cod fuel c1 payload
        | .ok (false, _) => .ok none
    | .ok (.kCompInvalidInput, _) => .error .fatal

/-- The branch `if (!compress)` of `Connection::Encode`: grow the send buffer if
needed, serialize into the body, write the header. -/
def Connection.encodePlain (h : Heap) (c : Connection) (wmsg : Message)
    (comp smeta sdata payload required : Nat) : Except Fault (Status × Connection) :=
  match (if required > c.wsize_ then c.ExpandWbuf h required else .ok (true, c)) with
  | .error f => .error f
  | .ok (false, c1) => .ok (.kEncodeError, c1)
  | .ok (true, c1) =>
    match wmsg.SerializeToArray payload with
    | none => .ok (.kEncodeError, c1)
    | some bytes =>
      match poke c1.wbuf_ c1.wmem c1.msg_body_ bytes with
      | none => .error .undefined
      | some m => Connection.writeHeader { c1 with wmem := m } comp smeta sdata payload required

/-- The branch `else` of `Connection::Encode`: serialize into the codec scratch
buffer, compress into the body, write the header with the compressed length. -/
def Connection.encodeCompressed (h : Heap) (cod : Codecs) (c : Connection) (wmsg : Message)
    (comp smeta sdata payload : Nat) : Except Fault (Status × Connection) :=
  match (c.compressor_.UseCompression comp).ExpandBufferCache h payload with
  | .error f => .error f
  | .ok z1 =>
    match wmsg.SerializeToArray payload with
    | none => .ok (.kEncodeError, { c with compressor_ := z1 })
    | some bytes =>
      match poke 0 z1.buffer_ 0 bytes with
      | none => .error .undefined
      | some tmp =>
        match Connection.compressLoop h cod 33
            { c with compressor_ := { z1 with buffer_ := tmp } } payload with
        | .error f => .error f
        | .ok none => .ok (.kEncodeError, { c with compressor_ := { z1 with buffer_ := tmp } })
        | .ok (some (rlen, c2)) =>
          if rlen + kMsgHdrSize > INT_MAX then .error .undefined
          else Connection.writeHeader c2 comp smeta sdata rlen (rlen + kMsgHdrSize)

/-- The method `Connection::Encode` applied to the message `wmsg_`. -/
def Connection.Encode (h : Heap) (cod : Codecs) (c : Connection) (wmsg : Message) :
    Except Fault (Status × Connection) :=
  match wmsg.ByteSize with
  | .error f => .error f
  | .ok (smeta, sdata) =>
    let payload := smeta + sdata
    if payload + kMsgHdrSize > INT_MAX then .error .undefined
    else
      let required := payload + kMsgHdrSize
      let comp := if payload < kCompressionThreshold then kNoCompression else wmsg.compression_type
      let compress : Bool :=
        if payload < kCompressionThreshold then false
        else decide (wmsg.compression_type ≠ kNoCompression)
      if !compress then c.encodePlain h wmsg comp smeta sdata payload required
      else c.encodeCompressed h cod wmsg comp smeta sdata payload

/-- The bytes handed to `send` after `Encode`: `wbytes_` bytes from `wcur_`. -/
def Connection.frame (c : Connection) : List Nat :=
  (c.wmem.drop (c.wcur_ - c.wbuf_)).take c.wbytes_

/-- The header fields that `Connection::Decode` reads through
`(NetHeader *)rcur_` from the eleven bytes `hb`. -/
def readHeader (hb : List Nat) : MsgHdr :=
  { compression_ := ((hb.drop 10).headD 0 : Nat)
    meta_ := (rd16 ((hb.drop 8).take 2) : Nat)
    data_ := toInt32 (rd32 ((hb.drop 4).take 4))
    payload_ := toInt32 (rd32 (hb.take 4)) }

/-- The label `header:` of `Connection::Decode`: `none` stands for the return of
`kDecodeFragment`. -/
def Connection.decodeHeader (c : Connection) : Except Fault (Option Connection) :=
  if c.rmsg_hdr_.payload_ ≠ 0 then .ok (some c)
  else if c.rbytes_ < (kMsgHdrSize : Int) then .ok none
  else
    match peek c.rbuf_ c.rcur_ kMsgHdrSize with
    | none => .error .undefined
    | some hb =>
      .ok (some { c with
        rmsg_hdr_ := readHeader hb
        rcur_ := c.rcur_ + (kMsgHdrSize : Int)
        rbytes_ := c.rbytes_ - (kMsgHdrSize : Int) })

/-- The end of `Connection::Decode`: `rcur_ += payload_`, `rbytes_ -= payload_`,
return `kDecodeOk`. -/
def Connection.consume (c : Connection) : Except Fault (Status × Connection) :=
  let rcur := c.rcur_ + c.rmsg_hdr_.payload_
  let rbytes := c.rbytes_ - c.rmsg_hdr_.payload_
  if rcur < 0 ∨ (c.rbuf_.length : Int) < rcur then .error .undefined
  else if rbytes < -2147483648 ∨ (INT_MAX : Int) < rbytes then .error .undefined
  else .ok (.kDecodeOk, { c with rcur_ := rcur, rbytes_ := rbytes })

/-- The branch of `Connection::Decode` for a compressed body: decompress the
`payload_` bytes at `rcur_` into the codec scratch buffer, which must receive
exactly `meta_ + data_` bytes. -/
def Connection.decodeCompressed (h : Heap) (cod : Codecs) (c : Connection) :
    Except Fault (Status × Connection) :=
  let z := c.compressor_.UseCompression c.rmsg_hdr_.compression_.toNat
  let sum := c.rmsg_hdr_.meta_ + c.rmsg_hdr_.data_
  if sum < -2147483648 ∨ (INT_MAX : Int) < sum then .error .undefined
  else
    let required := toSizeT sum
    match z.ExpandBufferCache h required with
    | .error f => .error f
    | .ok z1 =>
      match peek c.rbuf_ c.rcur_ (toSizeT c.rmsg_hdr_.payload_) with
      | none => .error .undefined
      | some inp =>
        match z1.Uncompress cod inp required with
        | .error f => .error f
        | .ok (.kCompOk, out) =>
          if required ≠ out.length then .error .assertion
          else
            match poke 0 z1.buffer_ 0 out with
            | none => .error .undefined
            | some tmp =>
              Connection.consume
                { c with compressor_ := { z1 with buffer_ := tmp }, rmsg_ := .temp }
        | .ok (.kCompBufferTooSmall, _) => .error .fatal
        | .ok (.kCompInvalidInput, _) => .error .fatal

/-- The label `payload:` of `Connection::Decode`. -/
def Connection.decodePayload (h : Heap) (cod : Codecs) (c : Connection) :
    Except Fault (Status × Connection) :=
  if c.rbytes_ < c.rmsg_hdr_.payload_ then .ok (.kDecodeFragment, c)
  else if c.rmsg_hdr_.compression_ = (kNoCompression : Int) then
    Connection.consume { c with rmsg_ := .rbuf c.rcur_ }
  else c.decodeCompressed h cod

/-- The method `Connection::Decode`. -/
def Connection.Decode (h : Heap) (cod : Codecs) (c : Connection) :
    Except Fault (Status × Connection) :=
  match c.decodeHeader with
  | .error f => .error f
  | .ok none => .ok (.kDecodeFragment, c)
  | .ok (some c1) => c1.decodePayload h cod

/-- The bytes that `OnRecv` hands to `RecvDone(rmsg_, meta_, data_)` after a
`kDecodeOk`: `meta_ + data_` bytes at `rmsg_`. -/
def Connection.delivered (c : Connection) : Option (List Nat) :=
  match c.rmsg_ with
  | .null => none
  | .rbuf off => peek c.rbuf_ off (c.rmsg_hdr_.meta_ + c.rmsg_hdr_.data_).toNat
  | .temp => peek c.compressor_.buffer_ 0 (c.rmsg_hdr_.meta_ + c.rmsg_hdr_.data_).toNat

/-- A connection whose receive buffer holds exactly the bytes `bs`, all of them
unread, and whose header scratch is zero (the state in which `OnRecv` calls
`Decode` for a new frame). -/
def Connection.received (c : Connection) (bs : List Nat) : Connection :=
  { c with
    rbuf_ := bs
    rsize_ := bs.length
    rcur_ := 0
    rbytes_ := bs.length
    rmsg_ := .null
    rmsg_hdr_ := { payload_ := 0, data_ := 0, meta_ := 0, compression_ := 0 } }

/-- The state established by the constructors and kept by `ExpandWbuf`: the
send allocation has `wsize_` bytes, at least a header, and the five pointers
are at their offsets from `wbuf_`. -/
def Connection.WellFormed (c : Connection) : Prop :=
  c.wmem.length = c.wsize_ ∧ kMsgHdrSize ≤ c.wsize_ ∧ c.wsize_ ≤ INT_MAX ∧
  c.hdr_payload_ = c.wbuf_ ∧
  c.hdr_data_ = c.wbuf_ + kMsgPayloadSize ∧
  c.hdr_meta_ = c.wbuf_ + kMsgPayloadSize + kMsgDataSize ∧
  c.hdr_comp_ = c.wbuf_ + kMsgPayloadSize + kMsgDataSize + kMsgMetaSize ∧
  c.msg_body_ = c.wbuf_ + kMsgHdrSize ∧
  c.compressor_.buffer_.length = c.compressor_.len_

instance (c : Connection) : Decidable c.WellFormed := by
  unfold Connection.WellFormed; infer_instance

/-! ## Frames as byte strings -/

/-- The library that `Compressor::Compress` and `Compressor::Uncompress` select
for a compression kind. -/
def libOf (cod : Codecs) (kind : Nat) : Option Library :=
  if kind = kSnappyCompression then some cod.snappy
  else if kind = kLz4Compression then some cod.lz4
  else if kind = kZlibCompression then some cod.zlib
  else none

/-- The eleven header bytes of a frame: payload length, data length, meta
length, compression id. -/
def headerBytes (comp smeta sdata payload : Nat) : List Nat :=
  be32 (payload % 4294967296) ++ be32 (sdata % 4294967296) ++ be16 (smeta % 65536) ++ [comp % 256]

/-- What a frame holds for a message: the compression id written in the header
and the body. Below the threshold, or without a selected kind, the body is the
serialization; otherwise it is the output of the selected library. -/
def Message.Framed (cod : Codecs) (m : Message) (comp : Nat) (body : List Nat) : Prop :=
  (comp = kNoCompression ∧ body = m.smeta ++ m.sdata ∧
      (m.smeta.length + m.sdata.length < kCompressionThreshold ∨
        m.compression_type = kNoCompression)) ∨
  (kCompressionThreshold ≤ m.smeta.length + m.sdata.length ∧
      comp = m.compression_type ∧ comp ≠ kNoCompression ∧
      ∃ lib, libOf cod comp = some lib ∧ body = lib.deflate (m.smeta ++ m.sdata))

/-! ## Sample objects and readers used in statements -/

/-- Read `n` bytes at address `ptr` of the send allocation; `none` when the read
leaves the allocation. -/
def Connection.wread (c : Connection) (ptr n : Nat) : Option (List Nat) :=
  if c.wbuf_ ≤ ptr ∧ ptr + n ≤ c.wbuf_ + c.wmem.length then
    some ((c.wmem.drop (ptr - c.wbuf_)).take n)
  else none

/-- An allocator that never fails and moves every block it resizes. -/
def sampleHeap : Heap := { realloc := fun p n => some (p + n + 4096) }

/-- A stand-in for a compression library: the output is the input behind a
one-byte tag. -/
def sampleLibrary : Library :=
  { bound := fun n => n + 1
    deflate := fun x => 7 :: x
    inflate := fun y =>
      match y with
      | 7 :: t => some t
      | _ => none }

def sampleCodecs : Codecs := { zlib := sampleLibrary, lz4 := sampleLibrary, snappy := sampleLibrary }

/-- A connection as built by the constructor with 16-byte buffers at address
1000 and an empty codec scratch buffer. -/
def sampleConnection : Connection :=
  Connection.create 16 16 1000 { buffer_ := [], len_ := 0, type_ := 0 }

/-- A message of 300 payload bytes that selects LZ4. -/
def sampleMessage : Message :=
  { compression_type := kLz4Compression
    smeta := List.replicate 100 1
    sdata := List.replicate 200 3 }

/-- A message of 16 payload bytes that selects LZ4. -/
def smallMessage : Message :=
  { compression_type := kLz4Compression
    smeta := [1, 2, 3]
    sdata := [9, 8, 7, 6, 5, 4, 3, 2, 1, 0, 1, 2, 3] }

/-- The sample sender after `Encode` of the 16-byte message: the send buffer had
16 bytes, so `ExpandWbuf` has reallocated it. -/
def encodedSmall : Connection :=
  match sampleConnection.Encode sampleHeap sampleCodecs smallMessage with
  | .ok (_, c) => c
  | .error _ => sampleConnection

/-- A frame whose header declares a data length of `2^31 - 1` (above
`kMaxDataSize`), with meta length, payload length and compression id zero. -/
def oversizeDataFrame : List Nat := [0, 0, 0, 0, 127, 255, 255, 255, 0, 0, 0]

/-- A frame whose header declares a payload length of `2^31 + 1`. -/
def oversizePayloadFrame : List Nat := [128, 0, 0, 1, 0, 0, 0, 0, 0, 0, 0]

/-! ## Error codes (`errno.h`) -/

def kOk : Nat := 0
def kError : Nat := 1
def kErrParam : Nat := 2
def kErrMem : Nat := 3
def kErrCtx : Nat := 4
def kErrHasSrv : Nat := 5
def kErrNotSrv : Nat := 6
def kErrField : Nat := 7
def kErrCancel : Nat := 8
def kErrTimeout : Nat := 9
def kErrResponse : Nat := 10
def kErrUserDef : Nat := 11

/-! ## Client channel: `channel_impl.{h,cc}`, `message.{h,cc}`, `controller_client.{h,cc}`

Client messages and controllers are heap objects. An address is a number; the
n-th object created by `new ClientMessage` gets address n, so that an address
is never handed out twice and every use of a deleted message is visible as
`Fault.undefined`. The user's completion (`done_->Run()`) and the parsing of
the response are recorded in two histories; a completion is taken not to call
back into the channel. Socket addresses (`AssignEndpoints`) and the heartbeat
(`Keepalive`) are left out. -/

/-- The fields of the generated class `MsgMeta` that the sources read and write
(`message.pb.h` itself is generated and not among the sources): sequence,
service, method, compression type, cancel flag, error code and error text. -/
structure MsgMeta where
  sequence : Nat
  service : String
  method : String
  compression_type : Nat
  cancel : Bool
  code : Nat
  error_text : String
  deriving DecidableEq, Repr

/-- What `ClientMessage::ClientMessage` reads of a
`google::protobuf::MethodDescriptor`. -/
structure MethodDescriptor where
  full_name : String
  name : String
  deriving DecidableEq, Repr

/-- The class `ClientController` (`options_` is kept as its two fields). -/
structure ClientController where
  tid_ : Nat
  rpc_timeout : Nat
  compression : Nat
  code_ : Nat
  error_text_ : String
  client_message_ : Option Nat
  deriving DecidableEq, Repr

/-- The class `ClientMessage`; `controller_`, `done_`, `request_` and
`response_` are addresses of objects of the caller. -/
structure ClientMessage where
  meta_ : MsgMeta
  finish_ : Bool
  monitor_ : Bool
  controller_ : Nat
  done_ : Nat
  response_ : Nat
  request_ : Nat
  deriving DecidableEq, Repr

/-- The method `ClientMessage::id`. -/
def ClientMessage.id (m : ClientMessage) : Nat := m.meta_.sequence

/-- The type `ChannelImpl::MsgItem`: a sequence number and the address of the
message. -/
abbrev MsgItem := Nat × Nat

/-- The fields of the class `ChannelImpl` that the multiplexer uses; `conn_` is
the identity of the current `ClientConnection` (`none` for `NULL`); in
`cur_send_` the address 0 is `NULL`. -/
structure ChannelImpl where
  sequence_ : Nat
  recvq_ : List MsgItem
  sendq_ : List MsgItem
  cur_send_ : MsgItem
  conn_ : Option Nat
  tid_ : Nat
  deriving DecidableEq, Repr

/-- A channel with the heap objects it points to and the histories: `created`
lists the items pushed by `CallMethod`, `handed` the items returned by
`SendNext`, `done_runs` the messages whose completion ran, `parsed` the
messages whose response buffer was parsed into, each in order of occurrence. -/
structure World where
  chan : ChannelImpl
  msgs : Nat → Option ClientMessage
  ctls : Nat → ClientController
  next_msg : Nat
  next_conn : Nat
  created : List MsgItem
  handed : List MsgItem
  done_runs : List Nat
  parsed : List Nat

/-- The constructor `ClientController::ClientController`. -/
def ClientController.create (rpc_timeout compression : Nat) : ClientController :=
  { tid_ := 0
    rpc_timeout := rpc_timeout
    compression := compression
    code_ := 0
    error_text_ := ""
    client_message_ := none }

/-- The constructor `ChannelImpl::ChannelImpl` on thread `tid`, with no message
yet and every controller freshly constructed with the default options. -/
def World.init (tid : Nat) : World :=
  { chan :=
      { sequence_ := 0
        recvq_ := []
        sendq_ := []
        cur_send_ := (0, 0)
        conn_ := none
        tid_ := tid }
    msgs := fun _ => none
    ctls := fun _ => ClientController.create 1000 kNoCompression
    next_msg := 0
    next_conn := 0
    created := []
    handed := []
    done_runs := []
    parsed := [] }

/-- The method `ChannelImpl::next_sequence`: `++sequence_` on a `uint64_t`. -/
def ChannelImpl.next_sequence (c : ChannelImpl) : Nat × ChannelImpl :=
  ((c.sequence_ + 1) % 2 ^ 64, { c with sequence_ := (c.sequence_ + 1) % 2 ^ 64 })

/-- The method `ChannelImpl::find_if`: the first item with the sequence number. -/
def find_if (msgq : List MsgItem) (seq : Nat) : Option MsgItem :=
  msgq.find? (fun it => it.1 == seq)

/-- The call `msgq.erase(it)` for the iterator found by `find_if`. -/
def erase_found (msgq : List MsgItem) (seq : Nat) : List MsgItem :=
  msgq.eraseP (fun it => it.1 == seq)

/-- The method `ClientController::SetResponseCode` on the controller at `ctl`. -/
def World.SetResponseCode (w : World) (ctl code : Nat) : World :=
  { w with ctls := Function.update w.ctls ctl { w.ctls ctl with code_ := code } }

/-- The method `ClientController::SetResponseError` on the controller at `ctl`. -/
def World.SetResponseError (w : World) (ctl : Nat) (text : String) : World :=
  { w with ctls := Function.update w.ctls ctl { w.ctls ctl with error_text_ := text } }

/-- The method `ClientMessage::SetCancel` on the message at `p`. -/
def World.SetCancel (w : World) (p : Nat) : Except Fault World :=
  match w.msgs p with
  | none => .error .undefined
  | some m => .ok (w.SetResponseCode m.controller_ kErrCancel)

/-- The method `ClientMessage::NewMonitor` on the message at `p`. -/
def World.NewMonitor (w : World) (p : Nat) : Except Fault World :=
  match w.msgs p with
  | none => .error .undefined
  | some m => .ok { w with msgs := Function.update w.msgs p (some { m with monitor_ := true }) }

/-- The method `ClientMessage::DelMonitor` on the message at `p`. -/
def World.DelMonitor (w : World) (p : Nat) : Except Fault World :=
  match w.msgs p with
  | none => .error .undefined
  | some m =>
    if !m.monitor_ then .ok w
    else .ok { w with msgs := Function.update w.msgs p (some { m with monitor_ := false }) }

/-- The method `ClientMessage::Finish` on the message at `p`: unless `finish_`
is set, release the controller, run the completion and set `finish_`. -/
def World.Finish (w : World) (p : Nat) : Except Fault World :=
  match w.msgs p with
  | none => .error .undefined
  | some m =>
    if m.finish_ then .ok w
    else
      .ok { w with
        ctls := Function.update w.ctls m.controller_
          { w.ctls m.controller_ with client_message_ := none }
        done_runs := w.done_runs ++ [p]
        msgs := Function.update w.msgs p (some { m with finish_ := true }) }

/-- The statement `delete msg`: the destructor `ClientMessage::~ClientMessage`
asserts `finish_` and `!monitor_`. -/
def World.deleteMsg (w : World) (p : Nat) : Except Fault World :=
  match w.msgs p with
  | none => .error .undefined
  | some m =>
    if m.finish_ && !m.monitor_ then .ok { w with msgs := Function.update w.msgs p none }
    else .error .assertion

/-- The method `ChannelImpl::CancelRpc`. -/
def World.CancelRpc (w : World) (p : Nat) : Except Fault World :=
  w.SetCancel p >>= fun w1 => w1.DelMonitor p >>= fun w2 => w2.Finish p >>= fun w3 =>
    w3.deleteMsg p

/-- The loops `for (it = q.begin(); it != q.end(); ++it) CancelRpc(it->second)`
of `ChannelImpl::CancelAllRpc`. -/
def World.cancelEach (w : World) (q : List MsgItem) : Except Fault World :=
  match q with
  | [] => .ok w
  | it :: rest => w.CancelRpc it.2 >>= fun w1 => w1.cancelEach rest

/-- The middle of `ChannelImpl::CancelAllRpc`: the message at the current-send
slot. -/
def World.cancelCurrent (w : World) (close : Bool) : Except Fault World :=
  if w.chan.cur_send_.2 = 0 then .ok w
  else
    match w.chan.sendq_ with
    | [] => .error .undefined
    | _ :: rest =>
      ({ w with chan := { w.chan with sendq_ := rest } } : World).SetCancel w.chan.cur_send_.2
        >>= fun w1 =>
      w1.DelMonitor w.chan.cur_send_.2 >>= fun w2 =>
      w2.Finish w.chan.cur_send_.2 >>= fun w3 =>
      if close then
        w3.deleteMsg w.chan.cur_send_.2 >>= fun w4 =>
        .ok { w4 with chan := { w4.chan with cur_send_ := (0, 0) } }
      else .ok w3

/-- The method `ChannelImpl::CancelAllRpc`. -/
def World.CancelAllRpc (w : World) (close : Bool) : Except Fault World :=
  w.cancelEach w.chan.recvq_ >>= fun w1 =>
  w1.cancelCurrent close >>= fun w2 =>
  w2.cancelEach w2.chan.sendq_ >>= fun w3 =>
  .ok { w3 with
    chan := { w3.chan with
      recvq_ := []
      sendq_ := if w3.chan.cur_send_.2 = 0 then [] else [w3.chan.cur_send_] } }

/-- The code shared by `ChannelImpl::StartCancel` (after its `DelMonitor`) and
`ChannelImpl::OnRpcTimeout`: take the message out of the queue that holds it,
run `Finish`, and delete it unless it is at the current-send slot. In the send
queue branch the source compares the iterator with `recvq_.end()`, which it
never equals, and erases it; when the message is not found that is an erase of
`sendq_.end()`. -/
def World.detach (w : World) (p : Nat) : Except Fault World :=
  match w.msgs p with
  | none => .error .undefined
  | some m =>
    match find_if w.chan.recvq_ m.id with
    | some _ =>
      ({ w with chan := { w.chan with recvq_ := erase_found w.chan.recvq_ m.id } } : World).Finish p
        >>= fun w1 => w1.deleteMsg p
    | none =>
      if w.chan.cur_send_.2 = p then w.Finish p
      else
        match find_if w.chan.sendq_ m.id with
        | some _ =>
          ({ w with chan := { w.chan with sendq_ := erase_found w.chan.sendq_ m.id } } : World).Finish p
            >>= fun w1 => w1.deleteMsg p
        | none => .error .undefined

/-- The method `ChannelImpl::StartCancel`. -/
def World.ChannelStartCancel (w : World) (p : Nat) : Except Fault World :=
  w.DelMonitor p >>= fun w1 => w1.detach p

/-- The method `ChannelImpl::OnRpcTimeout`. -/
def World.OnRpcTimeout (w : World) (p : Nat) : Except Fault World :=
  w.detach p

/-- The method `ClientMessage::HandleTimeout`, the callback of the message's
timer. -/
def World.HandleTimeout (w : World) (p : Nat) : Except Fault World :=
  match w.msgs p with
  | none => .error .undefined
  | some m =>
    ({ w.SetResponseCode m.controller_ kErrTimeout with
        msgs := Function.update w.msgs p (some { m with monitor_ := false }) } : World).OnRpcTimeout p

/-- The method `ClientMessage::StartCancel`. -/
def World.MessageStartCancel (w : World) (p : Nat) : Except Fault World :=
  match w.msgs p with
  | none => .error .undefined
  | some m => (w.SetResponseCode m.controller_ kErrCancel).ChannelStartCancel p

/-- The method `ClientController::StartCancel` called on thread `self`. -/
def World.StartCancel (w : World) (self ctl : Nat) : Except Fault World :=
  match (w.ctls ctl).client_message_ with
  | none => .error .fatal
  | some p => if (w.ctls ctl).tid_ ≠ self then .error .fatal else w.MessageStartCancel p

/-- The body shared by `ChannelImpl::RecvFail` and `ChannelImpl::SendFail`. -/
def World.transportFail (w : World) : Except Fault World :=
  let dropped : Except Fault World :=
    if w.chan.cur_send_.2 = 0 then .ok w
    else
      match w.msgs w.chan.cur_send_.2 with
      | none => .error .undefined
      | some m =>
        if m.finish_ then
          match w.chan.sendq_ with
          | [] => .error .undefined
          | _ :: rest =>
            ({ w with chan := { w.chan with sendq_ := rest } } : World).deleteMsg w.chan.cur_send_.2
        else .ok w
  dropped >>= fun w1 =>
    .ok { w1 with
      chan := { w1.chan with
        cur_send_ := (0, 0)
        sendq_ := w1.chan.recvq_ ++ w1.chan.sendq_
        recvq_ := []
        conn_ := some w1.next_conn }
      next_conn := w1.next_conn + 1 }

/-- The method `ChannelImpl::RecvFail`. -/
def World.RecvFail (w : World) : Except Fault World := w.transportFail

/-- The method `ChannelImpl::SendFail`. -/
def World.SendFail (w : World) : Except Fault World := w.transportFail

/-- The method `ChannelImpl::SendNext`: the result is the message handed to the
framer, `none` for `false`. -/
def World.SendNext (w : World) : Except Fault (Option Nat × World) :=
  if w.chan.cur_send_.2 ≠ 0 then .error .assertion
  else
    match w.chan.sendq_ with
    | [] => .ok (none, w)
    | it :: _ =>
      .ok (some it.2,
        { w with chan := { w.chan with cur_send_ := it }, handed := w.handed ++ [it] })

/-- The method `ChannelImpl::SendDone`. -/
def World.SendDone (w : World) (msg : Nat) : Except Fault World :=
  if w.chan.cur_send_.2 ≠ msg then .error .assertion
  else
    match w.msgs msg with
    | none => .error .undefined
    | some m =>
      match w.chan.sendq_ with
      | [] => .error .undefined
      | _ :: rest =>
        if m.finish_ then
          ({ w with chan := { w.chan with sendq_ := rest } } : World).deleteMsg msg >>= fun w1 =>
            .ok { w1 with chan := { w1.chan with cur_send_ := (0, 0) } }
        else
          .ok { w with
            chan := { w.chan with
              sendq_ := rest
              recvq_ := w.chan.recvq_ ++ [w.chan.cur_send_]
              cur_send_ := (0, 0) } }

/-- The method `ClientMessage::ParseFromArray` on the message at `p`; `parses`
tells whether the response type accepts the bytes. -/
def World.ParseFromArray (w : World) (p : Nat) (meta : MsgMeta) (parses : Bool) :
    Except Fault (Bool × World) :=
  match w.msgs p with
  | none => .error .undefined
  | some m =>
    if meta.code ≠ 0 then
      .ok (true, (w.SetResponseCode m.controller_ meta.code).SetResponseError m.controller_
        meta.error_text)
    else if !parses then
      .ok (false, { w.SetResponseCode m.controller_ kErrResponse with parsed := w.parsed ++ [p] })
    else .ok (true, { w with parsed := w.parsed ++ [p] })

/-- The method `ChannelImpl::RecvDone`; `meta` is the result of parsing the meta
bytes (`none` when they do not parse). -/
def World.RecvDone (w : World) (meta : Option MsgMeta) (parses : Bool) :
    Except Fault (Bool × World) :=
  match meta with
  | none => .ok (false, w)
  | some msg_meta =>
    match find_if w.chan.recvq_ msg_meta.sequence with
    | none => .ok (true, w)
    | some it =>
      ({ w with chan := { w.chan with recvq_ := erase_found w.chan.recvq_ msg_meta.sequence } }
          : World).DelMonitor it.2 >>= fun w1 =>
      w1.ParseFromArray it.2 msg_meta parses >>= fun (rc, w2) =>
      w2.Finish it.2 >>= fun w3 =>
      w3.deleteMsg it.2 >>= fun w4 => .ok (rc, w4)

/-- The method `ChannelImpl::Open` called on thread `self`. -/
def World.Open (w : World) (self : Nat) : Nat × World :=
  if self ≠ w.chan.tid_ then (kErrCtx, w)
  else if w.chan.conn_ ≠ none then (kError, w)
  else (kOk, { w with chan := { w.chan with conn_ := some w.next_conn }, next_conn := w.next_conn + 1 })

/-- The method `ChannelImpl::Close` called on thread `self`. -/
def World.Close (w : World) (self : Nat) : Except Fault (Nat × World) :=
  if self ≠ w.chan.tid_ then .ok (kErrCtx, w)
  else
    w.CancelAllRpc true >>= fun w1 => .ok (0, { w1 with chan := { w1.chan with conn_ := none } })

/-- The method `ChannelImpl::Cancel` called on thread `self`. -/
def World.Cancel (w : World) (self : Nat) : Except Fault (Nat × World) :=
  if self ≠ w.chan.tid_ then .ok (kErrCtx, w)
  else w.CancelAllRpc false >>= fun w1 => .ok (0, w1)

/-- The position found by `fname.find_last_of('.')`. -/
def find_last_dot (fname : String) : Option Nat :=
  ((List.range fname.length).filter (fun i => fname.toList.get? i == some '.')).getLast?

/-- The method `ChannelImpl::CallMethod` called on thread `self`; the four
pointers are addresses, 0 for a null pointer. It has no result. -/
def World.CallMethod (w : World) (self : Nat) (method : MethodDescriptor)
    (controller request response done : Nat) : Except Fault World :=
  if request = 0 ∨ response = 0 ∨ done = 0 ∨ controller = 0 then .error .fatal
  else
    match find_last_dot method.full_name with
    | none => .error .fatal
    | some dotpos =>
      if (w.ctls controller).client_message_ ≠ none then .error .assertion
      else
        let p := w.next_msg + 1
        let (seq, chan) := w.chan.next_sequence
        let msg : ClientMessage :=
          { meta_ :=
              { sequence := seq
                service := String.mk (method.full_name.toList.take dotpos)
                method := method.name
                compression_type := (w.ctls controller).compression
                cancel := false
                code := 0
                error_text := "" }
            finish_ := false
            monitor_ := false
            controller_ := controller
            done_ := done
            response_ := response
            request_ := request }
        if chan.sendq_ = [] ∧ chan.conn_ = none then .error .undefined
        else
          ({ w with
            chan := { chan with sendq_ := chan.sendq_ ++ [(seq, p)] }
            msgs := Function.update w.msgs p (some msg)
            ctls := Function.update w.ctls controller
              { w.ctls controller with tid_ := self, client_message_ := some p }
            next_msg := w.next_msg + 1
            created := w.created ++ [(seq, p)] } : World).NewMonitor p

/-- What can happen to a channel: the calls of the user (`Open`, `Close`,
`Cancel`, `CallMethod`, `StartCancel` on a controller), the calls of the framer
and the expiry of a message's timer. -/
inductive Event where
  | Open (self : Nat)
  | Close (self : Nat)
  | Cancel (self : Nat)
  | CallMethod (self : Nat) (method : MethodDescriptor) (controller request response done : Nat)
  | StartCancel (self controller : Nat)
  | SendNext
  | SendDone (msg : Nat)
  | RecvDone (meta : Option MsgMeta) (parses : Bool)
  | SendFail
  | RecvFail
  | HandleTimeout (msg : Nat)
  deriving DecidableEq, Repr

/-- One event applied to the channel. A timer only fires while it is armed
(`monitor_`); the expiry of a timer that is not armed is no event of the
system and is reported as a fault. -/
def World.step (w : World) (e : Event) : Except Fault World :=
  match e with
  | .Open self => .ok (w.Open self).2
  | .Close self => (w.Close self).map Prod.snd
  | .Cancel self => (w.Cancel self).map Prod.snd
  | .CallMethod self method controller request response done =>
    w.CallMethod self method controller request response done
  | .StartCancel self controller => w.StartCancel self controller
  | .SendNext => w.SendNext.map Prod.snd
  | .SendDone msg => w.SendDone msg
  | .RecvDone meta parses => (w.RecvDone meta parses).map Prod.snd
  | .SendFail => w.SendFail
  | .RecvFail => w.RecvFail
  | .HandleTimeout msg =>
    match w.msgs msg with
    | none => .error .undefined
    | some m => if m.monitor_ then w.HandleTimeout msg else .error .undefined

/-- A sequence of events applied in order. -/
def World.run (w : World) (evs : List Event) : Except Fault World :=
  match evs with
  | [] => .ok w
  | e :: rest => w.step e >>= fun w1 => w1.run rest

/-- The items not yet handed to the framer: the send queue without its head
when the head is at the current-send slot. -/
def World.pending (w : World) : List MsgItem :=
  if w.chan.cur_send_.2 = 0 then w.chan.sendq_ else w.chan.sendq_.tail

/-- How often the completion of the message at `p` should have run: once when
the message is finished or already destroyed, not yet otherwise. -/
def expectedRuns (msgs : Nat → Option ClientMessage) (next : Nat) (p : Nat) : Nat :=
  match msgs p with
  | some m => if m.finish_ then 1 else 0
  | none => if 1 ≤ p ∧ p ≤ next then 1 else 0

/-- The invariant of the channel, on its parts: send queue, receive queue,
current-send slot, the heap of messages, the history of completions and the
number of messages created so far.

* `item`: a queued item carries the address of a live message as its sequence
  number;
* `nodup`: no message is queued twice, in either queue;
* `live`: a live message has the sequence number of its address, was created by
  `CallMethod`, and is queued;
* `slot`: the current-send slot is empty or holds the head of the send queue;
* `fin`: only the message at the current-send slot can be finished;
* `mon`: the timer of a message is armed exactly while it is not finished;
* `runs`: the completion ran once for a finished or destroyed message, and not
  at all for the others. -/
structure ChanInv (sq rq : List MsgItem) (cur : MsgItem) (msgs : Nat → Option ClientMessage)
    (runs : List Nat) (next : Nat) : Prop where
  item : ∀ it ∈ sq ++ rq, it.1 = it.2 ∧ ∃ m, msgs it.2 = some m
  nodup : ((sq ++ rq).map Prod.snd).Nodup
  live : ∀ p m, msgs p = some m → m.id = p ∧ 1 ≤ p ∧ p ≤ next ∧ (p, p) ∈ sq ++ rq
  slot : cur.2 ≠ 0 → sq.head? = some cur
  fin : ∀ p m, msgs p = some m → m.finish_ = true → cur.2 = p
  mon : ∀ p m, msgs p = some m → m.monitor_ = !m.finish_
  runs : ∀ p, runs.count p = expectedRuns msgs next p

/-- The invariant of a channel state: `ChanInv` on its parts, the sequence
counter equals the number of messages created, and so does the length of the
history of creations. -/
def World.Inv (w : World) : Prop :=
  ChanInv w.chan.sendq_ w.chan.recvq_ w.chan.cur_send_ w.msgs w.done_runs w.next_msg ∧
  w.chan.sequence_ = w.next_msg ∧ w.next_msg = w.created.length

/-- What no operation but `CallMethod`, `SendNext` and `RecvDone` changes: the
sequence counter, the owner thread, the number of messages created, the
histories of creations, of hand-overs and of parsed responses; the history of
completions only grows. -/
structure World.Same (w w2 : World) : Prop where
  seq : w2.chan.sequence_ = w.chan.sequence_
  tid : w2.chan.tid_ = w.chan.tid_
  next : w2.next_msg = w.next_msg
  created : w2.created = w.created
  handed : w2.handed = w.handed
  parsed : w2.parsed = w.parsed
  runs : w.done_runs <+: w2.done_runs

/-- Whether the message at the current-send slot is finished. -/
def World.curFinished (w : World) : Bool :=
  match w.msgs w.chan.cur_send_.2 with
  | some m => decide (w.chan.cur_send_.2 ≠ 0) && m.finish_
  | none => false

/-- What one event can change of the histories and counters: the owner thread
stays; the histories of completions and hand-overs only grow; at most one
response is parsed, into a live unfinished message; either no message is created
or one is, with the next sequence number and at the next address. -/
structure World.Next (w w2 : World) : Prop where
  tid : w2.chan.tid_ = w.chan.tid_
  runs : w.done_runs <+: w2.done_runs
  handed : w.handed <+: w2.handed
  parsed : w2.parsed = w.parsed ∨
    ∃ p m, w2.parsed = w.parsed ++ [p] ∧ w.msgs p = some m ∧ m.finish_ = false
  grows : (w2.created = w.created ∧ w2.chan.sequence_ = w.chan.sequence_ ∧
      w2.next_msg = w.next_msg) ∨
    (w2.created = w.created ++ [((w.chan.sequence_ + 1) % 2 ^ 64, w.next_msg + 1)] ∧
      w2.chan.sequence_ = (w.chan.sequence_ + 1) % 2 ^ 64 ∧ w2.next_msg = w.next_msg + 1)

/-- Whether the event is a call of `CallMethod`. -/
def Event.isCall : Event → Bool
  | .CallMethod _ _ _ _ _ _ => true
  | _ => false

/-- The number of calls of `CallMethod` among the events. -/
def calls (evs : List Event) : Nat := (evs.filter Event.isCall).length

/-- Whether the event is one of the send path: `Open`, `CallMethod`, `SendNext`
or `SendDone`. -/
def Event.sendOnly : Event → Bool
  | .Open _ => true
  | .CallMethod _ _ _ _ _ _ => true
  | .SendNext => true
  | .SendDone _ => true
  | _ => false

/-- The result of a run, and the fresh channel of thread 0 when the run
faulted. -/
def orInit (x : Except Fault World) : World :=
  match x with
  | .ok w => w
  | .error _ => World.init 0

/-- A method descriptor: method `Call` of service `pkg.Echo`. -/
def sampleMethod : MethodDescriptor := { full_name := "pkg.Echo.Call", name := "Call" }

/-- A run on thread 7: open the channel, issue two calls, hand the first to the
framer, finish sending it, hand over the second. -/
def sampleTrace : List Event :=
  [.Open 7, .CallMethod 7 sampleMethod 1 1 1 1, .CallMethod 7 sampleMethod 2 1 1 1,
    .SendNext, .SendDone 1, .SendNext]

/-- The state after `sampleTrace`: message 1 waits in the receive queue,
message 2 is at the current-send slot. -/
def sampleWorld : World := orInit ((World.init 7).run sampleTrace)

/-- The channel of thread 7, opened. -/
def sampleOpened : World := (World.Open (World.init 7) 7).2

/-- A run on thread 7: one call is sent and waits for its response, then its
timer expires. -/
def timeoutTrace : List Event :=
  [.Open 7, .CallMethod 7 sampleMethod 1 1 1 1, .SendNext, .SendDone 1, .HandleTimeout 1]

/-- The state after `timeoutTrace`: the completion of message 1 has run with
`kErrTimeout` and the message is destroyed. -/
def timeoutWorld : World := orInit ((World.init 7).run timeoutTrace)

/-- A response that arrives for sequence number 1. -/
def lateMeta : MsgMeta :=
  { sequence := 1
    service := "pkg.Echo"
    method := "Call"
    compression_type := 0
    cancel := false
    code := 0
    error_text := "" }

/-- What follows the timeout: the late response, a failure of the transport and
a call of `Cancel`. -/
def lateTrace : List Event := [.RecvDone (some lateMeta) true, .RecvFail, .Cancel 7]

/-- The state after `timeoutTrace` and `lateTrace`. -/
def lateWorld : World := orInit (timeoutWorld.run lateTrace)

/-- A run on thread 7: one call is sent and waits for its response. -/
def waitingTrace : List Event :=
  [.Open 7, .CallMethod 7 sampleMethod 1 1 1 1, .SendNext, .SendDone 1]

/-- The state after `waitingTrace`: message 1, of controller 1, is in the
receive queue. -/
def waitingWorld : World := orInit ((World.init 7).run waitingTrace)

/-- A response for sequence number 1 that carries the error code 11 and the
text `no`. -/
def errorMeta : MsgMeta :=
  { sequence := 1
    service := "pkg.Echo"
    method := "Call"
    compression_type := 0
    cancel := false
    code := 11
    error_text := "no" }

/-- The message created by the call of `waitingTrace`, as it is in
`waitingWorld`: sequence number 1, controller 1, timer armed. -/
def waitingMessage : ClientMessage :=
  { meta_ :=
      { sequence := 1
        service := "pkg.Echo"
        method := "Call"
        compression_type := 0
        cancel := false
        code := 0
        error_text := "" }
    finish_ := false
    monitor_ := true
    controller_ := 1
    done_ := 1
    response_ := 1
    request_ := 1 }

/-! ## Server: `server.{h,cc}`, `server_impl.{h,cc}`

`pthread_self()` is the argument `self` of each method. A `std::map` with
string keys is a list of pairs with distinct keys, in the order of insertion;
the order is not the one of the map, and only `DelService`, whose deletions
are not recorded, iterates over a map. A worker, its thread and its event base
are one number, the n-th worker created being number n; a listener is the
socket address that it listens on. `delete` of a service, a worker or a
listener is an effect on objects outside the state and is not recorded. -/

/-- The enum `ServiceOwnership` of `server.h`. -/
inductive ServiceOwnership where
  | kServerOwnsService
  | kServerDoesntOwnService
  deriving DecidableEq, Repr

/-- The struct `ServerOptions` of `server.h` without its two callbacks; every
field is an `int`. -/
structure ServerOptions where
  rbuf_size : Int
  sbuf_size : Int
  min_rbuf_size : Int
  max_rbuf_size : Int
  min_sbuf_size : Int
  max_sbuf_size : Int
  keep_alive_time : Int
  num_worker_thread : Int
  deriving DecidableEq, Repr

/-- The constructor `ServerOptions::ServerOptions`. -/
def ServerOptions.create : ServerOptions :=
  { rbuf_size := 16 * 1024
    sbuf_size := 16 * 1024
    min_rbuf_size := 32 * 1024
    max_rbuf_size := 1024 * 1024
    min_sbuf_size := 32 * 1024
    max_sbuf_size := 1024 * 1024
    keep_alive_time := 3600
    num_worker_thread := 8 }

/-- The function `options_ok` of `server.cc`: each `ZERO_RET(param)` returns
false unless `param > 0`. -/
def ServerOptions.options_ok (opt : ServerOptions) : Bool :=
  if ¬ opt.rbuf_size > 0 then false
  else if ¬ opt.sbuf_size > 0 then false
  else if ¬ opt.min_rbuf_size > 0 then false
  else if ¬ opt.max_rbuf_size > 0 then false
  else if ¬ opt.min_sbuf_size > 0 then false
  else if ¬ opt.max_sbuf_size > 0 then false
  else if ¬ opt.keep_alive_time > 0 then false
  else if ¬ opt.num_worker_thread > 0 then false
  else true

/-- A `google::protobuf::Service` object: its address, and from its descriptor
the full name and the methods. -/
structure Service where
  addr : Nat
  full_name : String
  methods : List MethodDescriptor
  deriving DecidableEq, Repr

/-- The enum `ServerImpl::State`. -/
inductive ServerImpl.State where
  | kInit
  | kRun
  | kExit
  deriving DecidableEq, Repr

/-- The member function `std::map::find`: the value stored under the key. -/
def map_find {α : Type} (m : List (String × α)) (key : String) : Option α :=
  match m with
  | [] => none
  | (k, v) :: rest => if k = key then some v else map_find rest key

/-- The member function `std::map::insert`: nothing is stored, and false is
returned, when the key is present. -/
def map_insert {α : Type} (m : List (String × α)) (key : String) (v : α) :
    List (String × α) × Bool :=
  match map_find m key with
  | some _ => (m, false)
  | none => (m ++ [(key, v)], true)

/-- The member function `std::map::erase` at the position of a key. -/
def map_erase {α : Type} (m : List (String × α)) (key : String) : List (String × α) :=
  m.filter (fun p => decide (p.1 ≠ key))

/-- The class `ServerImpl`. In `base_` the number 0 is `NULL`. Two histories
are added to the fields: `next_worker` counts the workers created so far, and
`links` lists the calls of `Worker::Link`, each as the worker and the socket
handed to it. -/
structure ServerImpl where
  options_ : ServerOptions
  state_ : ServerImpl.State
  has_base_ : Bool
  base_ : Nat
  listens_ : List Nat
  endpoints_ : List (String × Int)
  nxt_worker_ : Int
  workers_ : List Nat
  each_workers_ : List (Nat × Nat)
  builtin_service_ : Service
  tid_ : Nat
  ownership_ : List (String × ServiceOwnership)
  services_ : List (String × Service)
  next_worker : Nat
  links : List (Nat × Int)
  deriving DecidableEq, Repr

/-- What the operating system answers to the server: `resolve_addr` gives the
socket addresses of a host and port (`none` when it fails), and `listen` tells
whether `Listener::Start` succeeds on a socket address, given the addresses
already listened on. -/
structure Network where
  resolve_addr : String → Int → Option (List Nat)
  listen : List Nat → Nat → Bool

/-- The method `ServerImpl::Register`; `none` is the null pointer. -/
def ServerImpl.Register (s : ServerImpl) (self : Nat) (service : Option Service)
    (ownership : ServiceOwnership) : Nat × ServerImpl :=
  if self ≠ s.tid_ then (kErrCtx, s)
  else if s.state_ ≠ .kInit then (kError, s)
  else
    match service with
    | none => (kErrParam, s)
    | some svc =>
      let fname := svc.full_name
      let res1 := map_insert s.services_ fname svc
      if !res1.2 then (kErrHasSrv, { s with services_ := res1.1 })
      else if ownership ≠ .kServerOwnsService then (kOk, { s with services_ := res1.1 })
      else
        let res2 := map_insert s.ownership_ fname ownership
        if !res2.2 then
          (kErrHasSrv, { s with services_ := map_erase res1.1 fname, ownership_ := res2.1 })
        else (kOk, { s with services_ := res1.1, ownership_ := res2.1 })

/-- The constructor `ServerImpl::ServerImpl` on thread `tid`; `builtin` is the
member `builtin_service_`, whose descriptor is generated. -/
def ServerImpl.init (options : ServerOptions) (base : Nat) (tid : Nat) (builtin : Service) :
    ServerImpl :=
  let s : ServerImpl :=
    { options_ := options
      state_ := .kInit
      has_base_ := decide (base ≠ 0)
      base_ := base
      listens_ := []
      endpoints_ := []
      nxt_worker_ := -1
      workers_ := []
      each_workers_ := []
      builtin_service_ := builtin
      tid_ := tid
      ownership_ := []
      services_ := []
      next_worker := 0
      links := [] }
  (s.Register tid (some builtin) .kServerDoesntOwnService).2

/-- The function `Server::New`: the code returned and what is stored in
`*srvptr`, `none` when nothing is stored. -/
def Server.New (options : ServerOptions) (base : Nat) (tid : Nat) (builtin : Service) :
    Nat × Option ServerImpl :=
  if !options.options_ok then (kErrParam, none)
  else (kOk, some (ServerImpl.init options base tid builtin))

/-- The loop of `ServerImpl::NewWorker`, `num` iterations left: a worker is
created, its base becomes `base_` when the server has none of its own, and a
thread id that is already in `each_workers_` is fatal. -/
def ServerImpl.newWorkers : Nat → ServerImpl → Except Fault ServerImpl
  | 0, s => .ok s
  | num + 1, s =>
    let worker := s.next_worker + 1
    let s1 := { s with
      next_worker := worker
      base_ := if !s.has_base_ then worker else s.base_
      workers_ := s.workers_ ++ [worker] }
    if (s1.each_workers_.find? (fun p => p.1 == worker)).isSome then .error .fatal
    else
      ServerImpl.newWorkers num
        { s1 with each_workers_ := s1.each_workers_ ++ [(worker, worker)] }

/-- The method `ServerImpl::NewWorker`. -/
def ServerImpl.NewWorker (s : ServerImpl) : Except Fault (Bool × ServerImpl) :=
  match ServerImpl.newWorkers s.options_.num_worker_thread.toNat s with
  | .error f => .error f
  | .ok s1 => .ok (true, s1)

/-- The method `ServerImpl::DelWorker`. -/
def ServerImpl.DelWorker (s : ServerImpl) : ServerImpl :=
  { s with workers_ := [] }

/-- The inner loop of `ServerImpl::StartServer`: a listener for each socket
address, kept when its `Start` succeeds. -/
def ServerImpl.listenEach (net : Network) : List Nat → List Nat → List Nat
  | [], listens => listens
  | si :: sis, listens =>
    if net.listen listens si then ServerImpl.listenEach net sis (listens ++ [si])
    else ServerImpl.listenEach net sis listens

/-- The outer loop of `ServerImpl::StartServer` over the endpoints; false when
an address does not resolve. -/
def ServerImpl.startEach (net : Network) : List (String × Int) → List Nat → Bool × List Nat
  | [], listens => (true, listens)
  | (host, port) :: rest, listens =>
    match net.resolve_addr host port with
    | none => (false, listens)
    | some sis => ServerImpl.startEach net rest (ServerImpl.listenEach net sis listens)

/-- The method `ServerImpl::StartServer`. -/
def ServerImpl.StartServer (net : Network) (s : ServerImpl) : Bool × ServerImpl :=
  let r := ServerImpl.startEach net s.endpoints_ s.listens_
  if !r.1 then (false, { s with listens_ := r.2 })
  else (!r.2.isEmpty, { s with listens_ := r.2 })

/-- The method `ServerImpl::StopServer`. -/
def ServerImpl.StopServer (s : ServerImpl) : ServerImpl :=
  { s with listens_ := [] }

/-- The method `ServerImpl::NewServer`. Without a base of its own the server
has the last worker run `StartServer` (`Worker::HandleListen`) and waits for
it; `workers_.back()` of an empty vector is undefined. -/
def ServerImpl.NewServer (net : Network) (s : ServerImpl) : Except Fault (Bool × ServerImpl) :=
  if s.base_ = 0 then .error .assertion
  else if s.has_base_ then .ok (s.StartServer net)
  else if s.workers_.isEmpty then .error .undefined
  else .ok (s.StartServer net)

/-- The method `ServerImpl::DelServer`. Without a base of its own the server
has the last worker run `StopServer` (`Worker::HandleListen`) and waits for it;
`workers_.back()` of an empty vector is undefined. -/
def ServerImpl.DelServer (s : ServerImpl) : Except Fault ServerImpl :=
  if s.base_ = 0 then .error .assertion
  else if s.has_base_ then .ok s.StopServer
  else if s.workers_.isEmpty then .error .undefined
  else .ok s.StopServer

/-- The method `ServerImpl::DelService`. -/
def ServerImpl.DelService (s : ServerImpl) : ServerImpl :=
  { s with services_ := [], ownership_ := [] }

/-- The method `ServerImpl::Add`. -/
def ServerImpl.Add (s : ServerImpl) (self : Nat) (host : String) (port : Int) :
    Nat × ServerImpl :=
  if self ≠ s.tid_ then (kErrCtx, s)
  else if host.isEmpty then (kErrParam, s)
  else if port ≤ 0 then (kErrParam, s)
  else if s.state_ ≠ .kInit then (kError, s)
  else if (host, port) ∈ s.endpoints_ then (kErrParam, s)
  else (kOk, { s with endpoints_ := s.endpoints_ ++ [(host, port)] })

/-- The method `ServerImpl::Start`. -/
def ServerImpl.Start (net : Network) (s : ServerImpl) (self : Nat) :
    Except Fault (Nat × ServerImpl) :=
  if self ≠ s.tid_ then .ok (kErrCtx, s)
  else if s.state_ ≠ .kInit then .ok (kError, s)
  else if s.endpoints_.isEmpty then .ok (kError, s)
  else
    match s.NewWorker with
    | .error f => .error f
    | .ok (false, s1) => .ok (kError, s1)
    | .ok (true, s1) =>
      match s1.NewServer net with
      | .error f => .error f
      | .ok (false, s2) => .ok (kError, s2)
      | .ok (true, s2) => .ok (0, { s2 with state_ := .kRun })

/-- The method `ServerImpl::Stop`; the test of `state_` is commented out in the
source. -/
def ServerImpl.Stop (s : ServerImpl) (self : Nat) : Except Fault (Nat × ServerImpl) :=
  if self ≠ s.tid_ then .ok (kErrCtx, s)
  else
    match s.DelServer with
    | .error f => .error f
    | .ok s1 => .ok (0, { s1.DelWorker.DelService with state_ := .kExit })

/-- The common part of the two overloads of `ServerImpl::Unregister`, from the
lookup of the full name on. -/
def ServerImpl.unregisterName (s : ServerImpl) (fname : String) : Nat × ServerImpl :=
  let service := map_find s.services_ fname
  let s1 :=
    match service with
    | some _ => { s with services_ := map_erase s.services_ fname }
    | none => s
  let s2 :=
    match map_find s1.ownership_ fname with
    | some _ => { s1 with ownership_ := map_erase s1.ownership_ fname }
    | none => s1
  match service with
  | none => (kErrNotSrv, s2)
  | some _ => (0, s2)

/-- The method `ServerImpl::Unregister(std::string)`. -/
def ServerImpl.Unregister (s : ServerImpl) (self : Nat) (service_full_name : String) :
    Nat × ServerImpl :=
  if self ≠ s.tid_ then (kErrCtx, s)
  else if s.state_ = .kRun then (kError, s)
  else if service_full_name.isEmpty then (kErrParam, s)
  else s.unregisterName service_full_name

/-- The method `ServerImpl::Unregister(Service *)`; `none` is the null
pointer. -/
def ServerImpl.UnregisterService (s : ServerImpl) (self : Nat) (srvptr : Option Service) :
    Nat × ServerImpl :=
  if self ≠ s.tid_ then (kErrCtx, s)
  else if s.state_ = .kRun then (kError, s)
  else
    match srvptr with
    | none => (kErrParam, s)
    | some svc => s.unregisterName svc.full_name

/-- The method `ServerImpl::Find`. -/
def ServerImpl.Find (s : ServerImpl) (meta : MsgMeta) : Option Service :=
  map_find s.services_ meta.service

/-- The value of `idx` in `ServerImpl::Dispatch` for a cursor whose increment
does not overflow: `nxt = ++nxt_worker_`, negated when negative, and the
remainder of the division by `num_worker_thread`, which in C truncates towards
zero. -/
def dispatchIndex (nxt_worker num : Int) : Int :=
  let nxt := nxt_worker + 1
  let nxt := if nxt < 0 then -nxt else nxt
  Int.tmod nxt num

/-- The value of `idx` that a machine with 32-bit two's-complement `int`
computes in `ServerImpl::Dispatch`: the increment and the negation wrap
around. -/
def dispatchIndexWrapped (nxt_worker num : Int) : Int :=
  let nxt := toInt32 ((nxt_worker + 1) % 4294967296).toNat
  let nxt := if nxt < 0 then toInt32 ((-nxt) % 4294967296).toNat else nxt
  Int.tmod nxt num

/-- The method `ServerImpl::Dispatch` for the accepted socket `sfd`. The
increment of the `int` cursor beyond `INT_MAX`, a division by zero and an index
outside `workers_` are undefined. -/
def ServerImpl.Dispatch (s : ServerImpl) (sfd : Int) : Except Fault (Bool × ServerImpl) :=
  if s.nxt_worker_ + 1 > (INT_MAX : Int) then .error .undefined
  else if s.options_.num_worker_thread = 0 then .error .undefined
  else
    let idx := dispatchIndex s.nxt_worker_ s.options_.num_worker_thread
    if idx < 0 then .error .undefined
    else
      match s.workers_.get? idx.toNat with
      | none => .error .undefined
      | some worker =>
        .ok (true, { s with nxt_worker_ := s.nxt_worker_ + 1, links := s.links ++ [(worker, sfd)] })

/-- The accept loop of `Listener` calling `Dispatch` for each accepted socket in
turn. -/
def ServerImpl.dispatchAll (s : ServerImpl) : List Int → Except Fault ServerImpl
  | [] => .ok s
  | sfd :: rest =>
    match s.Dispatch sfd with
    | .error f => .error f
    | .ok (_, s1) => s1.dispatchAll rest

/-- The keys of `ownership_` are keys of `services_`. -/
def ServerImpl.WellFormed (s : ServerImpl) : Prop :=
  ∀ key, (map_find s.ownership_ key).isSome → (map_find s.services_ key).isSome

/-- A service `pkg.Echo` with the method `Call`, at address 100. -/
def sampleService : Service :=
  { addr := 100, full_name := "pkg.Echo", methods := [sampleMethod] }

/-- The builtin service of the sample servers, at address 1. -/
def sampleBuiltin : Service :=
  { addr := 1, full_name := "qrpc.BuiltinService", methods := [] }

/-- A network in which every name resolves to one socket address, the port
number, and every listener starts. -/
def sampleNetwork : Network :=
  { resolve_addr := fun _ port => some [port.toNat]
    listen := fun _ _ => true }

/-- A server created on thread 7 with the default options and the event base
5. -/
def sampleServer : ServerImpl := ServerImpl.init ServerOptions.create 5 7 sampleBuiltin

/-- A server created on thread 7 without an event base, with three workers
configured. -/
def smallServer : ServerImpl :=
  ServerImpl.init { ServerOptions.create with num_worker_thread := 3 } 0 7 sampleBuiltin

/-- The result of `Start` on a server, the server itself when `Start` does not
return. -/
def startedOr (s : ServerImpl) (r : Except Fault (Nat × ServerImpl)) : ServerImpl :=
  match r with
  | .ok (_, s2) => s2
  | .error _ => s

/-- The server `smallServer` with the endpoint `localhost:80`, started. -/
def runningServer : ServerImpl :=
  startedOr smallServer (((smallServer.Add 7 "localhost" 80).2).Start sampleNetwork 7)

/-! ## Receiving: `Connection::Recv`, `Connection::OnRecv`

The socket is the list of what the next calls of `recv` find. The receive
buffer has no address in the state (`rbuf_` is its contents and `rcur_` an
offset), so `realloc` is asked for a block at address 0. -/

/-- What a call of `recv` finds: bytes waiting, the end of the stream (the
result 0), or the result -1 with `EINTR`, with `EAGAIN` or `EWOULDBLOCK`, or
with another error. -/
inductive Arrival where
  | bytes (bs : List Nat)
  | eof
  | eintr
  | eagain
  | failure
  deriving DecidableEq, Repr

/-- The state of a socket: the arrivals still to come, in order. -/
abbrev Socket := List Arrival

/-- One call `recv(sfd_, buf, avail, 0)` with `avail > 0`: what it returns and
the socket afterwards. Of waiting bytes at most `avail` are taken; with nothing
waiting the call reports `EAGAIN`. (With `avail = 0` the call returns 0, which
`Recv` treats as the end of the stream.) -/
def Socket.recv (sock : Socket) (avail : Nat) : Arrival × Socket :=
  match sock with
  | [] => (.eagain, [])
  | .bytes bs :: rest =>
    if bs.isEmpty then (.eagain, rest)
    else if bs.length ≤ avail then (.bytes bs, rest)
    else (.bytes (bs.take avail), .bytes (bs.drop avail) :: rest)
  | a :: rest => (a, rest)

/-- The label `read_much:` of `Connection::Recv`, with the values of
`num_allocs` and `status` on arrival at the label. -/
def Connection.readMuch (h : Heap) :
    Nat → Connection → Socket → Nat → Status → Except Fault (Status × Connection × Socket)
  | 0, _, _, _, _ => .error .diverge
  | fuel + 1, c, sock, num_allocs, status =>
    if c.rbytes_ ≥ c.rsize_ ∧ num_allocs = 4 then .ok (status, c, sock)
    else
      let grown : Except Fault (Option Connection) :=
        if c.rbytes_ ≥ c.rsize_ then
          if c.rsize_ * 2 > (INT_MAX : Int) then .error .undefined
          else
            match h.realloc 0 (toSizeT (c.rsize_ * 2)) with
            | none => .ok none
            | some _ =>
              .ok (some { c with
                rsize_ := c.rsize_ * 2
                rbuf_ := resized c.rbuf_ (c.rsize_ * 2).toNat
                rcur_ := 0 })
        else .ok (some c)
      match grown with
      | .error f => .error f
      | .ok none => .ok (.kRecvError, c, sock)
      | .ok (some c1) =>
        let num_allocs1 := if c.rbytes_ ≥ c.rsize_ then num_allocs + 1 else num_allocs
        let avail := c1.rsize_ - c1.rbytes_
        if avail < 0 then .error .undefined
        else if avail = 0 then .ok (.kRecvError, c1, sock)
        else
          match sock.recv avail.toNat with
          | (.bytes bs, sock1) =>
            match poke 0 c1.rbuf_ c1.rbytes_.toNat bs with
            | none => .error .undefined
            | some mem =>
              let c2 := { c1 with rbuf_ := mem, rbytes_ := c1.rbytes_ + bs.length }
              if (bs.length : Int) = avail then
                Connection.readMuch h fuel c2 sock1 num_allocs1 .kRecvOk
              else .ok (.kRecvOk, c2, sock1)
          | (.eof, sock1) => .ok (.kRecvError, c1, sock1)
          | (.eintr, sock1) => Connection.readMuch h fuel c1 sock1 num_allocs1 status
          | (.eagain, sock1) => .ok (status, c1, sock1)
          | (.failure, sock1) => .ok (.kRecvError, c1, sock1)

/-- The method `Connection::Recv`: the unread bytes are moved to the start of
the buffer, then the socket is read. The label `read_much:` is reached at most
six times apart from the returns of `EINTR`, which bounds the loop. -/
def Connection.Recv (h : Heap) (c : Connection) (sock : Socket) :
    Except Fault (Status × Connection × Socket) :=
  let moved : Except Fault Connection :=
    if c.rcur_ ≠ 0 then
      if c.rbytes_ ≠ 0 then
        if c.rbytes_ < 0 then .error .undefined
        else
          match peek c.rbuf_ c.rcur_ c.rbytes_.toNat with
          | none => .error .undefined
          | some bs =>
            match poke 0 c.rbuf_ 0 bs with
            | none => .error .undefined
            | some mem => .ok { c with rbuf_ := mem, rcur_ := 0 }
      else .ok { c with rcur_ := 0 }
    else .ok c
  match moved with
  | .error f => .error f
  | .ok c1 => Connection.readMuch h (sock.length + 7) c1 sock 0 .kRecvAgain

/-- The method `Connection::OnRecv`, one iteration of its loop for each unit of
fuel. `RecvDone` is the virtual method of the derived class, acting on the
state `w` of that class; it is given the `meta_ + data_` bytes at `rmsg_`, and
the boolean that it returns is not looked at. -/
def Connection.OnRecv {σ : Type} (h : Heap) (cod : Codecs)
    (RecvDone : σ → List Nat → Int → Int → Except Fault (Bool × σ)) :
    Nat → Connection → Socket → σ → Except Fault (Bool × Connection × Socket × σ)
  | 0, _, _, _ => .error .diverge
  | fuel + 1, c, sock, w =>
    match c.rstate_ with
    | .kRead =>
      match c.Recv h sock with
      | .error f => .error f
      | .ok (.kRecvOk, c1, sock1) =>
        Connection.OnRecv h cod RecvDone fuel { c1 with rstate_ := .kParse } sock1 w
      | .ok (.kRecvAgain, c1, sock1) =>
        Connection.OnRecv h cod RecvDone fuel { c1 with rstate_ := .kWait } sock1 w
      | .ok (.kRecvError, c1, sock1) =>
        Connection.OnRecv h cod RecvDone fuel { c1 with rstate_ := .kClose } sock1 w
      | .ok (_, _, _) => .error .fatal
    | .kParse =>
      match c.Decode h cod with
      | .error f => .error f
      | .ok (.kDecodeOk, c1) =>
        match c1.delivered with
        | none => .error .undefined
        | some payload =>
          match RecvDone w payload c1.rmsg_hdr_.meta_ c1.rmsg_hdr_.data_ with
          | .error f => .error f
          | .ok (_, w1) =>
            Connection.OnRecv h cod RecvDone fuel
              { c1 with
                rmsg_hdr_ := { payload_ := 0, data_ := 0, meta_ := 0, compression_ := 0 }
                rmsg_ := .null
                rstate_ := .kParse } sock w1
      | .ok (.kDecodeFragment, c1) =>
        Connection.OnRecv h cod RecvDone fuel { c1 with rstate_ := .kWait } sock w
      | .ok (.kDecodeError, c1) =>
        Connection.OnRecv h cod RecvDone fuel { c1 with rstate_ := .kClose } sock w
      | .ok (_, _) => .error .fatal
    | .kWait => .ok (true, { c with rstate_ := .kRead }, sock, w)
    | .kClose => .ok (false, c, sock, w)
    | _ => .error .fatal

/-! ## Server connection: `ServerConnection`, `ServerMessage`, `ServerController`

Server messages are heap objects, the n-th one created having address n. The
service's `CallMethod` is user code: its call is recorded in a history and its
completion (`done->Run()`, which ends in `ServerConnection::Send`) is an event
of its own. The parsers of the generated protobuf classes are not among the
sources and are taken as given. -/

/-- The class `ServerController`; `closure_` is the callback registered by
`NotifyOnCancel`, `none` for `NULL`. -/
structure ServerController where
  tid_ : Nat
  code_ : Nat
  error_text_ : String
  cancel_ : Bool
  closure_ : Option Nat
  deriving DecidableEq, Repr

/-- The constructor `ServerController::ServerController` on thread `tid`. -/
def ServerController.create (tid : Nat) : ServerController :=
  { tid_ := tid, code_ := 0, error_text_ := "", cancel_ := false, closure_ := none }

/-- The class `ServerMessage`; `request_` holds the bytes parsed into the
request and `response_` tells whether a response object is allocated. -/
structure ServerMessage where
  meta_ : MsgMeta
  compression_type_ : Nat
  request_ : Option (List Nat)
  response_ : Bool
  service_ : Option Service
  method_ : Option MethodDescriptor
  controller_ : ServerController
  deriving DecidableEq, Repr

/-- The constructor `ServerMessage::ServerMessage` on thread `tid`, with a
default-constructed `MsgMeta`. -/
def ServerMessage.create (tid : Nat) : ServerMessage :=
  { meta_ :=
      { sequence := 0
        service := ""
        method := ""
        compression_type := 0
        cancel := false
        code := 0
        error_text := "" }
    compression_type_ := 0
    request_ := none
    response_ := false
    service_ := none
    method_ := none
    controller_ := ServerController.create tid }

/-- The method `ServerMessage::id`. -/
def ServerMessage.id (m : ServerMessage) : Nat := m.meta_.sequence

/-- The parsers of the generated classes: `MsgMeta::ParseFromArray` (`none`
when it fails) and `ParseFromArray` of the request type of a method. -/
structure Protobuf where
  parseMeta : List Nat → Option MsgMeta
  parseRequest : Service → MethodDescriptor → List Nat → Bool

/-- The lookup `ServiceDescriptor::FindMethodByName`. -/
def Service.FindMethodByName (svc : Service) (name : String) : Option MethodDescriptor :=
  svc.methods.find? (fun md => md.name == name)

/-- The method `ServerMessage::ParseFromArray` on the registry of the server of
the connection's worker. -/
def ServerMessage.ParseFromArray (pb : Protobuf) (srv_impl : ServerImpl) (m : ServerMessage)
    (data : List Nat) (meta : MsgMeta) : Bool × ServerMessage :=
  match srv_impl.Find meta with
  | none => (false, { m with service_ := none })
  | some svc =>
    match svc.FindMethodByName meta.method with
    | none => (false, { m with service_ := some svc, method_ := none })
    | some md =>
      (pb.parseRequest svc md data,
        { m with
          service_ := some svc
          method_ := some md
          request_ := some data
          response_ := true
          compression_type_ := meta.compression_type
          meta_ := { m.meta_ with sequence := meta.sequence } })

/-- The fields of the class `ServerConnection` beside those of `Connection`; in
`cur_send_` the address 0 is `NULL`. -/
structure ServerConnection where
  recvq_ : List MsgItem
  sendq_ : List MsgItem
  cur_send_ : MsgItem
  update_ : Nat
  has_timer_ : Bool
  use_clock_ : Bool
  connected_ : Bool
  deriving DecidableEq, Repr

/-- The constant `kUseClock` of `connection.cc`. -/
def kUseClock : Bool := false

/-- A server connection with what it points to: the server of its worker, the
heap of server messages, the thread of the worker and the reading of the
monotonic clock in seconds. Two histories are kept: `called` lists the messages
handed to the service (`CallMethod`), `notified` the messages whose cancel
notification ran. -/
structure ServerWorld where
  conn : ServerConnection
  srv_impl : ServerImpl
  msgs : Nat → Option ServerMessage
  next_msg : Nat
  tid : Nat
  clock : Nat
  called : List Nat
  notified : List Nat

/-- The server part of the constructor `ServerConnection::ServerConnection`,
which ends in `NewTimerKeepalive` (or, with the clock, in `NewClockKeepalive`
after `update_ = CurClock()`). -/
def ServerWorld.init (srv_impl : ServerImpl) (tid clock : Nat) : ServerWorld :=
  { conn :=
      { recvq_ := []
        sendq_ := []
        cur_send_ := (0, 0)
        update_ := if kUseClock then clock else 0
        has_timer_ := true
        use_clock_ := kUseClock
        connected_ := true }
    srv_impl := srv_impl
    msgs := fun _ => none
    next_msg := 0
    tid := tid
    clock := clock
    called := []
    notified := [] }

/-- The method `ServerMessage::CancelMethod` on the message at address `p`:
`ServerController::CancelRequest`, which asserts that the request is not yet
canceled and runs the cancel notification, then the copy of the controller's
code and error text into the meta. -/
def ServerWorld.CancelMethod (w : ServerWorld) (p : Nat) : Except Fault ServerWorld :=
  match w.msgs p with
  | none => .error .undefined
  | some m =>
    if m.controller_.cancel_ ≠ false then .error .assertion
    else
      let ctl := { m.controller_ with cancel_ := true, closure_ := none }
      let m1 := { m with
        controller_ := ctl
        meta_ := { m.meta_ with code := ctl.code_, error_text := ctl.error_text_ } }
      .ok { w with
        msgs := fun q => if q = p then some m1 else w.msgs q
        notified := if m.controller_.closure_.isSome then w.notified ++ [p] else w.notified }

/-- The method `ServerConnection::OnRpcCancel`. -/
def ServerWorld.OnRpcCancel (w : ServerWorld) (meta : MsgMeta) : Except Fault ServerWorld :=
  if w.conn.cur_send_.2 = 0 then .error .undefined
  else
    match w.msgs w.conn.cur_send_.2 with
    | none => .error .undefined
    | some cur =>
      if cur.id = meta.sequence then .ok w
      else
        match find_if w.conn.sendq_ meta.sequence with
        | some it => w.CancelMethod it.2
        | none =>
          match find_if w.conn.recvq_ meta.sequence with
          | some it => w.CancelMethod it.2
          | none => .ok w

/-- The method `ServerConnection::OnRpcRequest` for the message at address
`p`. -/
def ServerWorld.OnRpcRequest (w : ServerWorld) (p : Nat) : Except Fault ServerWorld :=
  match w.msgs p with
  | none => .error .undefined
  | some m =>
    let w1 := { w with
      conn := { w.conn with recvq_ := w.conn.recvq_ ++ [(m.id, p)] }
      called := w.called ++ [p] }
    if !w1.conn.use_clock_ then .ok { w1 with conn := { w1.conn with has_timer_ := true } }
    else .ok { w1 with conn := { w1.conn with update_ := w1.clock } }

/-- The method `ServerConnection::RecvDone` on the bytes at `payload`. -/
def ServerWorld.RecvDone (pb : Protobuf) (w : ServerWorld) (payload : List Nat)
    (meta data : Int) : Except Fault (Bool × ServerWorld) :=
  match pb.parseMeta (payload.take meta.toNat) with
  | none => .ok (false, w)
  | some msg_meta =>
    if msg_meta.cancel then
      if data ≠ 0 then .error .assertion
      else
        match w.OnRpcCancel msg_meta with
        | .error f => .error f
        | .ok w1 => .ok (true, w1)
    else
      let p := w.next_msg + 1
      let r := (ServerMessage.create w.tid).ParseFromArray pb w.srv_impl
        ((payload.drop meta.toNat).take data.toNat) msg_meta
      if r.1 then
        match ({ w with
            next_msg := p
            msgs := fun q => if q = p then some r.2 else w.msgs q } : ServerWorld).OnRpcRequest p with
        | .error f => .error f
        | .ok w1 => .ok (true, w1)
      else .ok (false, { w with next_msg := p })

/-- The readiness callback of a server connection for `EV_READ`, up to the
return of `OnRecv`. -/
def ServerWorld.OnRecv (pb : Protobuf) (h : Heap) (cod : Codecs) (fuel : Nat)
    (c : Connection) (sock : Socket) (w : ServerWorld) :
    Except Fault (Bool × Connection × Socket × ServerWorld) :=
  Connection.OnRecv h cod (ServerWorld.RecvDone pb) fuel c sock w

/-- A stand-in for the protobuf parsers: a meta is two bytes, the sequence
number and a byte that selects what it names: 1 for `pkg.Echo.Call`, 2 for the
service `pkg.Missing`, 3 for the method `Missing` of `pkg.Echo`. Every request
parses. -/
def sampleProtobuf : Protobuf :=
  { parseMeta := fun bs =>
      match bs with
      | [seq, 1] =>
        some { sequence := seq, service := "pkg.Echo", method := "Call",
               compression_type := 0, cancel := false, code := 0, error_text := "" }
      | [seq, 2] =>
        some { sequence := seq, service := "pkg.Missing", method := "Call",
               compression_type := 0, cancel := false, code := 0, error_text := "" }
      | [seq, 3] =>
        some { sequence := seq, service := "pkg.Echo", method := "Missing",
               compression_type := 0, cancel := false, code := 0, error_text := "" }
      | _ => none
    parseRequest := fun _ _ _ => true }

/-- The sample server with the service `pkg.Echo` registered. -/
def echoServer : ServerImpl :=
  (sampleServer.Register 7 (some sampleService) .kServerDoesntOwnService).2

/-- A fresh connection of a worker, on thread 9, of the server `echoServer`. -/
def echoWorld : ServerWorld := ServerWorld.init echoServer 9 0

/-- An uncompressed frame with a meta of two bytes, `[5, sel]`, and no data. -/
def requestFrame (sel : Nat) : List Nat := [0, 0, 0, 2, 0, 0, 0, 0, 0, 2, 0, 5, sel]

/-- A frame with compression id 1 (zlib) whose body the library rejects. -/
def corruptFrame : List Nat := [0, 0, 0, 2, 0, 0, 0, 1, 0, 1, 1, 9, 9]

/-- A frame with compression id 2 (LZ4) whose body the library rejects. -/
def corruptLz4Frame : List Nat := [0, 0, 0, 2, 0, 0, 0, 1, 0, 1, 2, 9, 9]

/-- A frame with compression id 1 whose body decompresses to one byte, while
the header declares a meta of one byte and data of one byte. -/
def shortFrame : List Nat := [0, 0, 0, 2, 0, 0, 0, 1, 0, 1, 1, 7, 5]

/-- A frame with compression id 1 whose body decompresses to three bytes, while
the header declares two. -/
def longFrame : List Nat := [0, 0, 0, 4, 0, 0, 0, 1, 0, 1, 1, 7, 5, 5, 5]

/-- A frame with the compression id 4, which names no codec. -/
def unknownCodecFrame : List Nat := [0, 0, 0, 2, 0, 0, 0, 1, 0, 1, 4, 9, 9]

/-! ## `Channel::New` (`channel.{h,cc}`) -/

/-- The struct `ChannelOptions` of `channel.h`; every field is an `int`. -/
structure ChannelOptions where
  rbuf_size : Int
  sbuf_size : Int
  min_rbuf_size : Int
  max_rbuf_size : Int
  min_sbuf_size : Int
  max_sbuf_size : Int
  connect_timeout : Int
  retry_interval : Int
  heartbeat_interval : Int
  deriving DecidableEq, Repr

/-- The constructor `ChannelOptions::ChannelOptions`. -/
def ChannelOptions.create : ChannelOptions :=
  { rbuf_size := 16 * 1024
    sbuf_size := 16 * 1024
    min_rbuf_size := 32 * 1024
    max_rbuf_size := 1024 * 1024
    min_sbuf_size := 32 * 1024
    max_sbuf_size := 1024 * 1024
    connect_timeout := 5000
    retry_interval := 1000
    heartbeat_interval := 600000 }

/-- The function `options_ok` of `channel.cc`: `ZERO_RET(param)` returns false
unless `param > 0`, and `NEGATIVE_RET(param)` unless `param >= 0`. -/
def ChannelOptions.options_ok (opt : ChannelOptions) : Bool :=
  if ¬ opt.rbuf_size > 0 then false
  else if ¬ opt.sbuf_size > 0 then false
  else if ¬ opt.min_rbuf_size > 0 then false
  else if ¬ opt.max_rbuf_size > 0 then false
  else if ¬ opt.min_sbuf_size > 0 then false
  else if ¬ opt.max_sbuf_size > 0 then false
  else if ¬ opt.connect_timeout > 0 then false
  else if ¬ opt.retry_interval > 0 then false
  else if ¬ opt.heartbeat_interval ≥ 0 then false
  else true

/-- The function `Channel::New`. An address is a number, 0 for `NULL`:
`base` is the event base, `channel` the result of `new ChannelImpl`, and
`chanptr` what `*chanptr` holds before the call. The result is the code
returned and what `*chanptr` holds after the call. -/
def Channel.New (options : ChannelOptions) (host : String) (port : Int) (base : Nat)
    (channel : Nat) (chanptr : Nat) : Nat × Nat :=
  if !options.options_ok then (kErrParam, chanptr)
  else if host.isEmpty then (kErrParam, chanptr)
  else if port ≤ 0 then (kErrParam, chanptr)
  else if base = 0 then (kErrParam, chanptr)
  else if channel = 0 then (kErrMem, chanptr)
  else (kOk, channel)

/-! ## The codecs of the threads (`channel_impl.cc`)

The static map `compressors_` takes a thread to a count and a codec. A codec
is the number of its creation, a channel likewise. Of a channel only the two
fields that its constructor and destructor use with the map are kept. -/

/-- A live `ChannelImpl`: its address and its fields `tid_` and
`compressor_`. -/
structure ChannelRef where
  addr : Nat
  tid_ : Nat
  compressor_ : Nat
  deriving DecidableEq, Repr

/-- The static member `compressors_` with the channels that are alive. Three
histories are added: the number of channels and of codecs created so far, and
the codecs deleted, in order. -/
structure Process where
  compressors_ : Nat → Option (Nat × Nat)
  channels : List ChannelRef
  next_channel : Nat
  next_codec : Nat
  deleted : List Nat

/-- The state of a process at its start. -/
def Process.init : Process :=
  { compressors_ := fun _ => none
    channels := []
    next_channel := 0
    next_codec := 0
    deleted := [] }

/-- The function `ChannelImpl::new_compressor_if_not`; the count is a
`uint64_t`. -/
def Process.new_compressor_if_not (s : Process) (tid : Nat) : Nat × Process :=
  match s.compressors_ tid with
  | some (count, comp) =>
    (comp, { s with
      compressors_ := fun t =>
        if t = tid then some ((count + 1) % 2 ^ 64, comp) else s.compressors_ t })
  | none =>
    let new_comp := s.next_codec + 1
    (new_comp, { s with
      next_codec := new_comp
      compressors_ := fun t => if t = tid then some (1, new_comp) else s.compressors_ t })

/-- The function `ChannelImpl::del_compressor_if_zero`. -/
def Process.del_compressor_if_zero (s : Process) (source tid : Nat) : Except Fault Process :=
  match s.compressors_ tid with
  | none => .error .fatal
  | some (count, comp) =>
    if comp ≠ source then .error .assertion
    else
      let count1 := (count + 2 ^ 64 - 1) % 2 ^ 64
      if count1 = 0 then
        .ok { s with
          compressors_ := fun t => if t = tid then none else s.compressors_ t
          deleted := s.deleted ++ [source] }
      else
        .ok { s with
          compressors_ := fun t => if t = tid then some (count1, comp) else s.compressors_ t }

/-- What happens to channels: one is constructed on a thread, or a live one is
deleted. -/
inductive ChannelEvent where
  | create (tid : Nat)
  | destroy (chan : Nat)
  deriving DecidableEq, Repr

/-- The constructor `ChannelImpl::ChannelImpl` on thread `tid`, as far as the
map is concerned. -/
def Process.create (s : Process) (tid : Nat) : Process :=
  let r := s.new_compressor_if_not tid
  { r.2 with
    next_channel := s.next_channel + 1
    channels := r.2.channels ++
      [{ addr := s.next_channel + 1, tid_ := tid, compressor_ := r.1 }] }

/-- The destructor `ChannelImpl::~ChannelImpl` of the channel at address `chan`,
as far as the map is concerned; deleting what is not a live channel is
undefined. -/
def Process.destroy (s : Process) (chan : Nat) : Except Fault Process :=
  match s.channels.find? (fun ch => ch.addr == chan) with
  | none => .error .undefined
  | some ch =>
    match s.del_compressor_if_zero ch.compressor_ ch.tid_ with
    | .error f => .error f
    | .ok s1 => .ok { s1 with channels := s1.channels.erase ch }

/-- One event. -/
def Process.step (s : Process) (e : ChannelEvent) : Except Fault Process :=
  match e with
  | .create tid => .ok (s.create tid)
  | .destroy chan => s.destroy chan

/-- A sequence of events. -/
def Process.run (s : Process) : List ChannelEvent → Except Fault Process
  | [] => .ok s
  | e :: rest =>
    match s.step e with
    | .error f => .error f
    | .ok s1 => s1.run rest

/-- The number of live channels created on thread `t`. -/
def Process.alive (s : Process) (t : Nat) : Nat :=
  s.channels.countP (fun ch => ch.tid_ == t)

/-- The number of constructions in a sequence of events. -/
def creations (evs : List ChannelEvent) : Nat :=
  evs.countP (fun e => match e with | .create _ => true | .destroy _ => false)

/-- The state of the map that the constructor and the destructor keep: a thread
has an entry exactly when it has live channels, the count is their number, they
all hold the codec of the entry, which is not deleted, and two threads do not
share a codec. -/
structure Process.Inv (s : Process) : Prop where
  absent : ∀ t, s.compressors_ t = none → s.alive t = 0
  present : ∀ t count comp, s.compressors_ t = some (count, comp) →
    count = s.alive t ∧ 0 < count ∧ comp ≤ s.next_codec ∧ comp ∉ s.deleted ∧
    ∀ ch ∈ s.channels, ch.tid_ = t → ch.compressor_ = comp
  bound : s.channels.length ≤ s.next_channel
  fresh : ∀ ch ∈ s.channels, ch.addr ≤ s.next_channel
  nodup : (s.channels.map ChannelRef.addr).Nodup
  gone : ∀ d ∈ s.deleted, d ≤ s.next_codec
  apart : ∀ t1 t2 c1 c2 comp, s.compressors_ t1 = some (c1, comp) →
    s.compressors_ t2 = some (c2, comp) → t1 = t2

/-- Two channels are made on thread 7 and one on thread 8; then the first one
is deleted. -/
def sampleChannels : List ChannelEvent := [.create 7, .create 7, .create 8, .destroy 1]

/-- The process after `sampleChannels`. -/
def sampleProcess : Process :=
  match Process.init.run sampleChannels with
  | .ok s => s
  | .error _ => Process.init

/-- A run on thread 7: one call is handed to the framer, and its timer expires
while it is at the current-send slot. -/
def finishedTrace : List Event :=
  [.Open 7, .CallMethod 7 sampleMethod 1 1 1 1, .SendNext, .HandleTimeout 1]

/-- The state after `finishedTrace`: message 1 is at the current-send slot,
finished, and its completion has run with `kErrTimeout`. -/
def finishedWorld : World := orInit ((World.init 7).run finishedTrace)

/-- A frame that declares a payload of 2 bytes, a meta of 2 bytes and data of 4
bytes, followed in the stream by the frame `requestFrame 1`. -/
def overlongFrame : List Nat := [0, 0, 0, 2, 0, 0, 0, 4, 0, 2, 0, 5, 1] ++ requestFrame 1

/-- A frame that declares no payload and data of 6 bytes, at the end of the
receive buffer. -/
def bodilessFrame : List Nat := [0, 0, 0, 0, 0, 0, 0, 6, 0, 0, 0]

/-- A frame with compression id 1 whose header declares a data length of
`0xFFFFFFFF`, which is -1 as an `int`. -/
def negativeDataFrame : List Nat := [0, 0, 0, 1, 255, 255, 255, 255, 0, 0, 1, 9]

/-- The bytes that a socket still delivers: those of its arrivals that carry
bytes, in order. -/
def Socket.stream : Socket → List Nat
  | [] => []
  | .bytes bs :: rest => bs ++ Socket.stream rest
  | _ :: rest => Socket.stream rest

/-- The receive side of a connection between two calls of its methods: the
buffer has `rsize_ > 0` bytes, and the unread bytes, `rbytes_` of them from
`rcur_` on, lie inside it. -/
def Connection.RecvReady (c : Connection) : Prop :=
  0 < c.rsize_ ∧ c.rbuf_.length = c.rsize_.toNat ∧ 0 ≤ c.rcur_ ∧ 0 ≤ c.rbytes_ ∧
  c.rcur_ + c.rbytes_ ≤ c.rsize_

instance (c : Connection) : Decidable c.RecvReady := by
  unfold Connection.RecvReady; infer_instance

/-- The unread bytes of the receive buffer. -/
def Connection.unread (c : Connection) : List Nat :=
  (c.rbuf_.drop c.rcur_.toNat).take c.rbytes_.toNat

/-- The statements of `Connection::Recv` from `avail = rsize_ - rbytes_` to the
next jump, as a function of the state in which they are reached, with `fuel`
further passes through `read_much:` allowed (`readMuch` is the growth of the
buffer followed by these statements, see `readMuch_eq`). -/
def Connection.recvOnce (h : Heap) (fuel : Nat) (c1 : Connection) (sock : Socket)
    (num_allocs1 : Nat) (status : Status) : Except Fault (Status × Connection × Socket) :=
  let avail := c1.rsize_ - c1.rbytes_
  if avail < 0 then .error .undefined
  else if avail = 0 then .ok (.kRecvError, c1, sock)
  else
    match sock.recv avail.toNat with
    | (.bytes bs, sock1) =>
      match poke 0 c1.rbuf_ c1.rbytes_.toNat bs with
      | none => .error .undefined
      | some mem =>
        let c2 := { c1 with rbuf_ := mem, rbytes_ := c1.rbytes_ + bs.length }
        if (bs.length : Int) = avail then
          Connection.readMuch h fuel c2 sock1 num_allocs1 .kRecvOk
        else .ok (.kRecvOk, c2, sock1)
    | (.eof, sock1) => .ok (.kRecvError, c1, sock1)
    | (.eintr, sock1) => Connection.readMuch h fuel c1 sock1 num_allocs1 status
    | (.eagain, sock1) => .ok (status, c1, sock1)
    | (.failure, sock1) => .ok (.kRecvError, c1, sock1)

/-- A connection whose unread bytes are at the start of its receive buffer, as
`Recv` has it at the label `read_much:`. -/
def Connection.AtStart (c : Connection) : Prop :=
  c.rcur_ = 0 ∧ 0 < c.rsize_ ∧ c.rbuf_.length = c.rsize_.toNat ∧ 0 ≤ c.rbytes_ ∧
  c.rbytes_ ≤ c.rsize_

/-- What `Recv` may do to a connection: the receive buffer is doubled `j` times
and the bytes `taken` are put behind the unread ones; nothing else changes. -/
def Connection.Grown (c c2 : Connection) (j : Nat) (taken : List Nat) : Prop :=
  c2 = { c with
    rsize_ := c.rsize_ * 2 ^ j
    rbytes_ := c.rbytes_ + taken.length
    rbuf_ := c2.rbuf_ } ∧
  c2.rbuf_.length = (c.rsize_ * 2 ^ j).toNat ∧
  c.rbytes_ + taken.length ≤ c.rsize_ * 2 ^ j ∧
  c2.rbuf_.take (c.rbytes_.toNat + taken.length) = c.rbuf_.take c.rbytes_.toNat ++ taken

/-- A socket on which every read finds bytes. -/
def Socket.AllBytes (sock : Socket) : Prop :=
  ∀ x ∈ sock, ∃ bs, x = Arrival.bytes bs ∧ bs ≠ []

/-- The condition under which no doubling of the receive buffer overflows an
`int`: there is room for the doublings still allowed in this call, or twice the
bytes at hand fit. -/
def Connection.Room (c : Connection) (sock : Socket) (num_allocs : Nat) : Prop :=
  c.rsize_ * 2 ^ (4 - num_allocs) ≤ 2147483647 ∨
  2 * (c.rbytes_ + sock.stream.length) ≤ 2147483647

/-- What a pass through `read_much:` does, as a property of its result `r`:
it returns; the buffer has been doubled `j` more times, at most four times in
the call; the bytes `taken` from the socket are behind the unread ones; the
status is the one on entry, `kRecvOk` or `kRecvError`; and when the allocator
does not fail and every read finds bytes, the status is `kRecvOk` exactly when
bytes were taken. -/
def Connection.ReadResult (h : Heap) (c : Connection) (sock : Socket) (n : Nat)
    (status : Status) (r : Except Fault (Status × Connection × Socket)) : Prop :=
  ∃ st c2 sock2 taken j, r = .ok (st, c2, sock2) ∧ n + j ≤ 4 ∧ c.Grown c2 j taken ∧
    taken ++ sock2.stream = sock.stream ∧ sock2.length ≤ sock.length ∧
    (st = status ∨ st = .kRecvOk ∨ st = .kRecvError) ∧
    ((∀ p m, (h.realloc p m).isSome) → sock.AllBytes →
      sock2.AllBytes ∧
      ((taken ≠ [] ∧ st = .kRecvOk) ∨
        (taken = [] ∧ st = status ∧ (sock = [] ∨ (c.rsize_ ≤ c.rbytes_ ∧ n = 4)))))

/-- A socket on which 300 bytes wait. -/
def floodSocket : Socket := [.bytes (List.replicate 300 7)]

/-! ## Server connection: responding, sending and closing

The event of the socket, the socket itself and `EnableUpload` are outside the
state. `ReleaseConnection` tells whether it calls `worker_->Unlink(this)`; the
call is made by the worker below. -/

/-- The method `ServerController::NotifyOnCancel` of the controller of the
message at address `p`, called on `thread` with the callback `cb`. -/
def ServerWorld.NotifyOnCancel (w : ServerWorld) (p cb thread : Nat) : Except Fault ServerWorld :=
  match w.msgs p with
  | none => .error .undefined
  | some m =>
    if m.controller_.tid_ ≠ thread then .error .fatal
    else if m.controller_.closure_.isSome then .error .fatal
    else if m.controller_.cancel_ then .ok { w with notified := w.notified ++ [p] }
    else
      .ok { w with
        msgs := fun q =>
          if q = p then some { m with controller_ := { m.controller_ with closure_ := some cb } }
          else w.msgs q }

/-- The method `ServerMessage::FinishMethod` on the message at address `p`,
which is `ServerController::FinishRequest`. -/
def ServerWorld.FinishMethod (w : ServerWorld) (p : Nat) : Except Fault ServerWorld :=
  match w.msgs p with
  | none => .error .undefined
  | some m =>
    if m.controller_.cancel_ then .ok w
    else
      .ok { w with
        msgs := fun q =>
          if q = p then some { m with controller_ := { m.controller_ with closure_ := none } }
          else w.msgs q
        notified := if m.controller_.closure_.isSome then w.notified ++ [p] else w.notified }

/-- The statement `delete msg` on the message at address `p`; the destructor
of its controller asserts `closure_ == NULL`. -/
def ServerWorld.deleteMsg (w : ServerWorld) (p : Nat) : Except Fault ServerWorld :=
  match w.msgs p with
  | none => .error .undefined
  | some m =>
    if m.controller_.closure_.isSome then .error .assertion
    else .ok { w with msgs := fun q => if q = p then none else w.msgs q }

/-- The loop of `CloseConnection` over the send queue: `msg->FinishMethod();
delete msg;` for each item. -/
def ServerWorld.finishAll (w : ServerWorld) : List MsgItem → Except Fault ServerWorld
  | [] => .ok w
  | it :: rest =>
    match w.FinishMethod it.2 with
    | .error f => .error f
    | .ok w1 =>
      match w1.deleteMsg it.2 with
      | .error f => .error f
      | .ok w2 => w2.finishAll rest

/-- The method `ServerConnection::CloseConnection`. Both `DelTimerKeepalive`
and `DelClockKeepalive` leave `has_timer_` false. Nothing is done with the
receive queue (the source has the comment `TODO: cancel recvq_` there). -/
def ServerWorld.CloseConnection (w : ServerWorld) : Except Fault ServerWorld :=
  if !w.conn.connected_ then .ok w
  else
    let w1 := { w with conn := { w.conn with has_timer_ := false, connected_ := false } }
    match w1.finishAll w1.conn.sendq_ with
    | .error f => .error f
    | .ok w2 => .ok { w2 with conn := { w2.conn with sendq_ := [], cur_send_ := (0, 0) } }

/-- The method `ServerConnection::ReleaseConnection`; the result tells whether
`worker_->Unlink(this)` is called. -/
def ServerWorld.ReleaseConnection (w : ServerWorld) : Except Fault Bool :=
  if w.conn.sendq_ ≠ [] then .error .assertion
  else if w.conn.recvq_ ≠ [] then .ok false
  else .ok true

/-- The method `ServerConnection::Close` (`SendFail`, `RecvFail` and the end of
`HandleTimerKeepalive` are the same two calls); the boolean tells whether the
worker is asked to unlink the connection. -/
def ServerWorld.Close (w : ServerWorld) : Except Fault (Bool × ServerWorld) :=
  match w.CloseConnection with
  | .error f => .error f
  | .ok w1 =>
    match w1.ReleaseConnection with
    | .error f => .error f
    | .ok r => .ok (r, w1)

/-- The method `ServerConnection::OnRpcResponse` for the message at address
`p`; the boolean tells whether the worker is asked to unlink the connection. -/
def ServerWorld.OnRpcResponse (w : ServerWorld) (p : Nat) : Except Fault (Bool × ServerWorld) :=
  match w.msgs p with
  | none => .error .undefined
  | some m =>
    match find_if w.conn.recvq_ m.id with
    | none => .error .fatal
    | some _ =>
      let w1 := { w with conn := { w.conn with recvq_ := erase_found w.conn.recvq_ m.id } }
      if !w1.conn.connected_ then
        match w1.FinishMethod p with
        | .error f => .error f
        | .ok w2 =>
          match w2.deleteMsg p with
          | .error f => .error f
          | .ok w3 =>
            match w3.ReleaseConnection with
            | .error f => .error f
            | .ok r => .ok (r, w3)
      else
        .ok (false, { w1 with conn := { w1.conn with sendq_ := w1.conn.sendq_ ++ [(m.id, p)] } })

/-- The method `ServerMessage::OnRpcDone` of the message at address `p`, run on
`thread` by the service when the call is complete; it ends in
`ServerConnection::Send`, which is `OnRpcResponse`. -/
def ServerWorld.OnRpcDone (w : ServerWorld) (p thread : Nat) : Except Fault (Bool × ServerWorld) :=
  match w.msgs p with
  | none => .error .undefined
  | some m =>
    if m.controller_.tid_ ≠ thread then .error .fatal
    else
      let m1 :=
        if m.controller_.code_ ≠ 0 then
          { m with
            meta_ := { m.meta_ with
              code := m.controller_.code_
              error_text := m.controller_.error_text_ } }
        else m
      ({ w with msgs := fun q => if q = p then some m1 else w.msgs q } : ServerWorld).OnRpcResponse p

/-- The method `ServerConnection::OnRpcFinish` for the message at address
`p`. -/
def ServerWorld.OnRpcFinish (w : ServerWorld) (p : Nat) : Except Fault ServerWorld :=
  match w.msgs p with
  | none => .error .undefined
  | some m =>
    match find_if w.conn.sendq_ m.id with
    | none => .error .fatal
    | some _ =>
      let w1 := { w with conn := { w.conn with sendq_ := erase_found w.conn.sendq_ m.id } }
      match w1.FinishMethod p with
      | .error f => .error f
      | .ok w2 =>
        match w2.deleteMsg p with
        | .error f => .error f
        | .ok w3 =>
          if !w3.conn.use_clock_ then .ok { w3 with conn := { w3.conn with has_timer_ := true } }
          else .ok { w3 with conn := { w3.conn with update_ := w3.clock } }

/-- The method `ServerConnection::SendNext`: the address of the message to
send, `none` when it returns false. -/
def ServerWorld.SendNext (w : ServerWorld) : Option Nat × ServerWorld :=
  match w.conn.sendq_ with
  | [] => (none, w)
  | it :: _ => (some it.2, { w with conn := { w.conn with cur_send_ := it } })

/-- The method `ServerConnection::SendDone` for the message at address `p`. -/
def ServerWorld.SendDone (w : ServerWorld) (p : Nat) : Except Fault ServerWorld :=
  if w.conn.cur_send_.2 ≠ p then .error .assertion
  else
    match w.OnRpcFinish p with
    | .error f => .error f
    | .ok w1 => .ok { w1 with conn := { w1.conn with cur_send_ := (0, 0) } }

/-- The destructor `ServerConnection::~ServerConnection`, which is three
assertions. -/
def ServerWorld.destroy (w : ServerWorld) : Except Fault Unit :=
  if w.conn.has_timer_ ≠ false then .error .assertion
  else if w.conn.recvq_ ≠ [] then .error .assertion
  else if w.conn.sendq_ ≠ [] then .error .assertion
  else .ok ()

/-! ## The worker (`worker.cc`)

The map `clients_` is kept as a list in ascending order of the addresses of
the connections, so that `clients_.begin()` is its head; with each address is
the state of the connection there. -/

/-- The class `Worker`: its connections, whether its codec is allocated, and
the addresses of the connections deleted so far, in order. -/
structure Worker where
  clients_ : List (Nat × ServerWorld)
  has_compressor : Bool
  deleted : List Nat

/-- The call `clients_.insert(Client(conn, conn))` of `HandleLink`; a key
already present is left alone. -/
def clients_insert (conn : Nat) (w : ServerWorld) :
    List (Nat × ServerWorld) → List (Nat × ServerWorld)
  | [] => [(conn, w)]
  | (a, x) :: rest =>
    if conn < a then (conn, w) :: (a, x) :: rest
    else if conn = a then (a, x) :: rest
    else (a, x) :: clients_insert conn w rest

/-- The method `Worker::HandleLink`, after the new connection has been built
at address `conn` with the state `w`. -/
def Worker.HandleLink (wk : Worker) (conn : Nat) (w : ServerWorld) : Worker :=
  { wk with clients_ := clients_insert conn w wk.clients_ }

/-- The method `Worker::Unlink`. -/
def Worker.Unlink (wk : Worker) (conn : Nat) : Except Fault Worker :=
  match wk.clients_.find? (fun e => e.1 == conn) with
  | none => .error .fatal
  | some e =>
    match e.2.destroy with
    | .error f => .error f
    | .ok _ =>
      .ok { wk with
        clients_ := wk.clients_.eraseP (fun e => e.1 == conn)
        deleted := wk.deleted ++ [conn] }

/-- The call `conn->Close()` on the connection at address `conn`, with the call
of `Unlink` that it may make. A connection that is not alive is a dangling
pointer. -/
def Worker.Close (wk : Worker) (conn : Nat) : Except Fault Worker :=
  match wk.clients_.find? (fun e => e.1 == conn) with
  | none => .error .undefined
  | some e =>
    match e.2.Close with
    | .error f => .error f
    | .ok (unlink, w1) =>
      let wk1 := { wk with
        clients_ := wk.clients_.map (fun x => if x.1 = conn then (x.1, w1) else x) }
      if unlink then wk1.Unlink conn else .ok wk1

/-- The loop `while (!clients_.empty()) { it = clients_.begin();
it->second->Close(); }` of `ExitWorker`, one iteration for each unit of
fuel. -/
def Worker.closeAll : Nat → Worker → Except Fault Worker
  | 0, _ => .error .diverge
  | fuel + 1, wk =>
    match wk.clients_ with
    | [] => .ok wk
    | e :: _ =>
      match wk.Close e.1 with
      | .error f => .error f
      | .ok wk1 => Worker.closeAll fuel wk1

/-- The method `Worker::ExitWorker`; `exit_cb` is the effect of the callback of
the user on the worker. -/
def Worker.ExitWorker (exit_cb : Worker → Except Fault Worker) (fuel : Nat) (wk : Worker) :
    Except Fault Worker :=
  match exit_cb wk with
  | .error f => .error f
  | .ok wk1 =>
    match Worker.closeAll fuel wk1 with
    | .error f => .error f
    | .ok wk2 => .ok { wk2 with has_compressor := false }

/-- The function `ExitWorker` of `server.cc`, the callback of the default
options: it writes a line to the log. -/
def defaultExit (wk : Worker) : Except Fault Worker := .ok wk

/-! ## Sample server connections -/

/-- The protobuf stand-in `sampleProtobuf` with one more kind of meta: the
selector 4 sets the cancel flag. -/
def cancelProtobuf : Protobuf :=
  { parseMeta := fun bs =>
      match bs with
      | [seq, 4] =>
        some { sequence := seq, service := "", method := "",
               compression_type := 0, cancel := true, code := 0, error_text := "" }
      | _ => sampleProtobuf.parseMeta bs
    parseRequest := sampleProtobuf.parseRequest }

/-- An uncompressed frame with the meta `[seq, sel]` and no data. -/
def metaFrame (seq sel : Nat) : List Nat := [0, 0, 0, 2, 0, 0, 0, 0, 0, 2, 0, seq, sel]

/-- The result of a step on a server connection, the state before it when the
step does not return. -/
def servedOr (w : ServerWorld) (r : Except Fault ServerWorld) : ServerWorld :=
  match r with
  | .ok w1 => w1
  | .error _ => w

/-- The same for a step that may ask for the connection to be unlinked. -/
def respondedOr (w : ServerWorld) (r : Except Fault (Bool × ServerWorld)) : ServerWorld :=
  match r with
  | .ok (_, w1) => w1
  | .error _ => w

/-- The connection `echoWorld` after the request with sequence number 5 has
arrived: the message, at address 1, is with the service. -/
def busyWorld : ServerWorld :=
  respondedOr echoWorld (ServerWorld.RecvDone cancelProtobuf echoWorld [5, 1] 2 0)

/-- The connection `busyWorld` after a second request, with sequence number 6,
has arrived (the message at address 2), the service has registered the
callbacks 66 and 77 for the two messages with `NotifyOnCancel`, and it has
answered the first request. -/
def answeredWorld : ServerWorld :=
  let w1 := respondedOr busyWorld (ServerWorld.RecvDone cancelProtobuf busyWorld [6, 1] 2 0)
  let w2 := servedOr w1 (w1.NotifyOnCancel 1 66 9)
  let w3 := servedOr w2 (w2.NotifyOnCancel 2 77 9)
  respondedOr w3 (w3.OnRpcDone 1 9)

/-- The connection `answeredWorld` after `SendNext`: the answer to the first
request is being sent. -/
def sendingWorld : ServerWorld := answeredWorld.SendNext.2

/-- The connection `echoWorld` after a request has arrived, has been answered,
and the service of the answer has registered no callback. -/
def repliedWorld : ServerWorld := respondedOr busyWorld (busyWorld.OnRpcDone 1 9)

/-- A worker with one connection, at address 100, in the state `busyWorld`. -/
def busyWorker : Worker :=
  Worker.HandleLink { clients_ := [], has_compressor := true, deleted := [] } 100 busyWorld

/-- The worker `busyWorker` after `Close` on its connection. -/
def closedWorker : Worker :=
  match busyWorker.Close 100 with
  | .ok wk => wk
  | .error _ => busyWorker

/-- The meta of a cancel frame for the sequence number `seq`. -/
def cancelMeta (seq : Nat) : MsgMeta :=
  { sequence := seq, service := "", method := "", compression_type := 0, cancel := true,
    code := 0, error_text := "" }

/-- What the claims look at in the controller of the message at address `p`:
whether it is canceled and the callback registered; `none` when the message is
deleted. -/
def ServerWorld.controller (w : ServerWorld) (p : Nat) : Option (Bool × Option Nat) :=
  (w.msgs p).map (fun m => (m.controller_.cancel_, m.controller_.closure_))

/-- A worker with two connections on which no request is with the service: one
fresh, one with an answer waiting to be sent. -/
def idleWorker : Worker :=
  Worker.HandleLink
    (Worker.HandleLink { clients_ := [], has_compressor := true, deleted := [] } 200 repliedWorld)
    100 echoWorld

/-! ## Client connection: connecting (`ClientConnection`)

The system calls are an oracle: an `Attempt` tells what one call of `Connect`
finds. The timer of the connection is `timer_`; a handler runs after its timer
has fired. `event_assign` and `event_add` are taken to succeed. Two histories
are kept: the number of calls of `connect` and the descriptors closed. -/

/-- The handler that `timer_.Set` is given. -/
inductive TimerKind where
  | idle
  | watch
  | heartbeat
  deriving DecidableEq, Repr

/-- The handler of the event of the socket. -/
inductive EventKind where
  | connecting
  | connected
  deriving DecidableEq, Repr

/-- The last result of `connect`: 0, -1 with `EINPROGRESS`, or -1 with another
error. -/
inductive ConnectResult where
  | success
  | inProgress
  | failure
  deriving DecidableEq, Repr

/-- What one call of `Connect` finds: whether `resolve_addr` succeeds, the
descriptor that `socket` returns (`none` for -1), whether the four settings of
the socket succeed, how often `connect` returns with `EINTR`, and its result
after that. -/
structure Attempt where
  resolve_ok : Bool
  socket : Option Int
  nonblocking_ok : Bool
  tcpnodelay_ok : Bool
  rcvbuf_ok : Bool
  sndbuf_ok : Bool
  interrupts : Nat
  result : ConnectResult
  deriving DecidableEq, Repr

/-- The fields of the class `ClientConnection` beside those of `Connection`,
with the timer scheduled (handler and interval in milliseconds), the event
added, and the two histories. -/
structure ClientConnection where
  connected_ : Bool
  connecting_ : Bool
  has_timer_ : Bool
  timer_ : Option (TimerKind × Int)
  event_ : Option EventKind
  sfd_ : Int
  connects : Nat
  closed : List Int
  deriving DecidableEq, Repr

/-- The method `ClientConnection::NewIdle`. -/
def ClientConnection.NewIdle (opt : ChannelOptions) (c : ClientConnection) :
    Except Fault ClientConnection :=
  if c.has_timer_ ≠ false then .error .assertion
  else .ok { c with has_timer_ := true, timer_ := some (.idle, opt.retry_interval) }

/-- The method `ClientConnection::NewWatcher`. -/
def ClientConnection.NewWatcher (opt : ChannelOptions) (c : ClientConnection) :
    Except Fault ClientConnection :=
  if c.has_timer_ ≠ false then .error .assertion
  else .ok { c with has_timer_ := true, timer_ := some (.watch, opt.connect_timeout) }

/-- The method `ClientConnection::NewHeartbeat`. -/
def ClientConnection.NewHeartbeat (opt : ChannelOptions) (c : ClientConnection) :
    Except Fault ClientConnection :=
  if c.has_timer_ ≠ false then .error .assertion
  else .ok { c with has_timer_ := true, timer_ := some (.heartbeat, opt.heartbeat_interval) }

/-- The method `ClientConnection::DelTimer` (`DelIdle`, `DelWatcher` and
`DelHeartbeat` call it). -/
def ClientConnection.DelTimer (c : ClientConnection) : ClientConnection :=
  if !c.has_timer_ then c else { c with has_timer_ := false, timer_ := none }

/-- The method `ClientConnection::Connected`. -/
def ClientConnection.Connected (opt : ChannelOptions) (c : ClientConnection) :
    Except Fault ClientConnection :=
  if c.connected_ ≠ false then .error .assertion
  else if c.connecting_ ≠ false then .error .assertion
  else
    let c1 := { c with connecting_ := false, connected_ := true, event_ := some .connected }
    if opt.heartbeat_interval ≠ 0 then c1.NewHeartbeat opt else .ok c1

/-- The method `ClientConnection::Connecting`. -/
def ClientConnection.Connecting (opt : ChannelOptions) (c : ClientConnection) :
    Except Fault ClientConnection :=
  if c.connected_ ≠ false then .error .assertion
  else if c.connecting_ ≠ false then .error .assertion
  else
    ({ c with connected_ := false, connecting_ := true, event_ := some .connecting }
      : ClientConnection).NewWatcher opt

/-- The method `ClientConnection::Connect`, finding `a` in the system. -/
def ClientConnection.Connect (opt : ChannelOptions) (a : Attempt) (c : ClientConnection) :
    Except Fault ClientConnection :=
  if c.connected_ ≠ false then .error .assertion
  else if c.connecting_ ≠ false then .error .assertion
  else if !a.resolve_ok then c.NewIdle opt
  else
    match a.socket with
    | none => c.NewIdle opt
    | some sfd =>
      if !a.nonblocking_ok then
        ({ c with closed := c.closed ++ [sfd] } : ClientConnection).NewIdle opt
      else if !a.tcpnodelay_ok then
        ({ c with closed := c.closed ++ [sfd] } : ClientConnection).NewIdle opt
      else if !a.rcvbuf_ok then
        ({ c with closed := c.closed ++ [sfd] } : ClientConnection).NewIdle opt
      else if !a.sndbuf_ok then
        ({ c with closed := c.closed ++ [sfd] } : ClientConnection).NewIdle opt
      else
        let c1 := { c with connects := c.connects + a.interrupts + 1 }
        match a.result with
        | .success => ({ c1 with sfd_ := sfd } : ClientConnection).Connected opt
        | .inProgress => ({ c1 with sfd_ := sfd } : ClientConnection).Connecting opt
        | .failure => ({ c1 with closed := c1.closed ++ [sfd] } : ClientConnection).NewIdle opt

/-- The connection part of the constructor
`ClientConnection::ClientConnection`, which ends in `Connect`. -/
def ClientConnection.create (opt : ChannelOptions) (a : Attempt) : Except Fault ClientConnection :=
  ({ connected_ := false
     connecting_ := false
     has_timer_ := false
     timer_ := none
     event_ := none
     sfd_ := -1
     connects := 0
     closed := [] } : ClientConnection).Connect opt a

/-- The method `ClientConnection::HandleIdleEvent`, the handler of the idle
timer. -/
def ClientConnection.HandleIdleEvent (opt : ChannelOptions) (a : Attempt)
    (c : ClientConnection) : Except Fault ClientConnection :=
  if c.connected_ ≠ false then .error .assertion
  else if c.connecting_ ≠ false then .error .assertion
  else ({ c with has_timer_ := false, timer_ := none } : ClientConnection).Connect opt a

/-- The method `ClientConnection::HandleWatchEvent`, the handler of the watch
timer; the call of `Connect` at its end finds `a` in the system. -/
def ClientConnection.HandleWatchEvent (opt : ChannelOptions) (a : Attempt)
    (c : ClientConnection) : Except Fault ClientConnection :=
  if c.connected_ ≠ false then .error .assertion
  else if c.connecting_ ≠ true then .error .assertion
  else
    ({ c with
       event_ := none
       closed := c.closed ++ [c.sfd_]
       sfd_ := -1
       connecting_ := false
       has_timer_ := false
       timer_ := none } : ClientConnection).Connect opt a

/-- The method `ClientConnection::HandleConnectingEvent`; `writable` is
`flags & EV_WRITE` and `soerror` tells whether `get_soerror` or `errno`
reports an error. -/
def ClientConnection.HandleConnectingEvent (opt : ChannelOptions) (writable soerror : Bool)
    (c : ClientConnection) : Except Fault ClientConnection :=
  if c.connected_ ≠ false then .error .assertion
  else if c.connecting_ ≠ true then .error .assertion
  else
    let c1 := { c.DelTimer with event_ := none }
    if !writable then
      ({ c1 with closed := c1.closed ++ [c1.sfd_], sfd_ := -1, connecting_ := false }
        : ClientConnection).NewIdle opt
    else if soerror then
      ({ c1 with closed := c1.closed ++ [c1.sfd_], sfd_ := -1, connecting_ := false }
        : ClientConnection).NewIdle opt
    else ({ c1 with connecting_ := false } : ClientConnection).Connected opt

/-- Whether a call of `Connect` gets as far as `connect`. -/
def Attempt.reaches (a : Attempt) : Bool :=
  a.resolve_ok && a.socket.isSome && a.nonblocking_ok && a.tcpnodelay_ok && a.rcvbuf_ok &&
    a.sndbuf_ok

/-- An attempt on which `connect` returns `EINPROGRESS` for the descriptor
`sfd`. -/
def pendingAttempt (sfd : Int) : Attempt :=
  { resolve_ok := true
    socket := some sfd
    nonblocking_ok := true
    tcpnodelay_ok := true
    rcvbuf_ok := true
    sndbuf_ok := true
    interrupts := 0
    result := .inProgress }

/-- An attempt that `connect` refuses at once for the descriptor `sfd`. -/
def refusedAttempt (sfd : Int) : Attempt := { pendingAttempt sfd with result := .failure }

/-- A client connection built with the default options whose first `connect`,
on the descriptor 3, is in progress. -/
def connectingClient : ClientConnection :=
  match ClientConnection.create ChannelOptions.create (pendingAttempt 3) with
  | .ok c => c
  | .error _ =>
    { connected_ := false, connecting_ := false, has_timer_ := false, timer_ := none,
      event_ := none, sfd_ := -1, connects := 0, closed := [] }

/-! ## Streams of frames and the loop of the event base

The spec side of the claim on partial receives: frames as pairs of meta bytes
and data bytes, their wire form, and the calls of `RecvDone` that a list of
frames stands for. The event base calls the readiness callback as long as the
socket has something to read. -/

/-- The wire form, in the spec's words, of an uncompressed frame with the meta
bytes `f.1` and the data bytes `f.2`: the header, then the meta, then the
data. -/
def specWire (f : List Nat × List Nat) : List Nat :=
  headerBytes kNoCompression f.1.length f.2.length (f.1.length + f.2.length) ++ (f.1 ++ f.2)

/-- The byte stream, in the spec's words, of a list of frames. -/
def specStream : List (List Nat × List Nat) → List Nat
  | [] => []
  | f :: rest => specWire f ++ specStream rest

/-- A frame whose lengths are within the limits of `message.h`. -/
def wellFormedFrame (f : List Nat × List Nat) : Prop :=
  f.1.length ≤ kMaxMetaSize ∧ f.2.length ≤ kMaxDataSize

/-- The call of `RecvDone`, in the spec's words, for a frame: the payload
bytes, the meta length and the data length. -/
def specCall (f : List Nat × List Nat) : List Nat × Int × Int :=
  (f.1 ++ f.2, (f.1.length : Int), (f.2.length : Int))

/-- A `RecvDone` that records what it is called with. -/
def recordDone (w : List (List Nat × Int × Int)) (payload : List Nat) (meta data : Int) :
    Except Fault (Bool × List (List Nat × Int × Int)) :=
  .ok (true, w ++ [(payload, meta, data)])

/-- The loop of the event base on a connection registered for `EV_READ`:
`HandleConnectedEvent` calls `OnRecv` as long as the socket has something to
read, and stops (with `RecvFail`) when `OnRecv` returns false. `inner` bounds
the iterations of the loop of one `OnRecv`, `fuel` the number of callbacks. -/
def Connection.eventLoop {σ : Type} (h : Heap) (cod : Codecs)
    (RecvDone : σ → List Nat → Int → Int → Except Fault (Bool × σ)) (inner : Nat) :
    Nat → Connection → Socket → σ → Except Fault (Bool × Connection × σ)
  | _, c, [], w => .ok (true, c, w)
  | 0, _, _ :: _, _ => .error .diverge
  | fuel + 1, c, a :: sock, w =>
    match Connection.OnRecv h cod RecvDone inner c (a :: sock) w with
    | .error f => .error f
    | .ok (false, c1, _, w1) => .ok (false, c1, w1)
    | .ok (true, c1, sock1, w1) => Connection.eventLoop h cod RecvDone inner fuel c1 sock1 w1

/-- The header that `Decode` holds in `rmsg_hdr_` for the frame `g`. -/
def hdrOf (g : List Nat × List Nat) : MsgHdr :=
  { payload_ := ((g.1.length + g.2.length : Nat) : Int)
    data_ := (g.2.length : Int)
    meta_ := (g.1.length : Int)
    compression_ := 0 }

/-- The connection has the bytes `q` of the stream still to parse, the frame to
come being `g`: either no header is held and `q` is the unread bytes, or the
header of `g` is held and `q` is that header followed by the unread bytes. -/
def Connection.Pending (c : Connection) (g : List Nat × List Nat) (q : List Nat) : Prop :=
  c.RecvReady ∧
  ((c.rmsg_hdr_.payload_ = 0 ∧ c.unread = q) ∨
    (c.rmsg_hdr_ = hdrOf g ∧ g.1.length + g.2.length ≠ 0 ∧
      q = headerBytes kNoCompression g.1.length g.2.length (g.1.length + g.2.length) ++ c.unread))

/-- Two frames, with metas of two bytes and data of three and of no bytes. -/
def sampleFrames : List (List Nat × List Nat) := [([5, 1], [7, 8, 9]), ([6, 1], [])]

/-- The trailing frame of the sample stream. -/
def trailingFrame : List Nat × List Nat := ([4, 4], [1, 2, 3, 4])

/-- The sample frames and the first 13 bytes of the trailing frame, in chunks
that cut the first header, the first body and the second header. -/
def chunkedSocket : Socket :=
  [.bytes [0, 0, 0, 5, 0, 0], .bytes [0, 3, 0, 2, 0, 5, 1, 7], .bytes [8, 9, 0, 0, 0],
    .bytes [2, 0, 0, 0, 0, 0, 2, 0, 6, 1, 0, 0, 0, 6, 0, 0, 0, 4, 0, 2, 0, 4, 4]]

/-- The rest of the trailing frame, one byte at a time. -/
def restSocket : Socket := [.bytes [1], .bytes [2], .bytes [3], .bytes [4]]

/-! # Theorems -/

/-! ## Framing -/

/-! ## Byte order: reading back what was written -/

theorem rd16_be16 (v : Nat) (hv : v < 65536) : rd16 (be16 v) = v := by
  simp only [be16, rd16]; omega

theorem rd32_be32 (v : Nat) (hv : v < 4294967296) : rd32 (be32 v) = v := by
  simp only [be32, rd32]; omega

theorem toInt32_small (v : Nat) (hv : v < 2147483648) : toInt32 v = (v : Int) := by
  unfold toInt32
  have h1 : v % 4294967296 = v := Nat.mod_eq_of_lt (by omega)
  rw [h1]; simp [hv]

theorem be16_length (v : Nat) : (be16 v).length = 2 := rfl

theorem be32_length (v : Nat) : (be32 v).length = 4 := rfl

/-! ## Memory -/

theorem poke_at (base : Nat) (mem bs : List Nat) (k : Nat) (hk : k + bs.length ≤ mem.length) :
    poke base mem (base + k) bs = some (mem.take k ++ bs ++ mem.drop (k + bs.length)) := by
  unfold poke
  have h1 : base ≤ base + k ∧ base + k + bs.length ≤ base + mem.length := by omega
  rw [if_pos h1]; simp

theorem poke_some (base : Nat) (mem bs : List Nat) (ptr : Nat) (m : List Nat)
    (h : poke base mem ptr bs = some m) :
    base ≤ ptr ∧ ptr - base + bs.length ≤ mem.length ∧
      m = mem.take (ptr - base) ++ bs ++ mem.drop (ptr - base + bs.length) := by
  unfold poke at h
  split at h
  · rename_i hc
    simp only [Option.some.injEq] at h
    exact ⟨hc.1, by omega, h.symm⟩
  · simp at h

theorem poke_length (base : Nat) (mem bs : List Nat) (ptr : Nat) (m : List Nat)
    (h : poke base mem ptr bs = some m) : m.length = mem.length := by
  obtain ⟨_, h2, h3⟩ := poke_some base mem bs ptr m h
  subst h3
  simp only [List.length_append, List.length_take, List.length_drop]
  omega

theorem peek_at (mem : List Nat) (k n : Nat) (hk : k + n ≤ mem.length) :
    peek mem (k : Int) n = some ((mem.drop k).take n) := by
  unfold peek
  simp [hk]

theorem split_header (l : List Nat) (h : 11 ≤ l.length) :
    ∃ b0 b1 b2 b3 b4 b5 b6 b7 b8 b9 b10 rest,
      l = b0 :: b1 :: b2 :: b3 :: b4 :: b5 :: b6 :: b7 :: b8 :: b9 :: b10 :: rest := by
  rcases l with _ | ⟨b0, l⟩
  · simp at h
  rcases l with _ | ⟨b1, l⟩
  · simp at h
  rcases l with _ | ⟨b2, l⟩
  · simp at h
  rcases l with _ | ⟨b3, l⟩
  · simp at h
  rcases l with _ | ⟨b4, l⟩
  · simp at h
  rcases l with _ | ⟨b5, l⟩
  · simp at h
  rcases l with _ | ⟨b6, l⟩
  · simp at h
  rcases l with _ | ⟨b7, l⟩
  · simp at h
  rcases l with _ | ⟨b8, l⟩
  · simp at h
  rcases l with _ | ⟨b9, l⟩
  · simp at h
  rcases l with _ | ⟨b10, l⟩
  · simp at h
  exact ⟨b0, b1, b2, b3, b4, b5, b6, b7, b8, b9, b10, l, rfl⟩

theorem headerBytes_length (comp smeta sdata payload : Nat) :
    (headerBytes comp smeta sdata payload).length = 11 := rfl

theorem poke_header (b : Nat) (mem : List Nat) (h : 11 ≤ mem.length) (comp smeta sdata payload : Nat) :
    ((poke b mem (b + 10) [comp % 256]).bind fun m1 =>
      (poke b m1 (b + 8) (be16 (smeta % 65536))).bind fun m2 =>
      (poke b m2 (b + 4) (be32 (sdata % 4294967296))).bind fun m3 =>
      poke b m3 (b + 0) (be32 (payload % 4294967296)))
      = some (headerBytes comp smeta sdata payload ++ mem.drop 11) := by
  obtain ⟨b0, b1, b2, b3, b4, b5, b6, b7, b8, b9, b10, rest, hm⟩ := split_header mem h
  subst hm
  rw [poke_at _ _ _ 10 (by simp)]
  simp only [Option.some_bind]
  rw [poke_at _ _ _ 8 (by simp [be16])]
  simp only [Option.some_bind]
  rw [poke_at _ _ _ 4 (by simp [be16, be32])]
  simp only [Option.some_bind]
  rw [poke_at _ _ _ 0 (by simp [be16, be32])]
  simp [be16, be32, headerBytes]

theorem writeHeader_ok (c : Connection) (hw : c.WellFormed) (comp smeta sdata payload required : Nat) :
    c.writeHeader comp smeta sdata payload required =
      .ok (.kEncodeOk, { c with
        wmem := headerBytes comp smeta sdata payload ++ c.wmem.drop 11
        wcur_ := c.wbuf_
        wbytes_ := required }) := by
  obtain ⟨h1, h2, _, h4, h5, h6, h7, _, _⟩ := hw
  have hlen : 11 ≤ c.wmem.length := by rw [h1]; exact h2
  have e7 : c.hdr_comp_ = c.wbuf_ + 10 := by rw [h7]; simp only [kMsgPayloadSize, kMsgDataSize, kMsgMetaSize]
  have e6 : c.hdr_meta_ = c.wbuf_ + 8 := by rw [h6]; simp only [kMsgPayloadSize, kMsgDataSize]
  have e5 : c.hdr_data_ = c.wbuf_ + 4 := by rw [h5]; simp only [kMsgPayloadSize]
  unfold Connection.writeHeader
  have e4 : c.hdr_payload_ = c.wbuf_ + 0 := by rw [h4]; rfl
  simp only [e7, e6, e5, e4]
  rw [poke_header c.wbuf_ c.wmem hlen]

theorem doubleWsize_ok (fuel : Nat) : ∀ (w req w2 : Nat),
    doubleWsize fuel w req = .ok w2 → w2 ≤ INT_MAX ∧ req ≤ w2 ∧ 2 * w ≤ w2 := by
  induction fuel with
  | zero => intro w req w2 h; simp [doubleWsize] at h
  | succ n ih =>
    intro w req w2 h
    unfold doubleWsize at h
    split at h
    · simp at h
    · split at h
      · have := ih _ _ _ h
        omega
      · simp only [Except.ok.injEq] at h
        omega

theorem resized_length (mem : List Nat) (size : Nat) (h : mem.length ≤ size) :
    (resized mem size).length = size := by
  unfold resized
  simp only [List.length_append, List.length_take, List.length_replicate]
  omega

theorem resized_take (mem : List Nat) (size : Nat) (h : mem.length ≤ size) :
    (resized mem size).take mem.length = mem := by
  unfold resized
  rw [List.take_of_length_le h]
  simp

theorem ExpandWbuf_true (h : Heap) (c c1 : Connection) (req : Nat) (hw : c.WellFormed)
    (he : c.ExpandWbuf h req = .ok (true, c1)) :
    c1.WellFormed ∧ req ≤ c1.wsize_ ∧ 2 * c.wsize_ ≤ c1.wsize_ ∧
      c1.compressor_ = c.compressor_ ∧ c1.wmem.take c.wsize_ = c.wmem := by
  unfold Connection.ExpandWbuf at he
  split at he
  · simp at he
  · rename_i wsize hd
    have hd2 := doubleWsize_ok _ _ _ _ hd
    obtain ⟨h1, h2, h3, h4, h5, h6, h7, h8, h9⟩ := hw
    split at he
    · simp at he
    · rename_i nbuf hr
      simp only [Except.ok.injEq, Prod.mk.injEq, true_and] at he
      subst he
      have hlen : c.wmem.length ≤ wsize := by omega
      refine ⟨⟨?_, ?_, ?_, rfl, rfl, rfl, rfl, rfl, ?_⟩, ?_, ?_, rfl, ?_⟩
      · exact resized_length _ _ hlen
      · show kMsgHdrSize ≤ wsize
        omega
      · exact hd2.1
      · exact h9
      · exact hd2.2.1
      · exact hd2.2.2
      · show (resized c.wmem wsize).take c.wsize_ = c.wmem
        rw [← h1]; exact resized_take _ _ hlen

theorem Compress_ok (cod : Codecs) (z : Compressor) (inp : List Nat) (olen : Nat) (out : List Nat)
    (h : z.Compress cod inp olen = .ok (.kCompOk, out)) :
    ∃ lib, libOf cod z.type_ = some lib ∧ out = lib.deflate inp := by
  unfold Compressor.Compress at h
  unfold libOf
  split at h
  · rename_i h3
    rw [if_pos h3]
    unfold SnappyCompress at h
    split at h
    · simp at h
    · simp only [Except.ok.injEq, Prod.mk.injEq, true_and] at h
      exact ⟨_, rfl, h.symm⟩
  · rename_i h3
    rw [if_neg h3]
    split at h
    · rename_i h2
      rw [if_pos h2]
      unfold Lz4Compress at h
      by_cases hfit : (cod.lz4.deflate inp).length ≤ olen
      · simp only [hfit, if_true] at h
        split_ifs at h <;>
          simp only [Except.ok.injEq, Prod.mk.injEq, true_and, false_and, reduceCtorEq] at h
        exact ⟨_, rfl, h.symm⟩
      · simp only [hfit, if_false, List.length_nil, gt_iff_lt, lt_self_iff_false] at h
        split_ifs at h <;>
          simp only [Except.ok.injEq, Prod.mk.injEq, true_and, false_and, reduceCtorEq] at h
    · rename_i h2
      rw [if_neg h2]
      split at h
      · rename_i h1
        rw [if_pos h1]
        unfold ZlibCompress at h
        split at h
        · simp at h
        · split at h
          · simp only [Except.ok.injEq, Prod.mk.injEq, true_and] at h
            exact ⟨_, rfl, h.symm⟩
          · simp at h
      · simp at h

theorem compressLoop_ok (h : Heap) (cod : Codecs) (fuel : Nat) :
    ∀ (c : Connection) (payload rlen : Nat) (c2 : Connection), c.WellFormed →
      Connection.compressLoop h cod fuel c payload = .ok (some (rlen, c2)) →
      c2.WellFormed ∧ c2.compressor_ = c.compressor_ ∧
        ∃ lib, libOf cod c.compressor_.type_ = some lib ∧
          rlen = (lib.deflate (c.compressor_.buffer_.take payload)).length ∧
          rlen + 11 ≤ c2.wsize_ ∧
          (c2.wmem.drop 11).take rlen = lib.deflate (c.compressor_.buffer_.take payload) := by
  induction fuel with
  | zero => intro c payload rlen c2 _ he; simp [Connection.compressLoop] at he
  | succ n ih =>
    intro c payload rlen c2 hw he
    unfold Connection.compressLoop at he
    simp only at he
    split at he
    · simp at he
    · rename_i out hc
      obtain ⟨lib, hl1, hl2⟩ := Compress_ok _ _ _ _ _ hc
      split at he
      · simp at he
      · rename_i m hp
        split at he
        · simp at he
        · simp only [Except.ok.injEq, Option.some.injEq, Prod.mk.injEq] at he
          obtain ⟨he1, he2⟩ := he
          subst he2
          obtain ⟨hp1, hp2, hp3⟩ := poke_some _ _ _ _ _ hp
          have hlen := poke_length _ _ _ _ _ hp
          obtain ⟨h1, h2, h3, h4, h5, h6, h7, h8, h9⟩ := hw
          have hoff : c.msg_body_ - c.wbuf_ = 11 := by rw [h8]; simp [kMsgHdrSize]
          rw [hoff] at hp2 hp3
          refine ⟨⟨?_, h2, h3, h4, h5, h6, h7, h8, h9⟩, rfl, lib, hl1, ?_, ?_, ?_⟩
          · show m.length = c.wsize_
            rw [hlen]; exact h1
          · rw [← he1, hl2]
          · show rlen + 11 ≤ c.wsize_
            rw [← he1, ← h1]; omega
          · show (m.drop 11).take rlen = _
            rw [hp3, ← he1, ← hl2]
            have ht : (c.wmem.take 11).length = 11 := by
              rw [List.length_take]; omega
            rw [List.append_assoc, List.drop_append_of_le_length (by omega), List.drop_of_length_le (by omega)]
            simp
    · split at he
      · simp at he
      · split at he
        · simp at he
        · rename_i c1 hx
          obtain ⟨hw1, _, _, hz, _⟩ := ExpandWbuf_true _ _ _ _ hw hx
          have := ih c1 payload rlen c2 hw1 he
          rw [hz] at this
          exact this
        · simp at he
    · simp at he

theorem growLen_ge (fuel : Nat) : ∀ (l len n : Nat), growLen fuel l len = .ok n → len ≤ n := by
  induction fuel with
  | zero => intro l len n h; simp [growLen] at h
  | succ k ih =>
    intro l len n h
    unfold growLen at h
    split at h
    · exact ih _ _ _ h
    · simp only [Except.ok.injEq] at h
      omega

theorem ExpandBufferCache_ok (h : Heap) (z z1 : Compressor) (len : Nat)
    (hz : z.buffer_.length = z.len_) (he : z.ExpandBufferCache h len = .ok z1) :
    z1.buffer_.length = z1.len_ ∧ len ≤ z1.len_ ∧ z1.type_ = z.type_ := by
  unfold Compressor.ExpandBufferCache at he
  split at he
  · simp only [Except.ok.injEq] at he
    subst he
    exact ⟨hz, by assumption, rfl⟩
  · rename_i hlt
    simp only at he
    split at he
    · simp at he
    · rename_i n hg
      have hn := growLen_ge _ _ _ _ hg
      split at he
      · simp at he
      · simp only [Except.ok.injEq] at he
        subst he
        refine ⟨?_, hn, rfl⟩
        show (resized z.buffer_ n).length = n
        exact resized_length _ _ (by omega)

theorem encodePlain_ok (h : Heap) (c c2 : Connection) (m : Message) (comp : Nat)
    (hw : c.WellFormed)
    (he : c.encodePlain h m comp m.smeta.length m.sdata.length
      (m.smeta.length + m.sdata.length) (m.smeta.length + m.sdata.length + kMsgHdrSize)
        = .ok (.kEncodeOk, c2)) :
    c2.WellFormed ∧ c2.wcur_ = c2.wbuf_ ∧ c2.wbytes_ = (m.smeta ++ m.sdata).length + 11 ∧
      (m.smeta ++ m.sdata).length + 11 ≤ c2.wsize_ ∧
      c2.wmem.take ((m.smeta ++ m.sdata).length + 11) =
        headerBytes comp m.smeta.length m.sdata.length (m.smeta ++ m.sdata).length ++
          (m.smeta ++ m.sdata) := by
  unfold Connection.encodePlain at he
  split at he
  · simp at he
  · simp at he
  · rename_i c1 hx
    have hc1 : c1.WellFormed ∧ m.smeta.length + m.sdata.length + kMsgHdrSize ≤ c1.wsize_ := by
      split_ifs at hx with hreq
      · obtain ⟨a, b, _⟩ := ExpandWbuf_true _ _ _ _ hw hx
        exact ⟨a, b⟩
      · simp only [Except.ok.injEq, Prod.mk.injEq, true_and] at hx
        subst hx
        exact ⟨hw, by omega⟩
    obtain ⟨hw1, hsz⟩ := hc1
    unfold Message.SerializeToArray at he
    simp only [gt_iff_lt, lt_self_iff_false, if_false] at he
    split at he
    · simp at he
    · rename_i mem hp
      obtain ⟨hp1, hp2, hp3⟩ := poke_some _ _ _ _ _ hp
      have hlen := poke_length _ _ _ _ _ hp
      obtain ⟨h1, h2, h3, h4, h5, h6, h7, h8, h9⟩ := hw1
      have hoff : c1.msg_body_ - c1.wbuf_ = 11 := by rw [h8]; simp [kMsgHdrSize]
      rw [hoff] at hp2 hp3
      have hw2 : ({ c1 with wmem := mem } : Connection).WellFormed :=
        ⟨by show mem.length = c1.wsize_; rw [hlen]; exact h1, h2, h3, h4, h5, h6, h7, h8, h9⟩
      rw [writeHeader_ok _ hw2] at he
      simp only [Except.ok.injEq, Prod.mk.injEq, true_and] at he
      subst he
      refine ⟨?_, rfl, ?_, ?_, ?_⟩
      · refine ⟨?_, h2, h3, h4, h5, h6, h7, h8, h9⟩
        show (headerBytes _ _ _ _ ++ mem.drop 11).length = c1.wsize_
        rw [List.length_append, headerBytes_length, List.length_drop, hlen, h1]
        simp only [kMsgHdrSize] at h2
        omega
      · show m.smeta.length + m.sdata.length + kMsgHdrSize = (m.smeta ++ m.sdata).length + 11
        simp [kMsgHdrSize]
      · show (m.smeta ++ m.sdata).length + 11 ≤ c1.wsize_
        simp only [kMsgHdrSize, List.length_append] at hsz ⊢
        omega
      · show (headerBytes _ _ _ _ ++ mem.drop 11).take ((m.smeta ++ m.sdata).length + 11) = _
        have hd11 : mem.drop 11 = (m.smeta ++ m.sdata) ++
            c1.wmem.drop (11 + (m.smeta ++ m.sdata).length) := by
          rw [hp3]
          have ht : (c1.wmem.take 11).length = 11 := by
            rw [List.length_take]; omega
          rw [List.append_assoc, List.drop_append_of_le_length (by omega),
            List.drop_of_length_le (by omega)]
          simp
        rw [hd11, List.take_append_eq_append_take, headerBytes_length]
        rw [List.take_of_length_le (by rw [headerBytes_length]; omega)]
        rw [Nat.add_sub_cancel, List.take_left' rfl, List.length_append]

theorem encodeCompressed_ok (h : Heap) (cod : Codecs) (c c2 : Connection) (m : Message)
    (comp : Nat) (hw : c.WellFormed)
    (he : c.encodeCompressed h cod m comp m.smeta.length m.sdata.length
      (m.smeta.length + m.sdata.length) = .ok (.kEncodeOk, c2)) :
    ∃ lib, libOf cod comp = some lib ∧
      c2.WellFormed ∧ c2.wcur_ = c2.wbuf_ ∧
      c2.wbytes_ = (lib.deflate (m.smeta ++ m.sdata)).length + 11 ∧
      (lib.deflate (m.smeta ++ m.sdata)).length + 11 ≤ c2.wsize_ ∧
      (lib.deflate (m.smeta ++ m.sdata)).length + 11 ≤ INT_MAX ∧
      c2.wmem.take ((lib.deflate (m.smeta ++ m.sdata)).length + 11) =
        headerBytes comp m.smeta.length m.sdata.length (lib.deflate (m.smeta ++ m.sdata)).length ++
          lib.deflate (m.smeta ++ m.sdata) := by
  unfold Connection.encodeCompressed at he
  split at he
  · simp at he
  · rename_i z1 hz
    obtain ⟨h1, h2, h3, h4, h5, h6, h7, h8, h9⟩ := hw
    obtain ⟨hz1, hz2, hz3⟩ := ExpandBufferCache_ok h (c.compressor_.UseCompression comp)
      z1 _ (by simpa [Compressor.UseCompression] using h9) hz
    unfold Message.SerializeToArray at he
    simp only [gt_iff_lt, lt_self_iff_false, if_false] at he
    split at he
    · simp at he
    · rename_i tmp hp
      obtain ⟨_, hp2, hp3⟩ := poke_some _ _ _ _ _ hp
      have hlen := poke_length _ _ _ _ _ hp
      simp only [Nat.sub_zero, Nat.zero_add, List.take_zero, List.nil_append] at hp2 hp3
      split at he
      · simp at he
      · simp at he
      · rename_i rlen c3 hl
        have hws : ({ c with compressor_ := { z1 with buffer_ := tmp } } : Connection).WellFormed :=
          ⟨h1, h2, h3, h4, h5, h6, h7, h8, by show tmp.length = z1.len_; rw [hlen]; exact hz1⟩
        obtain ⟨hw3, _, lib, hl1, hl2, hl3, hl4⟩ := compressLoop_ok _ _ _ _ _ _ _ hws hl
        simp only at hl1 hl2 hl4
        have htake : tmp.take (m.smeta.length + m.sdata.length) = m.smeta ++ m.sdata := by
          rw [hp3]
          exact List.take_left' (by simp)
        rw [htake] at hl2 hl4
        split_ifs at he with hov2
        rw [writeHeader_ok _ hw3] at he
        simp only [Except.ok.injEq, Prod.mk.injEq, true_and] at he
        subst he
        obtain ⟨g1, g2, g3, g4, g5, g6, g7, g8, g9⟩ := hw3
        refine ⟨lib, ?_, ?_, rfl, ?_, ?_, ?_, ?_⟩
        · rw [← hl1, hz3]
          rfl
        · refine ⟨?_, g2, g3, g4, g5, g6, g7, g8, g9⟩
          show (headerBytes _ _ _ _ ++ c3.wmem.drop 11).length = c3.wsize_
          rw [List.length_append, headerBytes_length, List.length_drop, g1]
          simp only [kMsgHdrSize] at g2
          omega
        · show rlen + kMsgHdrSize = _
          rw [hl2]; simp [kMsgHdrSize]
        · show _ ≤ c3.wsize_
          rw [← hl2]; exact hl3
        · rw [← hl2]
          simp only [kMsgHdrSize] at hov2
          omega
        · show (headerBytes _ _ _ _ ++ c3.wmem.drop 11).take _ = _
          rw [List.take_append_eq_append_take, headerBytes_length]
          rw [List.take_of_length_le (by rw [headerBytes_length]; omega)]
          rw [← hl2]
          simp only [Nat.add_sub_cancel]
          rw [hl4]

theorem Encode_ok (h : Heap) (cod : Codecs) (c c2 : Connection) (m : Message)
    (hw : c.WellFormed) (he : c.Encode h cod m = .ok (.kEncodeOk, c2)) :
    ∃ comp body, c2.WellFormed ∧ c2.wcur_ = c2.wbuf_ ∧ c2.wbytes_ = body.length + 11 ∧
      body.length + 11 ≤ c2.wsize_ ∧ body.length + 11 ≤ INT_MAX ∧
      c2.wmem.take (body.length + 11) =
        headerBytes comp m.smeta.length m.sdata.length body.length ++ body ∧
      m.smeta.length ≤ kMaxMetaSize ∧ m.sdata.length ≤ kMaxDataSize ∧
      m.Framed cod comp body := by
  unfold Connection.Encode Message.ByteSize at he
  by_cases hm : m.smeta.length > kMaxMetaSize
  · simp [hm] at he
  by_cases hd : m.sdata.length > kMaxDataSize
  · simp [hm, hd] at he
  simp only [hm, hd, if_false] at he
  by_cases hov : m.smeta.length + m.sdata.length + kMsgHdrSize > INT_MAX
  · simp [hov] at he
  simp only [hov, if_false] at he
  by_cases hth : m.smeta.length + m.sdata.length < kCompressionThreshold
  · simp only [hth, if_true, Bool.not_false] at he
    obtain ⟨a, b, c', d, e⟩ := encodePlain_ok h c c2 m _ hw he
    exact ⟨_, _, a, b, c', d, by simp only [List.length_append, kMsgHdrSize] at hov ⊢; omega, e,
      by omega, by omega, Or.inl ⟨rfl, rfl, Or.inl hth⟩⟩
  · simp only [hth, if_false] at he
    by_cases hk : m.compression_type = kNoCompression
    · simp only [hk, ne_eq, not_true_eq_false, decide_False, Bool.not_false, if_true] at he
      obtain ⟨a, b, c', d, e⟩ := encodePlain_ok h c c2 m _ hw he
      exact ⟨_, _, a, b, c', d, by simp only [List.length_append, kMsgHdrSize] at hov ⊢; omega, e,
        by omega, by omega, Or.inl ⟨rfl, rfl, Or.inr hk⟩⟩
    · simp only [ne_eq, hk, not_false_eq_true, decide_True, Bool.not_true, Bool.false_eq_true,
        if_false] at he
      obtain ⟨lib, hl, a, b, c', d, e, f⟩ := encodeCompressed_ok h cod c c2 m _ hw he
      exact ⟨_, _, a, b, c', d, e, f, by omega, by omega,
        Or.inr ⟨by omega, rfl, hk, lib, hl, rfl⟩⟩

theorem readHeader_headerBytes (comp smeta sdata payload : Nat) (hc : comp < 256)
    (hm : smeta < 65536) (hd : sdata < 2147483648) (hp : payload < 2147483648) :
    readHeader (headerBytes comp smeta sdata payload) =
      { compression_ := (comp : Int), meta_ := (smeta : Int), data_ := (sdata : Int),
        payload_ := (payload : Int) } := by
  have e1 : comp % 256 = comp := Nat.mod_eq_of_lt hc
  have e2 : smeta % 65536 = smeta := Nat.mod_eq_of_lt hm
  have e3 : sdata % 4294967296 = sdata := Nat.mod_eq_of_lt (by omega)
  have e4 : payload % 4294967296 = payload := Nat.mod_eq_of_lt (by omega)
  unfold headerBytes
  rw [e1, e2, e3, e4]
  have r1 : rd32 (be32 payload) = payload := rd32_be32 _ (by omega)
  have r2 : rd32 (be32 sdata) = sdata := rd32_be32 _ (by omega)
  have r3 : rd16 (be16 smeta) = smeta := rd16_be16 _ hm
  have t1 := toInt32_small payload hp
  have t2 := toInt32_small sdata hd
  unfold readHeader
  have a1 : (be32 payload ++ be32 sdata ++ be16 smeta ++ [comp]).take 4 = be32 payload := by
    simp [be32]
  have a2 : ((be32 payload ++ be32 sdata ++ be16 smeta ++ [comp]).drop 4).take 4 = be32 sdata := by
    simp [be32]
  have a3 : ((be32 payload ++ be32 sdata ++ be16 smeta ++ [comp]).drop 8).take 2 = be16 smeta := by
    simp [be32, be16]
  have a4 : ((be32 payload ++ be32 sdata ++ be16 smeta ++ [comp]).drop 10).headD 0 = comp := by
    simp [be32, be16]
  rw [a1, a2, a3, a4, r1, r2, r3, t1, t2]

theorem growLen_total (fuel : Nat) : ∀ (l len : Nat), 0 < l → l < SIZE_MOD →
    len ≤ 2147483648 → len ≤ l * 2 ^ fuel →
    ∃ n, growLen (fuel + 1) l len = .ok n ∧ len ≤ n ∧ l ≤ n := by
  induction fuel with
  | zero =>
    intro l len _ _ _ h2
    refine ⟨l, ?_, by omega, le_refl _⟩
    unfold growLen
    rw [if_neg (by omega)]
  | succ k ih =>
    intro l len h0 hl h1 h2
    unfold growLen
    by_cases hlt : l < len
    · rw [if_pos hlt]
      have hmod : l * 2 % SIZE_MOD = l * 2 := Nat.mod_eq_of_lt (by unfold SIZE_MOD; omega)
      rw [hmod]
      have hpow : l * 2 * 2 ^ k = l * 2 ^ (k + 1) := by ring
      obtain ⟨n, hn1, hn2, hn3⟩ := ih (l * 2) len (by omega) (by unfold SIZE_MOD; omega) h1
        (by rw [hpow]; exact h2)
      exact ⟨n, hn1, hn2, by omega⟩
    · rw [if_neg hlt]
      exact ⟨l, rfl, by omega, le_refl _⟩

theorem ExpandBufferCache_total (h : Heap) (z : Compressor) (len : Nat)
    (hz : z.buffer_.length = z.len_) (hh : ∀ p n, (h.realloc p n).isSome)
    (hlen : len ≤ 2147483648) :
    ∃ z1, z.ExpandBufferCache h len = .ok z1 ∧ z1.buffer_.length = z1.len_ ∧ len ≤ z1.len_ ∧
      z1.type_ = z.type_ := by
  unfold Compressor.ExpandBufferCache
  by_cases hle : len ≤ z.len_
  · rw [if_pos hle]
    exact ⟨z, rfl, hz, hle, rfl⟩
  · rw [if_neg hle]
    simp only
    have hl0 : 0 < (if z.len_ = 0 then 4096 else z.len_) := by
      split_ifs <;> omega
    have hl1 : (if z.len_ = 0 then 4096 else z.len_) < SIZE_MOD := by
      unfold SIZE_MOD
      split_ifs <;> omega
    have hl2 : z.len_ ≤ (if z.len_ = 0 then 4096 else z.len_) := by
      split_ifs <;> omega
    obtain ⟨n, hn1, hn2, hn3⟩ := growLen_total 64 _ len hl0 hl1 hlen (by
      have : (1 : Nat) * 2 ^ 64 ≤ (if z.len_ = 0 then 4096 else z.len_) * 2 ^ 64 :=
        Nat.mul_le_mul_right _ hl0
      omega)
    rw [hn1]
    simp only
    have hs := hh 0 n
    cases hr : h.realloc 0 n with
    | none => rw [hr] at hs; simp at hs
    | some q =>
      simp only
      refine ⟨_, rfl, ?_, hn2, rfl⟩
      show (resized z.buffer_ n).length = n
      exact resized_length _ _ (by omega)

theorem Uncompress_ok (cod : Codecs) (z : Compressor) (lib : Library) (inp out : List Nat)
    (olen : Nat) (hl : libOf cod z.type_ = some lib) (hi : lib.inflate inp = some out)
    (ho : out.length ≤ olen) :
    z.Uncompress cod inp olen = .ok (.kCompOk, out) := by
  unfold libOf at hl
  unfold Compressor.Uncompress
  split_ifs at hl with h3 h2 h1
  · simp only [Option.some.injEq] at hl
    subst hl
    rw [if_pos h3]
    unfold SnappyUncompress
    rw [hi]
    simp only
    rw [if_neg (by omega)]
  · simp only [Option.some.injEq] at hl
    subst hl
    rw [if_neg h3, if_pos h2]
    unfold Lz4Uncompress
    rw [hi]
    simp only
    rw [if_pos ho]
  · simp only [Option.some.injEq] at hl
    subst hl
    rw [if_neg h3, if_neg h2, if_pos h1]
    unfold ZlibUncompress
    rw [hi]
    simp only
    rw [if_pos ho]

theorem libOf_some (cod : Codecs) (k : Nat) (lib : Library) (h : libOf cod k = some lib) :
    k = 1 ∨ k = 2 ∨ k = 3 := by
  unfold libOf at h
  simp only [kSnappyCompression, kLz4Compression, kZlibCompression] at h
  split_ifs at h <;> omega

theorem decodeHeader_frame (r : Connection) (comp smeta sdata : Nat) (body : List Nat)
    (hc : comp < 256) (hm : smeta < 65536) (hd : sdata < 2147483648)
    (hp : body.length + 11 ≤ INT_MAX) :
    (r.received (headerBytes comp smeta sdata body.length ++ body)).decodeHeader =
      .ok (some { (r.received (headerBytes comp smeta sdata body.length ++ body)) with
        rmsg_hdr_ :=
          { compression_ := (comp : Int)
            meta_ := (smeta : Int)
            data_ := (sdata : Int)
            payload_ := (body.length : Int) }
        rcur_ := 11
        rbytes_ := (body.length : Int) }) := by
  unfold Connection.decodeHeader
  have hpk : peek (headerBytes comp smeta sdata body.length ++ body) 0 kMsgHdrSize
      = some (headerBytes comp smeta sdata body.length) := by
    have := peek_at (headerBytes comp smeta sdata body.length ++ body) 0 11
      (by rw [List.length_append, headerBytes_length]; omega)
    simp only [Nat.cast_zero, List.drop_zero] at this
    rw [show kMsgHdrSize = 11 from rfl, this]
    rw [List.take_left' (headerBytes_length _ _ _ _)]
  simp only [Connection.received, ne_eq, not_true_eq_false, if_false, hpk]
  rw [readHeader_headerBytes comp smeta sdata body.length hc hm hd (by unfold INT_MAX at hp; omega)]
  have hlen : ((headerBytes comp smeta sdata body.length ++ body).length : Int)
      = (body.length : Int) + 11 := by
    rw [List.length_append, headerBytes_length]; push_cast; ring
  rw [hlen]
  rw [if_neg (by simp only [kMsgHdrSize]; push_cast; omega)]
  simp only [kMsgHdrSize]
  congr 3
  · push_cast; ring

theorem Decode_plain (hR : Heap) (cod : Codecs) (r : Connection) (smeta sdata : Nat)
    (x : List Nat) (hm : smeta ≤ kMaxMetaSize) (hd : sdata ≤ kMaxDataSize)
    (hx : x.length = smeta + sdata) (hp : x.length + 11 ≤ INT_MAX) :
    ∃ r2, (r.received (headerBytes kNoCompression smeta sdata x.length ++ x)).Decode hR cod
        = .ok (.kDecodeOk, r2) ∧
      r2.rmsg_hdr_.meta_ = (smeta : Int) ∧ r2.rmsg_hdr_.data_ = (sdata : Int) ∧
      r2.rmsg_hdr_.payload_ = (x.length : Int) ∧ r2.rmsg_hdr_.compression_ = 0 ∧
      r2.delivered = some x ∧ r2.rbytes_ = 0 := by
  unfold Connection.Decode
  rw [decodeHeader_frame r kNoCompression smeta sdata x (by simp [kNoCompression])
    (by unfold kMaxMetaSize at hm; omega) (by unfold kMaxDataSize at hd; omega) hp]
  simp only
  unfold Connection.decodePayload
  simp only [lt_self_iff_false, if_false, kNoCompression, Nat.cast_zero, if_true]
  unfold Connection.consume
  simp only [Connection.received]
  have hlen : ((headerBytes 0 smeta sdata x.length ++ x).length : Int) = (x.length : Int) + 11 := by
    rw [List.length_append, headerBytes_length]; push_cast; ring
  rw [hlen]
  rw [if_neg (by unfold INT_MAX at hp; omega), if_neg (by unfold INT_MAX; omega)]
  refine ⟨_, rfl, rfl, rfl, rfl, rfl, ?_, by simp⟩
  simp only [Connection.delivered]
  have hn : ((smeta : Int) + (sdata : Int)).toNat = x.length := by
    rw [hx]; omega
  rw [hn]
  have := peek_at (headerBytes 0 smeta sdata x.length ++ x) 11 x.length
    (by rw [List.length_append, headerBytes_length])
  simp only [Nat.cast_ofNat] at this
  rw [this, List.drop_left' (headerBytes_length _ _ _ _)]
  simp

theorem Decode_compressed (hR : Heap) (cod : Codecs) (r : Connection) (comp smeta sdata : Nat)
    (lib : Library) (body x : List Nat) (hm : smeta ≤ kMaxMetaSize) (hd : sdata ≤ kMaxDataSize)
    (hx : x.length = smeta + sdata) (hp : body.length + 11 ≤ INT_MAX)
    (hl : libOf cod comp = some lib)
    (hi : lib.inflate body = some x)
    (hz : r.compressor_.buffer_.length = r.compressor_.len_)
    (hh : ∀ p n, (hR.realloc p n).isSome) :
    ∃ r2, (r.received (headerBytes comp smeta sdata body.length ++ body)).Decode hR cod
        = .ok (.kDecodeOk, r2) ∧
      r2.rmsg_hdr_.meta_ = (smeta : Int) ∧ r2.rmsg_hdr_.data_ = (sdata : Int) ∧
      r2.rmsg_hdr_.payload_ = (body.length : Int) ∧ r2.rmsg_hdr_.compression_ = (comp : Int) ∧
      r2.delivered = some x ∧ r2.rbytes_ = 0 := by
  have hc3 := libOf_some cod comp lib hl
  unfold kMaxMetaSize at hm
  unfold kMaxDataSize at hd
  unfold INT_MAX at hp
  unfold Connection.Decode
  rw [decodeHeader_frame r comp smeta sdata body (by omega) (by omega) (by omega)
    (by unfold INT_MAX; omega)]
  simp only
  unfold Connection.decodePayload
  simp only [lt_self_iff_false, if_false]
  rw [if_neg (by simp only [kNoCompression]; omega)]
  unfold Connection.decodeCompressed
  simp only [Int.toNat_ofNat]
  rw [if_neg (by unfold INT_MAX; omega)]
  have hreq : toSizeT ((smeta : Int) + (sdata : Int)) = x.length := by
    unfold toSizeT SIZE_MOD
    rw [hx]
    have : ((smeta : Int) + (sdata : Int)) % ((2 ^ 64 : Nat) : Int) = (smeta : Int) + (sdata : Int) :=
      Int.emod_eq_of_lt (by omega) (by push_cast; omega)
    rw [this]; omega
  have hil : toSizeT (body.length : Int) = body.length := by
    unfold toSizeT SIZE_MOD
    have : (body.length : Int) % ((2 ^ 64 : Nat) : Int) = (body.length : Int) :=
      Int.emod_eq_of_lt (by omega) (by push_cast; omega)
    rw [this]; omega
  rw [hreq, hil]
  obtain ⟨z1, hz1, hz2, hz3, hz4⟩ := ExpandBufferCache_total hR
    ((r.received (headerBytes comp smeta sdata body.length ++ body)).compressor_.UseCompression comp)
    x.length hz hh (by omega)
  simp only [Connection.received] at hz1 ⊢
  rw [hz1]
  simp only
  have hpk := peek_at (headerBytes comp smeta sdata body.length ++ body) 11 body.length
    (by rw [List.length_append, headerBytes_length])
  simp only [Nat.cast_ofNat] at hpk
  rw [hpk, List.drop_left' (headerBytes_length _ _ _ _)]
  simp only [List.take_length]
  rw [Uncompress_ok cod z1 lib body x x.length (by rw [hz4]; exact hl) hi (le_refl _)]
  simp only [ne_eq, not_true_eq_false, if_false]
  have hpoke : poke 0 z1.buffer_ 0 x = some (x ++ z1.buffer_.drop x.length) := by
    have := poke_at 0 z1.buffer_ x 0 (by omega)
    simpa using this
  rw [hpoke]
  simp only
  unfold Connection.consume
  have hlen : ((headerBytes comp smeta sdata body.length ++ body).length : Int)
      = (body.length : Int) + 11 := by
    rw [List.length_append, headerBytes_length]; push_cast; ring
  simp only [hlen]
  rw [if_neg (by omega), if_neg (by unfold INT_MAX; omega)]
  refine ⟨_, rfl, rfl, rfl, rfl, rfl, ?_, by simp⟩
  simp only [Connection.delivered]
  have hn : ((smeta : Int) + (sdata : Int)).toNat = x.length := by
    rw [hx]; omega
  rw [hn]
  have := peek_at (x ++ z1.buffer_.drop x.length) 0 x.length
    (by rw [List.length_append]; omega)
  simp only [Nat.cast_zero, List.drop_zero] at this
  rw [this, List.take_left' rfl]

theorem doubleWsize_total (req : Nat) (fuel : Nat) :
    ∀ (w : Nat), 0 < w → 2 * w ≤ INT_MAX → (req ≤ 1073741824 ∨ req ≤ 2 * w) →
      req ≤ w * 2 ^ (fuel + 1) → ∃ w2, doubleWsize (fuel + 1) w req = .ok w2 := by
  induction fuel with
  | zero =>
    intro w _ h2 _ h3
    unfold doubleWsize
    rw [if_neg (by omega), if_neg (by omega)]
    exact ⟨_, rfl⟩
  | succ k ih =>
    intro w h1 h2 hreq h3
    unfold doubleWsize
    rw [if_neg (by omega)]
    by_cases hlt : w * 2 < req
    · rw [if_pos hlt]
      have hpow : w * 2 * 2 ^ (k + 1) = w * 2 ^ (k + 1 + 1) := by ring
      exact ih (w * 2) (by omega) (by unfold INT_MAX; omega) (by omega) (by rw [hpow]; exact h3)
    · rw [if_neg hlt]
      exact ⟨_, rfl⟩

theorem ExpandWbuf_total (h : Heap) (c : Connection) (req : Nat) (hw : c.WellFormed)
    (hh : ∀ p n, (h.realloc p n).isSome) (hreq : req ≤ 1073741824 ∨ req ≤ 2 * c.wsize_)
    (h2 : 2 * c.wsize_ ≤ INT_MAX) :
    ∃ c1, c.ExpandWbuf h req = .ok (true, c1) := by
  obtain ⟨_, g2, g3, _⟩ := hw
  simp only [kMsgHdrSize] at g2
  obtain ⟨w2, hw2⟩ := doubleWsize_total req 31 c.wsize_ (by omega) h2 hreq (by
    unfold INT_MAX at g3 h2
    have : (1 : Nat) * 2 ^ (31 + 1) ≤ c.wsize_ * 2 ^ (31 + 1) := Nat.mul_le_mul_right _ (by omega)
    omega)
  unfold Connection.ExpandWbuf
  rw [hw2]
  simp only
  have hs := hh c.wbuf_ w2
  cases hr : h.realloc c.wbuf_ w2 with
  | none => rw [hr] at hs; simp at hs
  | some q => exact ⟨_, rfl⟩

theorem Compress_result (cod : Codecs) (z : Compressor) (lib : Library) (inp : List Nat)
    (olen : Nat) (hl : libOf cod z.type_ = some lib) (hi : inp.length ≤ LZ4_MAX_INPUT_SIZE)
    (hb : (lib.deflate inp).length ≤ lib.bound inp.length) (hpos : 0 < (lib.deflate inp).length) :
    z.Compress cod inp olen =
      if lib.bound inp.length > olen then .ok (.kCompBufferTooSmall, [])
      else .ok (.kCompOk, lib.deflate inp) := by
  unfold libOf at hl
  unfold Compressor.Compress
  split_ifs at hl with h3 h2 h1
  · simp only [Option.some.injEq] at hl
    subst hl
    rw [if_pos h3]
    rfl
  · simp only [Option.some.injEq] at hl
    subst hl
    rw [if_neg h3, if_pos h2]
    unfold Lz4Compress
    rw [if_neg (by omega)]
    by_cases hgt : cod.lz4.bound inp.length > olen
    · rw [if_pos hgt, if_pos hgt]
    · rw [if_neg hgt, if_neg hgt]
      have hfit : (cod.lz4.deflate inp).length ≤ olen := by omega
      simp only [hfit, if_true, gt_iff_lt, hpos]
  · simp only [Option.some.injEq] at hl
    subst hl
    rw [if_neg h3, if_neg h2, if_pos h1]
    unfold ZlibCompress
    by_cases hgt : cod.zlib.bound inp.length > olen
    · rw [if_pos hgt, if_pos hgt]
    · rw [if_neg hgt, if_neg hgt, if_pos (by omega)]

theorem compressLoop_total (h : Heap) (cod : Codecs) (lib : Library) (inp : List Nat)
    (payload : Nat) (type : Nat)
    (hh : ∀ p n, (h.realloc p n).isSome)
    (hl : libOf cod type = some lib) (hi : inp.length ≤ LZ4_MAX_INPUT_SIZE)
    (hb : (lib.deflate inp).length ≤ lib.bound inp.length) (hpos : 0 < (lib.deflate inp).length)
    (hsz : lib.bound inp.length + 11 ≤ 1073741824) (fuel : Nat) :
    ∀ (c : Connection), c.WellFormed → c.compressor_.type_ = type →
      c.compressor_.buffer_.take payload = inp →
      lib.bound inp.length + 11 ≤ c.wsize_ * 2 ^ fuel →
      ∃ rlen c2, Connection.compressLoop h cod (fuel + 1) c payload = .ok (some (rlen, c2)) := by
  induction fuel with
  | zero =>
    intro c hw ht hin hfit
    obtain ⟨g1, g2, g3, g4, g5, g6, g7, g8, g9⟩ := hw
    simp only [kMsgHdrSize] at g2
    unfold Connection.compressLoop
    simp only
    have holen : toSizeT ((c.wsize_ : Int) - (kMsgHdrSize : Int)) = c.wsize_ - 11 := by
      unfold toSizeT SIZE_MOD kMsgHdrSize
      have : ((c.wsize_ : Int) - ((4 + 4 + 2 + 1 : Nat) : Int)) % ((2 ^ 64 : Nat) : Int)
          = (c.wsize_ : Int) - 11 :=
        Int.emod_eq_of_lt (by push_cast; omega) (by unfold INT_MAX at g3; push_cast; omega)
      rw [this]; omega
    rw [holen, hin, Compress_result cod c.compressor_ lib inp _ (by rw [ht]; exact hl) hi hb hpos]
    rw [if_neg (by omega)]
    simp only
    have hpk := poke_at c.wbuf_ c.wmem (lib.deflate inp) 11 (by omega)
    rw [g8, show kMsgHdrSize = 11 from rfl, hpk]
    simp only
    rw [if_neg (by unfold INT_MAX; omega)]
    exact ⟨_, _, rfl⟩
  | succ k ih =>
    intro c hw ht hin hfit
    have hwc := hw
    obtain ⟨g1, g2, g3, g4, g5, g6, g7, g8, g9⟩ := hw
    simp only [kMsgHdrSize] at g2
    unfold Connection.compressLoop
    simp only
    have holen : toSizeT ((c.wsize_ : Int) - (kMsgHdrSize : Int)) = c.wsize_ - 11 := by
      unfold toSizeT SIZE_MOD kMsgHdrSize
      have : ((c.wsize_ : Int) - ((4 + 4 + 2 + 1 : Nat) : Int)) % ((2 ^ 64 : Nat) : Int)
          = (c.wsize_ : Int) - 11 :=
        Int.emod_eq_of_lt (by push_cast; omega) (by unfold INT_MAX at g3; push_cast; omega)
      rw [this]; omega
    rw [holen, hin, Compress_result cod c.compressor_ lib inp _ (by rw [ht]; exact hl) hi hb hpos]
    by_cases hgt : lib.bound inp.length > c.wsize_ - 11
    · rw [if_pos hgt]
      simp only
      rw [if_neg (by unfold INT_MAX; omega)]
      obtain ⟨c1, hc1⟩ := ExpandWbuf_total h c (c.wsize_ * 2) hwc hh (Or.inr (by omega))
        (by unfold INT_MAX; omega)
      rw [hc1]
      simp only
      obtain ⟨hw1, hr1, hr2, hr3, hr4⟩ := ExpandWbuf_true _ _ _ _ hwc hc1
      have hpow : c.wsize_ * 2 * 2 ^ k = c.wsize_ * 2 ^ (k + 1) := by ring
      have hmono : c.wsize_ * 2 * 2 ^ k ≤ c1.wsize_ * 2 ^ k := Nat.mul_le_mul_right _ hr1
      exact ih c1 hw1 (by rw [hr3]; exact ht) (by rw [hr3]; exact hin)
        (by rw [← hpow] at hfit; exact le_trans hfit (le_trans (by omega) hmono))
    · rw [if_neg hgt]
      simp only
      have hpk := poke_at c.wbuf_ c.wmem (lib.deflate inp) 11 (by omega)
      rw [g8, show kMsgHdrSize = 11 from rfl, hpk]
      simp only
      rw [if_neg (by unfold INT_MAX; omega)]
      exact ⟨_, _, rfl⟩

theorem encodePlain_total (h : Heap) (c : Connection) (m : Message) (comp : Nat)
    (hw : c.WellFormed) (hh : ∀ p n, (h.realloc p n).isSome)
    (hsz : m.smeta.length + m.sdata.length + 11 ≤ 1073741824) :
    ∃ c2, c.encodePlain h m comp m.smeta.length m.sdata.length
      (m.smeta.length + m.sdata.length) (m.smeta.length + m.sdata.length + kMsgHdrSize)
        = .ok (.kEncodeOk, c2) := by
  have hc1 : ∃ c1, (if m.smeta.length + m.sdata.length + kMsgHdrSize > c.wsize_
      then c.ExpandWbuf h (m.smeta.length + m.sdata.length + kMsgHdrSize) else .ok (true, c))
      = .ok (true, c1) ∧ c1.WellFormed ∧
        m.smeta.length + m.sdata.length + kMsgHdrSize ≤ c1.wsize_ := by
    by_cases hreq : m.smeta.length + m.sdata.length + kMsgHdrSize > c.wsize_
    · rw [if_pos hreq]
      simp only [kMsgHdrSize] at hreq ⊢
      obtain ⟨c1, hc1⟩ := ExpandWbuf_total h c _ hw hh (Or.inl hsz) (by unfold INT_MAX; omega)
      obtain ⟨a, b, _⟩ := ExpandWbuf_true _ _ _ _ hw hc1
      exact ⟨c1, hc1, a, b⟩
    · rw [if_neg hreq]
      exact ⟨c, rfl, hw, by omega⟩
  obtain ⟨c1, hx, hw1, hfit⟩ := hc1
  unfold Connection.encodePlain
  rw [hx]
  simp only
  unfold Message.SerializeToArray
  simp only [gt_iff_lt, lt_self_iff_false, if_false]
  have hw1c := hw1
  obtain ⟨g1, g2, g3, g4, g5, g6, g7, g8, g9⟩ := hw1
  simp only [kMsgHdrSize] at hfit
  have hpk : poke c1.wbuf_ c1.wmem c1.msg_body_ (m.smeta ++ m.sdata) =
      some (c1.wmem.take 11 ++ (m.smeta ++ m.sdata) ++
        c1.wmem.drop (11 + (m.smeta ++ m.sdata).length)) := by
    rw [g8]
    exact poke_at c1.wbuf_ c1.wmem (m.smeta ++ m.sdata) 11 (by rw [List.length_append]; omega)
  rw [hpk]
  simp only
  have hw2 : Connection.WellFormed
      { c1 with
        wmem := c1.wmem.take 11 ++ (m.smeta ++ m.sdata) ++
                  c1.wmem.drop (11 + (m.smeta ++ m.sdata).length) } := by
    refine ⟨?_, g2, g3, g4, g5, g6, g7, g8, g9⟩
    show (c1.wmem.take 11 ++ (m.smeta ++ m.sdata) ++
      c1.wmem.drop (11 + (m.smeta ++ m.sdata).length)).length = c1.wsize_
    simp only [List.length_append, List.length_take, List.length_drop]
    omega
  rw [writeHeader_ok _ hw2]
  exact ⟨_, rfl⟩

theorem encodeCompressed_total (h : Heap) (cod : Codecs) (c : Connection) (m : Message)
    (lib : Library) (hw : c.WellFormed) (hh : ∀ p n, (h.realloc p n).isSome)
    (hl : libOf cod m.compression_type = some lib)
    (hsz : m.smeta.length + m.sdata.length + 11 ≤ 1073741824)
    (hb : (lib.deflate (m.smeta ++ m.sdata)).length ≤ lib.bound (m.smeta ++ m.sdata).length)
    (hpos : 0 < (lib.deflate (m.smeta ++ m.sdata)).length)
    (hbs : lib.bound (m.smeta ++ m.sdata).length + 11 ≤ 1073741824) :
    ∃ c2, c.encodeCompressed h cod m m.compression_type m.smeta.length m.sdata.length
      (m.smeta.length + m.sdata.length) = .ok (.kEncodeOk, c2) := by
  have hwc := hw
  obtain ⟨g1, g2, g3, g4, g5, g6, g7, g8, g9⟩ := hw
  obtain ⟨z1, hz1, hz2, hz3, hz4⟩ := ExpandBufferCache_total h
    (c.compressor_.UseCompression m.compression_type) (m.smeta.length + m.sdata.length)
    (by simpa [Compressor.UseCompression] using g9) hh (by omega)
  unfold Connection.encodeCompressed
  rw [hz1]
  simp only
  unfold Message.SerializeToArray
  simp only [gt_iff_lt, lt_self_iff_false, if_false]
  have hpk := poke_at 0 z1.buffer_ (m.smeta ++ m.sdata) 0
    (by rw [List.length_append]; omega)
  simp only [Nat.zero_add, List.take_zero, List.nil_append] at hpk
  rw [hpk]
  simp only
  have hws : Connection.WellFormed
      { c with
        compressor_ :=
          { z1 with
            buffer_ := m.smeta ++ m.sdata ++ z1.buffer_.drop (m.smeta ++ m.sdata).length } } := by
    refine ⟨g1, g2, g3, g4, g5, g6, g7, g8, ?_⟩
    show (m.smeta ++ m.sdata ++ z1.buffer_.drop (m.smeta ++ m.sdata).length).length = z1.len_
    simp only [List.length_append, List.length_drop]
    omega
  obtain ⟨rlen, c2, hloop⟩ := compressLoop_total h cod lib (m.smeta ++ m.sdata)
    (m.smeta.length + m.sdata.length) m.compression_type hh hl
    (by unfold LZ4_MAX_INPUT_SIZE; rw [List.length_append]; omega) hb hpos hbs 32 _ hws
    (by show z1.type_ = _; rw [hz4]; rfl)
    (by show (m.smeta ++ m.sdata ++ z1.buffer_.drop (m.smeta ++ m.sdata).length).take _ = _
        exact List.take_left' (by simp))
    (by
      show _ ≤ c.wsize_ * 2 ^ 32
      simp only [kMsgHdrSize] at g2
      have : (1 : Nat) * 2 ^ 32 ≤ c.wsize_ * 2 ^ 32 := Nat.mul_le_mul_right _ (by omega)
      omega)
  rw [hloop]
  simp only
  obtain ⟨hw3, _, lib2, hl1, hl2, hl3, _⟩ := compressLoop_ok _ _ _ _ _ _ _ hws hloop
  have hle : rlen + kMsgHdrSize ≤ INT_MAX := by
    obtain ⟨_, _, k3, _⟩ := hw3
    simp only [kMsgHdrSize]
    omega
  rw [if_neg (by omega), writeHeader_ok _ hw3]
  exact ⟨_, rfl⟩

theorem frame_eq (c : Connection) (n : Nat) (hc : c.wcur_ = c.wbuf_) (hb : c.wbytes_ = n) :
    c.frame = c.wmem.take n := by
  unfold Connection.frame
  rw [hc, hb]
  simp

theorem wread_of_take (c : Connection) (pre x post : List Nat) (n : Nat)
    (h : c.wmem.take n = pre ++ x ++ post) :
    c.wread (c.wbuf_ + pre.length) x.length = some x := by
  have hlen : (c.wmem.take n).length = (pre ++ x ++ post).length := by rw [h]
  rw [List.length_take] at hlen
  have hmem : c.wmem = pre ++ x ++ post ++ c.wmem.drop n := by
    rw [← h]; exact (List.take_append_drop n c.wmem).symm
  unfold Connection.wread
  have hle : pre.length + x.length ≤ c.wmem.length := by
    simp only [List.length_append] at hlen
    omega
  rw [if_pos ⟨by omega, by omega⟩, Nat.add_sub_cancel_left]
  congr 1
  rw [hmem]
  simp [List.append_assoc]

theorem sample_roundtrip (k : Nat) (lib : Library) (x : List Nat)
    (h : libOf sampleCodecs k = some lib) : lib.inflate (lib.deflate x) = some x := by
  unfold libOf at h
  split_ifs at h <;> simp only [Option.some.injEq] at h <;> subst h <;> rfl

theorem sample_bounds (k : Nat) (lib : Library) (x : List Nat)
    (h : libOf sampleCodecs k = some lib) (hx : x.length + 12 ≤ 1073741824) :
    (lib.deflate x).length ≤ lib.bound x.length ∧ 0 < (lib.deflate x).length ∧
      lib.bound x.length + 11 ≤ 1073741824 := by
  unfold libOf at h
  split_ifs at h <;> simp only [Option.some.injEq] at h <;> subst h <;>
    simp [sampleCodecs, sampleLibrary] <;> omega

theorem Encode_total (hS : Heap) (cod : Codecs) (c : Connection) (m : Message)
    (hw : c.WellFormed) (hmeta : m.smeta.length ≤ 65535) (hdata : m.sdata.length ≤ kMaxDataSize)
    (hS_ok : ∀ p n, (hS.realloc p n).isSome)
    (hsz : m.smeta.length + m.sdata.length + 11 ≤ 1073741824)
    (hlib : kCompressionThreshold ≤ m.smeta.length + m.sdata.length →
      m.compression_type ≠ kNoCompression →
      ∃ lib, libOf cod m.compression_type = some lib ∧
        (lib.deflate (m.smeta ++ m.sdata)).length ≤ lib.bound (m.smeta ++ m.sdata).length ∧
        0 < (lib.deflate (m.smeta ++ m.sdata)).length ∧
        lib.bound (m.smeta ++ m.sdata).length + 11 ≤ 1073741824) :
    ∃ c2, c.Encode hS cod m = .ok (.kEncodeOk, c2) := by
  unfold Connection.Encode Message.ByteSize
  rw [if_neg (by unfold kMaxMetaSize; omega), if_neg (by omega)]
  simp only
  rw [if_neg (by unfold INT_MAX kMsgHdrSize; omega)]
  by_cases hth : m.smeta.length + m.sdata.length < kCompressionThreshold
  · simp only [hth, if_true, Bool.not_false]
    exact encodePlain_total hS c m _ hw hS_ok hsz
  · simp only [hth, if_false]
    by_cases hk0 : m.compression_type = kNoCompression
    · simp only [hk0, ne_eq, not_true_eq_false, decide_False, Bool.not_false, if_true]
      exact encodePlain_total hS c m _ hw hS_ok hsz
    · simp only [ne_eq, hk0, not_false_eq_true, decide_True, Bool.not_true,
        Bool.false_eq_true, if_false]
      obtain ⟨lib, hl, hb1, hb2, hb3⟩ := hlib (by omega) hk0
      exact encodeCompressed_total hS cod c m lib hw hS_ok hl hsz hb1 hb2 hb3

/-- C1 (framing round trip). Take a sender in the state the constructors
establish, a message whose meta has at most 65535 bytes and whose data is within
the data bound, any compression kind, and libraries whose decompressor inverts
their compressor. Whenever `Encode` returns `kEncodeOk`, the payload length
stored in the header is the number of body bytes after the 11-byte header
(`wbytes_` is that length plus 11), and a receiver whose buffer holds the sent
bytes gets `kDecodeOk` from `Decode`, with meta and data lengths equal to the
original sizes and with meta followed by data as the delivered payload. `Encode`
does return `kEncodeOk` when the allocator never fails, the kind is one the
codec knows, the library output is non-empty and within the library bound, and
payload and bound stay below `2^30 - 11` (so that no `int` overflows). -/
theorem C1_framing_round_trip (hS hR : Heap) (cod : Codecs) (c r : Connection) (m : Message)
    (hw : c.WellFormed) (hz : r.compressor_.buffer_.length = r.compressor_.len_)
    (hR_ok : ∀ p n, (hR.realloc p n).isSome)
    (hmeta : m.smeta.length ≤ 65535) (hdata : m.sdata.length ≤ kMaxDataSize)
    (hrt : ∀ k lib x, libOf cod k = some lib → lib.inflate (lib.deflate x) = some x) :
    (∀ c2, c.Encode hS cod m = .ok (.kEncodeOk, c2) →
      c2.frame.length = c2.wbytes_ ∧
      c2.wbytes_ = rd32 (c2.frame.take 4) + 11 ∧
      ∃ r2, (r.received c2.frame).Decode hR cod = .ok (.kDecodeOk, r2) ∧
        r2.rmsg_hdr_.meta_ = (m.smeta.length : Int) ∧
        r2.rmsg_hdr_.data_ = (m.sdata.length : Int) ∧
        r2.rmsg_hdr_.payload_ = (c2.wbytes_ : Int) - 11 ∧
        r2.delivered = some (m.smeta ++ m.sdata)) ∧
    ((∀ p n, (hS.realloc p n).isSome) → m.compression_type ≤ kSnappyCompression →
      m.smeta.length + m.sdata.length + 11 ≤ 1073741824 →
      (∀ lib, libOf cod m.compression_type = some lib →
        (lib.deflate (m.smeta ++ m.sdata)).length ≤ lib.bound (m.smeta ++ m.sdata).length ∧
        0 < (lib.deflate (m.smeta ++ m.sdata)).length ∧
        lib.bound (m.smeta ++ m.sdata).length + 11 ≤ 1073741824) →
      ∃ c2, c.Encode hS cod m = .ok (.kEncodeOk, c2)) := by
  constructor
  · intro c2 he
    obtain ⟨comp, body, hw2, hcur, hbytes, hfit, hmax, htake, hm, hd, hf⟩ :=
      Encode_ok hS cod c c2 m hw he
    have hfr : c2.frame =
        headerBytes comp m.smeta.length m.sdata.length body.length ++ body := by
      rw [frame_eq c2 _ hcur hbytes, htake]
    have hlen : c2.frame.length = body.length + 11 := by
      rw [hfr, List.length_append, headerBytes_length]; omega
    have hpay : rd32 (c2.frame.take 4) = body.length := by
      rw [hfr]
      unfold headerBytes
      have : (be32 (body.length % 4294967296) ++ be32 (m.sdata.length % 4294967296) ++
          be16 (m.smeta.length % 65536) ++ [comp % 256] ++ body).take 4 =
          be32 (body.length % 4294967296) := by
        simp [be32]
      rw [this, rd32_be32 _ (Nat.mod_lt _ (by norm_num))]
      exact Nat.mod_eq_of_lt (by unfold INT_MAX at hmax; omega)
    refine ⟨by rw [hlen, hbytes], by rw [hpay, hbytes], ?_⟩
    rw [hfr, hbytes]
    rcases hf with ⟨hc0, hb, _⟩ | ⟨_, _, _, lib, hl, hb⟩
    · subst hc0 hb
      obtain ⟨r2, h1, h2, h3, h4, _, h6, _⟩ := Decode_plain hR cod r m.smeta.length
        m.sdata.length (m.smeta ++ m.sdata) hm hd (by simp) hmax
      exact ⟨r2, h1, h2, h3, by rw [h4]; push_cast; ring, h6⟩
    · subst hb
      obtain ⟨r2, h1, h2, h3, h4, _, h6, _⟩ := Decode_compressed hR cod r comp m.smeta.length
        m.sdata.length lib (lib.deflate (m.smeta ++ m.sdata)) (m.smeta ++ m.sdata) hm hd
        (by simp) hmax hl (hrt comp lib _ hl) hz hR_ok
      exact ⟨r2, h1, h2, h3, by rw [h4]; push_cast; ring, h6⟩
  · intro hS_ok hk hsz hlib
    refine Encode_total hS cod c m hw hmeta hdata hS_ok hsz ?_
    intro _ hk0
    have hex : ∃ lib, libOf cod m.compression_type = some lib := by
      unfold libOf
      simp only [kSnappyCompression, kLz4Compression, kZlibCompression, kNoCompression]
        at hk hk0 ⊢
      split_ifs with a b c'
      · exact ⟨_, rfl⟩
      · exact ⟨_, rfl⟩
      · exact ⟨_, rfl⟩
      · omega
    obtain ⟨lib, hl⟩ := hex
    exact ⟨lib, hl, hlib lib hl⟩

/-- Witness of C1: the 300-byte LZ4 message is encoded by the sample sender and
decoded back by a receiver. -/
theorem C1_framing_round_trip_witness :
    ∃ c2, sampleConnection.Encode sampleHeap sampleCodecs sampleMessage = .ok (.kEncodeOk, c2) ∧
      ∃ r2, (sampleConnection.received c2.frame).Decode sampleHeap sampleCodecs
          = .ok (.kDecodeOk, r2) ∧
        r2.delivered = some (sampleMessage.smeta ++ sampleMessage.sdata) := by
  have h := C1_framing_round_trip sampleHeap sampleHeap sampleCodecs sampleConnection
    sampleConnection sampleMessage (by decide) (by decide) (fun _ _ => rfl)
    (by simp only [sampleMessage, List.length_replicate]; omega)
    (by simp only [sampleMessage, List.length_replicate, kMaxDataSize]; omega)
    (fun k lib x hl => sample_roundtrip k lib x hl)
  obtain ⟨c2, hc2⟩ := h.2 (fun _ _ => rfl) (by decide)
    (by simp only [sampleMessage, List.length_replicate]; omega)
    (fun lib hl => sample_bounds _ lib _ hl
      (by simp only [sampleMessage, List.length_replicate, List.length_append]; omega))
  obtain ⟨_, _, r2, hr, _, _, _, hd⟩ := h.1 c2 hc2
  exact ⟨c2, hc2, r2, hr, hd⟩

theorem Encode_layout (hS : Heap) (cod : Codecs) (c c2 : Connection) (m : Message)
    (hw : c.WellFormed) (he : c.Encode hS cod m = .ok (.kEncodeOk, c2)) :
    ∃ comp body, m.Framed cod comp body ∧ c2.WellFormed ∧
      c2.wcur_ = c2.wbuf_ ∧ c2.wbytes_ = body.length + 11 ∧
      body.length < 2147483648 ∧ m.sdata.length < 2147483648 ∧ m.smeta.length < 65536 ∧
      comp < 256 ∧
      c2.wread c2.wbuf_ 4 = some (be32 body.length) ∧
      c2.wread (c2.wbuf_ + 4) 4 = some (be32 m.sdata.length) ∧
      c2.wread (c2.wbuf_ + 8) 2 = some (be16 m.smeta.length) ∧
      c2.wread (c2.wbuf_ + 10) 1 = some [comp] ∧
      c2.wread (c2.wbuf_ + 11) body.length = some body := by
  obtain ⟨comp, body, hw2, hcur, hbytes, hfit, hmax, htake, hm, hd, hf⟩ :=
    Encode_ok hS cod c c2 m hw he
  unfold INT_MAX at hmax
  unfold kMaxMetaSize at hm
  unfold kMaxDataSize at hd
  have hcomp : comp < 256 := by
    rcases hf with ⟨h0, _⟩ | ⟨_, _, _, lib, hl, _⟩
    · rw [h0]; decide
    · have := libOf_some cod comp lib hl
      omega
  have e1 : body.length % 4294967296 = body.length := Nat.mod_eq_of_lt (by omega)
  have e2 : m.sdata.length % 4294967296 = m.sdata.length := Nat.mod_eq_of_lt (by omega)
  have e3 : m.smeta.length % 65536 = m.smeta.length := Nat.mod_eq_of_lt (by omega)
  have e4 : comp % 256 = comp := Nat.mod_eq_of_lt hcomp
  unfold headerBytes at htake
  rw [e1, e2, e3, e4] at htake
  refine ⟨comp, body, hf, hw2, hcur, hbytes, by omega, by omega, by omega, hcomp, ?_, ?_, ?_, ?_, ?_⟩
  · have := wread_of_take c2 [] (be32 body.length)
      (be32 m.sdata.length ++ be16 m.smeta.length ++ [comp] ++ body) _
      (by rw [htake]; simp [List.append_assoc])
    simpa using this
  · have := wread_of_take c2 (be32 body.length) (be32 m.sdata.length)
      (be16 m.smeta.length ++ [comp] ++ body) _ (by rw [htake]; simp [List.append_assoc])
    simpa [be32_length] using this
  · have := wread_of_take c2 (be32 body.length ++ be32 m.sdata.length) (be16 m.smeta.length)
      ([comp] ++ body) _ (by rw [htake]; simp [List.append_assoc])
    simpa [be32_length, be16_length] using this
  · have := wread_of_take c2 (be32 body.length ++ be32 m.sdata.length ++ be16 m.smeta.length)
      [comp] body _ (by rw [htake])
    simpa [be32_length, be16_length] using this
  · have := wread_of_take c2
      (be32 body.length ++ be32 m.sdata.length ++ be16 m.smeta.length ++ [comp]) body [] _
      (by rw [htake]; simp)
    simpa [be32_length, be16_length] using this

theorem encodedSmall_eq :
    sampleConnection.Encode sampleHeap sampleCodecs smallMessage = .ok (.kEncodeOk, encodedSmall) := by
  rfl

/-- C2 (wire header layout). For every message that `Encode` accepts, the five
pointers are at offsets 0, 4, 8, 10 and 11 of the send buffer in use when
`Encode` returns (the buffer `ExpandWbuf` left, when it reallocated), and that
buffer holds the payload length as four big-endian bytes at offset 0, the data
length as four big-endian bytes at offset 4, the meta length as two big-endian
bytes at offset 8, the compression id as one byte at offset 10 and the body
from offset 11 on; the frame is sent from offset 0. -/
theorem C2_wire_header_layout (hS : Heap) (cod : Codecs) (c c2 : Connection) (m : Message)
    (hw : c.WellFormed) (he : c.Encode hS cod m = .ok (.kEncodeOk, c2)) :
    ∃ comp body, m.Framed cod comp body ∧
      c2.hdr_payload_ = c2.wbuf_ ∧ c2.hdr_data_ = c2.wbuf_ + 4 ∧
      c2.hdr_meta_ = c2.wbuf_ + 8 ∧ c2.hdr_comp_ = c2.wbuf_ + 10 ∧
      c2.msg_body_ = c2.wbuf_ + 11 ∧ c2.wcur_ = c2.wbuf_ ∧ c2.wbytes_ = body.length + 11 ∧
      body.length < 4294967296 ∧ m.sdata.length < 4294967296 ∧ m.smeta.length < 65536 ∧
      comp < 256 ∧
      c2.wread c2.hdr_payload_ 4 = some (be32 body.length) ∧
      c2.wread c2.hdr_data_ 4 = some (be32 m.sdata.length) ∧
      c2.wread c2.hdr_meta_ 2 = some (be16 m.smeta.length) ∧
      c2.wread c2.hdr_comp_ 1 = some [comp] ∧
      c2.wread c2.msg_body_ body.length = some body := by
  obtain ⟨comp, body, hf, hw2, hcur, hbytes, l1, l2, l3, l4, r1, r2, r3, r4, r5⟩ :=
    Encode_layout hS cod c c2 m hw he
  obtain ⟨_, _, _, g4, g5, g6, g7, g8, _⟩ := hw2
  simp only [kMsgPayloadSize, kMsgDataSize, kMsgMetaSize, kMsgHdrSize] at g5 g6 g7 g8
  refine ⟨comp, body, hf, g4, g5, g6, g7, g8, hcur, hbytes, by omega, by omega, l3, l4,
    ?_, ?_, ?_, ?_, ?_⟩
  · rw [g4]; exact r1
  · rw [g5]; exact r2
  · rw [g6]; exact r3
  · rw [g7]; exact r4
  · rw [g8]; exact r5

/-- Witness of C2: the 16-byte message does not fit the 16-byte send buffer, so
`ExpandWbuf` moves the buffer; the header is laid out in the new buffer. -/
theorem C2_wire_header_layout_witness :
    encodedSmall.wbuf_ ≠ sampleConnection.wbuf_ ∧
    encodedSmall.wread encodedSmall.wbuf_ 11 = some [0, 0, 0, 16, 0, 0, 0, 13, 0, 3, 0] ∧
    ∃ comp body, smallMessage.Framed sampleCodecs comp body ∧
      encodedSmall.wread encodedSmall.hdr_payload_ 4 = some (be32 body.length) ∧
      encodedSmall.wread encodedSmall.hdr_comp_ 1 = some [comp] := by
  refine ⟨by decide, by decide, ?_⟩
  obtain ⟨comp, body, hf, _, _, _, _, _, _, _, _, _, _, _, h1, _, _, h4, _⟩ :=
    C2_wire_header_layout sampleHeap sampleCodecs sampleConnection encodedSmall smallMessage
      (by decide) encodedSmall_eq
  exact ⟨comp, body, hf, h1, h4⟩

theorem consume_status (c c2 : Connection) (s : Status) (h : c.consume = .ok (s, c2)) :
    s = .kDecodeOk := by
  unfold Connection.consume at h
  simp only at h
  split_ifs at h
  simp only [Except.ok.injEq, Prod.mk.injEq] at h
  exact h.1.symm

theorem decodeCompressed_status (h : Heap) (cod : Codecs) (c c2 : Connection) (s : Status)
    (hd : c.decodeCompressed h cod = .ok (s, c2)) : s = .kDecodeOk := by
  unfold Connection.decodeCompressed at hd
  simp only at hd
  split_ifs at hd with hsum
  rcases hz : Compressor.ExpandBufferCache h
      (c.compressor_.UseCompression c.rmsg_hdr_.compression_.toNat)
      (toSizeT (c.rmsg_hdr_.meta_ + c.rmsg_hdr_.data_)) with f | z1
  · rw [hz] at hd; simp at hd
  rw [hz] at hd
  simp only at hd
  rcases hp : peek c.rbuf_ c.rcur_ (toSizeT c.rmsg_hdr_.payload_) with _ | inp
  · rw [hp] at hd; simp at hd
  rw [hp] at hd
  simp only at hd
  rcases hu : z1.Uncompress cod inp (toSizeT (c.rmsg_hdr_.meta_ + c.rmsg_hdr_.data_))
    with f | ⟨st, out⟩
  · rw [hu] at hd; simp at hd
  rw [hu] at hd
  cases st with
  | kCompInvalidInput => simp at hd
  | kCompBufferTooSmall => simp at hd
  | kCompOk =>
    simp only at hd
    split_ifs at hd with hne
    rcases hk : poke 0 z1.buffer_ 0 out with _ | tmp
    · rw [hk] at hd; simp at hd
    rw [hk] at hd
    exact consume_status _ _ _ hd

theorem decodePayload_status (h : Heap) (cod : Codecs) (c c2 : Connection) (s : Status)
    (hd : c.decodePayload h cod = .ok (s, c2)) : s = .kDecodeOk ∨ s = .kDecodeFragment := by
  unfold Connection.decodePayload at hd
  split_ifs at hd with h1 h2
  · simp only [Except.ok.injEq, Prod.mk.injEq] at hd
    exact Or.inr hd.1.symm
  · exact Or.inl (consume_status _ _ _ hd)
  · exact Or.inl (decodeCompressed_status h cod c c2 s hd)

theorem Decode_status (h : Heap) (cod : Codecs) (c c2 : Connection) (s : Status)
    (hd : c.Decode h cod = .ok (s, c2)) : s = .kDecodeOk ∨ s = .kDecodeFragment := by
  unfold Connection.Decode at hd
  split at hd
  · simp at hd
  · simp only [Except.ok.injEq, Prod.mk.injEq] at hd
    exact Or.inr hd.1.symm
  · exact decodePayload_status h cod _ c2 s hd

/-- C3 (frame bounds), evaluated on the code: `Decode` accepts a frame whose
header declares a data length of `2^31 - 1`, above `kMaxDataSize`, and returns
`kDecodeOk` with that data length; on a frame that declares a payload length of
`2^31 + 1` it computes with a negative `payload_` and moves `rcur_` out of the
buffer; and no input at all makes `Decode` return `kDecodeError`. -/
theorem C3_decode_accepts_oversize :
    (∃ r2, (sampleConnection.received oversizeDataFrame).Decode sampleHeap sampleCodecs
        = .ok (.kDecodeOk, r2) ∧
      r2.rmsg_hdr_.data_ = 2147483647 ∧ (kMaxDataSize : Int) < r2.rmsg_hdr_.data_) ∧
    (sampleConnection.received oversizePayloadFrame).Decode sampleHeap sampleCodecs
        = .error .undefined ∧
    (∀ (h : Heap) (cod : Codecs) (c c2 : Connection),
      c.Decode h cod ≠ .ok (.kDecodeError, c2)) := by
  refine ⟨⟨_, rfl, by decide, by decide⟩, by rfl, ?_⟩
  intro h cod c c2 hd
  rcases Decode_status h cod c c2 _ hd with h1 | h1 <;> simp at h1

/-- C4 (compression threshold). Below 256 payload bytes, whatever kind the
message selects, `Encode` records compression id 0 in the header and writes the
uncompressed serialization (meta, then data) as the body, and it returns
`kEncodeOk` whenever the allocator does not fail; from 256 bytes on, with a kind
other than none, the recorded id is the selected kind and the body is the output
of that kind's library. -/
theorem C4_compression_threshold (hS : Heap) (cod : Codecs) (c : Connection) (m : Message)
    (hw : c.WellFormed) :
    (m.smeta.length + m.sdata.length < kCompressionThreshold →
      (∀ c2, c.Encode hS cod m = .ok (.kEncodeOk, c2) →
        c2.wread c2.hdr_comp_ 1 = some [kNoCompression] ∧
        c2.wread c2.msg_body_ (m.smeta.length + m.sdata.length) = some (m.smeta ++ m.sdata) ∧
        c2.wbytes_ = m.smeta.length + m.sdata.length + 11) ∧
      ((∀ p n, (hS.realloc p n).isSome) → ∃ c2, c.Encode hS cod m = .ok (.kEncodeOk, c2))) ∧
    (kCompressionThreshold ≤ m.smeta.length + m.sdata.length →
      m.compression_type ≠ kNoCompression →
      ∀ c2, c.Encode hS cod m = .ok (.kEncodeOk, c2) →
        c2.wread c2.hdr_comp_ 1 = some [m.compression_type] ∧
        ∃ lib, libOf cod m.compression_type = some lib ∧
          c2.wread c2.msg_body_ (lib.deflate (m.smeta ++ m.sdata)).length
            = some (lib.deflate (m.smeta ++ m.sdata))) := by
  constructor
  · intro hth
    constructor
    · intro c2 he
      obtain ⟨comp, body, hf, hw2, _, hbytes, _, _, _, _, _, _, _, r4, r5⟩ :=
        Encode_layout hS cod c c2 m hw he
      obtain ⟨_, _, _, _, _, _, g7, g8, _⟩ := hw2
      simp only [kMsgPayloadSize, kMsgDataSize, kMsgMetaSize, kMsgHdrSize] at g7 g8
      rcases hf with ⟨h0, hb, _⟩ | ⟨hge, _⟩
      · subst h0 hb
        refine ⟨by rw [g7]; exact r4, ?_, ?_⟩
        · rw [g8, ← List.length_append]; exact r5
        · rw [hbytes, List.length_append]
      · omega
    · intro hS_ok
      unfold kCompressionThreshold at hth
      exact Encode_total hS cod c m hw (by omega) (by unfold kMaxDataSize; omega) hS_ok
        (by omega) (fun hge => absurd hge (by unfold kCompressionThreshold; omega))
  · intro hge hk c2 he
    obtain ⟨comp, body, hf, hw2, _, hbytes, _, _, _, _, _, _, _, r4, r5⟩ :=
      Encode_layout hS cod c c2 m hw he
    obtain ⟨_, _, _, _, _, _, g7, g8, _⟩ := hw2
    simp only [kMsgPayloadSize, kMsgDataSize, kMsgMetaSize, kMsgHdrSize] at g7 g8
    rcases hf with ⟨_, _, hlt | h0⟩ | ⟨_, hc, _, lib, hl, hb⟩
    · omega
    · exact absurd h0 hk
    · subst hc hb
      exact ⟨by rw [g7]; exact r4, lib, hl, by rw [g8]; exact r5⟩

/-- Witness of C4: the 16-byte message selects LZ4 and is framed with id 0 and
its plain serialization; the 300-byte message selects LZ4 and is framed with
id 2. -/
theorem C4_compression_threshold_witness :
    smallMessage.compression_type = kLz4Compression ∧
    encodedSmall.wread encodedSmall.hdr_comp_ 1 = some [kNoCompression] ∧
    encodedSmall.wread encodedSmall.msg_body_ 16
      = some (smallMessage.smeta ++ smallMessage.sdata) ∧
    ∃ c2, sampleConnection.Encode sampleHeap sampleCodecs sampleMessage = .ok (.kEncodeOk, c2) ∧
      c2.wread c2.hdr_comp_ 1 = some [kLz4Compression] := by
  have h1 := (C4_compression_threshold sampleHeap sampleCodecs sampleConnection smallMessage
    (by decide)).1 (by decide)
  obtain ⟨a, b, _⟩ := h1.1 encodedSmall encodedSmall_eq
  obtain ⟨c2, hc2⟩ := Encode_total sampleHeap sampleCodecs sampleConnection sampleMessage
    (by decide) (by simp only [sampleMessage, List.length_replicate]; omega)
    (by simp only [sampleMessage, List.length_replicate, kMaxDataSize]; omega)
    (fun _ _ => rfl) (by simp only [sampleMessage, List.length_replicate]; omega)
    (fun _ _ => ⟨sampleLibrary, rfl, sample_bounds kLz4Compression sampleLibrary _ rfl
      (by simp only [sampleMessage, List.length_replicate, List.length_append]; omega)⟩)
  have h2 := (C4_compression_threshold sampleHeap sampleCodecs sampleConnection sampleMessage
    (by decide)).2 (by simp only [sampleMessage, List.length_replicate, kCompressionThreshold]; omega)
    (by decide) c2 hc2
  exact ⟨rfl, a, b, c2, hc2, h2.1⟩

/-! ## Channel: what the message methods do -/

theorem SetCancel_ok (w w2 : World) (p : Nat) (h : w.SetCancel p = .ok w2) :
    ∃ m c, w.msgs p = some m ∧ w2 = { w with ctls := c } := by
  unfold World.SetCancel at h
  split at h
  · simp at h
  · rename_i m hm
    simp only [Except.ok.injEq] at h
    exact ⟨m, _, hm, h.symm⟩

theorem DelMonitor_ok (w w2 : World) (p : Nat) (h : w.DelMonitor p = .ok w2) :
    ∃ m, w.msgs p = some m ∧
      w2 = { w with msgs := Function.update w.msgs p (some { m with monitor_ := false }) } := by
  unfold World.DelMonitor at h
  split at h
  · simp at h
  · rename_i m hm
    refine ⟨m, hm, ?_⟩
    split_ifs at h with hmon
    · simp only [Except.ok.injEq] at h
      subst h
      have hmf : m.monitor_ = false := by simpa using hmon
      have : ({ m with monitor_ := false } : ClientMessage) = m := by
        cases m; simp_all
      rw [this, ← hm, Function.update_eq_self]
    · simp only [Except.ok.injEq] at h
      exact h.symm

theorem Finish_ok (w w2 : World) (p : Nat) (h : w.Finish p = .ok w2) :
    ∃ m c, w.msgs p = some m ∧
      w2 = { w with
        ctls := c
        msgs := Function.update w.msgs p (some { m with finish_ := true })
        done_runs := w.done_runs ++ (if m.finish_ then [] else [p]) } := by
  unfold World.Finish at h
  split at h
  · simp at h
  · rename_i m hm
    refine ⟨m, w2.ctls, hm, ?_⟩
    split_ifs at h with hfin
    · simp only [Except.ok.injEq] at h
      subst h
      have : ({ m with finish_ := true } : ClientMessage) = m := by
        cases m; simp_all
      rw [this, ← hm, Function.update_eq_self]
      simp [hfin]
    · simp only [Except.ok.injEq] at h
      subst h
      simp [hfin]

theorem deleteMsg_ok (w w2 : World) (p : Nat) (h : w.deleteMsg p = .ok w2) :
    ∃ m, w.msgs p = some m ∧ m.finish_ = true ∧ m.monitor_ = false ∧
      w2 = { w with msgs := Function.update w.msgs p none } := by
  unfold World.deleteMsg at h
  split at h
  · simp at h
  · rename_i m hm
    split_ifs at h with hc
    simp only [Except.ok.injEq] at h
    simp only [Bool.and_eq_true, Bool.not_eq_true'] at hc
    exact ⟨m, hm, hc.1, hc.2, h.symm⟩

theorem bind_ok {α β : Type} (x : Except Fault α) (f : α → Except Fault β) (b : β)
    (h : (x >>= f) = .ok b) : ∃ a, x = .ok a ∧ f a = .ok b := by
  cases x with
  | error e => simp [bind, Except.bind] at h
  | ok a => exact ⟨a, rfl, h⟩

theorem CancelRpc_ok (w w2 : World) (p : Nat) (h : w.CancelRpc p = .ok w2) :
    ∃ m c, w.msgs p = some m ∧
      w2 = { w with
        ctls := c
        msgs := Function.update w.msgs p none
        done_runs := w.done_runs ++ (if m.finish_ then [] else [p]) } := by
  unfold World.CancelRpc at h
  obtain ⟨w1, h1, h⟩ := bind_ok _ _ _ h
  obtain ⟨w3, h3, h⟩ := bind_ok _ _ _ h
  obtain ⟨w4, h4, h⟩ := bind_ok _ _ _ h
  obtain ⟨m, c1, hm, e1⟩ := SetCancel_ok _ _ _ h1
  subst e1
  obtain ⟨m3, hm3, e3⟩ := DelMonitor_ok _ _ _ h3
  subst e3
  obtain ⟨m4, c4, hm4, e4⟩ := Finish_ok _ _ _ h4
  subst e4
  obtain ⟨m5, hm5, _, _, e5⟩ := deleteMsg_ok _ _ _ h
  subst e5
  simp only at hm3 hm4
  rw [hm] at hm3
  simp only [Option.some.injEq] at hm3
  subst hm3
  simp only [Function.update_same, Option.some.injEq] at hm4
  subst hm4
  refine ⟨m, c4, hm, ?_⟩
  simp only [Function.update_idem]

/-! ## Channel: the invariant -/

theorem find_if_some (l : List MsgItem) (s : Nat) (it : MsgItem) (h : find_if l s = some it) :
    it ∈ l ∧ it.1 = s := by
  unfold find_if at h
  have h1 := List.mem_of_find?_eq_some h
  have h2 := List.find?_some h
  exact ⟨h1, by simpa using h2⟩

theorem find_if_none (l : List MsgItem) (s : Nat) (h : find_if l s = none) :
    ∀ it ∈ l, it.1 ≠ s := by
  unfold find_if at h
  intro it hit
  have := List.find?_eq_none.mp h it hit
  simpa using this

theorem erase_found_eq_filter (l : List MsgItem) (p : Nat)
    (h1 : ∀ it ∈ l, it.1 = it.2) (h2 : (l.map Prod.snd).Nodup) :
    erase_found l p = l.filter (fun it => decide (it.2 ≠ p)) := by
  induction l with
  | nil => rfl
  | cons a l ih =>
    have ha := h1 a (List.mem_cons_self _ _)
    have hl : ∀ it ∈ l, it.1 = it.2 := fun it hit => h1 it (List.mem_cons_of_mem _ hit)
    simp only [List.map_cons, List.nodup_cons] at h2
    unfold erase_found at ih ⊢
    by_cases hp : a.2 = p
    · have hpa : (a.1 == p) = true := by simp [ha, hp]
      simp only [List.eraseP_cons, hpa, cond_true]
      rw [List.filter_cons_of_neg (by simp [hp])]
      symm
      rw [List.filter_eq_self]
      intro it hit
      have : it.2 ≠ a.2 := by
        intro heq
        exact h2.1 (by rw [← heq]; exact List.mem_map_of_mem _ hit)
      simp [← hp, this]
    · have hpa : (a.1 == p) = false := by simp [ha, hp]
      simp only [List.eraseP_cons, hpa, cond_false]
      rw [List.filter_cons_of_pos (by simp [hp]), ih hl h2.2]

theorem filter_ne_self (l : List MsgItem) (p : Nat) (h : p ∉ l.map Prod.snd) :
    l.filter (fun it => decide (it.2 ≠ p)) = l := by
  rw [List.filter_eq_self]
  intro it hit
  have : it.2 ≠ p := by
    intro heq
    exact h (by rw [← heq]; exact List.mem_map_of_mem _ hit)
  simp [this]

theorem expectedRuns_update_ne (msgs : Nat → Option ClientMessage) (next p q : Nat)
    (v : Option ClientMessage) (h : q ≠ p) :
    expectedRuns (Function.update msgs p v) next q = expectedRuns msgs next q := by
  unfold expectedRuns
  rw [Function.update_noteq h]

theorem count_append_singleton (l : List Nat) (p q : Nat) :
    (l ++ [p]).count q = l.count q + (if q = p then 1 else 0) := by
  rw [List.count_append, List.count_singleton]
  by_cases h : q = p
  · subst h; simp
  · have : ¬ (p == q) = true := by simpa using fun h' => h h'.symm
    simp [h, this]

/-- Removing an unfinished message that is not at the current-send slot from
the queues, destroying it and recording its completion keeps the invariant. -/
theorem ChanInv.remove {sq rq : List MsgItem} {cur : MsgItem}
    {msgs : Nat → Option ClientMessage} {runs : List Nat} {next : Nat}
    (h : ChanInv sq rq cur msgs runs next) (p : Nat) (m : ClientMessage)
    (hm : msgs p = some m) (hf : m.finish_ = false) (hcur : cur.2 ≠ p) :
    ChanInv (sq.filter (fun it => decide (it.2 ≠ p))) (rq.filter (fun it => decide (it.2 ≠ p)))
      cur (Function.update msgs p none) (runs ++ [p]) next := by
  have hmemf : ∀ it, it ∈ sq.filter (fun it => decide (it.2 ≠ p)) ++
      rq.filter (fun it => decide (it.2 ≠ p)) ↔ (it ∈ sq ++ rq ∧ it.2 ≠ p) := by
    intro it
    simp only [List.mem_append, List.mem_filter, decide_eq_true_eq]
    tauto
  constructor
  · intro it hit
    obtain ⟨h1, h2⟩ := (hmemf it).1 hit
    obtain ⟨e, m2, hm2⟩ := h.item it h1
    exact ⟨e, m2, by rw [Function.update_noteq h2]; exact hm2⟩
  · rw [← List.filter_append]
    exact List.Nodup.sublist (List.Sublist.map _ (List.filter_sublist _)) h.nodup
  · intro q m2 hq
    have hqp : q ≠ p := by
      intro e
      rw [e, Function.update_same] at hq
      simp at hq
    rw [Function.update_noteq hqp] at hq
    obtain ⟨a, b, c, d⟩ := h.live q m2 hq
    exact ⟨a, b, c, (hmemf _).2 ⟨d, hqp⟩⟩
  · intro h0
    have hs := h.slot h0
    cases sq with
    | nil => simp at hs
    | cons a tl =>
      simp only [List.head?_cons, Option.some.injEq] at hs
      subst hs
      rw [List.filter_cons_of_pos (by simpa using hcur)]
      rfl
  · intro q m2 hq hfin
    have hqp : q ≠ p := by
      intro e
      rw [e, Function.update_same] at hq
      simp at hq
    rw [Function.update_noteq hqp] at hq
    exact h.fin q m2 hq hfin
  · intro q m2 hq
    have hqp : q ≠ p := by
      intro e
      rw [e, Function.update_same] at hq
      simp at hq
    rw [Function.update_noteq hqp] at hq
    exact h.mon q m2 hq
  · intro q
    rw [count_append_singleton, h.runs q]
    by_cases hqp : q = p
    · subst hqp
      obtain ⟨_, b, c, _⟩ := h.live q m hm
      simp [expectedRuns, hm, hf, b, c]
    · rw [expectedRuns_update_ne _ _ _ _ _ hqp]
      simp [hqp]

/-- Finishing the message at the current-send slot in place keeps the
invariant. -/
theorem ChanInv.finish {sq rq : List MsgItem} {cur : MsgItem}
    {msgs : Nat → Option ClientMessage} {runs : List Nat} {next : Nat}
    (h : ChanInv sq rq cur msgs runs next) (m m2 : ClientMessage)
    (hm : msgs cur.2 = some m) (hf : m2.finish_ = true) (hmon : m2.monitor_ = false)
    (hid : m2.id = m.id) :
    ChanInv sq rq cur (Function.update msgs cur.2 (some m2))
      (runs ++ (if m.finish_ then [] else [cur.2])) next := by
  constructor
  · intro it hit
    obtain ⟨e, m3, hm3⟩ := h.item it hit
    refine ⟨e, ?_⟩
    by_cases hc : it.2 = cur.2
    · exact ⟨m2, by rw [hc, Function.update_same]⟩
    · exact ⟨m3, by rw [Function.update_noteq hc]; exact hm3⟩
  · exact h.nodup
  · intro q m3 hq
    by_cases hc : q = cur.2
    · subst hc
      rw [Function.update_same] at hq
      simp only [Option.some.injEq] at hq
      subst hq
      obtain ⟨a, b⟩ := h.live _ m hm
      exact ⟨by rw [hid]; exact a, b⟩
    · rw [Function.update_noteq hc] at hq
      exact h.live q m3 hq
  · exact h.slot
  · intro q m3 hq hfin
    by_cases hc : q = cur.2
    · exact hc.symm
    · rw [Function.update_noteq hc] at hq
      exact h.fin q m3 hq hfin
  · intro q m3 hq
    by_cases hc : q = cur.2
    · subst hc
      rw [Function.update_same] at hq
      simp only [Option.some.injEq] at hq
      subst hq
      simp [hf, hmon]
    · rw [Function.update_noteq hc] at hq
      exact h.mon q m3 hq
  · intro q
    by_cases hc : q = cur.2
    · subst hc
      have := h.runs cur.2
      by_cases hfin : m.finish_ = true
      · simp [expectedRuns, hm, hf, hfin] at this ⊢
        exact this
      · simp only [Bool.not_eq_true] at hfin
        rw [hfin]
        simp only [Bool.false_eq_true, if_false]
        rw [count_append_singleton, this]
        simp [expectedRuns, hm, hf, hfin]
    · rw [expectedRuns_update_ne _ _ _ _ _ hc, ← h.runs q]
      split_ifs
      · simp
      · rw [count_append_singleton]
        simp [hc]

/-- Popping the finished message at the current-send slot off the send queue
and destroying it keeps the invariant. -/
theorem ChanInv.drop {rest rq : List MsgItem} {cur : MsgItem}
    {msgs : Nat → Option ClientMessage} {runs : List Nat} {next : Nat}
    (h : ChanInv (cur :: rest) rq cur msgs runs next) (m : ClientMessage)
    (hm : msgs cur.2 = some m) (hf : m.finish_ = true) :
    ChanInv rest rq (0, 0) (Function.update msgs cur.2 none) runs next := by
  have hnd := h.nodup
  simp only [List.cons_append, List.map_cons, List.nodup_cons] at hnd
  have hne : ∀ it ∈ rest ++ rq, it.2 ≠ cur.2 := by
    intro it hit e
    exact hnd.1 (by rw [← e]; exact List.mem_map_of_mem _ hit)
  constructor
  · intro it hit
    obtain ⟨e, m3, hm3⟩ := h.item it (by simp only [List.cons_append]; exact List.mem_cons_of_mem _ hit)
    exact ⟨e, m3, by rw [Function.update_noteq (hne it hit)]; exact hm3⟩
  · exact hnd.2
  · intro q m3 hq
    have hqp : q ≠ cur.2 := by
      intro e
      rw [e, Function.update_same] at hq
      simp at hq
    rw [Function.update_noteq hqp] at hq
    obtain ⟨a, b, c, d⟩ := h.live q m3 hq
    refine ⟨a, b, c, ?_⟩
    simp only [List.cons_append, List.mem_cons] at d
    rcases d with d | d
    · exact absurd (by rw [← d]) hqp
    · exact d
  · intro h0
    exact absurd rfl h0
  · intro q m3 hq hfin
    have hqp : q ≠ cur.2 := by
      intro e
      rw [e, Function.update_same] at hq
      simp at hq
    rw [Function.update_noteq hqp] at hq
    exact absurd (h.fin q m3 hq hfin).symm hqp
  · intro q m3 hq
    have hqp : q ≠ cur.2 := by
      intro e
      rw [e, Function.update_same] at hq
      simp at hq
    rw [Function.update_noteq hqp] at hq
    exact h.mon q m3 hq
  · intro q
    rw [h.runs q]
    by_cases hqp : q = cur.2
    · subst hqp
      obtain ⟨_, b, c, _⟩ := h.live _ m hm
      simp [expectedRuns, hm, hf, b, c]
    · rw [expectedRuns_update_ne _ _ _ _ _ hqp]

/-- Moving the unfinished message at the current-send slot from the head of the
send queue to the tail of the receive queue keeps the invariant. -/
theorem ChanInv.sent {rest rq : List MsgItem} {cur : MsgItem}
    {msgs : Nat → Option ClientMessage} {runs : List Nat} {next : Nat}
    (h : ChanInv (cur :: rest) rq cur msgs runs next) (m : ClientMessage)
    (hm : msgs cur.2 = some m) (hf : m.finish_ = false) :
    ChanInv rest (rq ++ [cur]) (0, 0) msgs runs next := by
  have hperm : List.Perm (rest ++ (rq ++ [cur])) ((cur :: rest) ++ rq) := by
    rw [← List.append_assoc]
    exact (List.perm_append_singleton cur (rest ++ rq))
  constructor
  · intro it hit
    exact h.item it (hperm.subset hit)
  · exact (List.Perm.nodup_iff (hperm.map _)).2 h.nodup
  · intro q m3 hq
    obtain ⟨a, b, c, d⟩ := h.live q m3 hq
    exact ⟨a, b, c, hperm.symm.subset d⟩
  · intro h0
    exact absurd rfl h0
  · intro q m3 hq hfin
    have := h.fin q m3 hq hfin
    subst this
    rw [hm] at hq
    simp only [Option.some.injEq] at hq
    subst hq
    rw [hf] at hfin
    simp at hfin
  · exact h.mon
  · exact h.runs

/-- Putting the receive queue back in front of the send queue and emptying the
current-send slot keeps the invariant when no message is finished. -/
theorem ChanInv.requeue {sq rq : List MsgItem} {cur : MsgItem}
    {msgs : Nat → Option ClientMessage} {runs : List Nat} {next : Nat}
    (h : ChanInv sq rq cur msgs runs next)
    (hc : ∀ m, msgs cur.2 = some m → m.finish_ = false) :
    ChanInv (rq ++ sq) [] (0, 0) msgs runs next := by
  have hperm : List.Perm ((rq ++ sq) ++ []) (sq ++ rq) := by
    rw [List.append_nil]
    exact List.perm_append_comm
  constructor
  · intro it hit
    exact h.item it (hperm.subset hit)
  · exact (List.Perm.nodup_iff (hperm.map _)).2 h.nodup
  · intro q m3 hq
    obtain ⟨a, b, c, d⟩ := h.live q m3 hq
    exact ⟨a, b, c, hperm.symm.subset d⟩
  · intro h0
    exact absurd rfl h0
  · intro q m3 hq hfin
    have := h.fin q m3 hq hfin
    subst this
    rw [hc m3 hq] at hfin
    simp at hfin
  · exact h.mon
  · exact h.runs

/-- Loading the head of the send queue into the empty current-send slot keeps
the invariant. -/
theorem ChanInv.take {rest rq : List MsgItem} {cur it : MsgItem}
    {msgs : Nat → Option ClientMessage} {runs : List Nat} {next : Nat}
    (h : ChanInv (it :: rest) rq cur msgs runs next) (hc : cur.2 = 0) :
    ChanInv (it :: rest) rq it msgs runs next := by
  constructor
  · exact h.item
  · exact h.nodup
  · exact h.live
  · intro _
    rfl
  · intro q m3 hq hfin
    have := h.fin q m3 hq hfin
    have := (h.live q m3 hq).2.1
    omega
  · exact h.mon
  · exact h.runs

/-- Creating a message at the next address and appending it to the send queue
keeps the invariant. -/
theorem ChanInv.push {sq rq : List MsgItem} {cur : MsgItem}
    {msgs : Nat → Option ClientMessage} {runs : List Nat} {next : Nat}
    (h : ChanInv sq rq cur msgs runs next) (m : ClientMessage)
    (hid : m.id = next + 1) (hf : m.finish_ = false) (hmon : m.monitor_ = true) :
    ChanInv (sq ++ [(next + 1, next + 1)]) rq cur (Function.update msgs (next + 1) (some m))
      runs (next + 1) := by
  have hnone : msgs (next + 1) = none := by
    cases hx : msgs (next + 1) with
    | none => rfl
    | some m3 =>
      have := (h.live _ m3 hx).2.2.1
      omega
  have hold : ∀ it ∈ sq ++ rq, it.2 ≠ next + 1 := by
    intro it hit e
    obtain ⟨_, m3, hm3⟩ := h.item it hit
    rw [e, hnone] at hm3
    simp at hm3
  have hperm : List.Perm ((sq ++ [(next + 1, next + 1)]) ++ rq) ((next + 1, next + 1) :: (sq ++ rq)) := by
    rw [List.append_assoc]
    exact List.perm_middle
  constructor
  · intro it hit
    have := hperm.subset hit
    simp only [List.mem_cons] at this
    rcases this with e | hin
    · subst e
      exact ⟨rfl, m, by simp⟩
    · obtain ⟨e, m3, hm3⟩ := h.item it hin
      exact ⟨e, m3, by rw [Function.update_noteq (hold it hin)]; exact hm3⟩
  · rw [List.Perm.nodup_iff (hperm.map _)]
    simp only [List.map_cons, List.nodup_cons]
    refine ⟨?_, h.nodup⟩
    intro hin
    obtain ⟨it, hit, e⟩ := List.mem_map.1 hin
    exact hold it hit e
  · intro q m3 hq
    by_cases hc : q = next + 1
    · subst hc
      rw [Function.update_same] at hq
      simp only [Option.some.injEq] at hq
      subst hq
      refine ⟨hid, by omega, le_refl _, ?_⟩
      exact hperm.symm.subset (List.mem_cons_self _ _)
    · rw [Function.update_noteq hc] at hq
      obtain ⟨a, b, c, d⟩ := h.live q m3 hq
      exact ⟨a, b, by omega, hperm.symm.subset (List.mem_cons_of_mem _ d)⟩
  · intro h0
    have hs := h.slot h0
    cases sq with
    | nil => simp at hs
    | cons a tl => simpa using hs
  · intro q m3 hq hfin
    by_cases hc : q = next + 1
    · subst hc
      rw [Function.update_same] at hq
      simp only [Option.some.injEq] at hq
      subst hq
      rw [hf] at hfin
      simp at hfin
    · rw [Function.update_noteq hc] at hq
      exact h.fin q m3 hq hfin
  · intro q m3 hq
    by_cases hc : q = next + 1
    · subst hc
      rw [Function.update_same] at hq
      simp only [Option.some.injEq] at hq
      subst hq
      simp [hf, hmon]
    · rw [Function.update_noteq hc] at hq
      exact h.mon q m3 hq
  · intro q
    rw [h.runs q]
    by_cases hc : q = next + 1
    · subst hc
      simp [expectedRuns, hnone, hf]
    · unfold expectedRuns
      rw [Function.update_noteq hc]
      cases msgs q with
      | some m3 => rfl
      | none =>
        simp only
        have : (1 ≤ q ∧ q ≤ next + 1) ↔ (1 ≤ q ∧ q ≤ next) := by omega
        simp only [this]

/-! ## Channel: cancelling every call -/

theorem World.Same.refl (w : World) : World.Same w w :=
  ⟨rfl, rfl, rfl, rfl, rfl, rfl, List.prefix_refl _⟩

theorem World.Same.trans {w w2 w3 : World} (h1 : World.Same w w2) (h2 : World.Same w2 w3) :
    World.Same w w3 :=
  ⟨h2.seq.trans h1.seq, h2.tid.trans h1.tid, h2.next.trans h1.next,
    h2.created.trans h1.created, h2.handed.trans h1.handed, h2.parsed.trans h1.parsed,
    List.IsPrefix.trans h1.runs h2.runs⟩

theorem ChanInv.recv_ne_cur {sq rq : List MsgItem} {cur : MsgItem}
    {msgs : Nat → Option ClientMessage} {runs : List Nat} {next : Nat}
    (h : ChanInv sq rq cur msgs runs next) : ∀ it ∈ rq, it.2 ≠ cur.2 := by
  intro it hit e
  by_cases h0 : cur.2 = 0
  · obtain ⟨_, m, hm⟩ := h.item it (List.mem_append_right _ hit)
    have := (h.live _ m hm).2.1
    omega
  · have hs := List.mem_of_mem_head? (h.slot h0)
    have hnd := h.nodup
    rw [List.map_append, List.nodup_append] at hnd
    exact hnd.2.2 (List.mem_map_of_mem Prod.snd hs) (by rw [← e]; exact List.mem_map_of_mem Prod.snd hit)

theorem ChanInv.queued_ne_zero {sq rq : List MsgItem} {cur : MsgItem}
    {msgs : Nat → Option ClientMessage} {runs : List Nat} {next : Nat}
    (h : ChanInv sq rq cur msgs runs next) : ∀ it ∈ sq ++ rq, it.2 ≠ 0 := by
  intro it hit e
  obtain ⟨_, m, hm⟩ := h.item it hit
  have := (h.live _ m hm).2.1
  omega

theorem ChanInv.unfinished {sq rq : List MsgItem} {cur : MsgItem}
    {msgs : Nat → Option ClientMessage} {runs : List Nat} {next : Nat}
    (h : ChanInv sq rq cur msgs runs next) (p : Nat) (m : ClientMessage)
    (hm : msgs p = some m) (hp : p ≠ cur.2) : m.finish_ = false := by
  cases hf : m.finish_ with
  | false => rfl
  | true => exact absurd (h.fin p m hm hf).symm hp

theorem CancelRpc_total (w : World) (p : Nat) (m : ClientMessage) (hm : w.msgs p = some m) :
    ∃ w2, w.CancelRpc p = .ok w2 := by
  cases hmon : m.monitor_ <;> cases hfin : m.finish_ <;>
    simp [World.CancelRpc, World.SetCancel, World.SetResponseCode, World.DelMonitor,
      World.Finish, World.deleteMsg, hm, hmon, hfin, bind, Except.bind]

theorem filter_notin_nil (l : List MsgItem) :
    l.filter (fun it => decide (it.2 ∉ ([] : List MsgItem).map Prod.snd)) = l := by
  rw [List.filter_eq_self]
  intro it _
  simp

theorem filter_notin_cons (l q : List MsgItem) (a : MsgItem) :
    (l.filter (fun it => decide (it.2 ≠ a.2))).filter
        (fun it => decide (it.2 ∉ q.map Prod.snd))
      = l.filter (fun it => decide (it.2 ∉ (a :: q).map Prod.snd)) := by
  rw [List.filter_filter]
  apply List.filter_congr
  intro it _
  simp only [List.map_cons, List.mem_cons, not_or, Bool.and_eq_true, decide_eq_true_eq,
    Bool.decide_and, ne_eq]
  by_cases h1 : it.2 = a.2 <;> by_cases h2 : it.2 ∈ List.map Prod.snd q <;> simp [h1, h2]

theorem filter_notin_self (l : List MsgItem) :
    l.filter (fun it => decide (it.2 ∉ l.map Prod.snd)) = [] := by
  rw [List.filter_eq_nil_iff]
  intro it hit
  simp only [decide_eq_true_eq, not_not]
  exact List.mem_map_of_mem Prod.snd hit

theorem filter_notin_disjoint (l q : List MsgItem) (h : ∀ it ∈ l, it.2 ∉ q.map Prod.snd) :
    l.filter (fun it => decide (it.2 ∉ q.map Prod.snd)) = l := by
  rw [List.filter_eq_self]
  intro it hit
  simpa using h it hit

/-- The loop of `CancelAllRpc` over a list of queued messages, none of them at
the current-send slot: it keeps the invariant for the queues without these
messages. -/
theorem cancelEach_inv (q : List MsgItem) : ∀ (w w2 : World) (sq rq : List MsgItem)
    (cur : MsgItem), ChanInv sq rq cur w.msgs w.done_runs w.next_msg →
    (∀ it ∈ q, it.2 ≠ cur.2) → w.cancelEach q = .ok w2 →
    ChanInv (sq.filter (fun it => decide (it.2 ∉ q.map Prod.snd)))
      (rq.filter (fun it => decide (it.2 ∉ q.map Prod.snd))) cur w2.msgs w2.done_runs w2.next_msg ∧
    w2.chan = w.chan ∧ World.Same w w2 ∧ ∀ p, p ∉ q.map Prod.snd → w2.msgs p = w.msgs p := by
  induction q with
  | nil =>
    intro w w2 sq rq cur h _ hc
    simp only [World.cancelEach, Except.ok.injEq] at hc
    subst hc
    rw [filter_notin_nil, filter_notin_nil]
    exact ⟨h, rfl, World.Same.refl _, fun _ _ => rfl⟩
  | cons a q ih =>
    intro w w2 sq rq cur h hne hc
    unfold World.cancelEach at hc
    obtain ⟨w1, h1, hc⟩ := bind_ok _ _ _ hc
    obtain ⟨m, c, hm, e1⟩ := CancelRpc_ok _ _ _ h1
    have hacur : a.2 ≠ cur.2 := hne a (List.mem_cons_self _ _)
    have hf := h.unfinished a.2 m hm hacur
    have hrem := h.remove a.2 m hm hf (Ne.symm hacur)
    have hw1 : ChanInv (sq.filter (fun it => decide (it.2 ≠ a.2)))
        (rq.filter (fun it => decide (it.2 ≠ a.2))) cur w1.msgs w1.done_runs w1.next_msg := by
      rw [e1]
      simp only [hf, Bool.false_eq_true, if_false]
      exact hrem
    obtain ⟨i1, i2, i3, i4⟩ := ih w1 w2 _ _ cur hw1
      (fun it hit => hne it (List.mem_cons_of_mem _ hit)) hc
    rw [filter_notin_cons, filter_notin_cons] at i1
    refine ⟨i1, ?_, ?_, ?_⟩
    · rw [i2, e1]
    · refine World.Same.trans ?_ i3
      rw [e1]
      exact ⟨rfl, rfl, rfl, rfl, rfl, rfl, List.prefix_append _ _⟩
    · intro p hp
      simp only [List.map_cons, List.mem_cons, not_or] at hp
      rw [i4 p hp.2, e1]
      exact Function.update_noteq hp.1 _ _

theorem cancelEach_total (q : List MsgItem) : ∀ (w : World), (q.map Prod.snd).Nodup →
    (∀ it ∈ q, ∃ m, w.msgs it.2 = some m) → ∃ w2, w.cancelEach q = .ok w2 := by
  induction q with
  | nil =>
    intro w _ _
    exact ⟨w, rfl⟩
  | cons a q ih =>
    intro w hnd hl
    obtain ⟨m, hm⟩ := hl a (List.mem_cons_self _ _)
    obtain ⟨w1, h1⟩ := CancelRpc_total w a.2 m hm
    obtain ⟨m1, c, _, e1⟩ := CancelRpc_ok _ _ _ h1
    simp only [List.map_cons, List.nodup_cons] at hnd
    have hl1 : ∀ it ∈ q, ∃ m, w1.msgs it.2 = some m := by
      intro it hit
      obtain ⟨m2, hm2⟩ := hl it (List.mem_cons_of_mem _ hit)
      have hne : it.2 ≠ a.2 := by
        intro e
        exact hnd.1 (by rw [← e]; exact List.mem_map_of_mem Prod.snd hit)
      refine ⟨m2, ?_⟩
      rw [e1]
      simp only
      rw [Function.update_noteq hne]
      exact hm2
    obtain ⟨w2, h2⟩ := ih w1 hnd.2 hl1
    refine ⟨w2, ?_⟩
    unfold World.cancelEach
    rw [h1]
    exact h2

/-- The middle of `CancelAllRpc` keeps the invariant, for the send queue with
the message at the current-send slot put back at its head. -/
theorem cancelCurrent_inv (w w2 : World) (close : Bool) (rq : List MsgItem)
    (h : ChanInv w.chan.sendq_ rq w.chan.cur_send_ w.msgs w.done_runs w.next_msg)
    (hc : w.cancelCurrent close = .ok w2) :
    ChanInv (if w2.chan.cur_send_.2 = 0 then w2.chan.sendq_
        else w2.chan.cur_send_ :: w2.chan.sendq_) rq w2.chan.cur_send_ w2.msgs w2.done_runs
      w2.next_msg ∧
    World.Same w w2 ∧ w2.chan.recvq_ = w.chan.recvq_ ∧ w2.chan.conn_ = w.chan.conn_ ∧
    (close = true → w2.chan.cur_send_.2 = 0) ∧
    (w2.chan.cur_send_.2 ≠ 0 →
      ∃ m, w2.msgs w2.chan.cur_send_.2 = some m ∧ m.finish_ = true) := by
  unfold World.cancelCurrent at hc
  by_cases h0 : w.chan.cur_send_.2 = 0
  · simp only [h0, if_true, Except.ok.injEq] at hc
    subst hc
    rw [if_pos h0]
    exact ⟨h, World.Same.refl _, rfl, rfl, fun _ => h0, fun hx => absurd h0 hx⟩
  · simp only [h0, if_false] at hc
    have hs := h.slot h0
    cases hsq : w.chan.sendq_ with
    | nil => rw [hsq] at hs; simp at hs
    | cons a rest =>
      rw [hsq] at hs h
      simp only [List.head?_cons, Option.some.injEq] at hs
      subst hs
      simp only [hsq] at hc
      obtain ⟨w1, h1, hc⟩ := bind_ok _ _ _ hc
      obtain ⟨w3, h3, hc⟩ := bind_ok _ _ _ hc
      obtain ⟨w4, h4, hc⟩ := bind_ok _ _ _ hc
      obtain ⟨m, c1, hm, e1⟩ := SetCancel_ok _ _ _ h1
      subst e1
      obtain ⟨m3, hm3, e3⟩ := DelMonitor_ok _ _ _ h3
      subst e3
      obtain ⟨m4, c4, hm4, e4⟩ := Finish_ok _ _ _ h4
      subst e4
      simp only at hm hm3 hm4
      rw [hm] at hm3
      simp only [Option.some.injEq] at hm3
      subst hm3
      simp only [Function.update_same, Option.some.injEq] at hm4
      subst hm4
      simp only [Function.update_idem] at hc
      have hfin := h.finish m { m with monitor_ := false, finish_ := true } hm rfl rfl rfl
      cases close with
      | true =>
        simp only [if_true] at hc
        obtain ⟨w5, h5, hc⟩ := bind_ok _ _ _ hc
        obtain ⟨m5, hm5, _, _, e5⟩ := deleteMsg_ok _ _ _ h5
        subst e5
        simp only [Except.ok.injEq] at hc
        subst hc
        have hd := hfin.drop { m with monitor_ := false, finish_ := true }
          (by rw [Function.update_same]) rfl
        rw [Function.update_idem] at hd
        refine ⟨?_, ⟨rfl, rfl, rfl, rfl, rfl, rfl, List.prefix_append _ _⟩, rfl, rfl,
          fun _ => rfl, fun hx => absurd rfl hx⟩
        simp only [if_true, Function.update_idem]
        exact hd
      | false =>
        simp only [Bool.false_eq_true, if_false, Except.ok.injEq] at hc
        subst hc
        refine ⟨?_, ⟨rfl, rfl, rfl, rfl, rfl, rfl, List.prefix_append _ _⟩, rfl, rfl,
          fun hx => by simp at hx, fun _ => ⟨_, Function.update_same _ _ _, rfl⟩⟩
        simp only [h0, if_false]
        exact hfin

theorem cancelCurrent_total (w : World) (close : Bool) (rq : List MsgItem)
    (h : ChanInv w.chan.sendq_ rq w.chan.cur_send_ w.msgs w.done_runs w.next_msg) :
    ∃ w2, w.cancelCurrent close = .ok w2 := by
  unfold World.cancelCurrent
  by_cases h0 : w.chan.cur_send_.2 = 0
  · simp only [h0, if_true]
    exact ⟨w, rfl⟩
  · simp only [h0, if_false]
    have hs := h.slot h0
    cases hsq : w.chan.sendq_ with
    | nil => rw [hsq] at hs; simp at hs
    | cons a rest =>
      obtain ⟨_, m, hm⟩ := h.item w.chan.cur_send_
        (List.mem_append_left _ (List.mem_of_mem_head? hs))
      cases hmon : m.monitor_ <;> cases hfin : m.finish_ <;> cases close <;>
        simp [World.SetCancel, World.SetResponseCode, World.DelMonitor,
          World.Finish, World.deleteMsg, hm, hmon, hfin, bind, Except.bind]

/-- The method `CancelAllRpc` keeps the invariant, empties the receive queue,
and with `close` also the send queue and the current-send slot. -/
theorem CancelAllRpc_inv (w w2 : World) (close : Bool)
    (h : ChanInv w.chan.sendq_ w.chan.recvq_ w.chan.cur_send_ w.msgs w.done_runs w.next_msg)
    (hc : w.CancelAllRpc close = .ok w2) :
    ChanInv w2.chan.sendq_ w2.chan.recvq_ w2.chan.cur_send_ w2.msgs w2.done_runs w2.next_msg ∧
    World.Same w w2 ∧ w2.chan.recvq_ = [] ∧ w2.chan.conn_ = w.chan.conn_ ∧
    (close = true → w2.chan.cur_send_.2 = 0 ∧ w2.chan.sendq_ = []) ∧
    (∀ p m, w2.msgs p = some m → m.finish_ = true) := by
  unfold World.CancelAllRpc at hc
  obtain ⟨w1, h1, hc⟩ := bind_ok _ _ _ hc
  obtain ⟨w3, h3, hc⟩ := bind_ok _ _ _ hc
  obtain ⟨w4, h4, hc⟩ := bind_ok _ _ _ hc
  simp only [Except.ok.injEq] at hc
  obtain ⟨a1, a2, a3, _⟩ := cancelEach_inv _ _ _ _ _ _ h h.recv_ne_cur h1
  rw [filter_notin_self] at a1
  have hdis : ∀ it ∈ w.chan.sendq_, it.2 ∉ w.chan.recvq_.map Prod.snd := by
    intro it hit hin
    have hnd := h.nodup
    rw [List.map_append, List.nodup_append] at hnd
    exact hnd.2.2 (List.mem_map_of_mem Prod.snd hit) hin
  rw [filter_notin_disjoint _ _ hdis] at a1
  have a1b : ChanInv w1.chan.sendq_ [] w1.chan.cur_send_ w1.msgs w1.done_runs w1.next_msg := by
    rw [a2]; exact a1
  obtain ⟨b1, b2, b3, b4, b5, b6⟩ := cancelCurrent_inv _ _ close _ a1b h3
  have hne : ∀ it ∈ w3.chan.sendq_, it.2 ≠ w3.chan.cur_send_.2 := by
    intro it hit e
    by_cases h0 : w3.chan.cur_send_.2 = 0
    · simp only [h0, if_true] at b1
      exact b1.queued_ne_zero it (List.mem_append_left _ hit) (by rw [e, h0])
    · simp only [h0, if_false] at b1
      have hnd := b1.nodup
      simp only [List.append_nil, List.map_cons, List.nodup_cons] at hnd
      exact hnd.1 (by rw [← e]; exact List.mem_map_of_mem Prod.snd hit)
  obtain ⟨c1, c2, c3, c4⟩ := cancelEach_inv _ _ _ _ _ _ b1 hne h4
  subst hc
  have hsame : World.Same w w4 := World.Same.trans a3 (World.Same.trans b2 c3)
  have hcur : w3.chan.cur_send_.2 ∉ w3.chan.sendq_.map Prod.snd := by
    intro hin
    obtain ⟨it, hit, e⟩ := List.mem_map.1 hin
    exact hne it hit e
  have hkeep := c4 _ hcur
  rw [← c2] at c1 hne b5 b4 b6 hkeep hcur
  have hfinal : ChanInv (if w4.chan.cur_send_.2 = 0 then [] else [w4.chan.cur_send_]) []
      w4.chan.cur_send_ w4.msgs w4.done_runs w4.next_msg := by
    simp only [List.filter_nil] at c1
    by_cases h0 : w4.chan.cur_send_.2 = 0
    · simp only [h0, if_true] at c1 ⊢
      rw [filter_notin_self] at c1
      exact c1
    · simp only [h0, if_false] at c1 ⊢
      have hpos : decide (w4.chan.cur_send_.2 ∉ w4.chan.sendq_.map Prod.snd) = true := by
        simp only [decide_eq_true_eq]
        exact hcur
      simp only [List.filter_cons, hpos, if_true] at c1
      rw [filter_notin_self] at c1
      exact c1
  refine ⟨hfinal, ⟨hsame.seq, hsame.tid, hsame.next, hsame.created, hsame.handed, hsame.parsed,
    hsame.runs⟩, rfl, ?_, ?_, ?_⟩
  · show w4.chan.conn_ = w.chan.conn_
    rw [b4, a2]
  · intro hcl
    have := b5 hcl
    exact ⟨this, by simp only [this, if_true]⟩
  · intro p m hm
    have hq := (hfinal.live p m hm).2.2.2
    by_cases h0 : w4.chan.cur_send_.2 = 0
    · simp only [h0, if_true, List.append_nil, List.not_mem_nil] at hq
    · simp only [h0, if_false, List.append_nil, List.mem_singleton] at hq
      obtain ⟨m3, hm3, hf3⟩ := b6 h0
      have hp : p = w4.chan.cur_send_.2 := by rw [← hq]
      rw [hp, hkeep, hm3] at hm
      simp only [Option.some.injEq] at hm
      rw [← hm]
      exact hf3

theorem CancelAllRpc_total (w : World) (close : Bool)
    (h : ChanInv w.chan.sendq_ w.chan.recvq_ w.chan.cur_send_ w.msgs w.done_runs w.next_msg) :
    ∃ w2, w.CancelAllRpc close = .ok w2 := by
  have hnd := h.nodup
  rw [List.map_append, List.nodup_append] at hnd
  obtain ⟨w1, h1⟩ := cancelEach_total w.chan.recvq_ w hnd.2.1
    (fun it hit => (h.item it (List.mem_append_right _ hit)).2)
  obtain ⟨a1, a2, a3, _⟩ := cancelEach_inv _ _ _ _ _ _ h h.recv_ne_cur h1
  rw [filter_notin_self] at a1
  have hdis : ∀ it ∈ w.chan.sendq_, it.2 ∉ w.chan.recvq_.map Prod.snd := by
    intro it hit hin
    exact hnd.2.2 (List.mem_map_of_mem Prod.snd hit) hin
  rw [filter_notin_disjoint _ _ hdis] at a1
  have a1b : ChanInv w1.chan.sendq_ [] w1.chan.cur_send_ w1.msgs w1.done_runs w1.next_msg := by
    rw [a2]; exact a1
  obtain ⟨w3, h3⟩ := cancelCurrent_total w1 close _ a1b
  obtain ⟨b1, b2, b3, b4, b5, _⟩ := cancelCurrent_inv _ _ close _ a1b h3
  have hq : (w3.chan.sendq_.map Prod.snd).Nodup ∧
      ∀ it ∈ w3.chan.sendq_, ∃ m, w3.msgs it.2 = some m := by
    by_cases h0 : w3.chan.cur_send_.2 = 0
    · simp only [h0, if_true] at b1
      have hnd3 := b1.nodup
      simp only [List.append_nil] at hnd3
      exact ⟨hnd3, fun it hit => (b1.item it (List.mem_append_left _ hit)).2⟩
    · simp only [h0, if_false] at b1
      have hnd3 := b1.nodup
      simp only [List.append_nil, List.map_cons, List.nodup_cons] at hnd3
      exact ⟨hnd3.2, fun it hit =>
        (b1.item it (List.mem_append_left _ (List.mem_cons_of_mem _ hit))).2⟩
  obtain ⟨w4, h4⟩ := cancelEach_total w3.chan.sendq_ w3 hq.1 hq.2
  unfold World.CancelAllRpc
  rw [h1]
  simp only [bind, Except.bind]
  rw [h3]
  simp only
  rw [h4]
  exact ⟨_, rfl⟩

/-! ## Channel: cancelling or timing out one call -/

theorem ChanInv.not_in_sendq {sq rq : List MsgItem} {cur : MsgItem}
    {msgs : Nat → Option ClientMessage} {runs : List Nat} {next : Nat}
    (h : ChanInv sq rq cur msgs runs next) (it : MsgItem) (hit : it ∈ rq) :
    it.2 ∉ sq.map Prod.snd := by
  intro hin
  have hnd := h.nodup
  rw [List.map_append, List.nodup_append] at hnd
  exact hnd.2.2 hin (List.mem_map_of_mem Prod.snd hit)

theorem ChanInv.not_in_recvq {sq rq : List MsgItem} {cur : MsgItem}
    {msgs : Nat → Option ClientMessage} {runs : List Nat} {next : Nat}
    (h : ChanInv sq rq cur msgs runs next) (it : MsgItem) (hit : it ∈ sq) :
    it.2 ∉ rq.map Prod.snd := by
  intro hin
  have hnd := h.nodup
  rw [List.map_append, List.nodup_append] at hnd
  exact hnd.2.2 (List.mem_map_of_mem Prod.snd hit) hin

theorem ChanInv.sendq_ids {sq rq : List MsgItem} {cur : MsgItem}
    {msgs : Nat → Option ClientMessage} {runs : List Nat} {next : Nat}
    (h : ChanInv sq rq cur msgs runs next) :
    (∀ it ∈ sq, it.1 = it.2) ∧ (sq.map Prod.snd).Nodup := by
  have hnd := h.nodup
  rw [List.map_append, List.nodup_append] at hnd
  exact ⟨fun it hit => (h.item it (List.mem_append_left _ hit)).1, hnd.1⟩

theorem ChanInv.recvq_ids {sq rq : List MsgItem} {cur : MsgItem}
    {msgs : Nat → Option ClientMessage} {runs : List Nat} {next : Nat}
    (h : ChanInv sq rq cur msgs runs next) :
    (∀ it ∈ rq, it.1 = it.2) ∧ (rq.map Prod.snd).Nodup := by
  have hnd := h.nodup
  rw [List.map_append, List.nodup_append] at hnd
  exact ⟨fun it hit => (h.item it (List.mem_append_right _ hit)).1, hnd.2.1⟩

/-- The code shared by `StartCancel` and `OnRpcTimeout`, entered with the timer
of the message disarmed, keeps the invariant. -/
theorem detach_inv (w0 w2 : World) (p : Nat) (m : ClientMessage) (c : Nat → ClientController)
    (h : ChanInv w0.chan.sendq_ w0.chan.recvq_ w0.chan.cur_send_ w0.msgs w0.done_runs w0.next_msg)
    (hm : w0.msgs p = some m)
    (hc : ({ w0 with
        ctls := c
        msgs := Function.update w0.msgs p (some { m with monitor_ := false }) } : World).detach p
      = .ok w2) :
    ChanInv w2.chan.sendq_ w2.chan.recvq_ w2.chan.cur_send_ w2.msgs w2.done_runs w2.next_msg ∧
    World.Same w0 w2 ∧ w2.chan.conn_ = w0.chan.conn_ ∧
    w2.done_runs = w0.done_runs ++ (if m.finish_ then [] else [p]) := by
  obtain ⟨hid, hp1, hp2, hq⟩ := h.live p m hm
  have hid1 : ({ m with monitor_ := false } : ClientMessage).id = p := hid
  unfold World.detach at hc
  simp only [Function.update_same] at hc
  rw [hid1] at hc
  cases hfr : find_if w0.chan.recvq_ p with
  | some it =>
    rw [hfr] at hc
    simp only at hc
    obtain ⟨hit, hit1⟩ := find_if_some _ _ _ hfr
    have hit2 : it.2 = p := by rw [← (h.recvq_ids.1 it hit), hit1]
    have hpc : p ≠ w0.chan.cur_send_.2 := by rw [← hit2]; exact h.recv_ne_cur it hit
    have hf := h.unfinished p m hm hpc
    obtain ⟨w1, h1, hc⟩ := bind_ok _ _ _ hc
    obtain ⟨m4, c4, hm4, e4⟩ := Finish_ok _ _ _ h1
    subst e4
    obtain ⟨m5, hm5, _, _, e5⟩ := deleteMsg_ok _ _ _ hc
    subst e5
    simp only [Function.update_same, Option.some.injEq] at hm4
    subst hm4
    have hrem := h.remove p m hm hf (Ne.symm hpc)
    rw [filter_ne_self _ _ (by rw [← hit2]; exact h.not_in_sendq it hit),
      ← erase_found_eq_filter _ _ h.recvq_ids.1 h.recvq_ids.2] at hrem
    refine ⟨?_, ⟨rfl, rfl, rfl, rfl, rfl, rfl, List.prefix_append _ _⟩, rfl, rfl⟩
    simp only [Function.update_idem, hf, Bool.false_eq_true, if_false]
    exact hrem
  | none =>
    rw [hfr] at hc
    simp only at hc
    by_cases hcur : w0.chan.cur_send_.2 = p
    · simp only [hcur, if_true] at hc
      obtain ⟨m4, c4, hm4, e4⟩ := Finish_ok _ _ _ hc
      subst e4
      simp only [Function.update_same, Option.some.injEq] at hm4
      subst hm4
      have hfin := h.finish m { m with monitor_ := false, finish_ := true }
        (by rw [hcur]; exact hm) rfl rfl rfl
      rw [hcur] at hfin
      refine ⟨?_, ⟨rfl, rfl, rfl, rfl, rfl, rfl, List.prefix_append _ _⟩, rfl, rfl⟩
      simp only [Function.update_idem]
      exact hfin
    · simp only [hcur, if_false] at hc
      cases hfs : find_if w0.chan.sendq_ p with
      | none =>
        rw [hfs] at hc
        simp at hc
      | some it =>
        rw [hfs] at hc
        simp only at hc
        obtain ⟨hit, hit1⟩ := find_if_some _ _ _ hfs
        have hit2 : it.2 = p := by rw [← (h.sendq_ids.1 it hit), hit1]
        have hpc : p ≠ w0.chan.cur_send_.2 := Ne.symm hcur
        have hf := h.unfinished p m hm hpc
        obtain ⟨w1, h1, hc⟩ := bind_ok _ _ _ hc
        obtain ⟨m4, c4, hm4, e4⟩ := Finish_ok _ _ _ h1
        subst e4
        obtain ⟨m5, hm5, _, _, e5⟩ := deleteMsg_ok _ _ _ hc
        subst e5
        simp only [Function.update_same, Option.some.injEq] at hm4
        subst hm4
        have hrem := h.remove p m hm hf (Ne.symm hpc)
        rw [filter_ne_self w0.chan.recvq_ _ (by rw [← hit2]; exact h.not_in_recvq it hit),
          ← erase_found_eq_filter _ _ h.sendq_ids.1 h.sendq_ids.2] at hrem
        refine ⟨?_, ⟨rfl, rfl, rfl, rfl, rfl, rfl, List.prefix_append _ _⟩, rfl, rfl⟩
        simp only [Function.update_idem, hf, Bool.false_eq_true, if_false]
        exact hrem

/-- On a live message the code shared by `StartCancel` and `OnRpcTimeout`
returns. -/
theorem detach_total (w0 : World) (p : Nat) (m : ClientMessage) (c : Nat → ClientController)
    (h : ChanInv w0.chan.sendq_ w0.chan.recvq_ w0.chan.cur_send_ w0.msgs w0.done_runs w0.next_msg)
    (hm : w0.msgs p = some m) :
    ∃ w2, ({ w0 with
        ctls := c
        msgs := Function.update w0.msgs p (some { m with monitor_ := false }) } : World).detach p
      = .ok w2 := by
  obtain ⟨hid, hp1, hp2, hq⟩ := h.live p m hm
  have hid1 : ({ m with monitor_ := false } : ClientMessage).id = p := hid
  unfold World.detach
  simp only [Function.update_same]
  rw [hid1]
  cases hfr : find_if w0.chan.recvq_ p with
  | some it =>
    simp only
    cases hfin : m.finish_ <;>
      simp [World.Finish, World.deleteMsg, hfin, bind, Except.bind]
  | none =>
    simp only
    by_cases hcur : w0.chan.cur_send_.2 = p
    · simp only [hcur, if_true]
      cases hfin : m.finish_ <;> simp [World.Finish, hfin]
    · simp only [hcur, if_false]
      cases hfs : find_if w0.chan.sendq_ p with
      | some it =>
        simp only
        cases hfin : m.finish_ <;>
          simp [World.Finish, World.deleteMsg, hfin, bind, Except.bind]
      | none =>
        exfalso
        have hnr := find_if_none _ _ hfr
        have hns := find_if_none _ _ hfs
        rcases List.mem_append.1 hq with hin | hin
        · exact hns _ hin rfl
        · exact hnr _ hin rfl

/-! ## Channel: the calls of the framer and of the user -/

theorem World.Same.toNext {w w2 : World} (h : World.Same w w2) : World.Next w w2 :=
  ⟨h.tid, h.runs, by rw [h.handed], Or.inl h.parsed, Or.inl ⟨h.created, h.seq, h.next⟩⟩

/-- On a state with the invariant `RecvFail` and `SendFail` return, keep the
invariant, empty the receive queue and the current-send slot, and leave as send
queue the old receive queue followed by the old send queue, without its head
when that was a finished message at the current-send slot. -/
theorem transportFail_ok (w : World)
    (h : ChanInv w.chan.sendq_ w.chan.recvq_ w.chan.cur_send_ w.msgs w.done_runs w.next_msg) :
    ∃ w2, w.transportFail = .ok w2 ∧
      ChanInv w2.chan.sendq_ w2.chan.recvq_ w2.chan.cur_send_ w2.msgs w2.done_runs w2.next_msg ∧
      World.Same w w2 ∧ w2.chan.recvq_ = [] ∧ w2.chan.cur_send_ = (0, 0) ∧
      w2.chan.sendq_ = w.chan.recvq_ ++
        (if w.curFinished then w.chan.sendq_.tail else w.chan.sendq_) ∧
      w2.done_runs = w.done_runs ∧ w2.chan.conn_ = some w.next_conn := by
  unfold World.transportFail
  by_cases h0 : w.chan.cur_send_.2 = 0
  · have hnone : w.msgs 0 = none := by
      cases hx : w.msgs 0 with
      | none => rfl
      | some m => have := (h.live 0 m hx).2.1; omega
    have hcf : w.curFinished = false := by
      unfold World.curFinished
      rw [h0, hnone]
    simp only [h0, if_true, bind, Except.bind]
    refine ⟨_, rfl, ?_, ⟨rfl, rfl, rfl, rfl, rfl, rfl, List.prefix_refl _⟩, rfl, rfl, ?_, rfl, rfl⟩
    · apply h.requeue
      intro m hm
      rw [h0, hnone] at hm
      simp at hm
    · rw [hcf]
      rfl
  · have hs := h.slot h0
    cases hsq : w.chan.sendq_ with
    | nil => rw [hsq] at hs; simp at hs
    | cons a rest =>
      rw [hsq] at hs h
      simp only [List.head?_cons, Option.some.injEq] at hs
      subst hs
      obtain ⟨_, m, hm⟩ := h.item w.chan.cur_send_ (List.mem_append_left _ (List.mem_cons_self _ _))
      have hmon := h.mon _ m hm
      cases hf : m.finish_ with
      | true =>
        rw [hf] at hmon
        have hcf : w.curFinished = true := by
          unfold World.curFinished
          rw [hm]
          simp [h0, hf]
        have hd := h.drop m hm hf
        have hnone : Function.update w.msgs w.chan.cur_send_.2 none 0 = none := by
          cases hx : Function.update w.msgs w.chan.cur_send_.2 none 0 with
          | none => rfl
          | some m3 => have := (hd.live 0 m3 hx).2.1; omega
        have hr := hd.requeue (by
          intro m3 hm3
          rw [hnone] at hm3
          simp at hm3)
        simp only [h0, if_false, hm, hf, if_true, World.deleteMsg, hmon, Bool.not_false,
          Bool.and_self, bind, Except.bind]
        refine ⟨_, rfl, hr, ⟨rfl, rfl, rfl, rfl, rfl, rfl, List.prefix_refl _⟩, rfl, rfl, ?_,
          rfl, rfl⟩
        rw [hcf]
        rfl
      | false =>
        have hcf : w.curFinished = false := by
          unfold World.curFinished
          rw [hm]
          simp [hf]
        have hr := h.requeue (by
          intro m3 hm3
          rw [hm] at hm3
          simp only [Option.some.injEq] at hm3
          rw [← hm3]
          exact hf)
        simp only [h0, if_false, hm, hf, Bool.false_eq_true, bind, Except.bind]
        refine ⟨_, rfl, ?_, ⟨rfl, rfl, rfl, rfl, rfl, rfl, List.prefix_refl _⟩, rfl, rfl, ?_,
          rfl, rfl⟩
        · simp only [hsq]
          exact hr
        · rw [hcf]
          simp only [hsq]
          rfl

theorem SendNext_ok (w w2 : World) (r : Option Nat) (hc : w.SendNext = .ok (r, w2)) :
    w.chan.cur_send_.2 = 0 ∧
    ((w.chan.sendq_ = [] ∧ r = none ∧ w2 = w) ∨
      ∃ it rest, w.chan.sendq_ = it :: rest ∧ r = some it.2 ∧
        w2 = { w with chan := { w.chan with cur_send_ := it }, handed := w.handed ++ [it] }) := by
  unfold World.SendNext at hc
  by_cases h0 : w.chan.cur_send_.2 = 0
  · refine ⟨h0, ?_⟩
    simp only [h0, ne_eq, not_true_eq_false, if_false] at hc
    cases hsq : w.chan.sendq_ with
    | nil =>
      rw [hsq] at hc
      simp only [Except.ok.injEq, Prod.mk.injEq] at hc
      exact Or.inl ⟨rfl, hc.1.symm, hc.2.symm⟩
    | cons a rest =>
      rw [hsq] at hc
      simp only [Except.ok.injEq, Prod.mk.injEq] at hc
      refine Or.inr ⟨a, rest, rfl, hc.1.symm, ?_⟩
      rw [← hc.2]
      simp only [hsq]
  · simp [h0] at hc

/-- The method `SendNext` keeps the invariant. -/
theorem SendNext_inv (w w2 : World) (r : Option Nat)
    (h : ChanInv w.chan.sendq_ w.chan.recvq_ w.chan.cur_send_ w.msgs w.done_runs w.next_msg)
    (hc : w.SendNext = .ok (r, w2)) :
    ChanInv w2.chan.sendq_ w2.chan.recvq_ w2.chan.cur_send_ w2.msgs w2.done_runs w2.next_msg ∧
    World.Next w w2 ∧ w2.created = w.created ∧ w2.chan.sequence_ = w.chan.sequence_ ∧
    w2.next_msg = w.next_msg := by
  obtain ⟨h0, hcase⟩ := SendNext_ok w w2 r hc
  rcases hcase with ⟨_, _, e⟩ | ⟨it, rest, hsq, _, e⟩
  · subst e
    exact ⟨h, (World.Same.refl _).toNext, rfl, rfl, rfl⟩
  · subst e
    refine ⟨?_, ⟨rfl, List.prefix_refl _, List.prefix_append _ _, Or.inl rfl,
      Or.inl ⟨rfl, rfl, rfl⟩⟩, rfl, rfl, rfl⟩
    simp only
    rw [hsq] at h ⊢
    exact h.take h0

theorem SendDone_ok (w w2 : World) (msg : Nat)
    (h : ChanInv w.chan.sendq_ w.chan.recvq_ w.chan.cur_send_ w.msgs w.done_runs w.next_msg)
    (hc : w.SendDone msg = .ok w2) :
    ∃ m rest, w.chan.cur_send_.2 = msg ∧ w.msgs msg = some m ∧
      w.chan.sendq_ = w.chan.cur_send_ :: rest ∧
      ((m.finish_ = true ∧
          w2 = { w with
            chan := { w.chan with sendq_ := rest, cur_send_ := (0, 0) }
            msgs := Function.update w.msgs msg none }) ∨
        (m.finish_ = false ∧
          w2 = { w with
            chan := { w.chan with
              sendq_ := rest
              recvq_ := w.chan.recvq_ ++ [w.chan.cur_send_]
              cur_send_ := (0, 0) } })) := by
  unfold World.SendDone at hc
  by_cases hcur : w.chan.cur_send_.2 = msg
  · simp only [hcur, ne_eq, not_true_eq_false, if_false] at hc
    cases hm : w.msgs msg with
    | none => rw [hm] at hc; simp at hc
    | some m =>
      rw [hm] at hc
      simp only at hc
      have h0 : w.chan.cur_send_.2 ≠ 0 := by
        have := (h.live msg m hm).2.1
        omega
      have hs := h.slot h0
      cases hsq : w.chan.sendq_ with
      | nil => rw [hsq] at hs; simp at hs
      | cons a rest =>
        rw [hsq] at hs hc
        simp only [List.head?_cons, Option.some.injEq] at hs
        subst hs
        simp only at hc
        refine ⟨m, rest, hcur, rfl, rfl, ?_⟩
        cases hf : m.finish_ with
        | true =>
          rw [hf] at hc
          simp only [if_true] at hc
          obtain ⟨w1, h1, hc⟩ := bind_ok _ _ _ hc
          obtain ⟨m5, _, _, _, e5⟩ := deleteMsg_ok _ _ _ h1
          subst e5
          simp only [Except.ok.injEq] at hc
          exact Or.inl ⟨rfl, hc.symm⟩
        | false =>
          rw [hf] at hc
          simp only [Bool.false_eq_true, if_false, Except.ok.injEq] at hc
          exact Or.inr ⟨rfl, hc.symm⟩
  · simp [hcur] at hc

/-- The method `SendDone` keeps the invariant. -/
theorem SendDone_inv (w w2 : World) (msg : Nat)
    (h : ChanInv w.chan.sendq_ w.chan.recvq_ w.chan.cur_send_ w.msgs w.done_runs w.next_msg)
    (hc : w.SendDone msg = .ok w2) :
    ChanInv w2.chan.sendq_ w2.chan.recvq_ w2.chan.cur_send_ w2.msgs w2.done_runs w2.next_msg ∧
    World.Same w w2 := by
  obtain ⟨m, rest, hcur, hm, hsq, hcase⟩ := SendDone_ok w w2 msg h hc
  rw [hsq] at h
  rw [← hcur] at hm
  rcases hcase with ⟨hf, e⟩ | ⟨hf, e⟩
  · subst e
    refine ⟨?_, ⟨rfl, rfl, rfl, rfl, rfl, rfl, List.prefix_refl _⟩⟩
    simp only
    rw [← hcur]
    exact h.drop m hm hf
  · subst e
    refine ⟨?_, ⟨rfl, rfl, rfl, rfl, rfl, rfl, List.prefix_refl _⟩⟩
    exact h.sent m hm hf

theorem ParseFromArray_ok (w w2 : World) (p : Nat) (meta : MsgMeta) (parses rc : Bool)
    (hc : w.ParseFromArray p meta parses = .ok (rc, w2)) :
    ∃ c, w2 = { w with
      ctls := c
      parsed := if meta.code ≠ 0 then w.parsed else w.parsed ++ [p] } := by
  unfold World.ParseFromArray at hc
  cases hm : w.msgs p with
  | none => rw [hm] at hc; simp at hc
  | some m =>
    rw [hm] at hc
    simp only at hc
    by_cases hcode : meta.code ≠ 0
    · rw [if_pos hcode] at hc
      simp only [Except.ok.injEq, Prod.mk.injEq] at hc
      refine ⟨w2.ctls, ?_⟩
      rw [← hc.2, if_pos hcode]
      rfl
    · rw [if_neg hcode] at hc
      cases parses with
      | true =>
        simp only [Bool.not_true, Bool.false_eq_true, if_false, Except.ok.injEq,
          Prod.mk.injEq] at hc
        refine ⟨w.ctls, ?_⟩
        rw [← hc.2, if_neg hcode]
      | false =>
        simp only [Bool.not_false, if_true, Except.ok.injEq, Prod.mk.injEq] at hc
        refine ⟨w2.ctls, ?_⟩
        rw [← hc.2, if_neg hcode]
        rfl

theorem RecvDone_ok (w w2 : World) (meta : Option MsgMeta) (parses rc : Bool)
    (h : ChanInv w.chan.sendq_ w.chan.recvq_ w.chan.cur_send_ w.msgs w.done_runs w.next_msg)
    (hc : w.RecvDone meta parses = .ok (rc, w2)) :
    (meta = none ∧ rc = false ∧ w2 = w) ∨
    (∃ mm, meta = some mm ∧ find_if w.chan.recvq_ mm.sequence = none ∧ rc = true ∧ w2 = w) ∨
    (∃ mm it m c, meta = some mm ∧ find_if w.chan.recvq_ mm.sequence = some it ∧
      w.msgs it.2 = some m ∧ m.finish_ = false ∧
      w2 = { w with
        chan := { w.chan with recvq_ := erase_found w.chan.recvq_ mm.sequence }
        ctls := c
        msgs := Function.update w.msgs it.2 none
        done_runs := w.done_runs ++ [it.2]
        parsed := if mm.code ≠ 0 then w.parsed else w.parsed ++ [it.2] }) := by
  unfold World.RecvDone at hc
  cases meta with
  | none =>
    simp only [Except.ok.injEq, Prod.mk.injEq] at hc
    exact Or.inl ⟨rfl, hc.1.symm, hc.2.symm⟩
  | some mm =>
    simp only at hc
    cases hfr : find_if w.chan.recvq_ mm.sequence with
    | none =>
      rw [hfr] at hc
      simp only [Except.ok.injEq, Prod.mk.injEq] at hc
      exact Or.inr (Or.inl ⟨mm, rfl, hfr, hc.1.symm, hc.2.symm⟩)
    | some it =>
      rw [hfr] at hc
      simp only at hc
      obtain ⟨hit, _⟩ := find_if_some _ _ _ hfr
      obtain ⟨w1, h1, hc⟩ := bind_ok _ _ _ hc
      obtain ⟨⟨rc1, w3⟩, h3, hc⟩ := bind_ok _ _ _ hc
      obtain ⟨w4, h4, hc⟩ := bind_ok _ _ _ hc
      obtain ⟨w5, h5, hc⟩ := bind_ok _ _ _ hc
      simp only [Except.ok.injEq, Prod.mk.injEq] at hc
      obtain ⟨m, hm, e1⟩ := DelMonitor_ok _ _ _ h1
      subst e1
      obtain ⟨c3, e3⟩ := ParseFromArray_ok _ _ _ _ _ _ h3
      subst e3
      obtain ⟨m4, c4, hm4, e4⟩ := Finish_ok _ _ _ h4
      subst e4
      obtain ⟨m5, _, _, _, e5⟩ := deleteMsg_ok _ _ _ h5
      subst e5
      simp only at hm
      simp only [Function.update_same, Option.some.injEq] at hm4
      subst hm4
      have hf := h.unfinished it.2 m hm (h.recv_ne_cur it hit)
      refine Or.inr (Or.inr ⟨mm, it, m, c4, rfl, hfr, hm, hf, ?_⟩)
      rw [← hc.2]
      simp only [Function.update_idem, hf, Bool.false_eq_true, if_false]

/-- The method `RecvDone` keeps the invariant. -/
theorem RecvDone_inv (w w2 : World) (meta : Option MsgMeta) (parses rc : Bool)
    (h : ChanInv w.chan.sendq_ w.chan.recvq_ w.chan.cur_send_ w.msgs w.done_runs w.next_msg)
    (hc : w.RecvDone meta parses = .ok (rc, w2)) :
    ChanInv w2.chan.sendq_ w2.chan.recvq_ w2.chan.cur_send_ w2.msgs w2.done_runs w2.next_msg ∧
    World.Next w w2 ∧ w2.created = w.created ∧ w2.chan.sequence_ = w.chan.sequence_ ∧
    w2.next_msg = w.next_msg := by
  rcases RecvDone_ok w w2 meta parses rc h hc with ⟨_, _, e⟩ | ⟨mm, _, _, _, e⟩ |
    ⟨mm, it, m, c, _, hfr, hm, hf, e⟩
  · subst e
    exact ⟨h, (World.Same.refl _).toNext, rfl, rfl, rfl⟩
  · subst e
    exact ⟨h, (World.Same.refl _).toNext, rfl, rfl, rfl⟩
  · subst e
    obtain ⟨hit, hit1⟩ := find_if_some _ _ _ hfr
    have hit2 : it.2 = mm.sequence := by rw [← (h.recvq_ids.1 it hit), hit1]
    have hrem := h.remove it.2 m hm hf (Ne.symm (h.recv_ne_cur it hit))
    rw [filter_ne_self _ _ (h.not_in_sendq it hit),
      ← erase_found_eq_filter _ _ h.recvq_ids.1 h.recvq_ids.2, hit2] at hrem
    refine ⟨?_, ⟨rfl, List.prefix_append _ _, List.prefix_refl _, ?_, Or.inl ⟨rfl, rfl, rfl⟩⟩,
      rfl, rfl, rfl⟩
    · simp only
      rw [hit2]
      exact hrem
    · by_cases hcode : mm.code ≠ 0
      · exact Or.inl (if_pos hcode)
      · exact Or.inr ⟨it.2, m, if_neg hcode, hm, hf⟩

theorem CallMethod_ok (w w2 : World) (self : Nat) (method : MethodDescriptor)
    (controller request response done : Nat)
    (hc : w.CallMethod self method controller request response done = .ok w2) :
    ∃ c msg, msg.id = (w.chan.sequence_ + 1) % 2 ^ 64 ∧ msg.finish_ = false ∧
      msg.monitor_ = true ∧ msg.controller_ = controller ∧
      w2 = { w with
        chan := { w.chan with
          sequence_ := (w.chan.sequence_ + 1) % 2 ^ 64
          sendq_ := w.chan.sendq_ ++ [((w.chan.sequence_ + 1) % 2 ^ 64, w.next_msg + 1)] }
        msgs := Function.update w.msgs (w.next_msg + 1) (some msg)
        ctls := c
        next_msg := w.next_msg + 1
        created := w.created ++ [((w.chan.sequence_ + 1) % 2 ^ 64, w.next_msg + 1)] } := by
  unfold World.CallMethod at hc
  by_cases h1 : request = 0 ∨ response = 0 ∨ done = 0 ∨ controller = 0
  · rw [if_pos h1] at hc
    simp at hc
  · rw [if_neg h1] at hc
    cases hd : find_last_dot method.full_name with
    | none => rw [hd] at hc; simp at hc
    | some dotpos =>
      rw [hd] at hc
      simp only at hc
      by_cases h2 : (w.ctls controller).client_message_ ≠ none
      · rw [if_pos h2] at hc
        simp at hc
      · rw [if_neg h2] at hc
        simp only [ChannelImpl.next_sequence] at hc
        by_cases h3 : w.chan.sendq_ = [] ∧ w.chan.conn_ = none
        · rw [if_pos h3] at hc
          simp at hc
        · rw [if_neg h3] at hc
          simp only [World.NewMonitor, Function.update_same, Except.ok.injEq,
            Function.update_idem] at hc
          subst hc
          refine ⟨_, _, ?_, ?_, ?_, ?_, rfl⟩ <;> rfl

/-- The method `CallMethod` keeps the invariant while the sequence counter does
not wrap. -/
theorem CallMethod_inv (w w2 : World) (self : Nat) (method : MethodDescriptor)
    (controller request response done : Nat)
    (h : ChanInv w.chan.sendq_ w.chan.recvq_ w.chan.cur_send_ w.msgs w.done_runs w.next_msg)
    (hseq : w.chan.sequence_ = w.next_msg) (hb : w.next_msg + 1 < 2 ^ 64)
    (hc : w.CallMethod self method controller request response done = .ok w2) :
    ChanInv w2.chan.sendq_ w2.chan.recvq_ w2.chan.cur_send_ w2.msgs w2.done_runs w2.next_msg ∧
    World.Next w w2 := by
  obtain ⟨c, msg, hid, hf, hmon, _, e⟩ := CallMethod_ok _ _ _ _ _ _ _ _ hc
  have hs : (w.chan.sequence_ + 1) % 2 ^ 64 = w.next_msg + 1 := by
    rw [hseq]
    exact Nat.mod_eq_of_lt hb
  rw [hs] at hid e
  subst e
  exact ⟨h.push msg hid hf hmon, ⟨rfl, List.prefix_refl _, List.prefix_refl _, Or.inl rfl,
    Or.inr ⟨by rw [hs], by rw [hs], rfl⟩⟩⟩

/-! ## Channel: every event keeps the invariant -/

theorem map_ok {α β : Type} (x : Except Fault α) (f : α → β) (b : β)
    (h : x.map f = .ok b) : ∃ a, x = .ok a ∧ f a = b := by
  cases x with
  | error e => simp [Except.map] at h
  | ok a =>
    simp only [Except.map, Except.ok.injEq] at h
    exact ⟨a, rfl, h⟩

theorem Open_inv (w : World) (self : Nat)
    (h : ChanInv w.chan.sendq_ w.chan.recvq_ w.chan.cur_send_ w.msgs w.done_runs w.next_msg) :
    ChanInv (w.Open self).2.chan.sendq_ (w.Open self).2.chan.recvq_ (w.Open self).2.chan.cur_send_
      (w.Open self).2.msgs (w.Open self).2.done_runs (w.Open self).2.next_msg ∧
    World.Same w (w.Open self).2 := by
  unfold World.Open
  split_ifs
  · exact ⟨h, World.Same.refl _⟩
  · exact ⟨h, World.Same.refl _⟩
  · exact ⟨h, ⟨rfl, rfl, rfl, rfl, rfl, rfl, List.prefix_refl _⟩⟩

/-- The method `Close` keeps the invariant; called by the owner it leaves both
queues and the current-send slot empty. -/
theorem Close_inv (w w2 : World) (self rc : Nat)
    (h : ChanInv w.chan.sendq_ w.chan.recvq_ w.chan.cur_send_ w.msgs w.done_runs w.next_msg)
    (hc : w.Close self = .ok (rc, w2)) :
    ChanInv w2.chan.sendq_ w2.chan.recvq_ w2.chan.cur_send_ w2.msgs w2.done_runs w2.next_msg ∧
    World.Same w w2 ∧
    (self = w.chan.tid_ → rc = 0 ∧ w2.chan.sendq_ = [] ∧ w2.chan.recvq_ = [] ∧
      w2.chan.cur_send_.2 = 0 ∧ w2.chan.conn_ = none ∧
      ∀ p m, w2.msgs p = some m → m.finish_ = true) := by
  unfold World.Close at hc
  by_cases ht : self ≠ w.chan.tid_
  · rw [if_pos ht] at hc
    simp only [Except.ok.injEq, Prod.mk.injEq] at hc
    rw [← hc.2]
    exact ⟨h, World.Same.refl _, fun e => absurd e ht⟩
  · rw [if_neg ht] at hc
    obtain ⟨w1, h1, hc⟩ := bind_ok _ _ _ hc
    simp only [Except.ok.injEq, Prod.mk.injEq] at hc
    obtain ⟨a1, a2, a3, a4, a5, a8⟩ := CancelAllRpc_inv w w1 true h h1
    obtain ⟨a6, a7⟩ := a5 rfl
    rw [← hc.2]
    exact ⟨a1, ⟨a2.seq, a2.tid, a2.next, a2.created, a2.handed, a2.parsed, a2.runs⟩,
      fun _ => ⟨hc.1.symm, a7, a3, a6, rfl, a8⟩⟩

theorem Close_total (w : World) (self : Nat)
    (h : ChanInv w.chan.sendq_ w.chan.recvq_ w.chan.cur_send_ w.msgs w.done_runs w.next_msg) :
    ∃ rc w2, w.Close self = .ok (rc, w2) := by
  unfold World.Close
  by_cases ht : self ≠ w.chan.tid_
  · rw [if_pos ht]
    exact ⟨_, _, rfl⟩
  · rw [if_neg ht]
    obtain ⟨w1, h1⟩ := CancelAllRpc_total w true h
    rw [h1]
    exact ⟨_, _, rfl⟩

/-- The method `Cancel` keeps the invariant; called by the owner it leaves the
receive queue empty. -/
theorem Cancel_inv (w w2 : World) (self rc : Nat)
    (h : ChanInv w.chan.sendq_ w.chan.recvq_ w.chan.cur_send_ w.msgs w.done_runs w.next_msg)
    (hc : w.Cancel self = .ok (rc, w2)) :
    ChanInv w2.chan.sendq_ w2.chan.recvq_ w2.chan.cur_send_ w2.msgs w2.done_runs w2.next_msg ∧
    World.Same w w2 ∧ (self = w.chan.tid_ → rc = 0 ∧ w2.chan.recvq_ = [] ∧
      ∀ p m, w2.msgs p = some m → m.finish_ = true) := by
  unfold World.Cancel at hc
  by_cases ht : self ≠ w.chan.tid_
  · rw [if_pos ht] at hc
    simp only [Except.ok.injEq, Prod.mk.injEq] at hc
    rw [← hc.2]
    exact ⟨h, World.Same.refl _, fun e => absurd e ht⟩
  · rw [if_neg ht] at hc
    obtain ⟨w1, h1, hc⟩ := bind_ok _ _ _ hc
    simp only [Except.ok.injEq, Prod.mk.injEq] at hc
    obtain ⟨a1, a2, a3, a4, a5, a8⟩ := CancelAllRpc_inv w w1 false h h1
    rw [← hc.2]
    exact ⟨a1, a2, fun _ => ⟨hc.1.symm, a3, a8⟩⟩

theorem Cancel_total (w : World) (self : Nat)
    (h : ChanInv w.chan.sendq_ w.chan.recvq_ w.chan.cur_send_ w.msgs w.done_runs w.next_msg) :
    ∃ rc w2, w.Cancel self = .ok (rc, w2) := by
  unfold World.Cancel
  by_cases ht : self ≠ w.chan.tid_
  · rw [if_pos ht]
    exact ⟨_, _, rfl⟩
  · rw [if_neg ht]
    obtain ⟨w1, h1⟩ := CancelAllRpc_total w false h
    rw [h1]
    exact ⟨_, _, rfl⟩

/-- The expiry of a message's timer keeps the invariant and completes the
message. -/
theorem HandleTimeout_inv (w w2 : World) (p : Nat)
    (h : ChanInv w.chan.sendq_ w.chan.recvq_ w.chan.cur_send_ w.msgs w.done_runs w.next_msg)
    (hc : w.HandleTimeout p = .ok w2) :
    ChanInv w2.chan.sendq_ w2.chan.recvq_ w2.chan.cur_send_ w2.msgs w2.done_runs w2.next_msg ∧
    World.Same w w2 ∧
    ∃ m, w.msgs p = some m ∧ w2.done_runs = w.done_runs ++ (if m.finish_ then [] else [p]) := by
  unfold World.HandleTimeout at hc
  cases hm : w.msgs p with
  | none => rw [hm] at hc; simp at hc
  | some m =>
    rw [hm] at hc
    simp only [World.OnRpcTimeout, World.SetResponseCode] at hc
    obtain ⟨a1, a2, _, a4⟩ := detach_inv w w2 p m _ h hm hc
    exact ⟨a1, a2, m, rfl, a4⟩

theorem HandleTimeout_total (w : World) (p : Nat) (m : ClientMessage)
    (h : ChanInv w.chan.sendq_ w.chan.recvq_ w.chan.cur_send_ w.msgs w.done_runs w.next_msg)
    (hm : w.msgs p = some m) : ∃ w2, w.HandleTimeout p = .ok w2 := by
  unfold World.HandleTimeout
  rw [hm]
  simp only [World.OnRpcTimeout, World.SetResponseCode]
  exact detach_total w p m _ h hm

/-- The method `ClientController::StartCancel` keeps the invariant and
completes the message of the controller. -/
theorem StartCancel_inv (w w2 : World) (self ctl : Nat)
    (h : ChanInv w.chan.sendq_ w.chan.recvq_ w.chan.cur_send_ w.msgs w.done_runs w.next_msg)
    (hc : w.StartCancel self ctl = .ok w2) :
    ChanInv w2.chan.sendq_ w2.chan.recvq_ w2.chan.cur_send_ w2.msgs w2.done_runs w2.next_msg ∧
    World.Same w w2 ∧
    ∃ p m, (w.ctls ctl).client_message_ = some p ∧ w.msgs p = some m ∧
      w2.done_runs = w.done_runs ++ (if m.finish_ then [] else [p]) := by
  unfold World.StartCancel at hc
  cases hcm : (w.ctls ctl).client_message_ with
  | none => rw [hcm] at hc; simp at hc
  | some p =>
    rw [hcm] at hc
    simp only at hc
    by_cases ht : (w.ctls ctl).tid_ ≠ self
    · rw [if_pos ht] at hc
      simp at hc
    · rw [if_neg ht] at hc
      unfold World.MessageStartCancel at hc
      cases hm : w.msgs p with
      | none => rw [hm] at hc; simp at hc
      | some m =>
        rw [hm] at hc
        simp only [World.ChannelStartCancel] at hc
        obtain ⟨w1, h1, hc⟩ := bind_ok _ _ _ hc
        obtain ⟨m1, hm1, e1⟩ := DelMonitor_ok _ _ _ h1
        subst e1
        simp only [World.SetResponseCode] at hm1 hc
        rw [hm] at hm1
        simp only [Option.some.injEq] at hm1
        subst hm1
        obtain ⟨a1, a2, _, a4⟩ := detach_inv w w2 p m _ h hm hc
        exact ⟨a1, a2, p, m, rfl, hm, a4⟩

theorem StartCancel_total (w : World) (self ctl p : Nat) (m : ClientMessage)
    (h : ChanInv w.chan.sendq_ w.chan.recvq_ w.chan.cur_send_ w.msgs w.done_runs w.next_msg)
    (hcm : (w.ctls ctl).client_message_ = some p) (ht : (w.ctls ctl).tid_ = self)
    (hm : w.msgs p = some m) : ∃ w2, w.StartCancel self ctl = .ok w2 := by
  unfold World.StartCancel
  rw [hcm]
  simp only [ht, ne_eq, not_true_eq_false, if_false]
  unfold World.MessageStartCancel
  rw [hm]
  simp only [World.ChannelStartCancel, World.DelMonitor, World.SetResponseCode, hm]
  cases hmon : m.monitor_ with
  | true =>
    simp only [Bool.not_true, Bool.false_eq_true, if_false, bind, Except.bind]
    exact detach_total w p m _ h hm
  | false =>
    simp only [Bool.not_false, if_true, bind, Except.bind]
    have hself : ({ m with monitor_ := false } : ClientMessage) = m := by
      cases m; simp_all
    have := detach_total w p m (Function.update w.ctls m.controller_
      { w.ctls m.controller_ with code_ := kErrCancel }) h hm
    rw [hself, ← hm, Function.update_eq_self] at this
    exact this

theorem Inv_of_next (w w2 : World) (h : w.Inv)
    (hci : ChanInv w2.chan.sendq_ w2.chan.recvq_ w2.chan.cur_send_ w2.msgs w2.done_runs
      w2.next_msg)
    (hn : World.Next w w2) (hb : w2.created.length < 2 ^ 64) : w2.Inv := by
  obtain ⟨_, hseq, hlen⟩ := h
  refine ⟨hci, ?_⟩
  rcases hn.grows with ⟨a, b, c⟩ | ⟨a, b, c⟩
  · rw [a, b, c]
    exact ⟨hseq, hlen⟩
  · rw [a, List.length_append, List.length_singleton] at hb
    rw [a, b, c, List.length_append, List.length_singleton, hseq, hlen]
    exact ⟨Nat.mod_eq_of_lt hb, rfl⟩

theorem Inv_of_same (w w2 : World) (h : w.Inv)
    (hci : ChanInv w2.chan.sendq_ w2.chan.recvq_ w2.chan.cur_send_ w2.msgs w2.done_runs
      w2.next_msg)
    (hcr : w2.created = w.created) (hseq : w2.chan.sequence_ = w.chan.sequence_)
    (hnext : w2.next_msg = w.next_msg) : w2.Inv := by
  refine ⟨hci, ?_⟩
  rw [hseq, hnext, hcr]
  exact h.2

/-- Every event keeps the invariant of the channel, a call of `CallMethod` as
long as the sequence counter does not wrap; only `CallMethod` creates a message,
and it creates one. -/
theorem step_inv (w w2 : World) (e : Event) (h : w.Inv) (hs : w.step e = .ok w2)
    (hb : e.isCall = true → w.created.length + 1 < 2 ^ 64) :
    w2.Inv ∧ World.Next w w2 ∧ w2.created.length = w.created.length + calls [e] := by
  cases e with
  | Open self =>
    simp only [World.step, Except.ok.injEq] at hs
    rw [← hs]
    obtain ⟨a1, a2⟩ := Open_inv w self h.1
    exact ⟨Inv_of_same _ _ h a1 a2.created a2.seq a2.next, a2.toNext, by rw [a2.created]; rfl⟩
  | Close self =>
    simp only [World.step] at hs
    obtain ⟨⟨rc, w1⟩, h1, e1⟩ := map_ok _ _ _ hs
    simp only at e1
    subst e1
    obtain ⟨a1, a2, _⟩ := Close_inv w w1 self rc h.1 h1
    exact ⟨Inv_of_same _ _ h a1 a2.created a2.seq a2.next, a2.toNext, by rw [a2.created]; rfl⟩
  | Cancel self =>
    simp only [World.step] at hs
    obtain ⟨⟨rc, w1⟩, h1, e1⟩ := map_ok _ _ _ hs
    simp only at e1
    subst e1
    obtain ⟨a1, a2, _⟩ := Cancel_inv w w1 self rc h.1 h1
    exact ⟨Inv_of_same _ _ h a1 a2.created a2.seq a2.next, a2.toNext, by rw [a2.created]; rfl⟩
  | CallMethod self method controller request response done =>
    simp only [World.step] at hs
    obtain ⟨c, msg, _, _, _, _, e1⟩ := CallMethod_ok _ _ _ _ _ _ _ _ hs
    have hb1 := hb rfl
    have hb2 : w.next_msg + 1 < 2 ^ 64 := by rw [h.2.2]; exact hb1
    have hlen : w2.created.length = w.created.length + 1 := by
      rw [e1]
      simp only [List.length_append, List.length_singleton]
    obtain ⟨a1, a2⟩ := CallMethod_inv w w2 self method controller request response done h.1
      h.2.1 hb2 hs
    exact ⟨Inv_of_next _ _ h a1 a2 (by rw [hlen]; exact hb1), a2, hlen⟩
  | StartCancel self controller =>
    simp only [World.step] at hs
    obtain ⟨a1, a2, _⟩ := StartCancel_inv w w2 self controller h.1 hs
    exact ⟨Inv_of_same _ _ h a1 a2.created a2.seq a2.next, a2.toNext, by rw [a2.created]; rfl⟩
  | SendNext =>
    simp only [World.step] at hs
    obtain ⟨⟨r, w1⟩, h1, e1⟩ := map_ok _ _ _ hs
    simp only at e1
    subst e1
    obtain ⟨a1, a2, a3, a4, a5⟩ := SendNext_inv w w1 r h.1 h1
    exact ⟨Inv_of_same _ _ h a1 a3 a4 a5, a2, by rw [a3]; rfl⟩
  | SendDone msg =>
    simp only [World.step] at hs
    obtain ⟨a1, a2⟩ := SendDone_inv w w2 msg h.1 hs
    exact ⟨Inv_of_same _ _ h a1 a2.created a2.seq a2.next, a2.toNext, by rw [a2.created]; rfl⟩
  | RecvDone meta parses =>
    simp only [World.step] at hs
    obtain ⟨⟨rc, w1⟩, h1, e1⟩ := map_ok _ _ _ hs
    simp only at e1
    subst e1
    obtain ⟨a1, a2, a3, a4, a5⟩ := RecvDone_inv w w1 meta parses rc h.1 h1
    exact ⟨Inv_of_same _ _ h a1 a3 a4 a5, a2, by rw [a3]; rfl⟩
  | SendFail =>
    simp only [World.step, World.SendFail] at hs
    obtain ⟨w1, h1, a1, a2, _⟩ := transportFail_ok w h.1
    rw [h1] at hs
    simp only [Except.ok.injEq] at hs
    subst hs
    exact ⟨Inv_of_same _ _ h a1 a2.created a2.seq a2.next, a2.toNext, by rw [a2.created]; rfl⟩
  | RecvFail =>
    simp only [World.step, World.RecvFail] at hs
    obtain ⟨w1, h1, a1, a2, _⟩ := transportFail_ok w h.1
    rw [h1] at hs
    simp only [Except.ok.injEq] at hs
    subst hs
    exact ⟨Inv_of_same _ _ h a1 a2.created a2.seq a2.next, a2.toNext, by rw [a2.created]; rfl⟩
  | HandleTimeout msg =>
    simp only [World.step] at hs
    cases hm : w.msgs msg with
    | none => rw [hm] at hs; simp at hs
    | some m =>
      rw [hm] at hs
      simp only at hs
      by_cases hmon : m.monitor_ = true
      · rw [if_pos hmon] at hs
        obtain ⟨a1, a2, _⟩ := HandleTimeout_inv w w2 msg h.1 hs
        exact ⟨Inv_of_same _ _ h a1 a2.created a2.seq a2.next, a2.toNext, by rw [a2.created]; rfl⟩
      · rw [if_neg hmon] at hs
        simp at hs

theorem init_inv (tid : Nat) : (World.init tid).Inv := by
  refine ⟨?_, rfl, rfl⟩
  constructor
  · intro it hit
    simp [World.init] at hit
  · simp [World.init]
  · intro p m hm
    simp [World.init] at hm
  · intro h0
    simp [World.init] at h0
  · intro p m hm
    simp [World.init] at hm
  · intro p m hm
    simp [World.init] at hm
  · intro p
    simp only [World.init, expectedRuns, List.count_nil]
    rw [if_neg (by omega)]

theorem calls_cons (e : Event) (evs : List Event) : calls (e :: evs) = calls [e] + calls evs := by
  unfold calls
  cases h : e.isCall
  · simp [List.filter_cons, h]
  · simp [List.filter_cons, h]
    omega

/-- Every sequence of events with fewer than 2^64 calls of `CallMethod` in all
keeps the invariant of the channel; each call creates one message; the
histories only grow. -/
theorem run_inv (evs : List Event) : ∀ (w w2 : World), w.Inv → w.run evs = .ok w2 →
    w.created.length + calls evs < 2 ^ 64 →
    w2.Inv ∧ w2.created.length = w.created.length + calls evs ∧ w.created <+: w2.created ∧
      w.done_runs <+: w2.done_runs ∧ w.handed <+: w2.handed ∧ w2.chan.tid_ = w.chan.tid_ := by
  induction evs with
  | nil =>
    intro w w2 h hr _
    simp only [World.run, Except.ok.injEq] at hr
    subst hr
    exact ⟨h, rfl, List.prefix_refl _, List.prefix_refl _, List.prefix_refl _, rfl⟩
  | cons e evs ih =>
    intro w w2 h hr hb
    unfold World.run at hr
    obtain ⟨w1, h1, hr⟩ := bind_ok _ _ _ hr
    rw [calls_cons] at hb
    have hb1 : e.isCall = true → w.created.length + 1 < 2 ^ 64 := by
      intro hc
      have : calls [e] = 1 := by simp [calls, hc]
      omega
    obtain ⟨a1, a2, a3⟩ := step_inv w w1 e h h1 hb1
    obtain ⟨b1, b2, b3, b4, b5, b6⟩ := ih w1 w2 a1 hr (by omega)
    have hpre : w.created <+: w1.created := by
      rcases a2.grows with ⟨a, _, _⟩ | ⟨a, _, _⟩
      · rw [a]
      · rw [a]; exact List.prefix_append _ _
    refine ⟨b1, ?_, List.IsPrefix.trans hpre b3, List.IsPrefix.trans a2.runs b4,
      List.IsPrefix.trans a2.handed b5, b6.trans a2.tid⟩
    rw [calls_cons]
    omega

/-! ## Channel: the histories of a run -/

theorem sample_run : (World.init 7).run sampleTrace = .ok sampleWorld := rfl

theorem range_concat (n : Nat) :
    (List.range' 1 (n + 1)).map (fun i => ((i, i) : MsgItem))
      = (List.range' 1 n).map (fun i => ((i, i) : MsgItem)) ++ [(n + 1, n + 1)] := by
  rw [List.range'_concat, List.map_append]
  simp only [List.map_cons, List.map_nil, one_mul]
  rw [Nat.add_comm 1 n]

/-- The history of creations of a run is (1,1), (2,2), ..., one item for each
call of `CallMethod`. -/
theorem run_created (evs : List Event) : ∀ (w w2 : World), w.Inv →
    w.created = (List.range' 1 w.created.length).map (fun i => ((i, i) : MsgItem)) →
    w.run evs = .ok w2 → w.created.length + calls evs < 2 ^ 64 →
    w2.created = (List.range' 1 w2.created.length).map (fun i => ((i, i) : MsgItem)) := by
  induction evs with
  | nil =>
    intro w w2 _ hj hr _
    simp only [World.run, Except.ok.injEq] at hr
    subst hr
    exact hj
  | cons e evs ih =>
    intro w w2 h hj hr hb
    unfold World.run at hr
    obtain ⟨w1, h1, hr⟩ := bind_ok _ _ _ hr
    rw [calls_cons] at hb
    have hb1 : e.isCall = true → w.created.length + 1 < 2 ^ 64 := by
      intro hc
      have : calls [e] = 1 := by simp [calls, hc]
      omega
    obtain ⟨a1, a2, a3⟩ := step_inv w w1 e h h1 hb1
    refine ih w1 w2 a1 ?_ hr (by omega)
    rcases a2.grows with ⟨a, _, _⟩ | ⟨a, _, _⟩
    · rw [a]
      exact hj
    · have hlen : w1.created.length = w.created.length + 1 := by
        rw [a, List.length_append, List.length_singleton]
      have hc1 : calls [e] = 1 := by omega
      have hmod : (w.chan.sequence_ + 1) % 2 ^ 64 = w.created.length + 1 := by
        rw [h.2.1, h.2.2]
        exact Nat.mod_eq_of_lt (by omega)
      rw [hlen, range_concat, ← hj, a, hmod, h.2.2]

/-- One event of the send path: the items handed to the framer followed by the
items not yet handed over are those of before followed by the item created. -/
theorem step_fifo (w w1 : World) (e : Event) (h : w.Inv) (hse : e.sendOnly = true)
    (h1 : w.step e = .ok w1) :
    ∃ n1, w1.created = w.created ++ n1 ∧
      w1.handed ++ w1.pending = w.handed ++ w.pending ++ n1 := by
  cases e with
  | Open self =>
    simp only [World.step, Except.ok.injEq] at h1
    rw [← h1]
    refine ⟨[], ?_, ?_⟩
    · unfold World.Open
      split_ifs <;> simp
    · unfold World.Open World.pending
      split_ifs <;> simp
  | CallMethod self method controller request response done =>
    simp only [World.step] at h1
    obtain ⟨c, msg, _, _, _, _, e1⟩ := CallMethod_ok _ _ _ _ _ _ _ _ h1
    rw [e1]
    refine ⟨_, rfl, ?_⟩
    unfold World.pending
    simp only
    by_cases h0 : w.chan.cur_send_.2 = 0
    · simp only [h0, if_true, List.append_assoc]
    · simp only [h0, if_false]
      have hs := h.1.slot h0
      cases hsq : w.chan.sendq_ with
      | nil => rw [hsq] at hs; simp at hs
      | cons a rest => simp
  | SendNext =>
    simp only [World.step] at h1
    obtain ⟨⟨r, w3⟩, h3, e3⟩ := map_ok _ _ _ h1
    simp only at e3
    rw [← e3]
    obtain ⟨h0, hcase⟩ := SendNext_ok w w3 r h3
    rcases hcase with ⟨_, _, e⟩ | ⟨it, rest, hsq, _, e⟩
    · rw [e]
      exact ⟨[], by simp, by simp⟩
    · rw [e]
      refine ⟨[], by simp, ?_⟩
      have hit : it.2 ≠ 0 :=
        h.1.queued_ne_zero it (List.mem_append_left _ (by rw [hsq]; exact List.mem_cons_self _ _))
      unfold World.pending
      simp only [h0, hit, if_true, if_false, hsq, List.tail_cons, List.append_nil,
        List.append_assoc, List.singleton_append]
  | SendDone msg =>
    simp only [World.step] at h1
    obtain ⟨m, rest, hcur, hm, hsq, hcase⟩ := SendDone_ok w w1 msg h.1 h1
    have h0 : w.chan.cur_send_.2 ≠ 0 := by
      have := (h.1.live msg m hm).2.1
      omega
    refine ⟨[], ?_, ?_⟩
    · rcases hcase with ⟨_, e⟩ | ⟨_, e⟩ <;> rw [e] <;> simp
    · rcases hcase with ⟨_, e⟩ | ⟨_, e⟩ <;> rw [e] <;>
        simp [World.pending, h0, hsq]
  | Close self => simp [Event.sendOnly] at hse
  | Cancel self => simp [Event.sendOnly] at hse
  | StartCancel self controller => simp [Event.sendOnly] at hse
  | RecvDone meta parses => simp [Event.sendOnly] at hse
  | SendFail => simp [Event.sendOnly] at hse
  | RecvFail => simp [Event.sendOnly] at hse
  | HandleTimeout msg => simp [Event.sendOnly] at hse

/-- On the send path the items handed to the framer followed by the items not
yet handed over are the items that were there before followed by the items
created since, in order. -/
theorem run_fifo (evs : List Event) : ∀ (w w2 : World), w.Inv →
    (∀ e ∈ evs, e.sendOnly = true) → w.run evs = .ok w2 →
    w.created.length + calls evs < 2 ^ 64 →
    ∃ new, w2.created = w.created ++ new ∧
      w2.handed ++ w2.pending = w.handed ++ w.pending ++ new := by
  induction evs with
  | nil =>
    intro w w2 _ _ hr _
    simp only [World.run, Except.ok.injEq] at hr
    subst hr
    exact ⟨[], by simp, by simp⟩
  | cons e evs ih =>
    intro w w2 h hev hr hb
    unfold World.run at hr
    obtain ⟨w1, h1, hr⟩ := bind_ok _ _ _ hr
    rw [calls_cons] at hb
    have hb1 : e.isCall = true → w.created.length + 1 < 2 ^ 64 := by
      intro hc
      have : calls [e] = 1 := by simp [calls, hc]
      omega
    obtain ⟨a1, a2, a3⟩ := step_inv w w1 e h h1 hb1
    obtain ⟨new, b1, b2⟩ := ih w1 w2 a1 (fun x hx => hev x (List.mem_cons_of_mem _ hx)) hr
      (by omega)
    obtain ⟨n1, c1, c2⟩ := step_fifo w w1 e h (hev e (List.mem_cons_self _ _)) h1
    refine ⟨n1 ++ new, ?_, ?_⟩
    · rw [b1, c1, List.append_assoc]
    · rw [b2, c2, List.append_assoc]

/-! ## C5: sequence monotonicity -/

/-- C5 (sequence monotonicity). On a fresh channel, after any sequence of events
with fewer than 2^64 calls of `CallMethod`, all returned: the sequence numbers
stored in the metas of the messages created, in order of creation, are
1, 2, ..., n with n the number of calls, so each is strictly greater than every
one before it; and the meta of every message still alive holds the sequence
number recorded at its creation. -/
theorem C5_sequence_monotonicity (tid : Nat) (evs : List Event) (w : World)
    (hr : (World.init tid).run evs = .ok w) (hb : calls evs < 2 ^ 64) :
    w.created.map Prod.fst = List.range' 1 (calls evs) ∧
    (w.created.map Prod.fst).Pairwise (fun a b => a < b) ∧
    ∀ p m, w.msgs p = some m → (m.meta_.sequence, p) ∈ w.created := by
  have hb0 : (World.init tid).created.length + calls evs < 2 ^ 64 := by
    simpa [World.init] using hb
  obtain ⟨hinv, hlen, _⟩ := run_inv evs _ w (init_inv tid) hr hb0
  have hj := run_created evs _ w (init_inv tid) rfl hr hb0
  have hlen2 : w.created.length = calls evs := by
    rw [hlen]
    simp [World.init]
  have hfst : w.created.map Prod.fst = List.range' 1 (calls evs) := by
    rw [hj, List.map_map, hlen2]
    exact List.map_id _
  refine ⟨hfst, ?_, ?_⟩
  · rw [hfst]
    exact List.pairwise_lt_range' 1 (calls evs)
  · intro p m hm
    obtain ⟨hid, h1, h2, _⟩ := hinv.1.live p m hm
    have hid2 : m.meta_.sequence = p := hid
    rw [hid2, hj]
    refine List.mem_map.2 ⟨p, ?_, rfl⟩
    rw [List.mem_range'_1, ← hinv.2.2]
    omega

/-- Witness of C5: after the sample run the two messages created carry the
sequence numbers 1 and 2. -/
theorem C5_sequence_monotonicity_witness :
    sampleWorld.created.map Prod.fst = List.range' 1 (calls sampleTrace) ∧
    (sampleWorld.created.map Prod.fst).Pairwise (fun a b => a < b) ∧
    ∀ p m, sampleWorld.msgs p = some m → (m.meta_.sequence, p) ∈ sampleWorld.created :=
  C5_sequence_monotonicity 7 sampleTrace sampleWorld sample_run (by decide)

/-! ## C6: FIFO send -/

/-- C6 (FIFO send). On a fresh channel, after any interleaving of `Open`,
`CallMethod`, `SendNext` and `SendDone` (fewer than 2^64 calls, all returned),
the items handed to the framer by `SendNext`, in order, followed by the items
still waiting in the send queue, are the items created by `CallMethod`, in
order of creation: the hand-overs are an initial segment of the creations. -/
theorem C6_fifo_send (tid : Nat) (evs : List Event) (w : World)
    (hev : ∀ e ∈ evs, e.sendOnly = true)
    (hr : (World.init tid).run evs = .ok w) (hb : calls evs < 2 ^ 64) :
    w.handed ++ w.pending = w.created ∧ w.handed <+: w.created := by
  have hb0 : (World.init tid).created.length + calls evs < 2 ^ 64 := by
    simpa [World.init] using hb
  obtain ⟨new, h1, h2⟩ := run_fifo evs _ w (init_inv tid) hev hr hb0
  have h3 : w.handed ++ w.pending = w.created := by
    rw [h2, h1]
    simp [World.init, World.pending]
  exact ⟨h3, ⟨w.pending, h3⟩⟩

/-- Witness of C6: in the sample run both messages were handed over, in the
order of their creation. -/
theorem C6_fifo_send_witness :
    sampleWorld.handed ++ sampleWorld.pending = sampleWorld.created ∧
    sampleWorld.handed <+: sampleWorld.created :=
  C6_fifo_send 7 sampleTrace sampleWorld (by decide) sample_run (by decide)

/-! ## C7: reconnect preserves order -/

/-- C7 (reconnect preserves order). In every state a fresh channel reaches
(fewer than 2^64 calls), `RecvFail` and `SendFail` return; afterwards the
receive queue is empty, the current-send slot is empty, and the send queue is
the old receive queue, in its order, followed by the old send queue, in its
order, without its head when that was a finished message at the current-send
slot. Whatever the framer is handed from then on (on the send path) starts with
the messages of the old receive queue: the hand-overs followed by the items
still waiting are the old hand-overs, that send queue, and the items created
since. -/
theorem C7_reconnect_preserves_order (tid : Nat) (evs : List Event) (w : World)
    (hr : (World.init tid).run evs = .ok w) (hb : calls evs < 2 ^ 64) :
    ∃ w2, w.RecvFail = .ok w2 ∧ w.SendFail = .ok w2 ∧
      w2.chan.recvq_ = [] ∧ w2.chan.cur_send_ = (0, 0) ∧
      w2.chan.sendq_ = w.chan.recvq_ ++
        (if w.curFinished then w.chan.sendq_.tail else w.chan.sendq_) ∧
      (w.curFinished = true → w.chan.sendq_.head? = some w.chan.cur_send_) ∧
      ∀ evs2 w3, (∀ e ∈ evs2, e.sendOnly = true) → w2.run evs2 = .ok w3 →
        calls evs + calls evs2 < 2 ^ 64 →
        ∃ new, w3.handed ++ w3.pending = w.handed ++ w2.chan.sendq_ ++ new := by
  have hb0 : (World.init tid).created.length + calls evs < 2 ^ 64 := by
    simpa [World.init] using hb
  obtain ⟨hinv, hlen, _⟩ := run_inv evs _ w (init_inv tid) hr hb0
  obtain ⟨w2, h1, a1, a2, a3, a4, a5, _, _⟩ := transportFail_ok w hinv.1
  refine ⟨w2, h1, h1, a3, a4, a5, ?_, ?_⟩
  · intro hcf
    apply hinv.1.slot
    intro h0
    unfold World.curFinished at hcf
    rw [h0] at hcf
    cases hx : w.msgs 0 with
    | none => rw [hx] at hcf; simp at hcf
    | some m => rw [hx] at hcf; simp at hcf
  · intro evs2 w3 hev hr2 hb2
    have hinv2 : w2.Inv := Inv_of_same w w2 hinv a1 a2.created a2.seq a2.next
    have hlen2 : w2.created.length + calls evs2 < 2 ^ 64 := by
      rw [a2.created, hlen]
      simp only [World.init, List.length_nil, Nat.zero_add]
      exact hb2
    obtain ⟨new, _, b2⟩ := run_fifo evs2 w2 w3 hinv2 hev hr2 hlen2
    refine ⟨new, ?_⟩
    rw [b2, a2.handed]
    unfold World.pending
    rw [a4]
    simp only [if_true]

/-- Witness of C7: after the sample run message 1 is in the receive queue and
message 2 at the current-send slot; a failure of the transport leaves the send
queue as message 1, message 2. -/
theorem C7_reconnect_preserves_order_witness :
    ∃ w2, sampleWorld.RecvFail = .ok w2 ∧ sampleWorld.SendFail = .ok w2 ∧
      w2.chan.recvq_ = [] ∧ w2.chan.cur_send_ = (0, 0) ∧
      w2.chan.sendq_ = sampleWorld.chan.recvq_ ++
        (if sampleWorld.curFinished then sampleWorld.chan.sendq_.tail
          else sampleWorld.chan.sendq_) ∧
      (sampleWorld.curFinished = true →
        sampleWorld.chan.sendq_.head? = some sampleWorld.chan.cur_send_) ∧
      ∀ evs2 w3, (∀ e ∈ evs2, e.sendOnly = true) → w2.run evs2 = .ok w3 →
        calls sampleTrace + calls evs2 < 2 ^ 64 →
        ∃ new, w3.handed ++ w3.pending = sampleWorld.handed ++ w2.chan.sendq_ ++ new :=
  C7_reconnect_preserves_order 7 sampleTrace sampleWorld rfl (by decide)

/-! ## C8: exactly one completion -/

theorem count_le_one (w : World) (h : w.Inv) (p : Nat) : w.done_runs.count p ≤ 1 := by
  rw [h.1.runs p]
  unfold expectedRuns
  cases w.msgs p with
  | none =>
    simp only
    split_ifs <;> omega
  | some m =>
    simp only
    split_ifs <;> omega

theorem created_range (w : World) (h : w.Inv)
    (hj : w.created = (List.range' 1 w.created.length).map (fun i => ((i, i) : MsgItem)))
    (it : MsgItem) : it ∈ w.created ↔ (it.1 = it.2 ∧ 1 ≤ it.2 ∧ it.2 ≤ w.next_msg) := by
  rw [h.2.2]
  constructor
  · intro hit
    rw [hj] at hit
    obtain ⟨i, hi, e⟩ := List.mem_map.1 hit
    rw [List.mem_range'_1] at hi
    subst e
    exact ⟨rfl, hi.1, by have := hi.2; omega⟩
  · intro ⟨e1, e2, e3⟩
    rw [hj]
    refine List.mem_map.2 ⟨it.2, ?_, ?_⟩
    · rw [List.mem_range'_1]
      omega
    · exact Prod.ext e1.symm rfl

theorem count_eq_one_iff (w : World) (h : w.Inv)
    (hj : w.created = (List.range' 1 w.created.length).map (fun i => ((i, i) : MsgItem)))
    (it : MsgItem) (hit : it ∈ w.created) :
    w.done_runs.count it.2 = 1 ↔ ∀ m, w.msgs it.2 = some m → m.finish_ = true := by
  obtain ⟨_, e2, e3⟩ := (created_range w h hj it).1 hit
  rw [h.1.runs it.2]
  unfold expectedRuns
  cases hm : w.msgs it.2 with
  | none => simp [e2, e3]
  | some m =>
    cases hf : m.finish_ <;> simp [hf]

theorem count_zero_of_unfinished (w : World) (h : w.Inv) (p : Nat) (m : ClientMessage)
    (hm : w.msgs p = some m) (hf : m.finish_ = false) : w.done_runs.count p = 0 := by
  rw [h.1.runs p]
  unfold expectedRuns
  rw [hm]
  simp [hf]

/-- A response for a message of the receive queue is delivered: `RecvDone`
returns and the completion of the message has run. -/
theorem RecvDone_total (w : World) (h : w.Inv) (it : MsgItem) (hit : it ∈ w.chan.recvq_)
    (meta : MsgMeta) (hseq : meta.sequence = it.1) (parses : Bool) :
    ∃ rc w2, w.RecvDone (some meta) parses = .ok (rc, w2) ∧
      w2.done_runs = w.done_runs ++ [it.2] := by
  have hids := h.1.recvq_ids
  cases hfr : find_if w.chan.recvq_ meta.sequence with
  | none => exact absurd hseq.symm (find_if_none _ _ hfr it hit)
  | some it2 =>
    obtain ⟨hit2, hit21⟩ := find_if_some _ _ _ hfr
    have he : it2.2 = it.2 := by
      rw [← hids.1 it2 hit2, hit21, hseq, hids.1 it hit]
    obtain ⟨_, m, hm⟩ := h.1.item it2 (List.mem_append_right _ hit2)
    have hf := h.1.unfinished it2.2 m hm (h.1.recv_ne_cur it2 hit2)
    have hmon := h.1.mon it2.2 m hm
    rw [hf] at hmon
    have hex : ∃ rc w2, w.RecvDone (some meta) parses = .ok (rc, w2) := by
      unfold World.RecvDone
      simp only [hfr]
      by_cases hcode : meta.code ≠ 0 <;> cases parses <;>
        simp [World.DelMonitor, World.ParseFromArray, World.Finish, World.deleteMsg,
          World.SetResponseCode, World.SetResponseError, hm, hmon, hf, hcode, bind, Except.bind]
    obtain ⟨rc, w2, hrd⟩ := hex
    refine ⟨rc, w2, hrd, ?_⟩
    rcases RecvDone_ok w w2 (some meta) parses rc h.1 hrd with ⟨e, _⟩ | ⟨mm, e, hn, _⟩ |
      ⟨mm, it3, m3, c, e, hfr3, _, _, e3⟩
    · simp at e
    · simp only [Option.some.injEq] at e
      rw [← e, hfr] at hn
      simp at hn
    · simp only [Option.some.injEq] at e
      rw [← e, hfr] at hfr3
      simp only [Option.some.injEq] at hfr3
      rw [e3, ← hfr3, he]

/-- Once the completion of a message has run, no sequence of events runs it
again or parses a response for it. -/
theorem run_late (evs : List Event) : ∀ (w w2 : World) (p : Nat), w.Inv →
    w.done_runs.count p = 1 → w.run evs = .ok w2 → w.created.length + calls evs < 2 ^ 64 →
    w2.done_runs.count p = 1 ∧ w2.parsed.count p = w.parsed.count p := by
  induction evs with
  | nil =>
    intro w w2 p _ hp hr _
    simp only [World.run, Except.ok.injEq] at hr
    subst hr
    exact ⟨hp, rfl⟩
  | cons e evs ih =>
    intro w w2 p h hp hr hb
    unfold World.run at hr
    obtain ⟨w1, h1, hr⟩ := bind_ok _ _ _ hr
    rw [calls_cons] at hb
    have hb1 : e.isCall = true → w.created.length + 1 < 2 ^ 64 := by
      intro hc
      have : calls [e] = 1 := by simp [calls, hc]
      omega
    obtain ⟨a1, a2, a3⟩ := step_inv w w1 e h h1 hb1
    have hge : w.done_runs.count p ≤ w1.done_runs.count p :=
      List.Sublist.count_le (List.IsPrefix.sublist a2.runs) p
    have hle := count_le_one w1 a1 p
    have hp1 : w1.done_runs.count p = 1 := by omega
    obtain ⟨b1, b2⟩ := ih w1 w2 p a1 hp1 hr (by omega)
    refine ⟨b1, ?_⟩
    rw [b2]
    rcases a2.parsed with e1 | ⟨q, m, e1, hm, hf⟩
    · rw [e1]
    · have hq := count_zero_of_unfinished w h q m hm hf
      have hne : p ≠ q := by
        intro e
        rw [e, hq] at hp
        omega
      rw [e1, count_append_singleton]
      simp [hne]

/-- The thread checks of the channel. `Open`, `Close` and `Cancel` called from
a thread other than the one that created the channel return `kErrCtx` and leave
the whole state unchanged. `CallMethod` does not look at the calling thread:
what it does to the channel (sequence counter, queues, current-send slot,
connection) is the same from every thread. -/
theorem off_thread_calls (w : World) (self : Nat) (h : self ≠ w.chan.tid_) :
    w.Open self = (kErrCtx, w) ∧ w.Close self = .ok (kErrCtx, w) ∧
    w.Cancel self = .ok (kErrCtx, w) ∧
    ∀ method controller request response done,
      (w.CallMethod self method controller request response done).map (fun v => v.chan)
        = (w.CallMethod w.chan.tid_ method controller request response done).map
            (fun v => v.chan) := by
  refine ⟨?_, ?_, ?_, ?_⟩
  · unfold World.Open
    rw [if_pos h]
  · unfold World.Close
    rw [if_pos h]
  · unfold World.Cancel
    rw [if_pos h]
  · intro method controller request response done
    unfold World.CallMethod
    by_cases h1 : request = 0 ∨ response = 0 ∨ done = 0 ∨ controller = 0
    · rw [if_pos h1, if_pos h1]
    · rw [if_neg h1, if_neg h1]
      cases find_last_dot method.full_name with
      | none => rfl
      | some dotpos =>
        simp only
        by_cases h2 : (w.ctls controller).client_message_ ≠ none
        · rw [if_pos h2, if_pos h2]
        · rw [if_neg h2, if_neg h2]
          simp only [ChannelImpl.next_sequence]
          by_cases h3 : w.chan.sendq_ = [] ∧ w.chan.conn_ = none
          · rw [if_pos h3, if_pos h3]
          · rw [if_neg h3, if_neg h3]
            simp only [World.NewMonitor, Function.update_same, Except.map]

/-- On the opened channel of thread 7, `Open`, `Close` and `Cancel` called
from thread 8 return `kErrCtx` and change nothing. -/
theorem off_thread_calls_sample :
    8 ≠ sampleOpened.chan.tid_ ∧
    sampleOpened.Open 8 = (kErrCtx, sampleOpened) ∧
    sampleOpened.Close 8 = .ok (kErrCtx, sampleOpened) ∧
    sampleOpened.Cancel 8 = .ok (kErrCtx, sampleOpened) :=
  ⟨by decide, (off_thread_calls sampleOpened 8 (by decide)).1,
    (off_thread_calls sampleOpened 8 (by decide)).2.1,
    (off_thread_calls sampleOpened 8 (by decide)).2.2.1⟩

/-- C10 (thread affinity), evaluated on the code. On the opened channel of
thread 7, `Open`, `Close` and `Cancel` called from thread 8 return `kErrCtx`:
each of them compares `pthread_self()` with `tid_` first. `CallMethod` makes no
such comparison: called from thread 8 it returns, with no error, and has
changed the sequence counter from 0 to 1 and the send queue from empty to one
item. It has recorded thread 8 in the controller, so that afterwards
`StartCancel` is fatal on thread 7, the thread of the channel, and goes
through on thread 8. -/
theorem C10_call_method_other_thread :
    8 ≠ sampleOpened.chan.tid_ ∧
    (sampleOpened.Open 8).1 = kErrCtx ∧
    (sampleOpened.Close 8).map Prod.fst = .ok kErrCtx ∧
    (sampleOpened.Cancel 8).map Prod.fst = .ok kErrCtx ∧
    sampleOpened.chan.sequence_ = 0 ∧ sampleOpened.chan.sendq_ = [] ∧
    ∃ w2, sampleOpened.CallMethod 8 sampleMethod 1 1 1 1 = .ok w2 ∧
      w2.chan.sequence_ = 1 ∧ w2.chan.sendq_ = [(1, 1)] ∧
      (w2.ctls 1).client_message_ = some 1 ∧ (w2.ctls 1).tid_ = 8 ∧
      w2.StartCancel 7 1 = .error .fatal ∧
      (w2.StartCancel 8 1).map (fun v => (v.ctls 1).code_) = .ok kErrCancel :=
  ⟨by decide, rfl, rfl, rfl, rfl, rfl, _, rfl, rfl, rfl, rfl, rfl, rfl, rfl⟩

/-! ## C11: response delivery -/

/-- What `RecvDone` does with the response for a live, unfinished message found
in the receive queue. -/
theorem RecvDone_deliver (w : World) (meta : MsgMeta) (parses : Bool) (it : MsgItem)
    (m : ClientMessage) (hfr : find_if w.chan.recvq_ meta.sequence = some it)
    (hm : w.msgs it.2 = some m) (hf : m.finish_ = false) (hmon : m.monitor_ = true) :
    ∃ rc w2, w.RecvDone (some meta) parses = .ok (rc, w2) ∧
      w2.chan.recvq_ = erase_found w.chan.recvq_ meta.sequence ∧
      w2.chan.sendq_ = w.chan.sendq_ ∧ w2.chan.cur_send_ = w.chan.cur_send_ ∧
      w2.done_runs = w.done_runs ++ [it.2] ∧ w2.msgs it.2 = none ∧
      (w2.ctls m.controller_).client_message_ = none ∧
      (meta.code ≠ 0 →
        (w2.ctls m.controller_).code_ = meta.code ∧
        (w2.ctls m.controller_).error_text_ = meta.error_text ∧
        w2.parsed = w.parsed ∧ rc = true) ∧
      (meta.code = 0 →
        w2.parsed = w.parsed ++ [it.2] ∧
        (w2.ctls m.controller_).error_text_ = (w.ctls m.controller_).error_text_ ∧
        (parses = false → (w2.ctls m.controller_).code_ = kErrResponse ∧ rc = false) ∧
        (parses = true →
          (w2.ctls m.controller_).code_ = (w.ctls m.controller_).code_ ∧ rc = true)) := by
  by_cases hcode : meta.code = 0 <;> cases parses <;>
    simp [World.RecvDone, hfr, World.DelMonitor, World.ParseFromArray, World.Finish,
      World.deleteMsg, World.SetResponseCode, World.SetResponseError, hm, hmon, hf, hcode,
      bind, Except.bind]

/-- C11 (response delivery). In every state a fresh channel reaches (fewer than
2^64 calls), for a response whose sequence number is that of a message in the
receive queue, `RecvDone` returns; the message leaves the receive queue (the
other items keep their order), its completion runs and it is destroyed. If the
meta carries a non-zero code, the controller of the message gets that code and
the meta's error text, and nothing is parsed into the response; otherwise the
data bytes are parsed into the response, and when that parse fails the
controller's code becomes `kErrResponse`, when it succeeds the code stays. -/
theorem C11_response_delivery (tid : Nat) (evs : List Event) (w : World)
    (hr : (World.init tid).run evs = .ok w) (hb : calls evs < 2 ^ 64)
    (it : MsgItem) (hit : it ∈ w.chan.recvq_) (meta : MsgMeta) (hseq : meta.sequence = it.1)
    (parses : Bool) :
    ∃ m rc w2, w.msgs it.2 = some m ∧ w.RecvDone (some meta) parses = .ok (rc, w2) ∧
      w2.chan.recvq_ = w.chan.recvq_.filter (fun x => decide (x.2 ≠ it.2)) ∧
      it ∉ w2.chan.recvq_ ∧ w2.chan.sendq_ = w.chan.sendq_ ∧
      w.done_runs.count it.2 = 0 ∧ w2.done_runs = w.done_runs ++ [it.2] ∧
      w2.msgs it.2 = none ∧
      (meta.code ≠ 0 →
        (w2.ctls m.controller_).code_ = meta.code ∧
        (w2.ctls m.controller_).error_text_ = meta.error_text ∧
        w2.parsed = w.parsed ∧ rc = true) ∧
      (meta.code = 0 →
        w2.parsed = w.parsed ++ [it.2] ∧
        (parses = false → (w2.ctls m.controller_).code_ = kErrResponse ∧ rc = false) ∧
        (parses = true →
          (w2.ctls m.controller_).code_ = (w.ctls m.controller_).code_ ∧ rc = true)) := by
  have hb0 : (World.init tid).created.length + calls evs < 2 ^ 64 := by
    simpa [World.init] using hb
  obtain ⟨hinv, _⟩ := run_inv evs _ w (init_inv tid) hr hb0
  have hids := hinv.1.recvq_ids
  cases hfr : find_if w.chan.recvq_ meta.sequence with
  | none => exact absurd hseq.symm (find_if_none _ _ hfr it hit)
  | some it2 =>
    obtain ⟨hit2, hit21⟩ := find_if_some _ _ _ hfr
    have he2 : it2.2 = it.2 := by
      rw [← hids.1 it2 hit2, hit21, hseq, hids.1 it hit]
    have he : it2 = it := Prod.ext (by rw [hit21, hseq]) he2
    subst he
    obtain ⟨_, m, hm⟩ := hinv.1.item it2 (List.mem_append_right _ hit)
    have hf := hinv.1.unfinished it2.2 m hm (hinv.1.recv_ne_cur it2 hit)
    have hmon := hinv.1.mon it2.2 m hm
    rw [hf] at hmon
    obtain ⟨rc, w2, a1, a2, a3, _, a5, a6, _, a8, a9⟩ :=
      RecvDone_deliver w meta parses it2 m hfr hm hf (by simpa using hmon)
    have hfil : w2.chan.recvq_ = w.chan.recvq_.filter (fun x => decide (x.2 ≠ it2.2)) := by
      rw [a2, erase_found_eq_filter _ _ hids.1 hids.2, hseq, hids.1 it2 hit]
    refine ⟨m, rc, w2, hm, a1, hfil, ?_, a3, count_zero_of_unfinished w hinv _ m hm hf, a5, a6,
      a8, ?_⟩
    · rw [hfil]
      intro hin
      have := (List.mem_filter.1 hin).2
      simp at this
    · intro h0
      obtain ⟨b1, _, b3, b4⟩ := a9 h0
      exact ⟨b1, b3, b4⟩

/-- Witness of C11: message 1 waits in the receive queue; the response with
code 11 and text `no` is delivered to its controller. -/
theorem C11_response_delivery_witness :
    ∃ m rc w2, waitingWorld.msgs 1 = some m ∧
      waitingWorld.RecvDone (some errorMeta) true = .ok (rc, w2) ∧
      w2.chan.recvq_ = waitingWorld.chan.recvq_.filter (fun x => decide (x.2 ≠ 1)) ∧
      ((1, 1) : MsgItem) ∉ w2.chan.recvq_ ∧ w2.chan.sendq_ = waitingWorld.chan.sendq_ ∧
      waitingWorld.done_runs.count 1 = 0 ∧ w2.done_runs = waitingWorld.done_runs ++ [1] ∧
      w2.msgs 1 = none ∧
      (errorMeta.code ≠ 0 →
        (w2.ctls m.controller_).code_ = errorMeta.code ∧
        (w2.ctls m.controller_).error_text_ = errorMeta.error_text ∧
        w2.parsed = waitingWorld.parsed ∧ rc = true) ∧
      (errorMeta.code = 0 →
        w2.parsed = waitingWorld.parsed ++ [1] ∧
        (true = false → (w2.ctls m.controller_).code_ = kErrResponse ∧ rc = false) ∧
        (true = true →
          (w2.ctls m.controller_).code_ = (waitingWorld.ctls m.controller_).code_ ∧
          rc = true)) :=
  C11_response_delivery 7 waitingTrace waitingWorld rfl (by decide) (1, 1) (by decide)
    errorMeta rfl true

/-! ## C12: client cancel -/

/-- What `ClientController::StartCancel` does for a live, unfinished message,
by the place of the message. -/
theorem StartCancel_effect (w : World) (h : w.Inv) (self ctl p : Nat) (m : ClientMessage)
    (hcm : (w.ctls ctl).client_message_ = some p) (ht : (w.ctls ctl).tid_ = self)
    (hm : w.msgs p = some m) (hf : m.finish_ = false) :
    ∃ w2, w.StartCancel self ctl = .ok w2 ∧
      (w2.ctls m.controller_).code_ = kErrCancel ∧
      w2.done_runs = w.done_runs ++ [p] ∧ w2.chan.cur_send_ = w.chan.cur_send_ ∧
      ((p, p) ∈ w.chan.recvq_ →
        w2.chan.recvq_ = w.chan.recvq_.filter (fun x => decide (x.2 ≠ p)) ∧
        w2.chan.sendq_ = w.chan.sendq_ ∧ w2.msgs p = none) ∧
      (w.chan.cur_send_.2 = p →
        w2.chan = w.chan ∧
        w2.msgs p = some { m with monitor_ := false, finish_ := true }) ∧
      ((p, p) ∈ w.chan.sendq_ → w.chan.cur_send_.2 ≠ p →
        w2.chan.sendq_ = w.chan.sendq_.filter (fun x => decide (x.2 ≠ p)) ∧
        w2.chan.recvq_ = w.chan.recvq_ ∧ w2.msgs p = none) := by
  obtain ⟨hid, hp1, _, hq⟩ := h.1.live p m hm
  have hid2 : m.meta_.sequence = p := hid
  have hmon : m.monitor_ = true := by
    have := h.1.mon p m hm
    rw [hf] at this
    simpa using this
  cases hfr : find_if w.chan.recvq_ p with
  | some it =>
    obtain ⟨hit, hit1⟩ := find_if_some _ _ _ hfr
    have hit2 : it.2 = p := by rw [← h.1.recvq_ids.1 it hit, hit1]
    have hpc : w.chan.cur_send_.2 ≠ p := by
      rw [← hit2]
      exact Ne.symm (h.1.recv_ne_cur it hit)
    have hns : (p, p) ∉ w.chan.sendq_ := by
      intro hin
      have := h.1.not_in_recvq (p, p) hin
      exact this (by
        have := List.mem_map_of_mem Prod.snd hit
        rw [hit2] at this
        exact this)
    have hex : ∃ w2, w.StartCancel self ctl = .ok w2 ∧
        (w2.ctls m.controller_).code_ = kErrCancel ∧
        w2.done_runs = w.done_runs ++ [p] ∧ w2.chan.cur_send_ = w.chan.cur_send_ ∧
        w2.chan.recvq_ = erase_found w.chan.recvq_ p ∧
        w2.chan.sendq_ = w.chan.sendq_ ∧ w2.msgs p = none := by
      simp [World.StartCancel, hcm, ht, World.MessageStartCancel, hm,
        World.ChannelStartCancel, World.DelMonitor, World.SetResponseCode, hmon, World.detach,
        ClientMessage.id, hid2, hfr, World.Finish, hf, World.deleteMsg, bind, Except.bind]
    obtain ⟨w2, a1, a2, a3, a4, a5, a6, a7⟩ := hex
    refine ⟨w2, a1, a2, a3, a4, ?_, ?_, ?_⟩
    · intro _
      exact ⟨by rw [a5, erase_found_eq_filter _ _ h.1.recvq_ids.1 h.1.recvq_ids.2], a6, a7⟩
    · intro hc
      exact absurd hc hpc
    · intro hin
      exact absurd hin hns
  | none =>
    have hnr : (p, p) ∉ w.chan.recvq_ := fun hin => find_if_none _ _ hfr _ hin rfl
    by_cases hcur : w.chan.cur_send_.2 = p
    · have hex : ∃ w2, w.StartCancel self ctl = .ok w2 ∧
          (w2.ctls m.controller_).code_ = kErrCancel ∧
          w2.done_runs = w.done_runs ++ [p] ∧ w2.chan = w.chan ∧
          w2.msgs p = some { m with monitor_ := false, finish_ := true } := by
        simp [World.StartCancel, hcm, ht, World.MessageStartCancel, hm,
          World.ChannelStartCancel, World.DelMonitor, World.SetResponseCode, hmon,
          World.detach, ClientMessage.id, hid2, hfr, hcur, World.Finish, hf, bind,
          Except.bind]
      obtain ⟨w2, a1, a2, a3, a4, a5⟩ := hex
      refine ⟨w2, a1, a2, a3, by rw [a4], ?_, ?_, ?_⟩
      · intro hin
        exact absurd hin hnr
      · intro _
        exact ⟨a4, a5⟩
      · intro _ hc
        exact absurd hcur hc
    · cases hfs : find_if w.chan.sendq_ p with
      | none =>
        exfalso
        rcases List.mem_append.1 hq with hin | hin
        · exact find_if_none _ _ hfs _ hin rfl
        · exact hnr hin
      | some it =>
        have hex : ∃ w2, w.StartCancel self ctl = .ok w2 ∧
            (w2.ctls m.controller_).code_ = kErrCancel ∧
            w2.done_runs = w.done_runs ++ [p] ∧ w2.chan.cur_send_ = w.chan.cur_send_ ∧
            w2.chan.sendq_ = erase_found w.chan.sendq_ p ∧
            w2.chan.recvq_ = w.chan.recvq_ ∧ w2.msgs p = none := by
          simp [World.StartCancel, hcm, ht, World.MessageStartCancel, hm,
            World.ChannelStartCancel, World.DelMonitor, World.SetResponseCode, hmon,
            World.detach, ClientMessage.id, hid2, hfr, hcur, hfs, World.Finish, hf,
            World.deleteMsg, bind, Except.bind]
        obtain ⟨w2, a1, a2, a3, a4, a5, a6, a7⟩ := hex
        refine ⟨w2, a1, a2, a3, a4, ?_, ?_, ?_⟩
        · intro hin
          exact absurd hin hnr
        · intro hc
          exact absurd hc hcur
        · intro _ _
          exact ⟨by rw [a5, erase_found_eq_filter _ _ h.1.sendq_ids.1 h.1.sendq_ids.2], a6, a7⟩

/-- The method `SendDone` for a finished message at the current-send slot: the
message is popped off the send queue and destroyed, and does not go to the
receive queue. -/
theorem SendDone_finished (w : World) (h : w.Inv) (p : Nat) (m : ClientMessage)
    (hcur : w.chan.cur_send_.2 = p) (hm : w.msgs p = some m) (hf : m.finish_ = true) :
    ∃ w3, w.SendDone p = .ok w3 ∧ w3.chan.sendq_ = w.chan.sendq_.tail ∧
      w3.chan.recvq_ = w.chan.recvq_ ∧ w3.chan.cur_send_ = (0, 0) ∧ w3.msgs p = none ∧
      w3.done_runs = w.done_runs := by
  have hmon : m.monitor_ = false := by
    have := h.1.mon p m hm
    rw [hf] at this
    simpa using this
  have h0 : w.chan.cur_send_.2 ≠ 0 := by
    have := (h.1.live p m hm).2.1
    omega
  have hs := h.1.slot h0
  cases hsq : w.chan.sendq_ with
  | nil => rw [hsq] at hs; simp at hs
  | cons a rest =>
    simp [World.SendDone, hcur, hm, hsq, hf, hmon, World.deleteMsg, bind, Except.bind]

/-- C12 (client cancel). In every state a fresh channel reaches (fewer than 2^64
calls), for a live unfinished message p whose controller names it,
`StartCancel` from the thread of the call returns, stamps the controller of the
message with `kErrCancel` and runs the completion, once. The message is in one
of the queues. If it is in the receive queue, or in the send queue and not at
the current-send slot, it is removed from that queue and destroyed, and the
other items of both queues keep their places. If it is at the current-send slot
the queues stay as they are, with the message at the head of the send queue and
now finished; the next `SendDone` pops and destroys it, leaves the receive
queue as it was and runs no completion. -/
theorem C12_client_cancel (tid : Nat) (evs : List Event) (w : World)
    (hr : (World.init tid).run evs = .ok w) (hb : calls evs < 2 ^ 64)
    (self ctl p : Nat) (m : ClientMessage)
    (hcm : (w.ctls ctl).client_message_ = some p) (ht : (w.ctls ctl).tid_ = self)
    (hm : w.msgs p = some m) (hf : m.finish_ = false) :
    ∃ w2, w.StartCancel self ctl = .ok w2 ∧
      (w2.ctls m.controller_).code_ = kErrCancel ∧
      w.done_runs.count p = 0 ∧ w2.done_runs = w.done_runs ++ [p] ∧
      w2.chan.cur_send_ = w.chan.cur_send_ ∧
      ((p, p) ∈ w.chan.recvq_ ∨ (p, p) ∈ w.chan.sendq_) ∧
      ((p, p) ∈ w.chan.recvq_ →
        w2.chan.recvq_ = w.chan.recvq_.filter (fun x => decide (x.2 ≠ p)) ∧
        w2.chan.sendq_ = w.chan.sendq_ ∧ w2.msgs p = none) ∧
      ((p, p) ∈ w.chan.sendq_ → w.chan.cur_send_.2 ≠ p →
        w2.chan.sendq_ = w.chan.sendq_.filter (fun x => decide (x.2 ≠ p)) ∧
        w2.chan.recvq_ = w.chan.recvq_ ∧ w2.msgs p = none) ∧
      (w.chan.cur_send_.2 = p →
        w2.chan = w.chan ∧ w.chan.sendq_.head? = some w.chan.cur_send_ ∧
        (∃ m2, w2.msgs p = some m2 ∧ m2.finish_ = true) ∧
        ∃ w3, w2.SendDone p = .ok w3 ∧ w3.chan.sendq_ = w.chan.sendq_.tail ∧
          w3.chan.recvq_ = w.chan.recvq_ ∧ w3.chan.cur_send_ = (0, 0) ∧ w3.msgs p = none ∧
          w3.done_runs = w2.done_runs) := by
  have hb0 : (World.init tid).created.length + calls evs < 2 ^ 64 := by
    simpa [World.init] using hb
  obtain ⟨hinv, _⟩ := run_inv evs _ w (init_inv tid) hr hb0
  obtain ⟨hid, hp1, _, hq⟩ := hinv.1.live p m hm
  obtain ⟨w2, a1, a2, a3, a4, a5, a6, a7⟩ := StartCancel_effect w hinv self ctl p m hcm ht hm hf
  refine ⟨w2, a1, a2, count_zero_of_unfinished w hinv p m hm hf, a3, a4, ?_, a5, a7, ?_⟩
  · rcases List.mem_append.1 hq with hin | hin
    · exact Or.inr hin
    · exact Or.inl hin
  · intro hcur
    obtain ⟨b1, b2⟩ := a6 hcur
    have h0 : w.chan.cur_send_.2 ≠ 0 := by omega
    obtain ⟨c1, c2, _⟩ := StartCancel_inv w w2 self ctl hinv.1 a1
    have hinv2 : w2.Inv := Inv_of_same w w2 hinv c1 c2.created c2.seq c2.next
    obtain ⟨w3, d1, d2, d3, d4, d5, d6⟩ := SendDone_finished w2 hinv2 p _
      (by rw [b1]; exact hcur) b2 rfl
    rw [b1] at d2 d3
    exact ⟨b1, hinv.1.slot h0, ⟨_, b2, rfl⟩, w3, d1, d2, d3, d4, d5, d6⟩

/-- Witness of C12: message 1 of controller 1 waits in the receive queue;
`StartCancel` on the controller removes it and completes it with `kErrCancel`. -/
theorem C12_client_cancel_witness :
    ∃ w2, waitingWorld.StartCancel 7 1 = .ok w2 ∧
      (w2.ctls waitingMessage.controller_).code_ = kErrCancel ∧
      waitingWorld.done_runs.count 1 = 0 ∧ w2.done_runs = waitingWorld.done_runs ++ [1] ∧
      w2.chan.cur_send_ = waitingWorld.chan.cur_send_ ∧
      (((1, 1) : MsgItem) ∈ waitingWorld.chan.recvq_ ∨
        ((1, 1) : MsgItem) ∈ waitingWorld.chan.sendq_) ∧
      (((1, 1) : MsgItem) ∈ waitingWorld.chan.recvq_ →
        w2.chan.recvq_ = waitingWorld.chan.recvq_.filter (fun x => decide (x.2 ≠ 1)) ∧
        w2.chan.sendq_ = waitingWorld.chan.sendq_ ∧ w2.msgs 1 = none) ∧
      (((1, 1) : MsgItem) ∈ waitingWorld.chan.sendq_ → waitingWorld.chan.cur_send_.2 ≠ 1 →
        w2.chan.sendq_ = waitingWorld.chan.sendq_.filter (fun x => decide (x.2 ≠ 1)) ∧
        w2.chan.recvq_ = waitingWorld.chan.recvq_ ∧ w2.msgs 1 = none) ∧
      (waitingWorld.chan.cur_send_.2 = 1 →
        w2.chan = waitingWorld.chan ∧
        waitingWorld.chan.sendq_.head? = some waitingWorld.chan.cur_send_ ∧
        (∃ m2, w2.msgs 1 = some m2 ∧ m2.finish_ = true) ∧
        ∃ w3, w2.SendDone 1 = .ok w3 ∧ w3.chan.sendq_ = waitingWorld.chan.sendq_.tail ∧
          w3.chan.recvq_ = waitingWorld.chan.recvq_ ∧ w3.chan.cur_send_ = (0, 0) ∧
          w3.msgs 1 = none ∧ w3.done_runs = w2.done_runs) :=
  C12_client_cancel 7 waitingTrace waitingWorld rfl (by decide) 7 1 1 waitingMessage rfl rfl
    rfl rfl

/-! ## The server -/

theorem map_find_append {α : Type} (m : List (String × α)) (key k : String) (v : α) :
    map_find (m ++ [(k, v)]) key =
      match map_find m key with
      | some x => some x
      | none => if k = key then some v else none := by
  induction m with
  | nil => simp [map_find]
  | cons a rest ih =>
    obtain ⟨k1, v1⟩ := a
    simp only [List.cons_append, map_find]
    by_cases h : k1 = key
    · simp [h]
    · simp [h, ih]

theorem map_find_erase {α : Type} (m : List (String × α)) (key k : String) :
    map_find (map_erase m k) key = if key = k then none else map_find m key := by
  induction m with
  | nil => simp [map_find, map_erase]
  | cons a rest ih =>
    obtain ⟨k1, v1⟩ := a
    unfold map_erase at ih ⊢
    by_cases h1 : k1 = k
    · simp only [List.filter_cons, h1, ne_eq, not_true_eq_false, decide_False]
      simp only [Bool.false_eq_true, if_false]
      rw [ih]
      by_cases h2 : key = k
      · simp [h2]
      · have : ¬ k = key := fun e => h2 e.symm
        simp [h2, map_find, this]
    · simp only [List.filter_cons, h1, ne_eq, not_false_eq_true, decide_True, if_true, map_find]
      by_cases h2 : k1 = key
      · have : ¬ key = k := fun e => h1 (h2.trans e)
        simp [h2, this]
      · rw [if_neg h2, if_neg h2]
        exact ih

theorem map_erase_absent {α : Type} (m : List (String × α)) (k : String)
    (h : map_find m k = none) : map_erase m k = m := by
  induction m with
  | nil => rfl
  | cons a rest ih =>
    obtain ⟨k1, v1⟩ := a
    unfold map_erase at ih ⊢
    simp only [map_find] at h
    by_cases h1 : k1 = k
    · simp [h1] at h
    · simp only [h1, if_false] at h
      simp only [List.filter_cons, h1, ne_eq, not_false_eq_true, decide_True, if_true]
      rw [ih h]

theorem map_erase_append {α : Type} (m : List (String × α)) (k : String) (v : α)
    (h : map_find m k = none) : map_erase (m ++ [(k, v)]) k = m := by
  unfold map_erase
  rw [List.filter_append]
  have := map_erase_absent m k h
  unfold map_erase at this
  rw [this]
  simp

/-! ## C13: endpoints -/

/-- C13 (Server::Add). `Add` returns `kOk` exactly when it is called on the
creating thread, in state `kInit`, with a non-empty host, a port above zero and
a pair that is not in the endpoint list; on `kOk` the pair is appended at the
end of the list and nothing else changes; on every other code the server, and
so the endpoint list, is unchanged. -/
theorem C13_add_endpoint (s : ServerImpl) (self : Nat) (host : String) (port : Int) :
    ((s.Add self host port).1 = kOk ↔
      (self = s.tid_ ∧ s.state_ = .kInit ∧ host ≠ "" ∧ 0 < port ∧
        (host, port) ∉ s.endpoints_)) ∧
    ((s.Add self host port).1 = kOk →
      (s.Add self host port).2 = { s with endpoints_ := s.endpoints_ ++ [(host, port)] }) ∧
    ((s.Add self host port).1 ≠ kOk → (s.Add self host port).2 = s) := by
  have he : host.isEmpty = true ↔ host = "" := String.isEmpty_iff host
  unfold ServerImpl.Add
  by_cases h1 : self ≠ s.tid_
  · rw [if_pos h1]
    simp [kOk, kErrCtx, h1]
  rw [if_neg h1]
  by_cases h2 : host.isEmpty = true
  · rw [if_pos h2]
    simp [kOk, kErrParam, he.1 h2]
  rw [if_neg h2]
  by_cases h3 : port ≤ 0
  · rw [if_pos h3]
    simp [kOk, kErrParam]
    intro _ _ _ h
    omega
  rw [if_neg h3]
  by_cases h4 : s.state_ ≠ .kInit
  · rw [if_pos h4]
    simp [kOk, kError, h4]
  rw [if_neg h4]
  by_cases h5 : (host, port) ∈ s.endpoints_
  · rw [if_pos h5]
    simp [kOk, kErrParam, h5]
  rw [if_neg h5]
  have h2b : host ≠ "" := fun e => h2 (he.2 e)
  refine ⟨⟨fun _ => ⟨by simpa using h1, by simpa using h4, h2b, by omega, h5⟩, fun _ => rfl⟩,
    fun _ => rfl, fun h => absurd rfl h⟩

/-! ## C14: the registry -/

theorem init_wellFormed (options : ServerOptions) (base tid : Nat) (builtin : Service) :
    (ServerImpl.init options base tid builtin).WellFormed := by
  intro key h
  simp [ServerImpl.init, ServerImpl.Register, map_insert, map_find] at h

/-- What `Register` returns for a non-null service in a state in which every
owned name is registered. -/
theorem Register_cases (s : ServerImpl) (hwf : s.WellFormed) (self : Nat) (svc : Service)
    (ownership : ServiceOwnership) :
    s.Register self (some svc) ownership =
      if self ≠ s.tid_ then (kErrCtx, s)
      else if s.state_ ≠ .kInit then (kError, s)
      else if (map_find s.services_ svc.full_name).isSome then (kErrHasSrv, s)
      else (kOk, { s with
        services_ := s.services_ ++ [(svc.full_name, svc)]
        ownership_ := if ownership = .kServerOwnsService
          then s.ownership_ ++ [(svc.full_name, ownership)] else s.ownership_ }) := by
  unfold ServerImpl.Register
  by_cases h1 : self ≠ s.tid_
  · rw [if_pos h1, if_pos h1]
  rw [if_neg h1, if_neg h1]
  by_cases h2 : s.state_ ≠ .kInit
  · rw [if_pos h2, if_pos h2]
  rw [if_neg h2, if_neg h2]
  cases hf : map_find s.services_ svc.full_name with
  | some x => simp [map_insert, hf]
  | none =>
    have ho : map_find s.ownership_ svc.full_name = none := by
      cases hq : map_find s.ownership_ svc.full_name with
      | none => rfl
      | some y =>
        have := hwf svc.full_name (by rw [hq]; rfl)
        rw [hf] at this
        simp at this
    cases ownership <;> simp [map_insert, hf, ho]

/-- The four outcomes of `Register` for a non-null service. -/
theorem Register_result (s : ServerImpl) (hwf : s.WellFormed) (self : Nat) (svc : Service)
    (ownership : ServiceOwnership) :
    (self ≠ s.tid_ ∧ s.Register self (some svc) ownership = (kErrCtx, s)) ∨
    (self = s.tid_ ∧ s.state_ ≠ .kInit ∧ s.Register self (some svc) ownership = (kError, s)) ∨
    (self = s.tid_ ∧ s.state_ = .kInit ∧ (map_find s.services_ svc.full_name).isSome ∧
      s.Register self (some svc) ownership = (kErrHasSrv, s)) ∨
    (self = s.tid_ ∧ s.state_ = .kInit ∧ map_find s.services_ svc.full_name = none ∧
      map_find s.ownership_ svc.full_name = none ∧
      s.Register self (some svc) ownership = (kOk, { s with
        services_ := s.services_ ++ [(svc.full_name, svc)]
        ownership_ := if ownership = .kServerOwnsService
          then s.ownership_ ++ [(svc.full_name, ownership)] else s.ownership_ })) := by
  rw [Register_cases s hwf]
  by_cases h1 : self ≠ s.tid_
  · rw [if_pos h1]
    exact Or.inl ⟨h1, rfl⟩
  rw [if_neg h1]
  have h1b : self = s.tid_ := by simpa using h1
  by_cases h2 : s.state_ ≠ .kInit
  · rw [if_pos h2]
    exact Or.inr (Or.inl ⟨h1b, h2, rfl⟩)
  rw [if_neg h2]
  have h2b : s.state_ = .kInit := by simpa using h2
  by_cases h3 : (map_find s.services_ svc.full_name).isSome
  · rw [if_pos h3]
    exact Or.inr (Or.inr (Or.inl ⟨h1b, h2b, h3, rfl⟩))
  rw [if_neg h3]
  have hf : map_find s.services_ svc.full_name = none := by
    cases hq : map_find s.services_ svc.full_name with
    | none => rfl
    | some y => rw [hq] at h3; simp at h3
  have ho : map_find s.ownership_ svc.full_name = none := by
    cases hq : map_find s.ownership_ svc.full_name with
    | none => rfl
    | some y =>
      have := hwf svc.full_name (by rw [hq]; rfl)
      rw [hf] at this
      simp at this
  exact Or.inr (Or.inr (Or.inr ⟨h1b, h2b, hf, ho, rfl⟩))

theorem Register_wellFormed (s : ServerImpl) (hwf : s.WellFormed) (self : Nat)
    (service : Option Service) (ownership : ServiceOwnership) :
    (s.Register self service ownership).2.WellFormed := by
  cases service with
  | none =>
    unfold ServerImpl.Register
    split_ifs <;> exact hwf
  | some svc =>
    rcases Register_result s hwf self svc ownership with ⟨_, e⟩ | ⟨_, _, e⟩ | ⟨_, _, _, e⟩ |
      ⟨_, _, hf, ho, e⟩
    · rw [e]; exact hwf
    · rw [e]; exact hwf
    · rw [e]; exact hwf
    · rw [e]
      intro key hk
      simp only [map_find_append]
      cases hs : map_find s.services_ key with
      | some x => rfl
      | none =>
        have hno : map_find s.ownership_ key = none := by
          cases hq : map_find s.ownership_ key with
          | none => rfl
          | some y =>
            have := hwf key (by rw [hq]; rfl)
            rw [hs] at this
            simp at this
        by_cases hk2 : svc.full_name = key
        · simp [hk2]
        · exfalso
          by_cases hw : ownership = .kServerOwnsService
          · simp only [hw, if_true, map_find_append, hno] at hk
            simp [hk2] at hk
          · simp only [hw, if_false, hno] at hk
            simp at hk

theorem unregisterName_wellFormed (s : ServerImpl) (hwf : s.WellFormed) (fname : String) :
    (s.unregisterName fname).2.WellFormed := by
  have key : ∀ (s2 : ServerImpl),
      s2.services_ = (if (map_find s.services_ fname).isSome then map_erase s.services_ fname
        else s.services_) →
      s2.ownership_ = (if (map_find s.ownership_ fname).isSome then map_erase s.ownership_ fname
        else s.ownership_) → s2.WellFormed := by
    intro s2 e1 e2 k hk
    rw [e2] at hk
    rw [e1]
    by_cases hkf : k = fname
    · subst hkf
      split_ifs at hk with h5
      · rw [map_find_erase] at hk
        simp at hk
      · exact absurd hk h5
    · have hk2 : (map_find s.ownership_ k).isSome := by
        split_ifs at hk with h5
        · rw [map_find_erase, if_neg hkf] at hk
          exact hk
        · exact hk
      have := hwf k hk2
      split_ifs
      · rw [map_find_erase, if_neg hkf]
        exact this
      · exact this
  apply key
  · unfold ServerImpl.unregisterName
    cases h1 : map_find s.services_ fname <;> cases h2 : map_find s.ownership_ fname <;>
      simp [h1, h2]
  · unfold ServerImpl.unregisterName
    cases h1 : map_find s.services_ fname <;> cases h2 : map_find s.ownership_ fname <;>
      simp [h1, h2]

theorem Unregister_wellFormed (s : ServerImpl) (hwf : s.WellFormed) (self : Nat)
    (name : String) : (s.Unregister self name).2.WellFormed := by
  unfold ServerImpl.Unregister
  split_ifs
  · exact hwf
  · exact hwf
  · exact hwf
  · exact unregisterName_wellFormed s hwf name

theorem UnregisterService_wellFormed (s : ServerImpl) (hwf : s.WellFormed) (self : Nat)
    (srvptr : Option Service) : (s.UnregisterService self srvptr).2.WellFormed := by
  unfold ServerImpl.UnregisterService
  split_ifs
  · exact hwf
  · exact hwf
  · cases srvptr with
    | none => exact hwf
    | some svc => exact unregisterName_wellFormed s hwf svc.full_name

theorem Add_wellFormed (s : ServerImpl) (hwf : s.WellFormed) (self : Nat) (host : String)
    (port : Int) : (s.Add self host port).2.WellFormed := by
  unfold ServerImpl.Add
  split_ifs <;> exact hwf

/-- C14 (service registration). In a state in which every owned name is
registered (as in every state from the constructor on), `Register` of a
service returns `kOk` exactly on the creating thread, in state `kInit`, for a
full name that is not in the registry. For a full name that is in the registry
it returns `kErrHasSrv`, and whenever it does not return `kOk` the server, with
its registry and its ownership map, is unchanged. On `kOk` the full name is
mapped to the service, every other name keeps its entry, and the ownership map
gets an entry for the name exactly when `kServerOwnsService` was passed. Both
forms of `Unregister` return an error in state `kRun` and leave the server
unchanged. -/
theorem C14_service_registration (s : ServerImpl) (hwf : s.WellFormed) (self : Nat)
    (svc : Service) (ownership : ServiceOwnership) (name : String) (srvptr : Option Service) :
    ((s.Register self (some svc) ownership).1 = kOk ↔
      (self = s.tid_ ∧ s.state_ = .kInit ∧ map_find s.services_ svc.full_name = none)) ∧
    (self = s.tid_ → s.state_ = .kInit → (map_find s.services_ svc.full_name).isSome →
      s.Register self (some svc) ownership = (kErrHasSrv, s)) ∧
    ((s.Register self (some svc) ownership).1 ≠ kOk →
      (s.Register self (some svc) ownership).2 = s) ∧
    ((s.Register self (some svc) ownership).1 = kOk →
      (s.Register self (some svc) ownership).2 = { s with
        services_ := s.services_ ++ [(svc.full_name, svc)]
        ownership_ := if ownership = .kServerOwnsService
          then s.ownership_ ++ [(svc.full_name, ownership)] else s.ownership_ } ∧
      map_find (s.Register self (some svc) ownership).2.services_ svc.full_name = some svc ∧
      (∀ key, key ≠ svc.full_name →
        map_find (s.Register self (some svc) ownership).2.services_ key
          = map_find s.services_ key ∧
        map_find (s.Register self (some svc) ownership).2.ownership_ key
          = map_find s.ownership_ key) ∧
      map_find s.ownership_ svc.full_name = none ∧
      ((map_find (s.Register self (some svc) ownership).2.ownership_ svc.full_name).isSome ↔
        ownership = .kServerOwnsService)) ∧
    (s.state_ = .kRun →
      (s.Unregister self name).1 ≠ 0 ∧ (s.Unregister self name).2 = s ∧
      (s.UnregisterService self srvptr).1 ≠ 0 ∧ (s.UnregisterService self srvptr).2 = s) := by
  have hrun : s.state_ = .kRun →
      (s.Unregister self name).1 ≠ 0 ∧ (s.Unregister self name).2 = s ∧
      (s.UnregisterService self srvptr).1 ≠ 0 ∧ (s.UnregisterService self srvptr).2 = s := by
    intro hrun
    unfold ServerImpl.Unregister ServerImpl.UnregisterService
    by_cases h1 : self ≠ s.tid_
    · simp [h1, kErrCtx]
    · simp [h1, hrun, kError]
  rcases Register_result s hwf self svc ownership with ⟨h1, e⟩ | ⟨h1, h2, e⟩ | ⟨h1, h2, h3, e⟩ |
    ⟨h1, h2, hf, ho, e⟩
  · rw [e]
    refine ⟨?_, fun h => absurd h h1, fun _ => rfl, ?_, hrun⟩
    · simp [kOk, kErrCtx, h1]
    · intro h; simp [kOk, kErrCtx] at h
  · rw [e]
    refine ⟨?_, fun _ h => absurd h h2, fun _ => rfl, ?_, hrun⟩
    · simp [kOk, kError, h2]
    · intro h; simp [kOk, kError] at h
  · rw [e]
    have : map_find s.services_ svc.full_name ≠ none := by
      intro e2
      rw [e2] at h3
      simp at h3
    refine ⟨?_, fun _ _ _ => rfl, fun _ => rfl, ?_, hrun⟩
    · simp [kOk, kErrHasSrv, this]
    · intro h; simp [kOk, kErrHasSrv] at h
  · rw [e]
    refine ⟨⟨fun _ => ⟨h1, h2, hf⟩, fun _ => rfl⟩, ?_, fun h => absurd rfl h, fun _ => ?_, hrun⟩
    · intro _ _ h3
      rw [hf] at h3
      simp at h3
    · refine ⟨rfl, ?_, ?_, ho, ?_⟩
      · simp only [map_find_append, hf]
        simp
      · intro key hk
        have hk2 : ¬ svc.full_name = key := fun e => hk e.symm
        constructor
        · simp only [map_find_append]
          cases map_find s.services_ key <;> simp [hk2]
        · by_cases hw : ownership = .kServerOwnsService
          · simp only [hw, if_true, map_find_append]
            cases map_find s.ownership_ key <;> simp [hk2]
          · simp only [hw, if_false]
      · by_cases hw : ownership = .kServerOwnsService
        · simp only [hw, if_true, map_find_append, ho]
          simp
        · simp only [hw, if_false, ho]
          simp

/-- Witness of C14: on the sample server, whose registry holds the builtin
service only, `pkg.Echo` is registered as owned by the server. -/
theorem C14_service_registration_witness :
    sampleServer.WellFormed ∧
    ((sampleServer.Register 7 (some sampleService) .kServerOwnsService).1 = kOk ↔
      (7 = sampleServer.tid_ ∧ sampleServer.state_ = .kInit ∧
        map_find sampleServer.services_ sampleService.full_name = none)) :=
  ⟨init_wellFormed _ _ _ _,
    (C14_service_registration sampleServer (init_wellFormed _ _ _ _) 7 sampleService
      .kServerOwnsService "pkg.Echo" none).1⟩

/-! ## C15: the states of the server -/

theorem newWorkers_state (num : Nat) :
    ∀ (s s1 : ServerImpl), ServerImpl.newWorkers num s = .ok s1 →
      s1.state_ = s.state_ ∧ s1.services_ = s.services_ ∧ s1.ownership_ = s.ownership_ ∧
      s1.endpoints_ = s.endpoints_ ∧ s1.tid_ = s.tid_ ∧ s1.options_ = s.options_ ∧
      s1.nxt_worker_ = s.nxt_worker_ := by
  induction num with
  | zero =>
    intro s s1 h
    simp only [ServerImpl.newWorkers, Except.ok.injEq] at h
    subst h
    exact ⟨rfl, rfl, rfl, rfl, rfl, rfl, rfl⟩
  | succ n ih =>
    intro s s1 h
    simp only [ServerImpl.newWorkers] at h
    by_cases hfa : (s.each_workers_.find? (fun p => p.1 == s.next_worker + 1)).isSome = true
    · rw [if_pos hfa] at h
      simp at h
    · rw [if_neg hfa] at h
      have := ih _ _ h
      exact this

/-- The part of C15 about `Start`: in a state other than `kInit` it returns a
non-zero code and leaves the server unchanged, and whenever it returns, zero
means that the state was `kInit` and is now `kRun`, and a non-zero code that
the state is unchanged. -/
theorem Start_state (net : Network) (s : ServerImpl) (self : Nat) :
    (s.state_ ≠ .kInit → ∃ rc, s.Start net self = .ok (rc, s) ∧ rc ≠ 0) ∧
    (∀ rc s2, s.Start net self = .ok (rc, s2) →
      (rc = 0 → s.state_ = .kInit ∧ s2.state_ = .kRun) ∧ (rc ≠ 0 → s2.state_ = s.state_)) := by
  constructor
  · intro h
    unfold ServerImpl.Start
    by_cases h1 : self ≠ s.tid_
    · rw [if_pos h1]
      exact ⟨_, rfl, by decide⟩
    · rw [if_neg h1, if_pos h]
      exact ⟨_, rfl, by decide⟩
  · intro rc s2 h
    unfold ServerImpl.Start at h
    by_cases h1 : self ≠ s.tid_
    · rw [if_pos h1] at h
      simp only [Except.ok.injEq, Prod.mk.injEq] at h
      rw [← h.1, ← h.2]
      exact ⟨fun e => absurd e (by decide), fun _ => rfl⟩
    rw [if_neg h1] at h
    by_cases h2 : s.state_ ≠ .kInit
    · rw [if_pos h2] at h
      simp only [Except.ok.injEq, Prod.mk.injEq] at h
      rw [← h.1, ← h.2]
      exact ⟨fun e => absurd e (by decide), fun _ => rfl⟩
    rw [if_neg h2] at h
    have h2b : s.state_ = .kInit := by simpa using h2
    by_cases h3 : s.endpoints_.isEmpty = true
    · rw [if_pos h3] at h
      simp only [Except.ok.injEq, Prod.mk.injEq] at h
      rw [← h.1, ← h.2]
      exact ⟨fun e => absurd e (by decide), fun _ => rfl⟩
    rw [if_neg h3] at h
    unfold ServerImpl.NewWorker at h
    cases hw : ServerImpl.newWorkers s.options_.num_worker_thread.toNat s with
    | error f => rw [hw] at h; simp at h
    | ok s1 =>
      rw [hw] at h
      have hs1 := (newWorkers_state _ s s1 hw).1
      simp only at h
      unfold ServerImpl.NewServer at h
      have hst : (s1.StartServer net).2.state_ = s.state_ := by
        simp only [ServerImpl.StartServer]
        split_ifs <;> exact hs1
      have key : ∀ (b : Bool) (s3 : ServerImpl), s1.StartServer net = (b, s3) →
          s3.state_ = s.state_ := by
        intro b s3 e
        rw [e] at hst
        exact hst
      by_cases hb : s1.base_ = 0
      · rw [if_pos hb] at h; simp at h
      rw [if_neg hb] at h
      have fin : ∀ (x : Bool × ServerImpl), s1.StartServer net = x →
          (match (Except.ok x : Except Fault (Bool × ServerImpl)) with
            | Except.error f => (Except.error f : Except Fault (Nat × ServerImpl))
            | Except.ok (false, s2) => Except.ok (kError, s2)
            | Except.ok (true, s2) => Except.ok (0, { s2 with state_ := .kRun }))
            = Except.ok (rc, s2) →
          (rc = 0 → s.state_ = .kInit ∧ s2.state_ = .kRun) ∧ (rc ≠ 0 → s2.state_ = s.state_) := by
        intro x hx hm
        obtain ⟨b, s3⟩ := x
        have hst := key b s3 hx
        cases b
        · simp only [Except.ok.injEq, Prod.mk.injEq] at hm
          rw [← hm.1, ← hm.2]
          exact ⟨fun e => absurd e (by decide), fun _ => hst⟩
        · simp only [Except.ok.injEq, Prod.mk.injEq] at hm
          rw [← hm.1, ← hm.2]
          exact ⟨fun _ => ⟨h2b, rfl⟩, fun e => absurd rfl e⟩
      by_cases hhb : s1.has_base_ = true
      · rw [if_pos hhb] at h
        exact fin _ rfl h
      rw [if_neg hhb] at h
      by_cases hwe : s1.workers_.isEmpty = true
      · rw [if_pos hwe] at h; simp at h
      rw [if_neg hwe] at h
      exact fin _ rfl h

/-- C15 (server state machine), evaluated on the code: `Stop` does not look at
the state. On a server created without an event base, `Stop` in state `kInit`
fails the assertion of `DelServer`. On a server created with an event base,
`Stop` in state `kInit` returns 0, empties the registry and moves the state to
`kExit`, and a second `Stop`, in state `kExit`, returns 0 again. On a running
server without an event base of its own, `Stop` returns 0 and moves the state
to `kExit`, and a second `Stop` takes the last element of the empty vector of
workers. -/
theorem C15_stop_ignores_state :
    (∀ (options : ServerOptions) (tid : Nat) (builtin : Service),
      (ServerImpl.init options 0 tid builtin).state_ = .kInit ∧
      (ServerImpl.init options 0 tid builtin).Stop tid = .error .assertion) ∧
    (sampleServer.state_ = .kInit ∧ sampleServer.services_ ≠ [] ∧
      ∃ s2, sampleServer.Stop 7 = .ok (0, s2) ∧ s2.state_ = .kExit ∧ s2.services_ = [] ∧
        ∃ s3, s2.Stop 7 = .ok (0, s3) ∧ s3.state_ = .kExit) ∧
    (runningServer.state_ = .kRun ∧
      ∃ s2, runningServer.Stop 7 = .ok (0, s2) ∧ s2.state_ = .kExit ∧
        s2.Stop 7 = .error .undefined) := by
  refine ⟨?_, ⟨rfl, by decide, _, rfl, rfl, rfl, _, rfl, rfl⟩, ⟨rfl, _, rfl, rfl, rfl⟩⟩
  intro options tid builtin
  simp [ServerImpl.init, ServerImpl.Register, ServerImpl.Stop, ServerImpl.DelServer,
    map_insert, map_find]

/-! ## C16: dispatch -/

theorem newWorkers_workers (num : Nat) :
    ∀ (s s1 : ServerImpl), ServerImpl.newWorkers num s = .ok s1 →
      s1.workers_.length = s.workers_.length + num := by
  induction num with
  | zero =>
    intro s s1 h
    simp only [ServerImpl.newWorkers, Except.ok.injEq] at h
    subst h
    rfl
  | succ n ih =>
    intro s s1 h
    simp only [ServerImpl.newWorkers] at h
    by_cases hfa : (s.each_workers_.find? (fun p => p.1 == s.next_worker + 1)).isSome = true
    · rw [if_pos hfa] at h
      simp at h
    · rw [if_neg hfa] at h
      have := ih _ _ h
      simp only [List.length_append, List.length_singleton] at this
      omega

/-- After a `Start` that returns 0 the configured number of workers has been
added to `workers_`, and the options and the cursor are as before. -/
theorem Start_workers (net : Network) (s s2 : ServerImpl) (self : Nat)
    (h : s.Start net self = .ok (0, s2)) :
    s2.workers_.length = s.workers_.length + s.options_.num_worker_thread.toNat ∧
    s2.options_ = s.options_ ∧ s2.nxt_worker_ = s.nxt_worker_ := by
  unfold ServerImpl.Start at h
  by_cases h1 : self ≠ s.tid_
  · rw [if_pos h1] at h
    simp [kErrCtx] at h
  rw [if_neg h1] at h
  by_cases h2 : s.state_ ≠ .kInit
  · rw [if_pos h2] at h
    simp [kError] at h
  rw [if_neg h2] at h
  by_cases h3 : s.endpoints_.isEmpty = true
  · rw [if_pos h3] at h
    simp [kError] at h
  rw [if_neg h3] at h
  unfold ServerImpl.NewWorker at h
  cases hw : ServerImpl.newWorkers s.options_.num_worker_thread.toNat s with
  | error f => rw [hw] at h; simp at h
  | ok s1 =>
    rw [hw] at h
    have hlen := newWorkers_workers _ s s1 hw
    obtain ⟨_, _, _, _, _, hopt, hcur⟩ := newWorkers_state _ s s1 hw
    simp only at h
    have hst : (s1.StartServer net).2.workers_ = s1.workers_ ∧
        (s1.StartServer net).2.options_ = s1.options_ ∧
        (s1.StartServer net).2.nxt_worker_ = s1.nxt_worker_ := by
      simp only [ServerImpl.StartServer]
      split_ifs <;> exact ⟨rfl, rfl, rfl⟩
    have fin : ∀ (x : Bool × ServerImpl), s1.StartServer net = x →
        (match (Except.ok x : Except Fault (Bool × ServerImpl)) with
          | Except.error f => (Except.error f : Except Fault (Nat × ServerImpl))
          | Except.ok (false, s2) => Except.ok (kError, s2)
          | Except.ok (true, s2) => Except.ok (0, { s2 with state_ := .kRun }))
          = Except.ok (0, s2) →
        s2.workers_.length = s.workers_.length + s.options_.num_worker_thread.toNat ∧
        s2.options_ = s.options_ ∧ s2.nxt_worker_ = s.nxt_worker_ := by
      intro x hx hm
      obtain ⟨b, s3⟩ := x
      rw [hx] at hst
      cases b
      · simp [kError] at hm
      · simp only [Except.ok.injEq, Prod.mk.injEq, true_and] at hm
        rw [← hm]
        exact ⟨by rw [← hlen]; exact congrArg List.length hst.1, hst.2.1.trans hopt,
          hst.2.2.trans hcur⟩
    unfold ServerImpl.NewServer at h
    by_cases hb : s1.base_ = 0
    · rw [if_pos hb] at h; simp at h
    rw [if_neg hb] at h
    by_cases hhb : s1.has_base_ = true
    · rw [if_pos hhb] at h
      exact fin _ rfl h
    rw [if_neg hhb] at h
    by_cases hwe : s1.workers_.isEmpty = true
    · rw [if_pos hwe] at h; simp at h
    rw [if_neg hwe] at h
    exact fin _ rfl h

theorem Dispatch_next (s : ServerImpl) (N j : Nat) (hN : 0 < N)
    (hopt : s.options_.num_worker_thread = N) (hw : N ≤ s.workers_.length)
    (hcur : s.nxt_worker_ = (j : Int) - 1) (hj : j < 2 ^ 31) (sfd : Int) :
    s.Dispatch sfd = .ok (true, { s with
      nxt_worker_ := (j : Int)
      links := s.links ++ [(s.workers_.getD (j % N) 0, sfd)] }) := by
  have hlt : j % N < s.workers_.length := lt_of_lt_of_le (Nat.mod_lt _ hN) hw
  have hidx : dispatchIndex s.nxt_worker_ s.options_.num_worker_thread = ((j % N : Nat) : Int) := by
    unfold dispatchIndex
    rw [hcur, hopt]
    have : (j : Int) - 1 + 1 = (j : Int) := by omega
    simp only [this]
    rw [if_neg (by omega)]
    exact (Int.ofNat_tmod j N).symm
  unfold ServerImpl.Dispatch
  rw [if_neg (by rw [hcur]; unfold INT_MAX; push_cast; omega), if_neg (by rw [hopt]; omega)]
  simp only [hidx]
  rw [if_neg (by omega)]
  simp only [Int.toNat_ofNat]
  rw [List.getD_eq_getElem?_getD]
  cases hg : s.workers_.get? (j % N) with
  | none =>
    rw [List.get?_eq_none] at hg
    omega
  | some w =>
    have : s.workers_[j % N]? = some w := by rw [← List.get?_eq_getElem?]; exact hg
    simp only [this, Option.getD_some, hcur]
    have : (j : Int) - 1 + 1 = (j : Int) := by omega
    rw [this]

theorem dispatchAll_round_robin (N : Nat) (hN : 0 < N) (fds : List Int) :
    ∀ (s : ServerImpl) (j : Nat), s.options_.num_worker_thread = N → N ≤ s.workers_.length →
      s.nxt_worker_ = (j : Int) - 1 → j + fds.length ≤ 2 ^ 31 →
      ∃ s2, s.dispatchAll fds = .ok s2 ∧ s2.workers_ = s.workers_ ∧ s2.options_ = s.options_ ∧
        s2.state_ = s.state_ ∧ s2.nxt_worker_ = ((j + fds.length : Nat) : Int) - 1 ∧
        s2.links = s.links ++
          (fds.enumFrom j).map (fun p => (s.workers_.getD (p.1 % N) 0, p.2)) := by
  induction fds with
  | nil =>
    intro s j _ _ hcur _
    exact ⟨s, rfl, rfl, rfl, rfl, by simpa using hcur, by simp⟩
  | cons fd rest ih =>
    intro s j hopt hw hcur hlen
    simp only [List.length_cons] at hlen
    have hstep := Dispatch_next s N j hN hopt hw hcur (by omega) fd
    obtain ⟨s2, a1, a2, a3, a4, a5, a6⟩ := ih _ (j + 1) (by exact hopt) (by exact hw)
      (show ({ s with nxt_worker_ := (j : Int)
                      links := s.links ++ [(s.workers_.getD (j % N) 0, fd)] } : ServerImpl).nxt_worker_
          = ((j + 1 : Nat) : Int) - 1 by push_cast; simp) (by omega)
    refine ⟨s2, ?_, a2, a3, a4, ?_, ?_⟩
    · simp only [ServerImpl.dispatchAll, hstep]
      exact a1
    · rw [a5]
      simp only [List.length_cons]
      push_cast
      omega
    · rw [a6]
      simp [List.enumFrom_cons]

/-- Round-robin dispatch of the first 2^31 connections. On a server with N > 0
configured workers, at least N workers in `workers_` (as after `Start`) and
the cursor at its initial value -1, the accept loop returns for every list of
at most 2^31 accepted sockets, and the k-th of them (counting from 0) is
handed to `workers_[k mod N]`. -/
theorem round_robin_in_range (s : ServerImpl) (N : Nat) (hN : 0 < N)
    (hopt : s.options_.num_worker_thread = N) (hw : N ≤ s.workers_.length)
    (hcur : s.nxt_worker_ = -1) (fds : List Int) (hlen : fds.length ≤ 2 ^ 31) :
    ∃ s2, s.dispatchAll fds = .ok s2 ∧ s2.workers_ = s.workers_ ∧
      s2.links.length = s.links.length + fds.length ∧
      ∀ k (hk : k < fds.length), ∃ w, s.workers_.get? (k % N) = some w ∧
        s2.links.get? (s.links.length + k) = some (w, fds.get ⟨k, hk⟩) := by
  obtain ⟨s2, a1, a2, _, _, _, a6⟩ := dispatchAll_round_robin N hN fds s 0 hopt hw
    (by rw [hcur]; rfl) (by omega)
  refine ⟨s2, a1, a2, by simp [a6], ?_⟩
  intro k hk
  have hlt : k % N < s.workers_.length := lt_of_lt_of_le (Nat.mod_lt _ hN) hw
  refine ⟨s.workers_.get ⟨k % N, hlt⟩, List.get?_eq_get hlt, ?_⟩
  rw [a6, List.get?_eq_getElem?, List.getElem?_append_right (by omega)]
  simp only [Nat.add_sub_cancel_left, List.getElem?_map, List.getElem?_enumFrom]
  simp [hk, List.getD_eq_getElem?_getD, List.getElem?_eq_getElem hlt]

/-- The running sample server has three workers; of four accepted sockets the
fourth goes to the first worker again. -/
theorem round_robin_sample :
    ∃ s2, runningServer.dispatchAll [10, 11, 12, 13] = .ok s2 ∧
      s2.workers_ = runningServer.workers_ ∧
      s2.links.length = runningServer.links.length + [(10 : Int), 11, 12, 13].length ∧
      ∀ k (hk : k < [(10 : Int), 11, 12, 13].length),
        ∃ w, runningServer.workers_.get? (k % 3) = some w ∧
          s2.links.get? (runningServer.links.length + k)
            = some (w, [(10 : Int), 11, 12, 13].get ⟨k, hk⟩) :=
  round_robin_in_range runningServer 3 (by decide) rfl (by decide) rfl [10, 11, 12, 13]
    (by decide)

/-- C16 (round-robin dispatch), evaluated on the code. On the running sample
server, with three workers, the accept loop returns for 2^31 accepted sockets
and leaves the cursor at `INT_MAX`; for the next socket, number 2^31,
`Dispatch` increments the cursor beyond `INT_MAX` and hands the socket to no
worker. The statement `if (nxt < 0) nxt = -nxt` is there for a cursor that has
wrapped around: with the cursor at -5 it gives the index 1. But with the
increment at `INT_MAX` wrapping to `INT_MIN`, the negation wraps to `INT_MIN`
as well and the index computed is -2. -/
theorem C16_cursor_overflow :
    (∃ s2, runningServer.dispatchAll (List.replicate (2 ^ 31) 9) = .ok s2 ∧
      s2.workers_.length = 3 ∧ s2.options_.num_worker_thread = 3 ∧
      s2.nxt_worker_ = 2147483647 ∧
      s2.Dispatch 9 = .error .undefined ∧
      dispatchIndexWrapped s2.nxt_worker_ s2.options_.num_worker_thread = -2) ∧
    dispatchIndexWrapped (-5) 3 = 1 := by
  obtain ⟨s2, a1, a2, a3, _, a5, _⟩ := dispatchAll_round_robin 3 (by decide)
    (List.replicate (2 ^ 31) 9) runningServer 0 rfl (by decide) rfl
    (by rw [List.length_replicate]; omega)
  rw [List.length_replicate] at a5
  have h5 : s2.nxt_worker_ = 2147483647 := by rw [a5]; norm_num
  refine ⟨⟨s2, a1, by rw [a2]; rfl, by rw [a3]; rfl, h5, ?_, ?_⟩, by decide⟩
  · unfold ServerImpl.Dispatch
    rw [if_pos (by rw [h5]; decide)]
  · rw [h5, a3]
    decide

/-! ## C17: unknown service or method -/

/-- What `RecvDone` does with a request, not a cancel, that names a service
which is not registered or a method which the service does not have: it
returns false; the new message is deleted again and the queues are as before. -/
theorem RecvDone_unknown (pb : Protobuf) (w : ServerWorld) (payload : List Nat)
    (meta data : Int) (msg_meta : MsgMeta)
    (hp : pb.parseMeta (payload.take meta.toNat) = some msg_meta)
    (hc : msg_meta.cancel = false)
    (hu : w.srv_impl.Find msg_meta = none ∨
      ∃ svc, w.srv_impl.Find msg_meta = some svc ∧ svc.FindMethodByName msg_meta.method = none) :
    w.RecvDone pb payload meta data = .ok (false, { w with next_msg := w.next_msg + 1 }) := by
  unfold ServerWorld.RecvDone
  rw [hp]
  simp only [hc, Bool.false_eq_true, if_false]
  rcases hu with hu | ⟨svc, h1, h2⟩
  · simp [ServerMessage.ParseFromArray, hu]
  · simp [ServerMessage.ParseFromArray, h1, h2]

/-- After `kDecodeOk`, `OnRecv` goes on in state `kParse` whatever `RecvDone`
returned. -/
theorem OnRecv_ignores_result {σ : Type} (h : Heap) (cod : Codecs)
    (RecvDone : σ → List Nat → Int → Int → Except Fault (Bool × σ)) (fuel : Nat)
    (c c1 : Connection) (sock : Socket) (w w1 : σ) (payload : List Nat) (b : Bool)
    (hs : c.rstate_ = .kParse) (hd : c.Decode h cod = .ok (.kDecodeOk, c1))
    (hp : c1.delivered = some payload)
    (hr : RecvDone w payload c1.rmsg_hdr_.meta_ c1.rmsg_hdr_.data_ = .ok (b, w1)) :
    Connection.OnRecv h cod RecvDone (fuel + 1) c sock w =
      Connection.OnRecv h cod RecvDone fuel
        { c1 with
          rmsg_hdr_ := { payload_ := 0, data_ := 0, meta_ := 0, compression_ := 0 }
          rmsg_ := .null
          rstate_ := .kParse } sock w1 := by
  rw [Connection.OnRecv]
  simp only [hs, hd, hp, hr]

/-- C17 (unknown service or method), evaluated on the code. A frame that names
the unregistered service `pkg.Missing` arrives on a fresh connection of a
server that has `pkg.Echo` registered: `RecvDone` returns false for it and no
message is queued, but `OnRecv` returns true and the read state machine is back
in `kRead`, not in `kClose`. The same holds for a frame that names the method
`Missing` of the registered service. -/
theorem C17_unknown_service_not_closed :
    (echoWorld.srv_impl.Find
        { sequence := 5, service := "pkg.Missing", method := "Call", compression_type := 0,
          cancel := false, code := 0, error_text := "" } = none ∧
      (echoWorld.RecvDone sampleProtobuf [5, 2] 2 0).map Prod.fst = .ok false ∧
      ∃ c2 w2, echoWorld.OnRecv sampleProtobuf sampleHeap sampleCodecs 8 sampleConnection
          [.bytes (requestFrame 2)] = .ok (true, c2, [], w2) ∧
        c2.rstate_ = .kRead ∧ w2.conn.recvq_ = [] ∧ w2.conn.connected_ = true ∧
        w2.called = []) ∧
    ((echoWorld.RecvDone sampleProtobuf [5, 3] 2 0).map Prod.fst = .ok false ∧
      ∃ c2 w2, echoWorld.OnRecv sampleProtobuf sampleHeap sampleCodecs 8 sampleConnection
          [.bytes (requestFrame 3)] = .ok (true, c2, [], w2) ∧
        c2.rstate_ = .kRead ∧ w2.conn.recvq_ = [] ∧ w2.conn.connected_ = true ∧
        w2.called = []) ∧
    (∃ c2 w2, echoWorld.OnRecv sampleProtobuf sampleHeap sampleCodecs 8 sampleConnection
        [.bytes (requestFrame 1)] = .ok (true, c2, [], w2) ∧
      c2.rstate_ = .kRead ∧ w2.conn.recvq_ = [(5, 1)] ∧ w2.called = [1]) := by
  refine ⟨⟨rfl, rfl, _, _, rfl, rfl, rfl, rfl, rfl⟩, ⟨rfl, _, _, rfl, rfl, rfl, rfl, rfl⟩,
    ⟨_, _, rfl, rfl, rfl, rfl⟩⟩

/-! ## C18: frames that cannot be decoded -/

/-- C18 (decode rejection), evaluated on the code. For a frame whose body the
zlib library rejects (invalid input), one whose body the LZ4 library rejects
(reported as a short buffer), one whose body decompresses to more bytes than
declared (short buffer) and one with the compression id 4, `Decode` ends in
`LOG(FATAL)`; for a frame whose body decompresses to fewer bytes than declared
it fails the assertion `required == rlen`. The readiness callback of a server
connection that reads the first of these frames ends in `LOG(FATAL)` as well.
No input makes `Decode` return `kDecodeError`. -/
theorem C18_decode_rejection_fatal :
    (sampleConnection.received corruptFrame).Decode sampleHeap sampleCodecs = .error .fatal ∧
    (sampleConnection.received corruptLz4Frame).Decode sampleHeap sampleCodecs
      = .error .fatal ∧
    (sampleConnection.received longFrame).Decode sampleHeap sampleCodecs = .error .fatal ∧
    (sampleConnection.received unknownCodecFrame).Decode sampleHeap sampleCodecs
      = .error .fatal ∧
    (sampleConnection.received shortFrame).Decode sampleHeap sampleCodecs
      = .error .assertion ∧
    echoWorld.OnRecv sampleProtobuf sampleHeap sampleCodecs 8 sampleConnection
      [.bytes corruptFrame] = .error .fatal ∧
    (∀ (h : Heap) (cod : Codecs) (c c2 : Connection),
      c.Decode h cod ≠ .ok (.kDecodeError, c2)) := by
  refine ⟨by rfl, by rfl, by rfl, by rfl, by rfl, by rfl, ?_⟩
  intro h cod c c2 hd
  rcases Decode_status h cod c c2 _ hd with h1 | h1 <;> simp at h1

/-! ## C19: `Channel::New` -/

/-- C19 (Channel::New on error), evaluated on the code. Whatever the arguments,
either `New` returns `kOk` and `*chanptr` holds the new, non-null channel, or
it returns a non-zero code and `*chanptr` holds what it held before the call:
nothing is stored on an error. With `*chanptr` holding the address 55 before
the call, an empty host, the port 0, a null event base and an option that
fails validation each make `New` return `kErrParam` and leave 55 there, not
`NULL`. -/
theorem C19_new_leaves_chanptr :
    (∀ (options : ChannelOptions) (host : String) (port : Int) (base channel chanptr : Nat),
      ((Channel.New options host port base channel chanptr).1 = kOk ∧
        (Channel.New options host port base channel chanptr).2 = channel ∧ channel ≠ 0) ∨
      ((Channel.New options host port base channel chanptr).1 ≠ 0 ∧
        (Channel.New options host port base channel chanptr).2 = chanptr)) ∧
    Channel.New ChannelOptions.create "" 80 1 100 55 = (kErrParam, 55) ∧
    Channel.New ChannelOptions.create "localhost" 0 1 100 55 = (kErrParam, 55) ∧
    Channel.New ChannelOptions.create "localhost" 80 0 100 55 = (kErrParam, 55) ∧
    Channel.New { ChannelOptions.create with retry_interval := 0 } "localhost" 80 1 100 55
      = (kErrParam, 55) ∧
    Channel.New ChannelOptions.create "localhost" 80 1 100 55 = (kOk, 100) := by
  refine ⟨?_, by decide, by decide, by decide, by decide, by decide⟩
  intro options host port base channel chanptr
  unfold Channel.New
  split_ifs with h1 h2 h3 h4 h5
  · exact Or.inr ⟨(by decide : kErrParam ≠ 0), rfl⟩
  · exact Or.inr ⟨(by decide : kErrParam ≠ 0), rfl⟩
  · exact Or.inr ⟨(by decide : kErrParam ≠ 0), rfl⟩
  · exact Or.inr ⟨(by decide : kErrParam ≠ 0), rfl⟩
  · exact Or.inr ⟨(by decide : kErrMem ≠ 0), rfl⟩
  · exact Or.inl ⟨rfl, rfl, h5⟩

/-! ## C20: the codecs of the threads -/

theorem init_process_inv : Process.init.Inv :=
  { absent := fun _ _ => rfl
    present := fun _ _ _ h => by simp [Process.init] at h
    bound := Nat.le_refl _
    fresh := fun _ h => by simp [Process.init] at h
    nodup := List.nodup_nil
    gone := fun _ h => by simp [Process.init] at h
    apart := fun _ _ _ _ _ h => by simp [Process.init] at h }

theorem alive_le (s : Process) (t : Nat) : s.alive t ≤ s.channels.length :=
  List.countP_le_length _

theorem alive_pos_of_mem (s : Process) (ch : ChannelRef) (h : ch ∈ s.channels) :
    0 < s.alive ch.tid_ := by
  unfold Process.alive
  rw [List.countP_pos_iff]
  exact ⟨ch, h, by simp⟩

theorem alive_zero (s : Process) (t : Nat) (h : s.alive t = 0) :
    ∀ ch ∈ s.channels, ch.tid_ ≠ t := by
  intro ch hch e
  have := alive_pos_of_mem s ch hch
  rw [e] at this
  omega

/-- The constructor keeps the state of the map, makes one channel and deletes no
codec. -/
theorem create_inv (s : Process) (hI : s.Inv) (tid : Nat) (hb : s.next_channel + 1 < 2 ^ 64) :
    (s.create tid).Inv ∧ (s.create tid).next_channel = s.next_channel + 1 ∧
    (s.create tid).deleted = s.deleted := by
  have hal : ∀ (comp t : Nat),
      List.countP (fun ch => ch.tid_ == t)
        (s.channels ++ [{ addr := s.next_channel + 1, tid_ := tid, compressor_ := comp }])
        = s.alive t + if tid = t then 1 else 0 := by
    intro comp t
    rw [List.countP_append]
    unfold Process.alive
    by_cases h : tid = t <;> simp [List.countP_cons, h]
  have hnd : ∀ comp : Nat, ((s.channels ++
      [({ addr := s.next_channel + 1, tid_ := tid, compressor_ := comp } : ChannelRef)]).map
        ChannelRef.addr).Nodup := by
    intro comp
    rw [List.map_append, List.nodup_append]
    refine ⟨hI.nodup, by simp, ?_⟩
    intro a ha hb2
    simp only [List.map_cons, List.map_nil, List.mem_singleton] at hb2
    obtain ⟨ch, hch, e⟩ := List.mem_map.1 ha
    have := hI.fresh ch hch
    rw [e, hb2] at this
    omega
  cases hq : s.compressors_ tid with
  | none =>
    have h0 := hI.absent tid hq
    have hc : s.create tid =
        { s with
          next_codec := s.next_codec + 1
          compressors_ := fun t => if t = tid then some (1, s.next_codec + 1)
            else s.compressors_ t
          next_channel := s.next_channel + 1
          channels := s.channels ++
            [{ addr := s.next_channel + 1, tid_ := tid, compressor_ := s.next_codec + 1 }] } := by
      simp [Process.create, Process.new_compressor_if_not, hq]
    rw [hc]
    refine ⟨?_, rfl, rfl⟩
    constructor
    · intro t ht
      simp only at ht
      by_cases e : t = tid
      · simp [e] at ht
      · simp only [e, if_false] at ht
        have := hI.absent t ht
        simp only [Process.alive] at this ⊢
        rw [hal, if_neg (fun x => e x.symm)]
        exact this
    · intro t count comp ht
      simp only at ht
      by_cases e : t = tid
      · simp only [e, if_true, Option.some.injEq, Prod.mk.injEq] at ht
        obtain ⟨e1, e2⟩ := ht
        subst e1 e2 e
        refine ⟨?_, by omega, Nat.le_refl _, ?_, ?_⟩
        · simp only [Process.alive]
          rw [hal, if_pos rfl, h0]
        · intro hd
          have := hI.gone _ hd
          omega
        · intro ch hch ht2
          rcases List.mem_append.1 hch with h1 | h1
          · exact absurd ht2 (alive_zero s t h0 ch h1)
          · simp only [List.mem_singleton] at h1
            rw [h1]
      · simp only [e, if_false] at ht
        obtain ⟨a1, a2, a3, a4, a5⟩ := hI.present t count comp ht
        refine ⟨?_, a2, by simp only; omega, a4, ?_⟩
        · simp only [Process.alive]
          rw [hal, if_neg (fun x => e x.symm)]
          exact a1
        · intro ch hch ht2
          rcases List.mem_append.1 hch with h1 | h1
          · exact a5 ch h1 ht2
          · simp only [List.mem_singleton] at h1
            rw [h1] at ht2
            exact absurd ht2.symm e
    · simp only [List.length_append, List.length_singleton]
      have := hI.bound
      omega
    · intro ch hch
      rcases List.mem_append.1 hch with h1 | h1
      · have := hI.fresh ch h1
        simp only
        omega
      · simp only [List.mem_singleton] at h1
        rw [h1]
    · exact hnd _
    · intro d hd
      have := hI.gone d hd
      simp only
      omega
    · intro t1 t2 c1 c2 comp h1 h2
      simp only at h1 h2
      by_cases e1 : t1 = tid <;> by_cases e2 : t2 = tid
      · rw [e1, e2]
      · simp only [e1, if_true, Option.some.injEq, Prod.mk.injEq] at h1
        simp only [e2, if_false] at h2
        have := (hI.present t2 c2 comp h2).2.2.1
        omega
      · simp only [e2, if_true, Option.some.injEq, Prod.mk.injEq] at h2
        simp only [e1, if_false] at h1
        have := (hI.present t1 c1 comp h1).2.2.1
        omega
      · simp only [e1, e2, if_false] at h1 h2
        exact hI.apart t1 t2 c1 c2 comp h1 h2
  | some x =>
    obtain ⟨count, comp⟩ := x
    obtain ⟨b1, b2, b3, b4, b5⟩ := hI.present tid count comp hq
    have hlt : count + 1 < 2 ^ 64 := by
      have := alive_le s tid
      have := hI.bound
      omega
    have hc : s.create tid =
        { s with
          compressors_ := fun t => if t = tid then some (count + 1, comp)
            else s.compressors_ t
          next_channel := s.next_channel + 1
          channels := s.channels ++
            [{ addr := s.next_channel + 1, tid_ := tid, compressor_ := comp }] } := by
      have hlt2 : count + 1 < 18446744073709551616 := hlt
      simp [Process.create, Process.new_compressor_if_not, hq, Nat.mod_eq_of_lt hlt2]
    rw [hc]
    refine ⟨?_, rfl, rfl⟩
    constructor
    · intro t ht
      simp only at ht
      by_cases e : t = tid
      · simp [e] at ht
      · simp only [e, if_false] at ht
        have := hI.absent t ht
        simp only [Process.alive] at this ⊢
        rw [hal, if_neg (fun x => e x.symm)]
        exact this
    · intro t count2 comp2 ht
      simp only at ht
      by_cases e : t = tid
      · simp only [e, if_true, Option.some.injEq, Prod.mk.injEq] at ht
        obtain ⟨e1, e2⟩ := ht
        subst e1 e2 e
        refine ⟨?_, by omega, b3, b4, ?_⟩
        · simp only [Process.alive]
          rw [hal, if_pos rfl, b1]
        · intro ch hch ht2
          rcases List.mem_append.1 hch with h1 | h1
          · exact b5 ch h1 ht2
          · simp only [List.mem_singleton] at h1
            rw [h1]
      · simp only [e, if_false] at ht
        obtain ⟨a1, a2, a3, a4, a5⟩ := hI.present t count2 comp2 ht
        refine ⟨?_, a2, a3, a4, ?_⟩
        · simp only [Process.alive]
          rw [hal, if_neg (fun x => e x.symm)]
          exact a1
        · intro ch hch ht2
          rcases List.mem_append.1 hch with h1 | h1
          · exact a5 ch h1 ht2
          · simp only [List.mem_singleton] at h1
            rw [h1] at ht2
            exact absurd ht2.symm e
    · simp only [List.length_append, List.length_singleton]
      have := hI.bound
      omega
    · intro ch hch
      rcases List.mem_append.1 hch with h1 | h1
      · have := hI.fresh ch h1
        simp only
        omega
      · simp only [List.mem_singleton] at h1
        rw [h1]
    · exact hnd _
    · exact hI.gone
    · intro t1 t2 c1 c2 comp2 h1 h2
      simp only at h1 h2
      by_cases e1 : t1 = tid <;> by_cases e2 : t2 = tid
      · rw [e1, e2]
      · simp only [e1, if_true, Option.some.injEq, Prod.mk.injEq] at h1
        simp only [e2, if_false] at h2
        rw [← h1.2] at h2
        rw [e1]
        exact hI.apart tid t2 _ _ _ hq h2
      · simp only [e2, if_true, Option.some.injEq, Prod.mk.injEq] at h2
        simp only [e1, if_false] at h1
        rw [← h2.2] at h1
        rw [e2]
        exact hI.apart t1 tid _ _ _ h1 hq
      · simp only [e1, e2, if_false] at h1 h2
        exact hI.apart t1 t2 c1 c2 comp2 h1 h2

theorem find_by_addr (l : List ChannelRef) (h : (l.map ChannelRef.addr).Nodup)
    (ch : ChannelRef) (hch : ch ∈ l) : l.find? (fun x => x.addr == ch.addr) = some ch := by
  induction l with
  | nil => simp at hch
  | cons a rest ih =>
    simp only [List.map_cons, List.nodup_cons] at h
    rcases List.mem_cons.1 hch with e | e
    · subst e
      simp
    · have hne : a.addr ≠ ch.addr := by
        intro e2
        exact h.1 (e2 ▸ List.mem_map_of_mem ChannelRef.addr e)
      rw [List.find?_cons]
      have : (a.addr == ch.addr) = false := by simpa using hne
      rw [this]
      exact ih h.2 e

theorem countP_erase_tid (l : List ChannelRef) (ch : ChannelRef) (hch : ch ∈ l) (t : Nat) :
    List.countP (fun x => x.tid_ == t) l =
      List.countP (fun x => x.tid_ == t) (l.erase ch) + if ch.tid_ = t then 1 else 0 := by
  rw [(List.perm_cons_erase hch).countP_eq, List.countP_cons]
  by_cases h : ch.tid_ = t <;> simp [h]

/-- The destructor of a live channel returns, keeps the state of the map, and
deletes the codec of the channel exactly when the channel is the only live one
of its thread. -/
theorem destroy_inv (s : Process) (hI : s.Inv) (hb : s.next_channel < 2 ^ 64)
    (ch : ChannelRef) (hch : ch ∈ s.channels) :
    ∃ s2, s.destroy ch.addr = .ok s2 ∧ s2.Inv ∧ s2.next_channel = s.next_channel ∧
      s2.channels = s.channels.erase ch ∧
      (s.alive ch.tid_ = 1 →
        s2.deleted = s.deleted ++ [ch.compressor_] ∧ s2.compressors_ ch.tid_ = none) ∧
      (s.alive ch.tid_ ≠ 1 →
        s2.deleted = s.deleted ∧
        s2.compressors_ ch.tid_ = some (s.alive ch.tid_ - 1, ch.compressor_)) := by
  have hfind := find_by_addr s.channels hI.nodup ch hch
  have hpos := alive_pos_of_mem s ch hch
  cases hq : s.compressors_ ch.tid_ with
  | none =>
    have := hI.absent _ hq
    omega
  | some x =>
    obtain ⟨count, comp⟩ := x
    obtain ⟨b1, b2, b3, b4, b5⟩ := hI.present _ count comp hq
    have hcomp : ch.compressor_ = comp := b5 ch hch rfl
    have hlt : count < 2 ^ 64 := by
      have := alive_le s ch.tid_
      have := hI.bound
      omega
    have hmod : (count + 2 ^ 64 - 1) % 2 ^ 64 = count - 1 := by
      have : count + 2 ^ 64 - 1 = (count - 1) + 2 ^ 64 := by omega
      rw [this, Nat.add_mod_right, Nat.mod_eq_of_lt (by omega)]
    have hal : ∀ t, s.alive t =
        List.countP (fun x => x.tid_ == t) (s.channels.erase ch)
          + if ch.tid_ = t then 1 else 0 := fun t => countP_erase_tid s.channels ch hch t
    have hform : s.destroy ch.addr = .ok
        { s with
          compressors_ := fun t =>
            if t = ch.tid_ then (if count = 1 then none else some (count - 1, comp))
            else s.compressors_ t
          deleted := if count = 1 then s.deleted ++ [comp] else s.deleted
          channels := s.channels.erase ch } := by
      unfold Process.destroy
      rw [hfind]
      simp only [Process.del_compressor_if_zero, hq, hcomp, ne_eq, not_true_eq_false, if_false,
        hmod]
      by_cases h1 : count = 1
      · subst h1
        simp
      · have h0 : ¬ count - 1 = 0 := by omega
        simp only [h0, h1, if_false]
    refine ⟨_, hform, ?_, rfl, rfl, ?_, ?_⟩
    · constructor
      · intro t ht
        simp only at ht
        simp only [Process.alive]
        by_cases e : t = ch.tid_
        · simp only [e, if_true] at ht
          have h1 : count = 1 := by
            by_contra h1
            simp [h1] at ht
          have := hal ch.tid_
          rw [if_pos rfl] at this
          rw [e]
          omega
        · simp only [e, if_false] at ht
          have := hI.absent t ht
          have h2 := hal t
          rw [if_neg (fun x => e x.symm)] at h2
          omega
      · intro t count2 comp2 ht
        simp only at ht
        simp only [Process.alive]
        by_cases e : t = ch.tid_
        · simp only [e, if_true] at ht
          by_cases h1 : count = 1
          · simp [h1] at ht
          · simp only [h1, if_false, Option.some.injEq, Prod.mk.injEq] at ht
            obtain ⟨e1, e2⟩ := ht
            have h2 := hal ch.tid_
            rw [if_pos rfl] at h2
            refine ⟨by rw [e]; omega, by omega, by rw [← e2]; exact b3, ?_, ?_⟩
            · rw [← e2]
              simp only [h1, if_false]
              exact b4
            · intro c hc ht2
              rw [← e2]
              exact b5 c (List.mem_of_mem_erase hc) (ht2.trans e)
        · simp only [e, if_false] at ht
          obtain ⟨a1, a2, a3, a4, a5⟩ := hI.present t count2 comp2 ht
          have h2 := hal t
          rw [if_neg (fun x => e x.symm)] at h2
          refine ⟨by omega, a2, a3, ?_, fun c hc ht2 => a5 c (List.mem_of_mem_erase hc) ht2⟩
          by_cases h1 : count = 1
          · simp only [h1, if_true]
            intro hd
            rcases List.mem_append.1 hd with h3 | h3
            · exact a4 h3
            · simp only [List.mem_singleton] at h3
              rw [h3] at ht
              exact e (hI.apart t ch.tid_ _ _ _ ht hq)
          · simp only [h1, if_false]
            exact a4
      · exact le_trans (List.length_erase_le _ _) hI.bound
      · intro c hc
        exact hI.fresh c (List.mem_of_mem_erase hc)
      · exact List.Nodup.sublist ((List.erase_sublist _ _).map _) hI.nodup
      · intro d hd
        simp only at hd
        by_cases h1 : count = 1
        · simp only [h1, if_true] at hd
          rcases List.mem_append.1 hd with h3 | h3
          · exact hI.gone d h3
          · simp only [List.mem_singleton] at h3
            rw [h3]
            exact b3
        · simp only [h1, if_false] at hd
          exact hI.gone d hd
      · intro t1 t2 c1 c2 comp2 h1 h2
        simp only at h1 h2
        have key : ∀ t c, (if t = ch.tid_ then (if count = 1 then none else some (count - 1, comp))
            else s.compressors_ t) = some (c, comp2) → ∃ c0, s.compressors_ t = some (c0, comp2) := by
          intro t c h
          by_cases e : t = ch.tid_
          · simp only [e, if_true] at h
            by_cases h3 : count = 1
            · simp [h3] at h
            · simp only [h3, if_false, Option.some.injEq, Prod.mk.injEq] at h
              rw [e, hq, ← h.2]
              exact ⟨_, rfl⟩
          · simp only [e, if_false] at h
            exact ⟨_, h⟩
        obtain ⟨d1, g1⟩ := key t1 c1 h1
        obtain ⟨d2, g2⟩ := key t2 c2 h2
        exact hI.apart t1 t2 _ _ _ g1 g2
    · intro h1
      have hc1 : count = 1 := by omega
      constructor
      · show (if count = 1 then s.deleted ++ [comp] else s.deleted) = _
        rw [if_pos hc1, hcomp]
      · show (if ch.tid_ = ch.tid_ then (if count = 1 then none else some (count - 1, comp))
          else s.compressors_ ch.tid_) = _
        rw [if_pos rfl, if_pos hc1]
    · intro h1
      have hc1 : ¬ count = 1 := by omega
      constructor
      · show (if count = 1 then s.deleted ++ [comp] else s.deleted) = _
        rw [if_neg hc1]
      · show (if ch.tid_ = ch.tid_ then (if count = 1 then none else some (count - 1, comp))
          else s.compressors_ ch.tid_) = _
        rw [if_pos rfl, if_neg hc1, hcomp, b1]

theorem process_run_inv (evs : List ChannelEvent) :
    ∀ (s s2 : Process), s.Inv → s.run evs = .ok s2 → s.next_channel + creations evs < 2 ^ 64 →
      s2.Inv ∧ s2.next_channel = s.next_channel + creations evs := by
  induction evs with
  | nil =>
    intro s s2 hI hr _
    simp only [Process.run, Except.ok.injEq] at hr
    subst hr
    exact ⟨hI, rfl⟩
  | cons e rest ih =>
    intro s s2 hI hr hb
    cases e with
    | create tid =>
      have hcr : creations (ChannelEvent.create tid :: rest) = creations rest + 1 := by
        simp [creations, List.countP_cons]
      rw [hcr] at hb
      obtain ⟨a1, a2, _⟩ := create_inv s hI tid (by omega)
      simp only [Process.run, Process.step] at hr
      obtain ⟨b1, b2⟩ := ih _ s2 a1 hr (by rw [a2]; omega)
      exact ⟨b1, by rw [b2, a2, hcr]; omega⟩
    | destroy chan =>
      have hcr : creations (ChannelEvent.destroy chan :: rest) = creations rest := by
        simp [creations, List.countP_cons]
      rw [hcr] at hb
      simp only [Process.run, Process.step] at hr
      cases hf : s.channels.find? (fun ch => ch.addr == chan) with
      | none =>
        simp [Process.destroy, hf] at hr
      | some ch =>
        have hch : ch ∈ s.channels := List.mem_of_find?_eq_some hf
        have hadd : ch.addr = chan := by
          have := List.find?_some hf
          simpa using this
        obtain ⟨s1, a1, a2, a3, _⟩ := destroy_inv s hI (by omega) ch hch
        rw [hadd] at a1
        rw [a1] at hr
        simp only at hr
        obtain ⟨b1, b2⟩ := ih _ s2 a2 hr (by rw [a3]; omega)
        exact ⟨b1, by rw [b2, a3, hcr]⟩

/-- C20 (per-thread codec reference counting). In every state reached from the
start of the process by constructing channels, fewer than 2^64 of them, and
deleting live ones: the map has an entry for a thread exactly when a channel
created on that thread is alive; the count of the entry is the number of those
channels, all of them hold the codec of the entry, and that codec has not been
deleted. Constructing a channel deletes no codec. The destructor of a live
channel returns, and it deletes the codec of the channel, removing the entry,
exactly when the channel is the only live one of its thread; otherwise the
count goes down by one. -/
theorem C20_codec_refcount (evs : List ChannelEvent) (s : Process)
    (hr : Process.init.run evs = .ok s) (hb : creations evs < 2 ^ 64) :
    (∀ t, (s.compressors_ t).isSome ↔ ∃ ch ∈ s.channels, ch.tid_ = t) ∧
    (∀ t count comp, s.compressors_ t = some (count, comp) →
      count = s.alive t ∧ comp ∉ s.deleted ∧
      ∀ ch ∈ s.channels, ch.tid_ = t → ch.compressor_ = comp) ∧
    (∀ tid, (s.create tid).deleted = s.deleted ∧
      ∃ ch ∈ (s.create tid).channels, ch.tid_ = tid ∧
        (s.create tid).channels = s.channels ++ [ch] ∧
        (∀ count comp, s.compressors_ tid = some (count, comp) → ch.compressor_ = comp) ∧
        (s.compressors_ tid = none → ch.compressor_ = s.next_codec + 1)) ∧
    (∀ ch ∈ s.channels, ∃ s2, s.destroy ch.addr = .ok s2 ∧
      s2.channels = s.channels.erase ch ∧
      (s.alive ch.tid_ = 1 →
        s2.deleted = s.deleted ++ [ch.compressor_] ∧ s2.compressors_ ch.tid_ = none) ∧
      (s.alive ch.tid_ ≠ 1 →
        s2.deleted = s.deleted ∧
        s2.compressors_ ch.tid_ = some (s.alive ch.tid_ - 1, ch.compressor_))) := by
  obtain ⟨hI, hn⟩ := process_run_inv evs Process.init s init_process_inv hr
    (by simpa [Process.init] using hb)
  have hnb : s.next_channel < 2 ^ 64 := by
    rw [hn]
    simpa [Process.init] using hb
  refine ⟨?_, ?_, ?_, ?_⟩
  · intro t
    constructor
    · intro h
      cases hq : s.compressors_ t with
      | none => rw [hq] at h; simp at h
      | some x =>
        obtain ⟨count, comp⟩ := x
        obtain ⟨a1, a2, _⟩ := hI.present t count comp hq
        have hp : 0 < s.alive t := by omega
        unfold Process.alive at hp
        rw [List.countP_pos_iff] at hp
        obtain ⟨ch, hch, e⟩ := hp
        exact ⟨ch, hch, by simpa using e⟩
    · rintro ⟨ch, hch, e⟩
      cases hq : s.compressors_ t with
      | none =>
        have := hI.absent t hq
        have := alive_pos_of_mem s ch hch
        rw [e] at this
        omega
      | some x => rfl
  · intro t count comp hq
    obtain ⟨a1, _, _, a4, a5⟩ := hI.present t count comp hq
    exact ⟨a1, a4, a5⟩
  · intro tid
    constructor
    · cases hq : s.compressors_ tid with
      | none => simp [Process.create, Process.new_compressor_if_not, hq]
      | some x => simp [Process.create, Process.new_compressor_if_not, hq]
    · cases hq : s.compressors_ tid with
      | none =>
        refine ⟨{ addr := s.next_channel + 1, tid_ := tid, compressor_ := s.next_codec + 1 },
          ?_, rfl, ?_, ?_, fun _ => rfl⟩
        · simp [Process.create, Process.new_compressor_if_not, hq]
        · simp [Process.create, Process.new_compressor_if_not, hq]
        · intro count comp h
          simp at h
      | some x =>
        obtain ⟨count, comp⟩ := x
        refine ⟨{ addr := s.next_channel + 1, tid_ := tid, compressor_ := comp },
          ?_, rfl, ?_, ?_, fun h => by simp at h⟩
        · simp [Process.create, Process.new_compressor_if_not, hq]
        · simp [Process.create, Process.new_compressor_if_not, hq]
        · intro count2 comp2 h
          simp only [Option.some.injEq, Prod.mk.injEq] at h
          exact h.2
  · intro ch hch
    obtain ⟨s2, a1, _, _, a4, a5, a6⟩ := destroy_inv s hI hnb ch hch
    exact ⟨s2, a1, a4, a5, a6⟩

/-- Witness of C20: two channels are made on thread 7 and one on thread 8, and
the first one is deleted. -/
theorem C20_codec_refcount_witness :
    creations sampleChannels < 2 ^ 64 ∧
    (∀ t, (sampleProcess.compressors_ t).isSome ↔ ∃ ch ∈ sampleProcess.channels, ch.tid_ = t) ∧
    sampleProcess.compressors_ 7 = some (1, 1) ∧ sampleProcess.compressors_ 8 = some (1, 2) ∧
    sampleProcess.deleted = [] :=
  ⟨by decide, (C20_codec_refcount sampleChannels sampleProcess rfl (by decide)).1, rfl, rfl, rfl⟩

/-! ## C27: where a message is -/

/-- C27 (message location). In every state that a fresh channel reaches through
`Open`, `CallMethod`, `SendNext`, `SendDone`, `RecvDone`, `StartCancel`, the
expiry of a timer, `SendFail`, `RecvFail`, `Cancel` and `Close` (fewer than
2^64 calls of `CallMethod`): no sequence number occurs twice in the send queue
followed by the receive queue, so none occurs in both queues or twice in one;
every item of the queues is a live message under its own sequence number; no
item occurs twice in the two queues and every live message is an item of
them, so it is held at exactly one place; and the
current-send slot, when it is not empty, holds the head of the send queue. -/
theorem C27_message_location (tid : Nat) (evs : List Event) (w : World)
    (hr : (World.init tid).run evs = .ok w) (hb : calls evs < 2 ^ 64) :
    ((w.chan.sendq_ ++ w.chan.recvq_).map Prod.fst).Nodup ∧
    (w.chan.sendq_.map Prod.fst).Nodup ∧ (w.chan.recvq_.map Prod.fst).Nodup ∧
    (∀ s, s ∈ w.chan.sendq_.map Prod.fst → s ∉ w.chan.recvq_.map Prod.fst) ∧
    (∀ it ∈ w.chan.sendq_ ++ w.chan.recvq_, ∃ m, w.msgs it.2 = some m ∧ m.id = it.1) ∧
    (w.chan.sendq_ ++ w.chan.recvq_).Nodup ∧
    (∀ p m, w.msgs p = some m → (m.id, p) ∈ w.chan.sendq_ ++ w.chan.recvq_) ∧
    (w.chan.cur_send_.2 ≠ 0 → w.chan.sendq_.head? = some w.chan.cur_send_) := by
  have hb0 : (World.init tid).created.length + calls evs < 2 ^ 64 := by
    simpa [World.init] using hb
  obtain ⟨hinv, _⟩ := run_inv evs _ w (init_inv tid) hr hb0
  have hI := hinv.1
  have hmap : (w.chan.sendq_ ++ w.chan.recvq_).map Prod.fst
      = (w.chan.sendq_ ++ w.chan.recvq_).map Prod.snd := by
    apply List.map_congr_left
    intro it hit
    exact (hI.item it hit).1
  have hnd : ((w.chan.sendq_ ++ w.chan.recvq_).map Prod.fst).Nodup := by
    rw [hmap]
    exact hI.nodup
  have hnd2 := hnd
  rw [List.map_append, List.nodup_append] at hnd2
  refine ⟨hnd, hnd2.1, hnd2.2.1, fun s h1 h2 => hnd2.2.2 h1 h2, ?_, List.Nodup.of_map _ hnd, ?_,
    hI.slot⟩
  · intro it hit
    obtain ⟨e, m, hm⟩ := hI.item it hit
    exact ⟨m, hm, by rw [(hI.live _ m hm).1, e]⟩
  · intro p m hm
    obtain ⟨hid, _, _, hin⟩ := hI.live p m hm
    rw [hid]
    exact hin

/-- Witness of C27: after one call has been sent, message 1 is in the receive
queue and nowhere else. -/
theorem C27_message_location_witness :
    calls waitingTrace < 2 ^ 64 ∧
    ((waitingWorld.chan.sendq_ ++ waitingWorld.chan.recvq_).map Prod.fst).Nodup ∧
    waitingWorld.chan.recvq_ = [(1, 1)] ∧ waitingWorld.chan.sendq_ = [] :=
  ⟨by decide, (C27_message_location 7 waitingTrace waitingWorld rfl (by decide)).1, rfl, rfl⟩

/-! ## C29: the body of an accepted frame -/

/-- C29 (body bounds), evaluated on the code: `Decode` does not compare the meta
and data lengths of the header with the payload length. For a frame that
declares a payload of 2 bytes, a meta of 2 and data of 4 it returns `kDecodeOk`,
and the 6 bytes handed to `RecvDone` are the 2 bytes of the body and the first 4
bytes of the next frame. For a frame at the end of the buffer that declares no
payload and data of 6 bytes it returns `kDecodeOk` as well, and the 6 bytes
handed to `RecvDone` lie outside the buffer; so they do when the frame is read
into the 16-byte buffer of a fresh server connection. -/
theorem C29_body_bounds_unchecked :
    (∃ r2, (sampleConnection.received overlongFrame).Decode sampleHeap sampleCodecs
        = .ok (.kDecodeOk, r2) ∧
      r2.rmsg_hdr_.payload_ = 2 ∧ r2.rmsg_hdr_.meta_ + r2.rmsg_hdr_.data_ = 6 ∧
      r2.delivered = some [5, 1, 0, 0, 0, 2]) ∧
    (∃ r2, (sampleConnection.received bodilessFrame).Decode sampleHeap sampleCodecs
        = .ok (.kDecodeOk, r2) ∧
      r2.rmsg_hdr_.payload_ = 0 ∧ r2.rmsg_hdr_.meta_ + r2.rmsg_hdr_.data_ = 6 ∧
      r2.rbuf_.length = 11 ∧ r2.rmsg_ = .rbuf 11 ∧ r2.delivered = none) ∧
    echoWorld.OnRecv sampleProtobuf sampleHeap sampleCodecs 8 sampleConnection
      [.bytes bodilessFrame] = .error .undefined := by
  refine ⟨⟨_, rfl, rfl, rfl, rfl⟩, ⟨_, rfl, rfl, rfl, rfl, rfl, rfl⟩, rfl⟩

/-! ## C30: the controller of a completed call -/

/-- C30 (no write to a completed call's controller), evaluated on the code.
Message 1 is at the current-send slot when its timer expires: its completion
runs with `kErrTimeout` in the controller, which is released, and the message
stays at the slot, finished. `Cancel` then writes `kErrCancel` into that
controller, and so does `Close`; neither runs the completion again. -/
theorem C30_cancel_overwrites_code :
    finishedWorld.chan.cur_send_ = (1, 1) ∧
    (finishedWorld.msgs 1).map (fun m => (m.finish_, m.controller_)) = some (true, 1) ∧
    finishedWorld.done_runs = [1] ∧
    (finishedWorld.ctls 1).code_ = kErrTimeout ∧
    (finishedWorld.ctls 1).client_message_ = none ∧
    (∃ rc w2, finishedWorld.Cancel 7 = .ok (rc, w2) ∧
      (w2.ctls 1).code_ = kErrCancel ∧ w2.done_runs = [1]) ∧
    (∃ rc w2, finishedWorld.Close 7 = .ok (rc, w2) ∧
      (w2.ctls 1).code_ = kErrCancel ∧ w2.done_runs = [1]) := by
  refine ⟨rfl, rfl, rfl, rfl, rfl, ⟨_, _, rfl, rfl, rfl⟩, ⟨_, _, rfl, rfl, rfl⟩⟩

/-! ## C21: the scratch buffer of the codec -/

theorem growLen_doubles (fuel : Nat) : ∀ (l len : Nat), 0 < l → l < 2 ^ 64 →
    len ≤ 2 ^ 63 → len ≤ l * 2 ^ fuel →
    ∃ k n, growLen (fuel + 1) l len = .ok n ∧ n = l * 2 ^ k ∧ len ≤ n ∧ l ≤ n ∧ n < 2 ^ 64 := by
  induction fuel with
  | zero =>
    intro l len _ hl _ h2
    refine ⟨0, l, ?_, by simp, by omega, le_refl _, hl⟩
    unfold growLen
    rw [if_neg (by omega)]
  | succ f ih =>
    intro l len h0 hl h1 h2
    unfold growLen
    by_cases hlt : l < len
    · rw [if_pos hlt]
      have hmod : l * 2 % SIZE_MOD = l * 2 := Nat.mod_eq_of_lt (by unfold SIZE_MOD; omega)
      rw [hmod]
      have hpow : l * 2 * 2 ^ f = l * 2 ^ (f + 1) := by ring
      obtain ⟨k, n, a1, a2, a3, a4, a5⟩ := ih (l * 2) len (by omega) (by omega) h1
        (by rw [hpow]; exact h2)
      refine ⟨k + 1, n, a1, ?_, a3, by omega, a5⟩
      rw [a2]
      ring
    · rw [if_neg hlt]
      exact ⟨0, l, rfl, by simp, by omega, le_refl _, hl⟩

/-- The scratch buffer for requested lengths up to 2^63. For every current
capacity (a `size_t`) and every requested length `len` of at most 2^63,
`ExpandBufferCache` returns when the allocator does not fail; the capacity
afterwards is at least `len` and at least the capacity before; nothing changes
when the capacity was enough; and when the buffer grows, the new capacity is
the previous one (4096 if it was 0) times a power of two, and the old contents
are kept. -/
theorem ExpandBufferCache_grows (h : Heap) (z : Compressor) (len : Nat)
    (hcap : z.len_ < 2 ^ 64) (hlen : len ≤ 2 ^ 63) (hh : ∀ n, (h.realloc 0 n).isSome) :
    ∃ z1, z.ExpandBufferCache h len = .ok z1 ∧ len ≤ z1.len_ ∧ z.len_ ≤ z1.len_ ∧
      (len ≤ z.len_ → z1 = z) ∧
      (z.len_ < len →
        (∃ k, z1.len_ = (if z.len_ = 0 then 4096 else z.len_) * 2 ^ k) ∧
        z1.len_ < 2 ^ 64 ∧ z1.buffer_ = resized z.buffer_ z1.len_) := by
  unfold Compressor.ExpandBufferCache
  by_cases hle : len ≤ z.len_
  · rw [if_pos hle]
    exact ⟨z, rfl, hle, le_refl _, fun _ => rfl, fun hlt => absurd hle (by omega)⟩
  · rw [if_neg hle]
    simp only
    have hl0 : 0 < (if z.len_ = 0 then 4096 else z.len_) := by
      split_ifs <;> omega
    have hl1 : (if z.len_ = 0 then 4096 else z.len_) < 2 ^ 64 := by
      split_ifs <;> omega
    have hl2 : z.len_ ≤ (if z.len_ = 0 then 4096 else z.len_) := by
      split_ifs <;> omega
    obtain ⟨k, n, hn1, hn2, hn3, hn4, hn5⟩ := growLen_doubles 64 _ len hl0 hl1 hlen (by
      have : (1 : Nat) * 2 ^ 64 ≤ (if z.len_ = 0 then 4096 else z.len_) * 2 ^ 64 :=
        Nat.mul_le_mul_right _ hl0
      omega)
    rw [hn1]
    simp only
    have hs := hh n
    cases hr : h.realloc 0 n with
    | none => rw [hr] at hs; simp at hs
    | some q =>
      simp only
      exact ⟨_, rfl, hn3, by simp only; omega, fun hc => absurd hc hle,
        fun _ => ⟨⟨k, hn2⟩, hn5, rfl⟩⟩

/-- From the empty buffer a request of 5000 bytes gives a capacity of 8192. -/
theorem ExpandBufferCache_sample :
    ∃ z1, ({ buffer_ := [], len_ := 0, type_ := 0 } : Compressor).ExpandBufferCache
        sampleHeap 5000 = .ok z1 ∧
      5000 ≤ z1.len_ ∧ 0 ≤ z1.len_ ∧
      (5000 ≤ 0 → z1 = ({ buffer_ := [], len_ := 0, type_ := 0 } : Compressor)) ∧
      (0 < 5000 →
        (∃ k, z1.len_ = (if (0 : Nat) = 0 then 4096 else 0) * 2 ^ k) ∧
        z1.len_ < 2 ^ 64 ∧ z1.buffer_ = resized [] z1.len_) :=
  ExpandBufferCache_grows sampleHeap { buffer_ := [], len_ := 0, type_ := 0 } 5000
    (by decide) (by decide) (fun _ => rfl)

/-- With the capacity at 0 the doubling loop makes no progress, whatever the
number of iterations. -/
theorem growLen_stuck (fuel len : Nat) (h : 0 < len) : growLen fuel 0 len = .error .diverge := by
  induction fuel with
  | zero => rfl
  | succ f ih =>
    unfold growLen
    rw [if_pos h]
    exact ih

/-- C21 (codec scratch buffer), evaluated on the code. From the empty buffer,
for a requested length of 2^63 + 1, `ExpandBufferCache` does not return: the
capacity, doubling from 4096, is 2^63 after 51 doublings, still too small, and
0 after one more, the `size_t` having wrapped; from 0 the loop never ends,
whatever the number of iterations. The same happens in `Decode` for a
compressed frame whose header declares a data length of `0xFFFFFFFF`, for which
it requests the length 2^64 - 1. -/
theorem C21_doubling_wraps :
    ({ buffer_ := [], len_ := 0, type_ := 0 } : Compressor).ExpandBufferCache
      sampleHeap (2 ^ 63 + 1) = .error .diverge ∧
    4096 * 2 ^ 51 < 2 ^ 63 + 1 ∧ 4096 * 2 ^ 52 % SIZE_MOD = 0 ∧
    (∀ fuel, growLen fuel 0 (2 ^ 63 + 1) = .error .diverge) ∧
    (sampleConnection.received negativeDataFrame).Decode sampleHeap sampleCodecs
      = .error .diverge := by
  refine ⟨by rfl, by decide, by decide, fun fuel => growLen_stuck fuel _ (by decide), by rfl⟩

/-! ## C25: growth of the receive buffer -/

theorem Socket.recv_bytes (sock sock1 : Socket) (avail : Nat) (bs : List Nat) (h : 0 < avail)
    (hr : sock.recv avail = (.bytes bs, sock1)) :
    bs ≠ [] ∧ bs.length ≤ avail ∧ bs ++ sock1.stream = sock.stream ∧
    sock1.length ≤ sock.length := by
  cases sock with
  | nil => simp [Socket.recv] at hr
  | cons a rest =>
    cases a with
    | bytes b =>
      simp only [Socket.recv] at hr
      by_cases h1 : b.isEmpty = true
      · rw [if_pos h1] at hr
        simp at hr
      rw [if_neg h1] at hr
      have hne : b ≠ [] := by
        intro e
        rw [e] at h1
        simp at h1
      by_cases h2 : b.length ≤ avail
      · rw [if_pos h2] at hr
        simp only [Prod.mk.injEq, Arrival.bytes.injEq] at hr
        obtain ⟨e1, e2⟩ := hr
        subst e1 e2
        exact ⟨hne, h2, rfl, by simp⟩
      · rw [if_neg h2] at hr
        simp only [Prod.mk.injEq, Arrival.bytes.injEq] at hr
        obtain ⟨e1, e2⟩ := hr
        subst e1 e2
        refine ⟨?_, by simp [List.length_take], ?_, by simp⟩
        · intro e
          rcases List.take_eq_nil_iff.1 e with h0 | h0
          · omega
          · exact hne h0
        · simp [Socket.stream, ← List.append_assoc]
    | eof => simp [Socket.recv] at hr
    | eintr => simp [Socket.recv] at hr
    | eagain => simp [Socket.recv] at hr
    | failure => simp [Socket.recv] at hr

theorem Socket.recv_other (sock sock1 : Socket) (avail : Nat) (a : Arrival)
    (hr : sock.recv avail = (a, sock1)) (ha : ∀ bs, a ≠ .bytes bs) :
    sock1.stream = sock.stream ∧ sock1.length ≤ sock.length ∧
    (a = .eintr → sock1.length < sock.length) ∧
    ((∀ x ∈ sock, ∃ bs, x = .bytes bs ∧ bs ≠ []) → sock = [] ∧ a = .eagain) := by
  cases sock with
  | nil =>
    simp only [Socket.recv, Prod.mk.injEq] at hr
    obtain ⟨e1, e2⟩ := hr
    subst e1 e2
    exact ⟨rfl, le_refl _, fun e => by simp at e, fun _ => ⟨rfl, rfl⟩⟩
  | cons x rest =>
    cases x with
    | bytes b =>
      simp only [Socket.recv] at hr
      by_cases h1 : b.isEmpty = true
      · rw [if_pos h1] at hr
        simp only [Prod.mk.injEq] at hr
        obtain ⟨e1, e2⟩ := hr
        subst e1 e2
        have hb : b = [] := by simpa using h1
        refine ⟨by simp [Socket.stream, hb], by simp, fun e => by simp at e, ?_⟩
        intro hall
        obtain ⟨bs, e, hne⟩ := hall (.bytes b) (List.mem_cons_self _ _)
        simp only [Arrival.bytes.injEq] at e
        exact absurd (e ▸ hb) hne
      rw [if_neg h1] at hr
      by_cases h2 : b.length ≤ avail
      · rw [if_pos h2] at hr
        simp only [Prod.mk.injEq] at hr
        exact absurd hr.1.symm (ha _)
      · rw [if_neg h2] at hr
        simp only [Prod.mk.injEq] at hr
        exact absurd hr.1.symm (ha _)
    | eof =>
      simp only [Socket.recv, Prod.mk.injEq] at hr
      obtain ⟨e1, e2⟩ := hr
      subst e1 e2
      refine ⟨rfl, by simp, fun e => by simp at e, ?_⟩
      intro hall
      obtain ⟨bs, e, _⟩ := hall .eof (List.mem_cons_self _ _)
      simp at e
    | eintr =>
      simp only [Socket.recv, Prod.mk.injEq] at hr
      obtain ⟨e1, e2⟩ := hr
      subst e1 e2
      refine ⟨rfl, by simp, fun _ => by simp, ?_⟩
      intro hall
      obtain ⟨bs, e, _⟩ := hall .eintr (List.mem_cons_self _ _)
      simp at e
    | eagain =>
      simp only [Socket.recv, Prod.mk.injEq] at hr
      obtain ⟨e1, e2⟩ := hr
      subst e1 e2
      refine ⟨rfl, by simp, fun e => by simp at e, ?_⟩
      intro hall
      obtain ⟨bs, e, _⟩ := hall .eagain (List.mem_cons_self _ _)
      simp at e
    | failure =>
      simp only [Socket.recv, Prod.mk.injEq] at hr
      obtain ⟨e1, e2⟩ := hr
      subst e1 e2
      refine ⟨rfl, by simp, fun e => by simp at e, ?_⟩
      intro hall
      obtain ⟨bs, e, _⟩ := hall .failure (List.mem_cons_self _ _)
      simp at e

theorem readMuch_eq (h : Heap) (f : Nat) (c : Connection) (sock : Socket) (n : Nat)
    (status : Status) :
    Connection.readMuch h (f + 1) c sock n status =
      if c.rbytes_ ≥ c.rsize_ ∧ n = 4 then .ok (status, c, sock)
      else if c.rbytes_ ≥ c.rsize_ then
        if c.rsize_ * 2 > (INT_MAX : Int) then .error .undefined
        else
          match h.realloc 0 (toSizeT (c.rsize_ * 2)) with
          | none => .ok (.kRecvError, c, sock)
          | some _ =>
            Connection.recvOnce h f
              { c with
                rsize_ := c.rsize_ * 2
                rbuf_ := resized c.rbuf_ (c.rsize_ * 2).toNat
                rcur_ := 0 } sock (n + 1) status
      else Connection.recvOnce h f c sock n status := by
  rw [Connection.readMuch]
  by_cases h1 : c.rbytes_ ≥ c.rsize_ ∧ n = 4
  · rw [if_pos h1, if_pos h1]
  rw [if_neg h1, if_neg h1]
  by_cases h2 : c.rbytes_ ≥ c.rsize_
  · rw [if_pos h2]
    simp only [h2, if_true]
    by_cases h3 : c.rsize_ * 2 > (INT_MAX : Int)
    · simp only [h3, if_true]
    · simp only [h3, if_false]
      cases h.realloc 0 (toSizeT (c.rsize_ * 2)) with
      | none => rfl
      | some q => rfl
  · rw [if_neg h2]
    simp only [h2, if_false]
    rfl

theorem Socket.recv_allBytes (sock sock1 : Socket) (avail : Nat) (a : Arrival)
    (hr : sock.recv avail = (a, sock1)) (hall : sock.AllBytes) : sock1.AllBytes := by
  cases sock with
  | nil =>
    simp only [Socket.recv, Prod.mk.injEq] at hr
    rw [← hr.2]
    exact hall
  | cons x rest =>
    have hrest : Socket.AllBytes rest := fun y hy => hall y (List.mem_cons_of_mem _ hy)
    obtain ⟨b, e, hne⟩ := hall x (List.mem_cons_self _ _)
    subst e
    simp only [Socket.recv] at hr
    have h1 : ¬ b.isEmpty = true := by simpa using hne
    rw [if_neg h1] at hr
    by_cases h2 : b.length ≤ avail
    · rw [if_pos h2] at hr
      simp only [Prod.mk.injEq] at hr
      rw [← hr.2]
      exact hrest
    · rw [if_neg h2] at hr
      simp only [Prod.mk.injEq] at hr
      rw [← hr.2]
      intro y hy
      rcases List.mem_cons.1 hy with e | e
      · refine ⟨_, e, ?_⟩
        intro e2
        have := congrArg List.length e2
        simp only [List.length_drop, List.length_nil] at this
        omega
      · exact hrest y e

theorem grown_atStart {c c2 : Connection} {j : Nat} {taken : List Nat}
    (hc : c.AtStart) (hg : c.Grown c2 j taken) : c2.AtStart := by
  obtain ⟨h1, h2, h3, h4, h5⟩ := hc
  obtain ⟨g1, g2, g3, _⟩ := hg
  have hp : (0 : Int) < 2 ^ j := by positivity
  have hpos : 0 < c.rsize_ * 2 ^ j := Int.mul_pos h2 hp
  rw [g1]
  exact ⟨h1, hpos, g2, by simp only; omega, g3⟩

theorem grown_refl {c : Connection} (hc : c.AtStart) : c.Grown c 0 [] := by
  obtain ⟨_, _, h3, _, h5⟩ := hc
  exact ⟨by simp, by simpa using h3, by simpa using h5, by simp⟩

theorem grown_trans {c c1 c2 : Connection} {j1 j2 : Nat} {t1 t2 : List Nat}
    (hc : c.AtStart) (g1 : c.Grown c1 j1 t1) (g2 : c1.Grown c2 j2 t2) :
    c.Grown c2 (j1 + j2) (t1 ++ t2) := by
  obtain ⟨a1, a2, a3, a4⟩ := g1
  obtain ⟨b1, b2, b3, b4⟩ := g2
  have e1 : c1.rsize_ = c.rsize_ * 2 ^ j1 := by rw [a1]
  have e2 : c1.rbytes_ = c.rbytes_ + t1.length := by rw [a1]
  have e3 : c.rsize_ * 2 ^ (j1 + j2) = c1.rsize_ * 2 ^ j2 := by rw [e1, pow_add, mul_assoc]
  have h0 : 0 ≤ c.rbytes_ := hc.2.2.2.1
  have e4 : c1.rbytes_.toNat = c.rbytes_.toNat + t1.length := by rw [e2]; omega
  refine ⟨?_, ?_, ?_, ?_⟩
  · rw [b1, e3, e2]
    rw [a1]
    simp only [List.length_append, Nat.cast_add, add_assoc]
  · rw [e3]; exact b2
  · rw [e3]
    simp only [List.length_append, Nat.cast_add]
    omega
  · simp only [List.length_append]
    rw [← add_assoc, ← e4, b4]
    have : List.take c1.rbytes_.toNat c1.rbuf_ = List.take c.rbytes_.toNat c.rbuf_ ++ t1 := by
      rw [e4]; exact a4
    rw [this, List.append_assoc]

/-- A read of `bs` into the free part of the buffer. -/
theorem grown_read {c : Connection} (hc : c.AtStart) (bs mem : List Nat)
    (hfit : c.rbytes_ + bs.length ≤ c.rsize_)
    (hp : poke 0 c.rbuf_ c.rbytes_.toNat bs = some mem) :
    c.Grown { c with rbuf_ := mem, rbytes_ := c.rbytes_ + bs.length } 0 bs := by
  obtain ⟨_, h2, h3, h4, h5⟩ := hc
  obtain ⟨_, q2, q3⟩ := poke_some 0 c.rbuf_ bs _ mem hp
  have hl := poke_length 0 c.rbuf_ bs _ mem hp
  refine ⟨by simp, by simpa [hl] using h3, by simpa using hfit, ?_⟩
  simp only
  rw [q3]
  simp only [Nat.sub_zero]
  have hlen : (List.take c.rbytes_.toNat c.rbuf_ ++ bs).length = c.rbytes_.toNat + bs.length := by
    simp only [List.length_append, List.length_take]
    omega
  rw [List.take_append_of_le_length (by rw [hlen]), List.take_of_length_le (by rw [hlen])]

/-- The doubling of a full buffer. -/
theorem grown_grow {c : Connection} (hc : c.AtStart) :
    c.Grown { c with
      rsize_ := c.rsize_ * 2
      rbuf_ := resized c.rbuf_ (c.rsize_ * 2).toNat
      rcur_ := 0 } 1 [] := by
  obtain ⟨h1, h2, h3, h4, h5⟩ := hc
  have hle : c.rbuf_.length ≤ (c.rsize_ * 2).toNat := by omega
  refine ⟨?_, ?_, ?_, ?_⟩
  · simp only [pow_one, List.length_nil, Nat.cast_zero, add_zero]
    rw [← h1]
  · simp only [pow_one]
    exact resized_length _ _ hle
  · simp only [pow_one, List.length_nil, Nat.cast_zero, add_zero]
    omega
  · simp only [List.length_nil, add_zero, List.append_nil]
    unfold resized
    rw [List.take_of_length_le hle, List.take_append_of_le_length (by omega)]

theorem recvOnce_spec (h : Heap) (f : Nat)
    (ih : ∀ (c : Connection) (sock : Socket) (n : Nat) (status : Status), c.AtStart → n ≤ 4 →
      c.Room sock n → sock.length + (4 - n) + (if c.rbytes_ < c.rsize_ then 1 else 0) < f →
      c.ReadResult h sock n status (Connection.readMuch h f c sock n status))
    (c1 : Connection) (sock : Socket) (n1 : Nat) (status : Status) (hc : c1.AtStart)
    (hlt : c1.rbytes_ < c1.rsize_) (hn : n1 ≤ 4) (hroom : c1.Room sock n1)
    (hf : sock.length + (4 - n1) < f) :
    c1.ReadResult h sock n1 status (Connection.recvOnce h f c1 sock n1 status) := by
  obtain ⟨h1, h2, h3, h4, h5⟩ := hc
  have hc : c1.AtStart := ⟨h1, h2, h3, h4, h5⟩
  unfold Connection.recvOnce
  simp only
  rw [if_neg (by omega), if_neg (by omega)]
  have hav : 0 < (c1.rsize_ - c1.rbytes_).toNat := by omega
  cases hrecv : sock.recv (c1.rsize_ - c1.rbytes_).toNat with
  | mk a sock1 =>
    cases a with
    | bytes bs =>
      obtain ⟨r1, r2, r3, r4⟩ := Socket.recv_bytes sock sock1 _ bs hav hrecv
      have hfit : c1.rbytes_ + bs.length ≤ c1.rsize_ := by omega
      have hp := poke_at 0 c1.rbuf_ bs c1.rbytes_.toNat (by omega)
      rw [Nat.zero_add] at hp
      simp only [hp]
      have hg := grown_read hc bs _ hfit hp
      by_cases hfullr : (bs.length : Int) = c1.rsize_ - c1.rbytes_
      · rw [if_pos hfullr]
        have hc2 := grown_atStart hc hg
        have hroom2 : Connection.Room
            { c1 with
              rbuf_ := c1.rbuf_.take c1.rbytes_.toNat ++ bs ++
                c1.rbuf_.drop (c1.rbytes_.toNat + bs.length)
              rbytes_ := c1.rbytes_ + bs.length } sock1 n1 := by
          rcases hroom with hr | hr
          · exact Or.inl hr
          · refine Or.inr ?_
            have : sock.stream.length = bs.length + sock1.stream.length := by
              rw [← r3, List.length_append]
            simp only
            omega
        obtain ⟨st, c2, sock2, taken, j, e1, e2, e3, e4, e5, e6, e7⟩ :=
          ih _ sock1 n1 .kRecvOk hc2 hn hroom2 (by
            simp only
            rw [if_neg (by omega)]
            omega)
        refine ⟨st, c2, sock2, bs ++ taken, 0 + j, e1, by omega, grown_trans hc hg e3, ?_,
          by omega, ?_, ?_⟩
        · rw [List.append_assoc, e4, r3]
        · rcases e6 with e | e | e
          · exact Or.inr (Or.inl e)
          · exact Or.inr (Or.inl e)
          · exact Or.inr (Or.inr e)
        · intro ha hall
          obtain ⟨q1, q2⟩ := e7 ha (Socket.recv_allBytes _ _ _ _ hrecv hall)
          refine ⟨q1, Or.inl ⟨by simp [r1], ?_⟩⟩
          rcases q2 with ⟨_, q⟩ | ⟨_, q, _⟩
          · exact q
          · exact q
      · rw [if_neg hfullr]
        refine ⟨.kRecvOk, _, sock1, bs, 0, rfl, by omega, hg, r3, r4, Or.inr (Or.inl rfl), ?_⟩
        intro _ hall
        exact ⟨Socket.recv_allBytes _ _ _ _ hrecv hall, Or.inl ⟨r1, rfl⟩⟩
    | eof =>
      obtain ⟨r1, r2, _, r4⟩ := Socket.recv_other sock sock1 _ _ hrecv (by simp)
      refine ⟨.kRecvError, c1, sock1, [], 0, rfl, by omega, grown_refl hc, by simpa using r1, r2,
        Or.inr (Or.inr rfl), ?_⟩
      intro _ hall
      have := (r4 hall).2
      simp at this
    | eintr =>
      obtain ⟨r1, r2, r3, r4⟩ := Socket.recv_other sock sock1 _ _ hrecv (by simp)
      have hl := r3 rfl
      have hroom2 : c1.Room sock1 n1 := by
        rcases hroom with hr | hr
        · exact Or.inl hr
        · refine Or.inr ?_
          rw [r1]
          exact hr
      obtain ⟨st, c2, sock2, taken, j, e1, e2, e3, e4, e5, e6, e7⟩ :=
        ih c1 sock1 n1 status hc hn hroom2 (by
          rw [if_pos hlt]
          omega)
      refine ⟨st, c2, sock2, taken, j, e1, e2, e3, by rw [e4, r1], by omega, e6, ?_⟩
      intro _ hall
      have := (r4 hall).2
      simp at this
    | eagain =>
      obtain ⟨r1, r2, _, r4⟩ := Socket.recv_other sock sock1 _ _ hrecv (by simp)
      refine ⟨status, c1, sock1, [], 0, rfl, by omega, grown_refl hc, by simpa using r1, r2,
        Or.inl rfl, ?_⟩
      intro _ hall
      exact ⟨Socket.recv_allBytes _ _ _ _ hrecv hall, Or.inr ⟨rfl, rfl, Or.inl (r4 hall).1⟩⟩
    | failure =>
      obtain ⟨r1, r2, _, r4⟩ := Socket.recv_other sock sock1 _ _ hrecv (by simp)
      refine ⟨.kRecvError, c1, sock1, [], 0, rfl, by omega, grown_refl hc, by simpa using r1, r2,
        Or.inr (Or.inr rfl), ?_⟩
      intro _ hall
      have := (r4 hall).2
      simp at this

/-- Every pass through `read_much:` returns, within the fuel that `Recv`
gives. -/
theorem readMuch_spec (h : Heap) (fuel : Nat) :
    ∀ (c : Connection) (sock : Socket) (n : Nat) (status : Status), c.AtStart → n ≤ 4 →
      c.Room sock n → sock.length + (4 - n) + (if c.rbytes_ < c.rsize_ then 1 else 0) < fuel →
      c.ReadResult h sock n status (Connection.readMuch h fuel c sock n status) := by
  induction fuel with
  | zero =>
    intro c sock n status _ _ _ hf
    omega
  | succ f ih =>
    intro c sock n status hc hn hroom hf
    obtain ⟨h1, h2, h3, h4, h5⟩ := hc
    have hc : c.AtStart := ⟨h1, h2, h3, h4, h5⟩
    rw [readMuch_eq]
    by_cases hfull : c.rbytes_ ≥ c.rsize_
    · by_cases hn4 : n = 4
      · rw [if_pos ⟨hfull, hn4⟩]
        refine ⟨status, c, sock, [], 0, rfl, by omega, grown_refl hc, by simp, le_refl _,
          Or.inl rfl, ?_⟩
        intro _ hall
        exact ⟨hall, Or.inr ⟨rfl, rfl, Or.inr ⟨hfull, hn4⟩⟩⟩
      · rw [if_neg (fun hh => hn4 hh.2), if_pos hfull]
        have hlt4 : n < 4 := by omega
        have hpow : (2 : Int) ^ (4 - n) = 2 * 2 ^ (4 - (n + 1)) := by
          have : 4 - n = (4 - (n + 1)) + 1 := by omega
          rw [this, pow_succ, mul_comm]
        have hov : ¬ c.rsize_ * 2 > (INT_MAX : Int) := by
          unfold INT_MAX
          rcases hroom with hr | hr
          · rw [hpow] at hr
            have hp : (1 : Int) ≤ 2 ^ (4 - (n + 1)) := by
              have : (0 : Int) < 2 ^ (4 - (n + 1)) := by positivity
              omega
            have : c.rsize_ * 2 ≤ c.rsize_ * (2 * 2 ^ (4 - (n + 1))) := by
              have := Int.mul_le_mul_of_nonneg_left hp (show (0 : Int) ≤ c.rsize_ * 2 by omega)
              calc c.rsize_ * 2 = c.rsize_ * 2 * 1 := by ring
                _ ≤ c.rsize_ * 2 * 2 ^ (4 - (n + 1)) := this
                _ = c.rsize_ * (2 * 2 ^ (4 - (n + 1))) := by ring
            push_cast
            omega
          · push_cast
            have : (0 : Int) ≤ (sock.stream.length : Int) := by omega
            omega
        rw [if_neg hov]
        cases hre : h.realloc 0 (toSizeT (c.rsize_ * 2)) with
        | none =>
          simp only
          refine ⟨.kRecvError, c, sock, [], 0, rfl, by omega, grown_refl hc, by simp, le_refl _,
            Or.inr (Or.inr rfl), ?_⟩
          intro ha _
          have := ha 0 (toSizeT (c.rsize_ * 2))
          rw [hre] at this
          simp at this
        | some q =>
          simp only
          have hg := grown_grow hc
          have hc1 := grown_atStart hc hg
          have hroom1 : Connection.Room
              { c with
                rsize_ := c.rsize_ * 2
                rbuf_ := resized c.rbuf_ (c.rsize_ * 2).toNat
                rcur_ := 0 } sock (n + 1) := by
            rcases hroom with hr | hr
            · refine Or.inl ?_
              simp only
              rw [hpow] at hr
              rw [mul_assoc]
              exact hr
            · exact Or.inr hr
          obtain ⟨st, c2, sock2, taken, j, e1, e2, e3, e4, e5, e6, e7⟩ :=
            recvOnce_spec h f ih _ sock (n + 1) status hc1 (by simp only; omega) (by omega)
              hroom1 (by
                rw [if_neg (by omega)] at hf
                omega)
          refine ⟨st, c2, sock2, [] ++ taken, 1 + j, e1, by omega, grown_trans hc hg e3,
            by simpa using e4, e5, e6, ?_⟩
          intro ha hall
          obtain ⟨q1, q2⟩ := e7 ha hall
          refine ⟨q1, ?_⟩
          rcases q2 with ⟨a1, a2⟩ | ⟨a1, a2, a3⟩
          · exact Or.inl ⟨by simpa using a1, a2⟩
          · refine Or.inr ⟨by simpa using a1, a2, ?_⟩
            rcases a3 with a3 | ⟨a3, _⟩
            · exact Or.inl a3
            · simp only at a3
              omega
    · rw [if_neg (fun hh => hfull hh.1), if_neg hfull]
      have hlt : c.rbytes_ < c.rsize_ := by omega
      rw [if_pos hlt] at hf
      exact recvOnce_spec h f ih c sock n status hc hlt hn hroom (by omega)

/-- The start of `Recv`: the unread bytes are moved to the start of the
buffer. -/
theorem Recv_moved (h : Heap) (c : Connection) (sock : Socket) (hc : c.RecvReady) :
    ∃ c1 : Connection, c1.AtStart ∧
      c1 = { c with rcur_ := 0, rbuf_ := c1.rbuf_ } ∧
      c1.rbuf_.take c.rbytes_.toNat = c.unread ∧
      c.Recv h sock = Connection.readMuch h (sock.length + 7) c1 sock 0 .kRecvAgain := by
  obtain ⟨h1, h2, h3, h4, h5⟩ := hc
  unfold Connection.Recv
  by_cases hcur : c.rcur_ = 0
  · refine ⟨c, ⟨hcur, h1, h2, h4, by omega⟩, ?_, ?_, ?_⟩
    · rw [← hcur]
    · unfold Connection.unread
      rw [hcur]
      simp
    · simp only [hcur, ne_eq, not_true_eq_false, if_false]
  · by_cases hb : c.rbytes_ = 0
    · refine ⟨{ c with rcur_ := 0 }, ⟨rfl, h1, h2, h4, by simp only; omega⟩, rfl, ?_, ?_⟩
      · unfold Connection.unread
        simp [hb]
      · simp only [hcur, hb, ne_eq, not_false_eq_true, not_true_eq_false, if_true, if_false]
    · have hpk : peek c.rbuf_ c.rcur_ c.rbytes_.toNat
          = some ((c.rbuf_.drop c.rcur_.toNat).take c.rbytes_.toNat) := by
        have := peek_at c.rbuf_ c.rcur_.toNat c.rbytes_.toNat (by omega)
        rw [Int.toNat_of_nonneg h3] at this
        exact this
      have hlen : ((c.rbuf_.drop c.rcur_.toNat).take c.rbytes_.toNat).length
          = c.rbytes_.toNat := by
        simp only [List.length_take, List.length_drop]
        omega
      have hpo := poke_at 0 c.rbuf_ ((c.rbuf_.drop c.rcur_.toNat).take c.rbytes_.toNat) 0
        (by rw [hlen]; omega)
      rw [Nat.zero_add] at hpo
      refine ⟨{ c with
        rbuf_ := c.rbuf_.take 0 ++ (c.rbuf_.drop c.rcur_.toNat).take c.rbytes_.toNat ++
          c.rbuf_.drop (0 + ((c.rbuf_.drop c.rcur_.toNat).take c.rbytes_.toNat).length)
        rcur_ := 0 }, ⟨rfl, h1, ?_, h4, by simp only; omega⟩, rfl, ?_, ?_⟩
      · simp only
        rw [poke_length 0 _ _ _ _ hpo]
        exact h2
      · simp only [List.take_zero, List.nil_append]
        unfold Connection.unread
        rw [List.take_append_of_le_length (by rw [hlen]), List.take_of_length_le (by rw [hlen])]
      · simp only [hcur, hb, ne_eq, not_false_eq_true, if_true, hpk, hpo]
        rw [if_neg (by omega)]

/-- Effect of one call of `Recv` on a connection whose receive side is in
order, when no doubling overflows: the call returns; the unread bytes are at
the start of the buffer with the bytes taken from the socket behind them; the
buffer has been doubled at most four times. -/
theorem Recv_spec (h : Heap) (c : Connection) (sock : Socket) (hc : c.RecvReady)
    (hroom : c.Room sock 0) :
    ∃ st c2 sock2 taken j, c.Recv h sock = .ok (st, c2, sock2) ∧ j ≤ 4 ∧
      c2 = { c with
        rcur_ := 0
        rsize_ := c.rsize_ * 2 ^ j
        rbytes_ := c.rbytes_ + taken.length
        rbuf_ := c2.rbuf_ } ∧
      c2.rbuf_.length = (c.rsize_ * 2 ^ j).toNat ∧
      c.rbytes_ + taken.length ≤ c.rsize_ * 2 ^ j ∧
      c2.unread = c.unread ++ taken ∧
      taken ++ sock2.stream = sock.stream ∧ sock2.length ≤ sock.length ∧
      ((∀ p m, (h.realloc p m).isSome) → sock.AllBytes →
        sock2.AllBytes ∧
        ((taken ≠ [] ∧ st = .kRecvOk) ∨
          (taken = [] ∧ st = .kRecvAgain ∧ sock = [] ∧ sock2 = []))) := by
  obtain ⟨c1, hs, e1, e2, e3⟩ := Recv_moved h c sock hc
  have hr1 : c1.rsize_ = c.rsize_ := by rw [e1]
  have hb1 : c1.rbytes_ = c.rbytes_ := by rw [e1]
  have hroom1 : c1.Room sock 0 := by
    unfold Connection.Room at hroom ⊢
    rw [hr1, hb1]
    exact hroom
  obtain ⟨st, c2, sock2, taken, j, r1, r2, r3, r4, r5, r6, r7⟩ :=
    readMuch_spec h (sock.length + 7) c1 sock 0 .kRecvAgain hs (by omega) hroom1 (by
      split_ifs <;> omega)
  obtain ⟨g1, g2, g3, g4⟩ := r3
  have h0 : 0 ≤ c.rbytes_ := hc.2.2.2.1
  refine ⟨st, c2, sock2, taken, j, by rw [e3, r1], by omega, ?_, by rw [← hr1]; exact g2,
    by rw [← hr1, ← hb1]; exact g3, ?_, r4, r5, ?_⟩
  · rw [g1, e1]
  · have hcur : c2.rcur_ = 0 := by rw [g1, e1]
    have hby : c2.rbytes_ = c.rbytes_ + taken.length := by rw [g1, hb1]
    unfold Connection.unread at e2 ⊢
    rw [hcur, hby]
    have : (c.rbytes_ + (taken.length : Int)).toNat = c1.rbytes_.toNat + taken.length := by
      rw [hb1]
      omega
    rw [this]
    simp only [Int.toNat_zero, List.drop_zero]
    rw [g4, hb1, e2]
  · intro ha hall
    obtain ⟨q1, q2⟩ := r7 ha hall
    refine ⟨q1, ?_⟩
    rcases q2 with q | ⟨a1, a2, a3⟩
    · exact Or.inl q
    · have hs0 : sock = [] := by
        rcases a3 with a3 | ⟨_, a3⟩
        · exact a3
        · omega
      refine Or.inr ⟨a1, a2, hs0, ?_⟩
      subst hs0
      have : sock2.length = 0 := by simpa using r5
      exact List.length_eq_zero.1 this

set_option maxRecDepth 100000 in
/-- The cap of C25 is reached: of 300 bytes that wait, the sample connection
takes 256 in one call, its buffer of 16 bytes having been doubled four times;
the other 44 bytes stay on the socket. -/
theorem Recv_flood :
    ∃ c2, sampleConnection.Recv sampleHeap floodSocket
        = .ok (.kRecvOk, c2, [.bytes (List.replicate 44 7)]) ∧
      c2.rsize_ = 256 ∧ c2.rbytes_ = 256 ∧ c2.rbuf_ = List.replicate 256 7 := by
  refine ⟨_, rfl, ?_, ?_, ?_⟩ <;> rfl

theorem busyWorld_state :
    busyWorld.conn.recvq_ = [(5, 1)] ∧ busyWorld.conn.sendq_ = [] ∧
    busyWorld.conn.cur_send_ = (0, 0) ∧ busyWorld.conn.connected_ = true ∧
    busyWorld.called = [1] := by
  refine ⟨rfl, rfl, rfl, rfl, rfl⟩

theorem sendingWorld_state :
    sendingWorld.conn.recvq_ = [(6, 2)] ∧ sendingWorld.conn.sendq_ = [(5, 1)] ∧
    sendingWorld.conn.cur_send_ = (5, 1) ∧ sendingWorld.conn.connected_ = true ∧
    sendingWorld.controller 1 = some (false, some 66) ∧
    sendingWorld.controller 2 = some (false, some 77) ∧
    sendingWorld.notified = [] := by
  refine ⟨rfl, rfl, rfl, rfl, rfl, rfl, rfl⟩

/-! ## C22: cancel frames on the server -/

/-- C22 (server-side cancel frame), evaluated on the code. `OnRpcCancel` starts
with `cur_send_.second->id()`, and `cur_send_.second` is `NULL` while nothing is
being sent. A fresh connection that reads a request with sequence number 5 and
then the cancel frame for it has the message in its receive queue and
`cur_send_ = (0, NULL)`: the cancel frame makes it read through the null
pointer, and so does a cancel frame for an unknown sequence number. While the
answer to request 5 is being sent and request 6 is with the service, the first
cancel frame for 6 cancels that message and runs its callback once; the second
one fails the assertion `cancel_ == false` of `CancelRequest`. A cancel frame
for 5, the message at the head of the send queue, returns without canceling
it. Only the cancel frame for an unknown sequence number during a send leaves
the state as it is. -/
theorem C22_cancel_frame_faults :
    (∃ c w, ServerWorld.OnRecv cancelProtobuf sampleHeap sampleCodecs 20 sampleConnection
        [.bytes (metaFrame 5 1)] echoWorld = .ok (true, c, [], w) ∧
      w.conn.recvq_ = [(5, 1)] ∧ w.conn.sendq_ = [] ∧ w.conn.cur_send_ = (0, 0)) ∧
    ServerWorld.OnRecv cancelProtobuf sampleHeap sampleCodecs 20 sampleConnection
      [.bytes (metaFrame 5 1 ++ metaFrame 5 4)] echoWorld = .error .undefined ∧
    ServerWorld.RecvDone cancelProtobuf busyWorld [5, 4] 2 0 = .error .undefined ∧
    ServerWorld.RecvDone cancelProtobuf echoWorld [9, 4] 2 0 = .error .undefined ∧
    (∃ w1, sendingWorld.OnRpcCancel (cancelMeta 6) = .ok w1 ∧
      w1.controller 2 = some (true, none) ∧ w1.notified = [2] ∧
      w1.OnRpcCancel (cancelMeta 6) = .error .assertion) ∧
    (∃ w1, sendingWorld.OnRpcCancel (cancelMeta 5) = .ok w1 ∧
      w1.conn.sendq_ = [(5, 1)] ∧ w1.controller 1 = some (false, some 66) ∧
      w1.notified = []) ∧
    (∃ w1, sendingWorld.OnRpcCancel (cancelMeta 9) = .ok w1 ∧
      w1.conn = sendingWorld.conn ∧ w1.controller 1 = sendingWorld.controller 1 ∧
      w1.controller 2 = sendingWorld.controller 2 ∧ w1.notified = []) := by
  refine ⟨⟨_, _, rfl, rfl, rfl, rfl⟩, rfl, rfl, rfl, ⟨_, rfl, rfl, rfl, rfl⟩,
    ⟨_, rfl, rfl, rfl, rfl⟩, ⟨_, rfl, rfl, rfl, rfl, rfl⟩⟩

/-! ## C23: exit of a worker -/

theorem closedWorker_close : closedWorker.Close 100 = .ok closedWorker := rfl

theorem closeAll_closedWorker (fuel : Nat) :
    Worker.closeAll fuel closedWorker = .error .diverge := by
  induction fuel with
  | zero => rfl
  | succ f ih =>
    have h : Worker.closeAll (f + 1) closedWorker = Worker.closeAll f closedWorker := rfl
    rw [h, ih]

theorem closeAll_busyWorker (fuel : Nat) :
    Worker.closeAll fuel busyWorker = .error .diverge := by
  cases fuel with
  | zero => rfl
  | succ f =>
    have h : Worker.closeAll (f + 1) busyWorker = Worker.closeAll f closedWorker := rfl
    rw [h, closeAll_closedWorker]

/-- C23 (worker exit), evaluated on the code. The worker `busyWorker` has one
connection, with one request with the service (its receive queue is not
empty). `Close` on the connection closes it and leaves it in `clients_`, since
`ReleaseConnection` returns while the receive queue is not empty; a further
`Close` changes nothing. So the loop `while (!clients_.empty())` of
`ExitWorker` does not end, whatever the number of iterations allowed. A worker
whose connections have empty receive queues does exit, with `clients_` empty
and its connections deleted. -/
theorem C23_exit_worker_spins :
    busyWorker.clients_.map (fun e => (e.1, e.2.conn.recvq_, e.2.conn.connected_))
      = [(100, [(5, 1)], true)] ∧
    busyWorker.Close 100 = .ok closedWorker ∧
    closedWorker.clients_.map (fun e => (e.1, e.2.conn.recvq_, e.2.conn.connected_))
      = [(100, [(5, 1)], false)] ∧
    closedWorker.deleted = [] ∧
    closedWorker.Close 100 = .ok closedWorker ∧
    (∀ fuel, Worker.ExitWorker defaultExit fuel busyWorker = .error .diverge) ∧
    (∃ wk, Worker.ExitWorker defaultExit 3 idleWorker = .ok wk ∧
      wk.clients_.map Prod.fst = [] ∧ wk.deleted = [100, 200] ∧ wk.has_compressor = false) := by
  refine ⟨rfl, rfl, rfl, rfl, rfl, ?_, ⟨_, rfl, rfl, rfl, rfl⟩⟩
  intro fuel
  have h : Worker.ExitWorker defaultExit fuel busyWorker
      = match Worker.closeAll fuel busyWorker with
        | .error f => .error f
        | .ok wk2 => .ok { wk2 with has_compressor := false } := rfl
  rw [h, closeAll_busyWorker]

/-! ## C28: close of a server connection -/

/-- C28 (server connection close), evaluated on the code. `CloseConnection`
finishes and deletes the messages of the send queue only. On `sendingWorld` the
answer to request 5 (message 1, callback 66) is in the send queue and request 6
(message 2, callback 77) is with the service. After `Close` the send queue is
empty, message 1 is deleted and its callback has run, and the connection is
not unlinked, its receive queue holding message 2; but the callback of
message 2 has not run and is still registered. A second `Close` changes
nothing and does not unlink. The callback of message 2 runs only when the
service answers, and then the connection is unlinked. With an empty receive
queue (`repliedWorld`) `Close` asks for the unlink at once. -/
theorem C28_close_skips_recvq :
    (∃ w1, sendingWorld.Close = .ok (false, w1) ∧
      w1.conn.sendq_ = [] ∧ w1.conn.cur_send_ = (0, 0) ∧ w1.conn.connected_ = false ∧
      w1.conn.recvq_ = [(6, 2)] ∧ w1.controller 1 = none ∧ w1.notified = [1] ∧
      w1.controller 2 = some (false, some 77) ∧
      (∃ w2, w1.Close = .ok (false, w2) ∧ w2.conn = w1.conn ∧
        w2.controller 2 = some (false, some 77) ∧ w2.notified = [1]) ∧
      (∃ w3, w1.OnRpcDone 2 9 = .ok (true, w3) ∧ w3.conn.recvq_ = [] ∧
        w3.controller 2 = none ∧ w3.notified = [1, 2])) ∧
    (∃ w1, repliedWorld.Close = .ok (true, w1) ∧ w1.conn.sendq_ = [] ∧
      w1.conn.recvq_ = [] ∧ w1.controller 1 = none) := by
  refine ⟨⟨_, rfl, rfl, rfl, rfl, rfl, rfl, rfl, rfl, ⟨_, rfl, rfl, rfl, rfl⟩,
    ⟨_, rfl, rfl, rfl, rfl⟩⟩, ⟨_, rfl, rfl, rfl, rfl⟩⟩

/-! ## C24: the connect deadline -/

theorem connectingClient_state :
    connectingClient =
      { connected_ := false, connecting_ := true, has_timer_ := true,
        timer_ := some (.watch, 5000), event_ := some .connecting, sfd_ := 3, connects := 1,
        closed := [] } := by
  decide

/-- What `Connect` does on a connection that is neither connected nor
connecting and has no timer. -/
theorem Connect_spec (opt : ChannelOptions) (a : Attempt) (c : ClientConnection)
    (h1 : c.connected_ = false) (h2 : c.connecting_ = false) (h3 : c.has_timer_ = false) :
    ∃ c2, c.Connect opt a = .ok c2 ∧
      (a.reaches = false → c2.connects = c.connects) ∧
      (a.reaches = true → c2.connects = c.connects + a.interrupts + 1) ∧
      ((a.reaches = false ∨ a.result = .failure) →
        c2.connected_ = false ∧ c2.connecting_ = false ∧ c2.has_timer_ = true ∧
        c2.timer_ = some (.idle, opt.retry_interval) ∧ c2.sfd_ = c.sfd_ ∧ c2.event_ = c.event_ ∧
        (∀ s, s ∈ c.closed → s ∈ c2.closed)) ∧
      ((a.reaches = true ∧ a.result = .inProgress) →
        c2.connected_ = false ∧ c2.connecting_ = true ∧ c2.has_timer_ = true ∧
        c2.timer_ = some (.watch, opt.connect_timeout) ∧ a.socket = some c2.sfd_ ∧
        c2.event_ = some .connecting ∧ c2.closed = c.closed) ∧
      ((a.reaches = true ∧ a.result = .success) →
        c2.connected_ = true ∧ c2.connecting_ = false ∧ a.socket = some c2.sfd_ ∧
        c2.event_ = some .connected ∧ c2.closed = c.closed ∧
        (opt.heartbeat_interval ≠ 0 → c2.timer_ = some (.heartbeat, opt.heartbeat_interval)) ∧
        (opt.heartbeat_interval = 0 → c2.timer_ = c.timer_)) := by
  obtain ⟨r, so, nb, nd, rb, sb, n, res⟩ := a
  unfold ClientConnection.Connect
  rw [if_neg (by simp [h1]), if_neg (by simp [h2])]
  cases r with
  | false => simp [ClientConnection.NewIdle, Attempt.reaches, h1, h2, h3]
  | true =>
    cases so with
    | none => simp [ClientConnection.NewIdle, Attempt.reaches, h1, h2, h3]
    | some sfd =>
      cases nb with
      | false =>
        simp [ClientConnection.NewIdle, Attempt.reaches, h1, h2, h3]
        exact fun s hs => Or.inl hs
      | true =>
        cases nd with
        | false =>
          simp [ClientConnection.NewIdle, Attempt.reaches, h1, h2, h3]
          exact fun s hs => Or.inl hs
        | true =>
          cases rb with
          | false =>
            simp [ClientConnection.NewIdle, Attempt.reaches, h1, h2, h3]
            exact fun s hs => Or.inl hs
          | true =>
            cases sb with
            | false =>
              simp [ClientConnection.NewIdle, Attempt.reaches, h1, h2, h3]
              exact fun s hs => Or.inl hs
            | true =>
              cases res with
              | failure =>
                simp [ClientConnection.NewIdle, Attempt.reaches, h1, h2, h3]
                exact fun s hs => Or.inl hs
              | inProgress =>
                simp [ClientConnection.Connecting, ClientConnection.NewWatcher, Attempt.reaches,
                  h1, h2, h3]
              | success =>
                by_cases hb : opt.heartbeat_interval = 0
                · simp [ClientConnection.Connected, Attempt.reaches, h1, h2, h3, hb]
                · simp [ClientConnection.Connected, ClientConnection.NewHeartbeat,
                    Attempt.reaches, h1, h2, h3, hb]

/-- C24 (connect deadline), as the code has it. When the watch timer fires on
a connection in Connecting, `HandleWatchEvent` returns, having closed the
socket and ended in a call of `Connect`, with no timer in between. If that
call does not get as far as `connect`, no attempt is made; if it does, a new
attempt is made at once. If it does not get that far or `connect` fails at
once, the connection is Idle afterwards, without socket or event, and the idle
timer is armed with `retry_interval`. If `connect` is in progress, the
connection is Connecting again, on the new socket, with the watch timer armed
with `connect_timeout`. If `connect` succeeds, the connection is Connected. -/
theorem C24_watch_timeout (opt : ChannelOptions) (a : Attempt) (c : ClientConnection)
    (h1 : c.connected_ = false) (h2 : c.connecting_ = true) :
    ∃ c2, c.HandleWatchEvent opt a = .ok c2 ∧ c.sfd_ ∈ c2.closed ∧
      (a.reaches = false → c2.connects = c.connects) ∧
      (a.reaches = true → c2.connects = c.connects + a.interrupts + 1) ∧
      ((a.reaches = false ∨ a.result = .failure) →
        c2.connected_ = false ∧ c2.connecting_ = false ∧ c2.has_timer_ = true ∧
        c2.timer_ = some (.idle, opt.retry_interval) ∧ c2.sfd_ = -1 ∧ c2.event_ = none) ∧
      ((a.reaches = true ∧ a.result = .inProgress) →
        c2.connected_ = false ∧ c2.connecting_ = true ∧ c2.has_timer_ = true ∧
        c2.timer_ = some (.watch, opt.connect_timeout) ∧ a.socket = some c2.sfd_ ∧
        c2.event_ = some .connecting ∧ c2.closed = c.closed ++ [c.sfd_]) ∧
      ((a.reaches = true ∧ a.result = .success) →
        c2.connected_ = true ∧ c2.connecting_ = false ∧ a.socket = some c2.sfd_ ∧
        c2.event_ = some .connected ∧ c2.closed = c.closed ++ [c.sfd_]) := by
  have hw : c.HandleWatchEvent opt a =
      ({ c with
         event_ := none
         closed := c.closed ++ [c.sfd_]
         sfd_ := -1
         connecting_ := false
         has_timer_ := false
         timer_ := none } : ClientConnection).Connect opt a := by
    unfold ClientConnection.HandleWatchEvent
    rw [if_neg (by simp [h1]), if_neg (by simp [h2])]
  obtain ⟨c2, e, k1, k2, k3, k4, k5⟩ := Connect_spec opt a
    ({ c with
       event_ := none
       closed := c.closed ++ [c.sfd_]
       sfd_ := -1
       connecting_ := false
       has_timer_ := false
       timer_ := none } : ClientConnection) h1 rfl rfl
  refine ⟨c2, by rw [hw, e], ?_, k1, k2, ?_, ?_, ?_⟩
  · have hcase : (a.reaches = false ∨ a.result = .failure) ∨
        (a.reaches = true ∧ a.result = .inProgress) ∨
        (a.reaches = true ∧ a.result = .success) := by
      cases hr : a.reaches <;> cases hres : a.result <;> simp
    rcases hcase with hc | hc | hc
    · exact (k3 hc).2.2.2.2.2.2 _ (by simp)
    · rw [(k4 hc).2.2.2.2.2.2]
      simp
    · rw [(k5 hc).2.2.2.2.1]
      simp
  · intro hc
    obtain ⟨a1, a2, a3, a4, a5, a6, _⟩ := k3 hc
    exact ⟨a1, a2, a3, a4, a5, a6⟩
  · intro hc
    exact k4 hc
  · intro hc
    obtain ⟨a1, a2, a3, a4, a5, _⟩ := k5 hc
    exact ⟨a1, a2, a3, a4, a5⟩

/-- C24 on the sample connection, with a second `connect` that is refused at
once: the connection is Idle with the idle timer armed. -/
theorem C24_watch_timeout_witness :
    ∃ c2, connectingClient.HandleWatchEvent ChannelOptions.create (refusedAttempt 4) = .ok c2 ∧
      connectingClient.sfd_ ∈ c2.closed ∧
      ((refusedAttempt 4).reaches = false → c2.connects = connectingClient.connects) ∧
      ((refusedAttempt 4).reaches = true →
        c2.connects = connectingClient.connects + (refusedAttempt 4).interrupts + 1) ∧
      (((refusedAttempt 4).reaches = false ∨ (refusedAttempt 4).result = .failure) →
        c2.connected_ = false ∧ c2.connecting_ = false ∧ c2.has_timer_ = true ∧
        c2.timer_ = some (.idle, ChannelOptions.create.retry_interval) ∧ c2.sfd_ = -1 ∧
        c2.event_ = none) ∧
      (((refusedAttempt 4).reaches = true ∧ (refusedAttempt 4).result = .inProgress) →
        c2.connected_ = false ∧ c2.connecting_ = true ∧ c2.has_timer_ = true ∧
        c2.timer_ = some (.watch, ChannelOptions.create.connect_timeout) ∧
        (refusedAttempt 4).socket = some c2.sfd_ ∧
        c2.event_ = some .connecting ∧
        c2.closed = connectingClient.closed ++ [connectingClient.sfd_]) ∧
      (((refusedAttempt 4).reaches = true ∧ (refusedAttempt 4).result = .success) →
        c2.connected_ = true ∧ c2.connecting_ = false ∧
        (refusedAttempt 4).socket = some c2.sfd_ ∧
        c2.event_ = some .connected ∧
        c2.closed = connectingClient.closed ++ [connectingClient.sfd_]) :=
  C24_watch_timeout ChannelOptions.create (refusedAttempt 4) connectingClient (by decide)
    (by decide)

/-- C24 fails when the new `connect` does not fail at once. The sample
connection is in Connecting on the descriptor 3 after one call of `connect`.
When its watch timer fires and the next `connect`, on the descriptor 4, is in
progress as well, the connection has closed 3 and is in Connecting again, not
Idle: the timer armed is the watch timer with `connect_timeout` (5000 ms), not
the idle timer with `retry_interval` (1000 ms), and `connect` has been called
a second time. When the next `connect` succeeds, the connection is
Connected. -/
theorem C24_reconnects_at_once :
    connectingClient.connecting_ = true ∧ connectingClient.connected_ = false ∧
    connectingClient.timer_ = some (.watch, 5000) ∧ connectingClient.connects = 1 ∧
    connectingClient.HandleWatchEvent ChannelOptions.create (pendingAttempt 4) =
      .ok { connected_ := false, connecting_ := true, has_timer_ := true,
            timer_ := some (.watch, 5000), event_ := some .connecting, sfd_ := 4,
            connects := 2, closed := [3] } ∧
    connectingClient.HandleWatchEvent ChannelOptions.create
        { pendingAttempt 4 with result := .success } =
      .ok { connected_ := true, connecting_ := false, has_timer_ := true,
            timer_ := some (.heartbeat, 600000), event_ := some .connected, sfd_ := 4,
            connects := 2, closed := [3] } ∧
    ChannelOptions.create.retry_interval = 1000 := by
  refine ⟨by decide, by decide, by decide, by decide, rfl, rfl, rfl⟩

/-! ## C26: partial receives -/

theorem specWire_length (f : List Nat × List Nat) :
    (specWire f).length = 11 + (f.1.length + f.2.length) := by
  unfold specWire
  rw [List.length_append, headerBytes_length, List.length_append]

theorem unread_length (c : Connection) (hc : c.RecvReady) :
    c.unread.length = c.rbytes_.toNat := by
  obtain ⟨h1, h2, h3, h4, h5⟩ := hc
  unfold Connection.unread
  simp only [List.length_take, List.length_drop]
  omega

theorem readHeader_wire (g : List Nat × List Nat) (hg : wellFormedFrame g) :
    readHeader (headerBytes kNoCompression g.1.length g.2.length (g.1.length + g.2.length))
      = hdrOf g := by
  obtain ⟨h1, h2⟩ := hg
  unfold kMaxMetaSize at h1
  unfold kMaxDataSize at h2
  rw [readHeader_headerBytes _ _ _ _ (by simp [kNoCompression]) (by omega) (by omega) (by omega)]
  simp [hdrOf, kNoCompression]

theorem take_drop_split (l : List Nat) (a n : Nat) (x y : List Nat)
    (h : (l.drop a).take n = x ++ y) :
    (l.drop a).take x.length = x ∧ (l.drop (a + x.length)).take (n - x.length) = y := by
  have hn : x.length ≤ n := by
    have := congrArg List.length h
    simp only [List.length_take, List.length_append] at this
    omega
  constructor
  · have : ((l.drop a).take n).take x.length = (x ++ y).take x.length := by rw [h]
    rw [List.take_take, Nat.min_eq_left hn] at this
    rw [this]
    simp
  · have : ((l.drop a).take n).drop x.length = (x ++ y).drop x.length := by rw [h]
    rw [List.drop_take, List.drop_drop] at this
    rw [this]
    simp

theorem decodeHeader_held (c : Connection) (h : c.rmsg_hdr_.payload_ ≠ 0) :
    c.decodeHeader = .ok (some c) := by
  unfold Connection.decodeHeader
  rw [if_pos h]

theorem decodeHeader_short (c : Connection) (hc : c.RecvReady) (h : c.rmsg_hdr_.payload_ = 0)
    (hs : c.unread.length < 11) : c.decodeHeader = .ok none := by
  have hl := unread_length c hc
  obtain ⟨h1, h2, h3, h4, h5⟩ := hc
  unfold Connection.decodeHeader
  rw [if_neg (by simp [h]), if_pos (by unfold kMsgHdrSize; omega)]

theorem decodeHeader_parse (c : Connection) (g : List Nat × List Nat) (rest : List Nat)
    (hg : wellFormedFrame g) (hc : c.RecvReady) (h : c.rmsg_hdr_.payload_ = 0)
    (hu : c.unread =
      headerBytes kNoCompression g.1.length g.2.length (g.1.length + g.2.length) ++ rest) :
    c.decodeHeader = .ok (some { c with
        rmsg_hdr_ := hdrOf g
        rcur_ := c.rcur_ + 11
        rbytes_ := c.rbytes_ - 11 }) ∧
      Connection.RecvReady { c with
        rmsg_hdr_ := hdrOf g
        rcur_ := c.rcur_ + 11
        rbytes_ := c.rbytes_ - 11 } ∧
      Connection.unread { c with
        rmsg_hdr_ := hdrOf g
        rcur_ := c.rcur_ + 11
        rbytes_ := c.rbytes_ - 11 } = rest := by
  have hl := unread_length c hc
  obtain ⟨h1, h2, h3, h4, h5⟩ := hc
  have hlen : c.rbytes_.toNat = 11 + rest.length := by
    rw [← hl, hu, List.length_append, headerBytes_length]
  obtain ⟨s1, s2⟩ := take_drop_split c.rbuf_ c.rcur_.toNat c.rbytes_.toNat _ _ hu
  rw [headerBytes_length] at s1 s2
  refine ⟨?_, ⟨h1, h2, by simp only; omega, by simp only; omega, by simp only; omega⟩, ?_⟩
  · unfold Connection.decodeHeader
    rw [if_neg (by simp [h]), if_neg (by unfold kMsgHdrSize; omega)]
    have hpk : peek c.rbuf_ c.rcur_ kMsgHdrSize = some ((c.rbuf_.drop c.rcur_.toNat).take 11) := by
      have := peek_at c.rbuf_ c.rcur_.toNat 11 (by omega)
      rw [Int.toNat_of_nonneg h3] at this
      exact this
    rw [hpk, s1]
    simp only
    rw [readHeader_wire g hg]
    rfl
  · unfold Connection.unread
    simp only
    have e1 : (c.rcur_ + 11).toNat = c.rcur_.toNat + 11 := by omega
    have e2 : (c.rbytes_ - 11).toNat = c.rbytes_.toNat - 11 := by omega
    rw [e1, e2]
    exact s2

theorem decodePayload_fragment (h : Heap) (cod : Codecs) (c : Connection)
    (g : List Nat × List Nat) (hc : c.RecvReady) (hh : c.rmsg_hdr_ = hdrOf g)
    (hs : c.unread.length < g.1.length + g.2.length) :
    c.decodePayload h cod = .ok (.kDecodeFragment, c) := by
  have hl := unread_length c hc
  obtain ⟨h1, h2, h3, h4, h5⟩ := hc
  unfold Connection.decodePayload
  have : c.rbytes_ < c.rmsg_hdr_.payload_ := by
    rw [hh]
    simp only [hdrOf]
    omega
  rw [if_pos this]

theorem decodePayload_complete (h : Heap) (cod : Codecs) (c : Connection)
    (g g2 : List Nat × List Nat) (q : List Nat) (hc : c.RecvReady) (hh : c.rmsg_hdr_ = hdrOf g)
    (hu : c.unread = (g.1 ++ g.2) ++ q) (hb : c.rbytes_ ≤ (INT_MAX : Int)) :
    ∃ c1, c.decodePayload h cod = .ok (.kDecodeOk, c1) ∧ c1.delivered = some (g.1 ++ g.2) ∧
      c1.rmsg_hdr_.meta_ = (g.1.length : Int) ∧ c1.rmsg_hdr_.data_ = (g.2.length : Int) ∧
      c1.rsize_ = c.rsize_ ∧ c1.rbytes_ ≤ c.rbytes_ ∧
      Connection.Pending { c1 with
        rmsg_hdr_ := { payload_ := 0, data_ := 0, meta_ := 0, compression_ := 0 }
        rmsg_ := .null
        rstate_ := .kParse } g2 q := by
  have hl := unread_length c hc
  obtain ⟨h1, h2, h3, h4, h5⟩ := hc
  have hlen : c.rbytes_.toNat = (g.1.length + g.2.length) + q.length := by
    rw [← hl, hu, List.length_append, List.length_append]
  obtain ⟨s1, s2⟩ := take_drop_split c.rbuf_ c.rcur_.toNat c.rbytes_.toNat _ _ hu
  rw [List.length_append] at s1 s2
  have hpay : c.rmsg_hdr_.payload_ = ((g.1.length + g.2.length : Nat) : Int) := by rw [hh]; rfl
  have hcomp : c.rmsg_hdr_.compression_ = 0 := by rw [hh]; rfl
  have hmeta : c.rmsg_hdr_.meta_ = (g.1.length : Int) := by rw [hh]; rfl
  have hdata : c.rmsg_hdr_.data_ = (g.2.length : Int) := by rw [hh]; rfl
  unfold Connection.decodePayload
  rw [if_neg (by rw [hpay]; omega), if_pos (by rw [hcomp]; rfl)]
  unfold Connection.consume
  simp only
  rw [if_neg (by rw [hpay]; omega), if_neg (by rw [hpay]; unfold INT_MAX at hb ⊢; omega)]
  refine ⟨_, rfl, ?_, hmeta, hdata, rfl, by simp only; rw [hpay]; omega, ?_⟩
  · simp only [Connection.delivered]
    rw [hmeta, hdata]
    have e : ((g.1.length : Int) + (g.2.length : Int)).toNat = g.1.length + g.2.length := by omega
    rw [e]
    have := peek_at c.rbuf_ c.rcur_.toNat (g.1.length + g.2.length) (by omega)
    rw [Int.toNat_of_nonneg h3] at this
    rw [this, s1]
  · refine ⟨⟨h1, h2, by simp only; rw [hpay]; omega, by simp only; rw [hpay]; omega,
      by simp only; rw [hpay]; omega⟩, Or.inl ⟨rfl, ?_⟩⟩
    unfold Connection.unread
    simp only
    rw [hpay]
    have e1 : (c.rcur_ + ((g.1.length + g.2.length : Nat) : Int)).toNat
        = c.rcur_.toNat + (g.1.length + g.2.length) := by omega
    have e2 : (c.rbytes_ - ((g.1.length + g.2.length : Nat) : Int)).toNat
        = c.rbytes_.toNat - (g.1.length + g.2.length) := by omega
    rw [e1, e2]
    exact s2

theorem Decode_complete (h : Heap) (cod : Codecs) (c : Connection)
    (g g2 : List Nat × List Nat) (q : List Nat) (hg : wellFormedFrame g)
    (hp : c.Pending g (specWire g ++ q)) (hb : c.rbytes_ ≤ (INT_MAX : Int)) :
    ∃ c1, c.Decode h cod = .ok (.kDecodeOk, c1) ∧ c1.delivered = some (g.1 ++ g.2) ∧
      c1.rmsg_hdr_.meta_ = (g.1.length : Int) ∧ c1.rmsg_hdr_.data_ = (g.2.length : Int) ∧
      c1.rsize_ = c.rsize_ ∧ c1.rbytes_ ≤ c.rbytes_ ∧
      Connection.Pending { c1 with
        rmsg_hdr_ := { payload_ := 0, data_ := 0, meta_ := 0, compression_ := 0 }
        rmsg_ := .null
        rstate_ := .kParse } g2 q := by
  obtain ⟨hc, hcase⟩ := hp
  rcases hcase with ⟨h0, hu⟩ | ⟨hh, hne, hq⟩
  · have hu2 : c.unread =
        headerBytes kNoCompression g.1.length g.2.length (g.1.length + g.2.length) ++
          ((g.1 ++ g.2) ++ q) := by
      rw [hu]
      unfold specWire
      rw [List.append_assoc]
    obtain ⟨d1, d2, d3⟩ := decodeHeader_parse c g _ hg hc h0 hu2
    obtain ⟨c1, e1, e2, e3, e4, e5, e6, e7⟩ := decodePayload_complete h cod _ g g2 q d2 rfl d3
      (by simp only; omega)
    refine ⟨c1, ?_, e2, e3, e4, e5, ?_, e7⟩
    · unfold Connection.Decode
      rw [d1]
      exact e1
    · have : c1.rbytes_ ≤ c.rbytes_ - 11 := e6
      omega
  · have hu2 : c.unread = (g.1 ++ g.2) ++ q := by
      unfold specWire at hq
      rw [List.append_assoc] at hq
      exact (List.append_cancel_left hq).symm
    have hpay : c.rmsg_hdr_.payload_ ≠ 0 := by
      rw [hh]
      simp only [hdrOf]
      omega
    obtain ⟨c1, e1, e2, e3, e4, e5, e6, e7⟩ := decodePayload_complete h cod c g g2 q hc hh hu2 hb
    refine ⟨c1, ?_, e2, e3, e4, e5, e6, e7⟩
    unfold Connection.Decode
    rw [decodeHeader_held c hpay]
    exact e1

theorem Decode_incomplete (h : Heap) (cod : Codecs) (c : Connection)
    (g : List Nat × List Nat) (q : List Nat) (hg : wellFormedFrame g)
    (hp : c.Pending g q) (hpre : q <+: specWire g) (hlt : q.length < (specWire g).length) :
    ∃ c1, c.Decode h cod = .ok (.kDecodeFragment, c1) ∧ c1.Pending g q ∧
      c1.rsize_ = c.rsize_ := by
  obtain ⟨hc, hcase⟩ := hp
  rw [specWire_length] at hlt
  rcases hcase with ⟨h0, hu⟩ | ⟨hh, hne, hq⟩
  · by_cases hs : q.length < 11
    · refine ⟨c, ?_, ⟨hc, Or.inl ⟨h0, hu⟩⟩, rfl⟩
      unfold Connection.Decode
      rw [decodeHeader_short c hc h0 (by rw [hu]; exact hs)]
    · obtain ⟨t, ht⟩ := hpre
      have hq2 : q = headerBytes kNoCompression g.1.length g.2.length (g.1.length + g.2.length)
          ++ q.drop 11 := by
        have h1 : (q ++ t).take 11 = q.take 11 := by
          rw [List.take_append_of_le_length (by omega)]
        have h2 : (specWire g).take 11 =
            headerBytes kNoCompression g.1.length g.2.length (g.1.length + g.2.length) := by
          unfold specWire
          rw [List.take_left' (headerBytes_length _ _ _ _)]
        rw [ht, h2] at h1
        nth_rewrite 1 [← List.take_append_drop 11 q]
        rw [← h1]
      have hdl : (q.drop 11).length = q.length - 11 := by simp
      obtain ⟨d1, d2, d3⟩ := decodeHeader_parse c g (q.drop 11) hg hc h0 (by rw [hu]; exact hq2)
      have hfr := decodePayload_fragment h cod _ g d2 rfl (by rw [d3, hdl]; omega)
      refine ⟨_, ?_, ⟨d2, Or.inr ⟨rfl, by omega, ?_⟩⟩, rfl⟩
      · unfold Connection.Decode
        rw [d1]
        exact hfr
      · rw [d3]
        exact hq2
  · have hpay : c.rmsg_hdr_.payload_ ≠ 0 := by
      rw [hh]
      simp only [hdrOf]
      omega
    have hl : q.length = 11 + c.unread.length := by
      rw [hq, List.length_append, headerBytes_length]
    refine ⟨c, ?_, ⟨hc, Or.inr ⟨hh, hne, hq⟩⟩, rfl⟩
    unfold Connection.Decode
    rw [decodeHeader_held c hpay]
    exact decodePayload_fragment h cod c g hc hh (by omega)

theorem specStream_append (a b : List (List Nat × List Nat)) :
    specStream (a ++ b) = specStream a ++ specStream b := by
  induction a with
  | nil => rfl
  | cons f a ih =>
    show specWire f ++ specStream (a ++ b) = specWire f ++ specStream a ++ specStream b
    rw [ih, List.append_assoc]

/-- The parse loop of `OnRecv`: in the state `kParse`, with the frames `E`
complete in the buffer and then a strict prefix `q` of the frame `g`, `OnRecv`
calls `RecvDone` for the frames of `E`, in order, and returns true, leaving `q`
pending. -/
theorem parse_spec (h : Heap) (cod : Codecs) (g : List Nat × List Nat) (q : List Nat)
    (sock : Socket) (hg : wellFormedFrame g) (hpre : q <+: specWire g)
    (hlt : q.length < (specWire g).length) :
    ∀ (E : List (List Nat × List Nat)) (c : Connection) (w : List (List Nat × Int × Int))
      (fuel : Nat), (∀ f ∈ E, wellFormedFrame f) → c.rstate_ = .kParse →
      c.Pending (E.headD g) (specStream E ++ q) → c.rbytes_ ≤ (INT_MAX : Int) →
      E.length + 2 ≤ fuel →
      ∃ c1, Connection.OnRecv h cod recordDone fuel c sock w
          = .ok (true, c1, sock, w ++ E.map specCall) ∧
        c1.rstate_ = .kRead ∧ c1.Pending g q ∧ c1.rsize_ = c.rsize_ := by
  intro E
  induction E with
  | nil =>
    intro c w fuel _ hst hp _ hf
    obtain ⟨c1, e1, e2, e3⟩ := Decode_incomplete h cod c g q hg hp hpre hlt
    obtain ⟨n, rfl⟩ : ∃ n, fuel = n + 2 := ⟨fuel - 2, by simp at hf; omega⟩
    refine ⟨{ c1 with rstate_ := .kRead }, ?_, rfl, e2, e3⟩
    rw [Connection.OnRecv]
    simp only [hst, e1]
    rw [Connection.OnRecv]
    simp
  | cons f E ih =>
    intro c w fuel hE hst hp hb hf
    have hp2 : c.Pending f (specWire f ++ (specStream E ++ q)) := by
      have : specStream (f :: E) ++ q = specWire f ++ (specStream E ++ q) := by
        simp only [specStream, List.append_assoc]
      rw [← this]
      exact hp
    obtain ⟨c1, e1, e2, e3, e4, e5, e6, e7⟩ :=
      Decode_complete h cod c f (E.headD g) _ (hE f (List.mem_cons_self _ _)) hp2 hb
    obtain ⟨n, rfl⟩ : ∃ n, fuel = n + 1 := ⟨fuel - 1, by simp at hf; omega⟩
    obtain ⟨c2, r1, r2, r3, r4⟩ := ih
      { c1 with
        rmsg_hdr_ := { payload_ := 0, data_ := 0, meta_ := 0, compression_ := 0 }
        rmsg_ := .null
        rstate_ := .kParse }
      (w ++ [specCall f]) n (fun x hx => hE x (List.mem_cons_of_mem _ hx)) rfl e7
      (by simp only; omega) (by simp at hf; omega)
    refine ⟨c2, ?_, r2, r3, by rw [r4]; exact e5⟩
    rw [Connection.OnRecv]
    simp only [hst, e1, e2, recordDone, e3, e4]
    have : w ++ [(f.1 ++ f.2, (f.1.length : Int), (f.2.length : Int))] = w ++ [specCall f] := rfl
    rw [this, r1]
    simp

theorem stream_split : ∀ (R : List (List Nat × List Nat)) (x : List Nat),
    x <+: specStream R → x.length < (specStream R).length →
    ∃ E g R1 q, R = E ++ g :: R1 ∧ x = specStream E ++ q ∧ q <+: specWire g ∧
      q.length < (specWire g).length := by
  intro R
  induction R with
  | nil =>
    intro x _ hl
    simp [specStream] at hl
  | cons f R ih =>
    intro x hp hl
    have hw : specWire f <+: specStream (f :: R) := List.prefix_append _ _
    by_cases hs : x.length < (specWire f).length
    · exact ⟨[], f, R, x, rfl, rfl, List.prefix_of_prefix_length_le hp hw (by omega), hs⟩
    · obtain ⟨x1, rfl⟩ := List.prefix_of_prefix_length_le hw hp (by omega)
      have hp1 : x1 <+: specStream R := by
        have : specWire f ++ x1 <+: specWire f ++ specStream R := hp
        exact (List.prefix_append_right_inj _).1 this
      have hl1 : x1.length < (specStream R).length := by
        simp only [specStream, List.length_append] at hl
        omega
      obtain ⟨E, g, R1, q, e1, e2, e3, e4⟩ := ih x1 hp1 hl1
      refine ⟨f :: E, g, R1, q, by rw [e1]; rfl, ?_, e3, e4⟩
      rw [e2]
      simp only [specStream, List.append_assoc]

theorem pending_length (c : Connection) (g : List Nat × List Nat) (p : List Nat)
    (hp : c.Pending g p) : c.rbytes_ ≤ (p.length : Int) := by
  obtain ⟨hc, hcase⟩ := hp
  have hl := unread_length c hc
  obtain ⟨h1, h2, h3, h4, h5⟩ := hc
  rcases hcase with ⟨_, hu⟩ | ⟨_, _, hq⟩
  · rw [← hu, hl]
    omega
  · rw [hq, List.length_append, hl]
    omega

/-- One readiness callback: `OnRecv` on a connection in `kRead` with the bytes
`p` pending, on a socket that has bytes. It takes bytes from the socket, calls
`RecvDone` for the frames that are then complete, in order, and returns true
with the rest pending. -/
theorem OnRecv_spec (h : Heap) (cod : Codecs) (hh : ∀ p m, (h.realloc p m).isSome)
    (R : List (List Nat × List Nat)) (hR : ∀ f ∈ R, wellFormedFrame f)
    (c : Connection) (sock : Socket) (w : List (List Nat × Int × Int))
    (g0 : List Nat × List Nat) (p : List Nat) (inner : Nat)
    (hst : c.rstate_ = .kRead) (hp : c.Pending g0 p) (hg0 : R.head? = some g0)
    (hpre : p ++ sock.stream <+: specStream R)
    (hlt : (p ++ sock.stream).length < (specStream R).length)
    (hall : sock.AllBytes) (hne : sock ≠ [])
    (hroom : 2 * ((p.length : Int) + sock.stream.length) ≤ 2147483647)
    (hin : R.length + 3 ≤ inner) :
    ∃ c1 sock1 taken E g R1 q,
      Connection.OnRecv h cod recordDone inner c sock w
        = .ok (true, c1, sock1, w ++ E.map specCall) ∧
      R = E ++ g :: R1 ∧ c1.rstate_ = .kRead ∧ c1.Pending g q ∧
      p ++ taken = specStream E ++ q ∧ q <+: specWire g ∧ q.length < (specWire g).length ∧
      taken ≠ [] ∧ taken ++ sock1.stream = sock.stream ∧ sock1.AllBytes := by
  have hrb := pending_length c g0 p hp
  obtain ⟨hc, hcase⟩ := hp
  obtain ⟨st, c2, sock2, taken, j, r1, r2, r3, r4, r5, r6, r7, r8, r9⟩ :=
    Recv_spec h c sock hc (Or.inr (by omega))
  obtain ⟨a1, a2⟩ := r9 hh hall
  have hok : taken ≠ [] ∧ st = .kRecvOk := by
    rcases a2 with a | ⟨_, _, a, _⟩
    · exact a
    · exact absurd a hne
  obtain ⟨htk, hst2⟩ := hok
  subst hst2
  have hx : p ++ taken ++ sock2.stream = p ++ sock.stream := by
    rw [List.append_assoc, r7]
  have hxp : p ++ taken <+: specStream R := by
    have : p ++ taken <+: p ++ sock.stream := ⟨sock2.stream, hx⟩
    exact this.trans hpre
  have hxl : (p ++ taken).length < (specStream R).length := by
    have := congrArg List.length hx
    simp only [List.length_append] at this hlt ⊢
    omega
  obtain ⟨E, g, R1, q, s1, s2, s3, s4⟩ := stream_split R (p ++ taken) hxp hxl
  have hhead : E.headD g = g0 := by
    rw [s1] at hg0
    cases E with
    | nil => simpa using hg0
    | cons e E => simpa using hg0
  have hgR : wellFormedFrame g := hR g (by rw [s1]; simp)
  have hER : ∀ f ∈ E, wellFormedFrame f := fun f hf => hR f (by rw [s1]; simp [hf])
  have hlenE : E.length + 1 ≤ R.length := by
    rw [s1]
    simp
  obtain ⟨n, rfl⟩ : ∃ n, inner = n + 1 := ⟨inner - 1, by omega⟩
  have hsz : c2.rsize_ = c.rsize_ * 2 ^ j := by rw [r3]
  have hby : c2.rbytes_ = c.rbytes_ + taken.length := by rw [r3]
  have hcur : c2.rcur_ = 0 := by rw [r3]
  have hhd : c2.rmsg_hdr_ = c.rmsg_hdr_ := by rw [r3]
  have hpos : 0 < c.rsize_ * 2 ^ j := Int.mul_pos hc.1 (by positivity)
  have hc3 : Connection.RecvReady { c2 with rstate_ := .kParse } := by
    refine ⟨?_, ?_, ?_, ?_, ?_⟩
    · show 0 < c2.rsize_
      rw [hsz]; exact hpos
    · show c2.rbuf_.length = c2.rsize_.toNat
      rw [hsz]; exact r4
    · show 0 ≤ c2.rcur_
      rw [hcur]
    · show 0 ≤ c2.rbytes_
      rw [hby]
      have := hc.2.2.2.1
      omega
    · show c2.rcur_ + c2.rbytes_ ≤ c2.rsize_
      rw [hcur, hby, hsz]
      omega
  have hun : Connection.unread { c2 with rstate_ := .kParse } = c.unread ++ taken := r6
  have hp3 : Connection.Pending { c2 with rstate_ := .kParse } (E.headD g)
      (specStream E ++ q) := by
    rw [hhead, ← s2]
    refine ⟨hc3, ?_⟩
    rcases hcase with ⟨h0, hu⟩ | ⟨hh1, hne1, hq⟩
    · refine Or.inl ⟨?_, ?_⟩
      · show c2.rmsg_hdr_.payload_ = 0
        rw [hhd]; exact h0
      · rw [hun, hu]
    · refine Or.inr ⟨?_, hne1, ?_⟩
      · show c2.rmsg_hdr_ = hdrOf g0
        rw [hhd]; exact hh1
      · rw [hun, hq, List.append_assoc]
  obtain ⟨c4, p1, p2, p3, _⟩ := parse_spec h cod g q sock2 hgR s3 s4 E
    { c2 with rstate_ := .kParse } w n hER rfl hp3 (by
      show c2.rbytes_ ≤ (INT_MAX : Int)
      rw [hby]
      unfold INT_MAX
      have : (0 : Int) ≤ (sock.stream.length : Int) := by omega
      have h2 : (taken.length : Int) ≤ sock.stream.length := by
        rw [← r7, List.length_append]
        omega
      push_cast
      omega) (by omega)
  refine ⟨c4, sock2, taken, E, g, R1, q, ?_, s1, p2, p3, s2, s3, s4, htk, r7, a1⟩
  rw [Connection.OnRecv]
  simp only [hst, r1]
  exact p1

theorem stream_pos_of_allBytes (a : Arrival) (s : Socket)
    (hall : Socket.AllBytes (a :: s)) : 0 < (Socket.stream (a :: s)).length := by
  obtain ⟨bs, e, hne⟩ := hall a (List.mem_cons_self _ _)
  subst e
  simp only [Socket.stream, List.length_append]
  have : 0 < bs.length := List.length_pos.2 hne
  omega

/-- The loop of the event base on a socket that has bytes to deliver: it
returns, having called `RecvDone` for the frames that are complete in what was
pending followed by what the socket delivers, in order, with the rest
pending. -/
theorem eventLoop_spec (h : Heap) (cod : Codecs) (hh : ∀ p m, (h.realloc p m).isSome)
    (inner : Nat) :
    ∀ (fuel : Nat) (R : List (List Nat × List Nat)) (c : Connection) (sock : Socket)
      (w : List (List Nat × Int × Int)) (g0 : List Nat × List Nat) (p : List Nat),
      (∀ f ∈ R, wellFormedFrame f) → c.rstate_ = .kRead → c.Pending g0 p →
      R.head? = some g0 → p <+: specWire g0 → p.length < (specWire g0).length →
      p ++ sock.stream <+: specStream R →
      (p ++ sock.stream).length < (specStream R).length →
      sock.AllBytes → 2 * ((p.length : Int) + sock.stream.length) ≤ 2147483647 →
      R.length + 3 ≤ inner → sock.stream.length ≤ fuel →
      ∃ c1 E g R1 q,
        Connection.eventLoop h cod recordDone inner fuel c sock w
          = .ok (true, c1, w ++ E.map specCall) ∧
        R = E ++ g :: R1 ∧ c1.rstate_ = .kRead ∧ c1.Pending g q ∧
        p ++ sock.stream = specStream E ++ q ∧ q <+: specWire g ∧
        q.length < (specWire g).length := by
  intro fuel
  induction fuel with
  | zero =>
    intro R c sock w g0 p _ hst hp hg0 hpw hpl _ _ hall _ _ hf
    cases sock with
    | nil =>
      obtain ⟨R1, hR1⟩ : ∃ R1, R = g0 :: R1 := by
        cases R with
        | nil => simp at hg0
        | cons x R1 =>
          simp only [List.head?_cons, Option.some.injEq] at hg0
          exact ⟨R1, by rw [hg0]⟩
      refine ⟨c, [], g0, R1, p, ?_, hR1, hst, hp, by simp [Socket.stream, specStream], hpw, hpl⟩
      simp [Connection.eventLoop]
    | cons a s =>
      have := stream_pos_of_allBytes a s hall
      omega
  | succ n ih =>
    intro R c sock w g0 p hR hst hp hg0 hpw hpl hpre hlt hall hroom hin hf
    cases sock with
    | nil =>
      obtain ⟨R1, hR1⟩ : ∃ R1, R = g0 :: R1 := by
        cases R with
        | nil => simp at hg0
        | cons x R1 =>
          simp only [List.head?_cons, Option.some.injEq] at hg0
          exact ⟨R1, by rw [hg0]⟩
      refine ⟨c, [], g0, R1, p, ?_, hR1, hst, hp, by simp [Socket.stream, specStream], hpw, hpl⟩
      simp [Connection.eventLoop]
    | cons a s =>
      obtain ⟨c1, sock1, taken, E, g, R1, q, o1, o2, o3, o4, o5, o6, o7, o8, o9, o10⟩ :=
        OnRecv_spec h cod hh R hR c (a :: s) w g0 p inner hst hp hg0 hpre hlt hall
          (by simp) hroom hin
      have hsum : p ++ Socket.stream (a :: s) = specStream E ++ (q ++ sock1.stream) := by
        rw [← o9, ← List.append_assoc, o5, List.append_assoc]
      have hRs : specStream R = specStream E ++ specStream (g :: R1) := by
        rw [o2, specStream_append]
      have hpre1 : q ++ sock1.stream <+: specStream (g :: R1) := by
        rw [hsum, hRs] at hpre
        exact (List.prefix_append_right_inj _).1 hpre
      have hlt1 : (q ++ sock1.stream).length < (specStream (g :: R1)).length := by
        rw [hsum, hRs] at hlt
        simp only [List.length_append] at hlt ⊢
        omega
      have hlen : (p.length : Int) + (Socket.stream (a :: s)).length
          = (specStream E).length + ((q.length : Int) + sock1.stream.length) := by
        have := congrArg List.length hsum
        simp only [List.length_append] at this
        omega
      have htl : 0 < taken.length := List.length_pos.2 o8
      have hsl : sock1.stream.length + taken.length = (Socket.stream (a :: s)).length := by
        rw [← o9, List.length_append]
        omega
      obtain ⟨c2, E2, g2, R2, q2, i1, i2, i3, i4, i5, i6, i7⟩ :=
        ih (g :: R1) c1 sock1 (w ++ E.map specCall) g q
          (fun f hf => hR f (by rw [o2]; simp; right; simpa using hf)) o3 o4 rfl o6 o7 hpre1
          hlt1 o10 (by omega) (by
            have : (g :: R1).length ≤ R.length := by
              rw [o2]
              simp
            omega) (by omega)
      refine ⟨c2, E ++ E2, g2, R2, q2, ?_, ?_, i3, i4, ?_, i6, i7⟩
      · rw [Connection.eventLoop, o1]
        simp only
        rw [i1, List.map_append, List.append_assoc]
      · rw [o2, i2, List.append_assoc]
      · rw [hsum, i5, specStream_append, List.append_assoc]

theorem split_unique : ∀ (A E : List (List Nat × List Nat)) (g g2 : List Nat × List Nat)
    (R1 : List (List Nat × List Nat)) (q q2 : List Nat),
    A ++ [g] = E ++ g2 :: R1 → specStream A ++ q = specStream E ++ q2 →
    q2.length < (specWire g2).length → E = A ∧ g2 = g ∧ R1 = [] ∧ q2 = q := by
  intro A
  induction A with
  | nil =>
    intro E g g2 R1 q q2 h1 h2 _
    cases E with
    | nil =>
      simp only [List.nil_append, List.cons.injEq] at h1
      obtain ⟨e1, e2⟩ := h1
      refine ⟨rfl, e1.symm, e2.symm, ?_⟩
      simpa [specStream] using h2.symm
    | cons e E =>
      have := congrArg List.length h1
      simp at this
  | cons a A ih =>
    intro E g g2 R1 q q2 h1 h2 hq2
    cases E with
    | nil =>
      simp only [List.cons_append, List.nil_append, List.cons.injEq] at h1
      obtain ⟨e1, _⟩ := h1
      subst e1
      have := congrArg List.length h2
      simp only [specStream, List.length_append, List.length_nil] at this
      omega
    | cons e E =>
      simp only [List.cons_append, List.cons.injEq] at h1
      obtain ⟨e1, e2⟩ := h1
      subst e1
      have h3 : specStream A ++ q = specStream E ++ q2 := by
        simp only [specStream, List.append_assoc] at h2
        exact List.append_cancel_left h2
      obtain ⟨i1, i2, i3, i4⟩ := ih E g g2 R1 q q2 e2 h3 hq2
      exact ⟨by rw [i1], i2, i3, i4⟩

/-- The calls of the witness of C26, evaluated: after the first burst `RecvDone`
has been called for the two frames, after the second for the third as well. -/
theorem eventLoop_sample :
    (Connection.eventLoop sampleHeap sampleCodecs recordDone 7 50 sampleConnection chunkedSocket
        []).map (fun r => (r.1, r.2.2))
      = .ok (true, [([5, 1, 7, 8, 9], 2, 3), ([6, 1], 2, 0)]) ∧
    (Connection.eventLoop sampleHeap sampleCodecs recordDone 7 50 sampleConnection
        (chunkedSocket ++ restSocket) []).map (fun r => (r.1, r.2.2))
      = .ok (true, [([5, 1, 7, 8, 9], 2, 3), ([6, 1], 2, 0), ([4, 4, 1, 2, 3, 4], 2, 4)]) := by
  constructor <;> rfl

end qrpc
